import Mathlib

/-!
# AceTime: the Extended Zone Processor

A shallow embedding of `src/ace_time/ExtendedZoneProcessor.h` and the
properties of its transition pool, match finder, transition generator and
query API.

Conventions of the embedding.

* Machine integers are `Int`; a value stored into an `int8_t` goes through
  `wrap8`, an `acetime_t` (a 32-bit signed integer) through `wrap32`.
* A function whose C++ body can read or write outside an array, or
  dereference a null pointer, returns `Option`; `none` stands for that
  undefined behaviour (and, for `calcInteriorYears`, for a loop that does not
  end).
* The pointer vector `mTransitions` holds slot numbers of `mPool`; a
  `Transition*` is a slot number, a `Transition**` an index of the pointer
  vector, and `const ZoneMatch*` an index of `mMatches`.
* C strings are lists of characters without the closing NUL; character
  buffers are lists of bytes of the buffer's size.
-/

namespace AceTime

/-! ## Machine integers -/

/-- Value of an integer after conversion to `int8_t`. -/
def wrap8 (x : Int) : Int := (x + 128) % 256 - 128

/-- Value of an integer after conversion to `int32_t` (`acetime_t`). -/
def wrap32 (x : Int) : Int := (x + 2147483648) % 4294967296 - 2147483648

/-- The NUL character that ends a C string. -/
def NUL : Char := Char.ofNat 0

/-! ## DateTuple -/

/-- A tuple that represents a date and time, using a timeCode that tracks the
time component using 15-minute intervals (`struct DateTuple`). -/
structure DateTuple where
  yearTiny : Int
  month : Int
  day : Int
  timeCode : Int
  modifier : Char
deriving DecidableEq, Repr, Inhabited

namespace DateTuple

/-- Determine if DateTuple a is less than DateTuple b, ignoring the modifier
(`operator<`). -/
def lt (a b : DateTuple) : Bool :=
  if a.yearTiny < b.yearTiny then true
  else if a.yearTiny > b.yearTiny then false
  else if a.month < b.month then true
  else if a.month > b.month then false
  else if a.day < b.day then true
  else if a.day > b.day then false
  else if a.timeCode < b.timeCode then true
  else if a.timeCode > b.timeCode then false
  else false

/-- The C++ `operator>=`. -/
def ge (a b : DateTuple) : Bool := ! (lt a b)

/-- The C++ `operator<=`. -/
def le (a b : DateTuple) : Bool := ! (lt b a)

/-- The C++ `operator>`. -/
def gt (a b : DateTuple) : Bool := lt b a

/-- Determine if DateTuple a is equal to DateTuple b, including the modifier
(`operator==`). -/
def eq (a b : DateTuple) : Bool :=
  a.yearTiny == b.yearTiny
    && a.month == b.month
    && a.day == b.day
    && a.timeCode == b.timeCode
    && a.modifier == b.modifier

end DateTuple

/-- A simple tuple to represent a year/month pair (`struct YearMonthTuple`). -/
structure YearMonthTuple where
  yearTiny : Int
  month : Int
deriving DecidableEq, Repr, Inhabited

/-! ## Civil dates (collaborator `LocalDate`) -/

/-- Modelled from the spec: `LocalDate` is not under `src/`. A civil date
with the year held as an offset from the epoch year 2000 in one signed
byte. -/
structure LocalDate where
  yearTiny : Int
  month : Int
  day : Int
deriving DecidableEq, Repr, Inhabited

namespace LocalDate

/-- Modelled from the spec: the epoch year to which tiny years are relative
(`LocalDate::kEpochYear`). -/
def kEpochYear : Int := 2000

/-- Modelled from the spec: the sentinel "invalid" tiny year
(`LocalDate::kInvalidYearTiny`). -/
def kInvalidYearTiny : Int := -128

/-- Modelled from the spec: `LocalDate::forTinyComponents`. -/
def forTinyComponents (yearTiny month day : Int) : LocalDate :=
  { yearTiny := yearTiny, month := month, day := day }

/-- Modelled from the spec: `LocalDate::year`, the full year. -/
def year (ld : LocalDate) : Int := ld.yearTiny + kEpochYear

/-- Modelled from the spec: Gregorian leap years. -/
def isLeapYear (year : Int) : Bool :=
  (year % 4 == 0) && ((year % 100 != 0) || (year % 400 == 0))

/-- Modelled from the spec: the number of days of a civil month. -/
def daysInMonth (year month : Int) : Int :=
  if month = 2 then (if isLeapYear year then 29 else 28)
  else if month = 4 ∨ month = 6 ∨ month = 9 ∨ month = 11 then 30
  else 31

/-- A date of the civil calendar: month in 1..12 and day within the month. -/
def isValid (ld : LocalDate) : Prop :=
  1 ≤ ld.month ∧ ld.month ≤ 12 ∧ 1 ≤ ld.day ∧ ld.day ≤ daysInMonth ld.year ld.month

instance (ld : LocalDate) : Decidable ld.isValid := by
  unfold isValid; exact inferInstance

/-- Modelled from the spec: the number of days since 2000-01-01 of a civil
date, by the Julian-day-number formula. -/
def toEpochDays (ld : LocalDate) : Int :=
  let mm : Int := if ld.month ≤ 2 then -1 else 0
  let jdn := (1461 * (ld.year + 4800 + mm)) / 4
      + (367 * (ld.month - 2 - 12 * mm)) / 12
      - (3 * ((ld.year + 4900 + mm) / 100)) / 4
      + ld.day - 32075
  jdn - 2451545

/-- Modelled from the spec: seconds since 2000-01-01T00:00:00 of the start of
a civil date, as an `acetime_t`. -/
def toEpochSeconds (ld : LocalDate) : Int := wrap32 (86400 * ld.toEpochDays)

/-- Modelled from the spec: the civil date of a day number counted from
2000-01-01 (`LocalDate::forEpochDays`). -/
def forEpochDays (epochDays : Int) : LocalDate :=
  let J := epochDays + 2451545
  let f := J + 1401 + (((4 * J + 274277) / 146097) * 3) / 4 - 38
  let e := 4 * f + 3
  let g := (e % 1461) / 4
  let h := 5 * g + 2
  let day := (h % 153) / 5 + 1
  let month := (h / 153 + 2) % 12 + 1
  let year := e / 1461 - 4716 + (12 + 2 - month) / 12
  { yearTiny := wrap8 (year - kEpochYear), month := month, day := day }

/-- Modelled from the spec: the civil date that contains an epoch second
(`LocalDate::forEpochSeconds`), by floor division by the seconds of a day. -/
def forEpochSeconds (epochSeconds : Int) : LocalDate :=
  forEpochDays (epochSeconds / 86400)

/-- Modelled from the spec: ISO day of week, Monday = 1 .. Sunday = 7
(2000-01-01 was a Saturday). -/
def dayOfWeek (ld : LocalDate) : Int := (ld.toEpochDays + 5) % 7 + 1

end LocalDate

/-- Modelled from the spec: `local_date_mutation::incrementOneDay` is not
under `src/`; the next civil day, the tiny year kept in a signed byte. -/
def incrementOneDay (ld : LocalDate) : LocalDate :=
  let day := ld.day + 1
  if day > LocalDate.daysInMonth ld.year ld.month then
    if ld.month + 1 > 12 then
      { yearTiny := wrap8 (ld.yearTiny + 1), month := 1, day := 1 }
    else
      { yearTiny := ld.yearTiny, month := ld.month + 1, day := 1 }
  else
    { yearTiny := ld.yearTiny, month := ld.month, day := day }

/-- Modelled from the spec: `local_date_mutation::decrementOneDay` is not
under `src/`; the previous civil day, the tiny year kept in a signed byte. -/
def decrementOneDay (ld : LocalDate) : LocalDate :=
  let day := ld.day - 1
  if day = 0 then
    if ld.month = 1 then
      { yearTiny := wrap8 (ld.yearTiny - 1), month := 12, day := 31 }
    else
      { yearTiny := ld.yearTiny, month := ld.month - 1,
        day := LocalDate.daysInMonth ld.year (ld.month - 1) }
  else
    { yearTiny := ld.yearTiny, month := ld.month, day := day }

/-- Normalize DateTuple::timeCode if its magnitude is more than 24 hours
(`normalizeDateTuple`). -/
def normalizeDateTuple (dt : DateTuple) : DateTuple :=
  let kOneDayAsCode : Int := 4 * 24
  if dt.timeCode ≤ -kOneDayAsCode then
    let ld := decrementOneDay (LocalDate.forTinyComponents dt.yearTiny dt.month dt.day)
    { yearTiny := ld.yearTiny, month := ld.month, day := ld.day,
      timeCode := wrap8 (dt.timeCode + kOneDayAsCode), modifier := dt.modifier }
  else if kOneDayAsCode ≤ dt.timeCode then
    let ld := incrementOneDay (LocalDate.forTinyComponents dt.yearTiny dt.month dt.day)
    { yearTiny := ld.yearTiny, month := ld.month, day := ld.day,
      timeCode := wrap8 (dt.timeCode - kOneDayAsCode), modifier := dt.modifier }
  else dt

/-- Convert the given 'tt', offsetCode, and deltaCode into the 'w', 's' and
'u' versions of the DateTuple (`expandDateTuple`). The result is the new
`(tt, tts, ttu)`. -/
def expandDateTuple (tt : DateTuple) (offsetCode deltaCode : Int) :
    DateTuple × DateTuple × DateTuple :=
  if tt.modifier = 's' then
    let tts := tt
    let ttu : DateTuple :=
      { yearTiny := tt.yearTiny, month := tt.month, day := tt.day,
        timeCode := wrap8 (tt.timeCode - offsetCode), modifier := 'u' }
    let ttw : DateTuple :=
      { yearTiny := tt.yearTiny, month := tt.month, day := tt.day,
        timeCode := wrap8 (tt.timeCode + deltaCode), modifier := 'w' }
    (normalizeDateTuple ttw, normalizeDateTuple tts, normalizeDateTuple ttu)
  else if tt.modifier = 'u' then
    let ttu := tt
    let tts : DateTuple :=
      { yearTiny := tt.yearTiny, month := tt.month, day := tt.day,
        timeCode := wrap8 (tt.timeCode + offsetCode), modifier := 's' }
    let ttw : DateTuple :=
      { yearTiny := tt.yearTiny, month := tt.month, day := tt.day,
        timeCode := wrap8 (tt.timeCode + offsetCode + deltaCode), modifier := 'w' }
    (normalizeDateTuple ttw, normalizeDateTuple tts, normalizeDateTuple ttu)
  else
    let ttw : DateTuple := { tt with modifier := 'w' }
    let tts : DateTuple :=
      { yearTiny := tt.yearTiny, month := tt.month, day := tt.day,
        timeCode := wrap8 (tt.timeCode - deltaCode), modifier := 's' }
    let ttu : DateTuple :=
      { yearTiny := tt.yearTiny, month := tt.month, day := tt.day,
        timeCode := wrap8 (tt.timeCode - deltaCode - offsetCode), modifier := 'u' }
    (normalizeDateTuple ttw, normalizeDateTuple tts, normalizeDateTuple ttu)

/-! ## The zone database (read through brokers) -/

/-- A rule of a zone policy, as read through `ZoneRuleBroker`. -/
structure ZoneRule where
  fromYearTiny : Int
  toYearTiny : Int
  inMonth : Int
  onDayOfWeek : Int
  onDayOfMonth : Int
  atTimeCode : Int
  atTimeModifier : Char
  deltaCode : Int
  letter : Nat
deriving DecidableEq, Repr, Inhabited

/-- A zone policy, as read through `ZonePolicyBroker`: its rules and its
letter strings. -/
structure ZonePolicy where
  rules : List ZoneRule
  letters : List (List Char)
deriving DecidableEq, Repr, Inhabited

/-- A zone era, as read through `ZoneEraBroker`. A null `zonePolicy` or
`format` pointer is `none`. -/
structure ZoneEra where
  offsetCode : Int
  zonePolicy : Option ZonePolicy
  deltaCode : Int
  format : Option (List Char)
  untilYearTiny : Int
  untilMonth : Int
  untilDay : Int
  untilTimeCode : Int
  untilTimeModifier : Char
deriving DecidableEq, Repr, Inhabited

/-- A zone, as read through `ZoneInfoBroker`. -/
structure ZoneInfo where
  zoneId : Nat
  startYear : Int
  untilYear : Int
  eras : List ZoneEra
deriving DecidableEq, Repr, Inhabited

/-- A sentinel ZoneEra which has the smallest year (`kAnchorEra`). -/
def kAnchorEra : ZoneEra :=
  { offsetCode := 0
    zonePolicy := none
    deltaCode := 0
    format := none
    untilYearTiny := LocalDate.kInvalidYearTiny
    untilMonth := 1
    untilDay := 1
    untilTimeCode := 0
    untilTimeModifier := 'w' }

/-- Data structure that captures the matching ZoneEra and its ZoneRule
transitions for a given year (`struct ZoneMatch`). -/
structure ZoneMatch where
  startDateTime : DateTuple
  untilDateTime : DateTuple
  era : ZoneEra
deriving DecidableEq, Repr, Inhabited

/-! ## Transition -/

/-- Represents an interval of time where the time zone obeyed a certain UTC
offset and DST delta (`struct Transition`). The field `transitionTimeS` is
the union `transitionTimeS | startDateTime` and `transitionTimeU` the union
`transitionTimeU | untilDateTime` of the source; `matchPtr` is the `match`
pointer (an index of `mMatches`, `none` when null) and `abbrevBuf` the
`abbrev` buffer. -/
structure Transition where
  matchPtr : Option Nat
  rule : Option ZoneRule
  transitionTime : DateTuple
  transitionTimeS : DateTuple
  transitionTimeU : DateTuple
  originalTransitionTime : DateTuple
  startEpochSeconds : Int
  abbrevBuf : List Char
  letterBuf : Char × Char
  active : Bool
  offsetCode : Int
  deltaCode : Int
deriving DecidableEq, Repr, Inhabited

namespace Transition

/-- Size of the timezone abbreviation buffer (`kAbbrevSize`): six characters
and the NUL. -/
def kAbbrevSize : Nat := 7

/-- Start time expressed using the UTC offset of the current Transition: the
second member of the union with `transitionTimeS`. -/
@[reducible] def startDateTime (t : Transition) : DateTuple := t.transitionTimeS

/-- Until time expressed using the UTC offset of the current Transition: the
second member of the union with `transitionTimeU`. -/
@[reducible] def untilDateTime (t : Transition) : DateTuple := t.transitionTimeU

end Transition

/-- The characters of the C string held in a buffer: those before the first
NUL. -/
def cstr (buf : List Char) : List Char := buf.takeWhile (fun c => c != NUL)

/-! ## TransitionStorage -/

/-- A heap manager which is specialized and tuned to manage a collection of
Transitions (`class TransitionStorage<SIZE>`). The template parameter `SIZE`
is an argument of the operations that use it. -/
structure TransitionStorage where
  mPool : List Transition
  mTransitions : List Nat
  mIndexPrior : Nat
  mIndexCandidates : Nat
  mIndexFree : Nat
  mHighWater : Nat
deriving DecidableEq, Repr, Inhabited

namespace TransitionStorage

/-- Read of `mTransitions[i]`; `none` outside the array. -/
def slotAt (ts : TransitionStorage) (i : Nat) : Option Nat := ts.mTransitions[i]?

/-- Read through a `Transition*`; `none` when it points to no slot. -/
def deref (ts : TransitionStorage) (p : Nat) : Option Transition := ts.mPool[p]?

/-- Write through a `Transition*`; `none` when it points to no slot. -/
def store (ts : TransitionStorage) (p : Nat) (t : Transition) : Option TransitionStorage :=
  if p < ts.mPool.length then some { ts with mPool := ts.mPool.set p t } else none

/-- Write of `mTransitions[i]`; `none` outside the array. -/
def setSlot (ts : TransitionStorage) (i : Nat) (p : Nat) : Option TransitionStorage :=
  if i < ts.mTransitions.length then
    some { ts with mTransitions := ts.mTransitions.set i p }
  else none

/-- Return the transition at position i (`getTransition`), dereferenced. -/
def getTransition (ts : TransitionStorage) (i : Nat) : Option Transition :=
  (ts.slotAt i).bind ts.deref

/-- Initialize all pools (`init`). -/
def init (SIZE : Nat) (ts : TransitionStorage) : TransitionStorage :=
  { ts with
    mTransitions := List.range SIZE
    mIndexPrior := 0
    mIndexCandidates := 0
    mIndexFree := 0 }

/-- Return the current prior transition (`getPrior`). -/
def getPrior (ts : TransitionStorage) : Option Nat := ts.slotAt ts.mIndexPrior

/-- Swap 2 transitions (`swap`), given the indexes of the two pointer-vector
entries. -/
def swap (ts : TransitionStorage) (a b : Nat) : Option TransitionStorage :=
  (ts.slotAt a).bind fun pa =>
  (ts.slotAt b).bind fun pb =>
  (ts.setSlot a pb).bind fun ts1 =>
  ts1.setSlot b pa

/-- Empty the Candidate pool by resetting the various indexes
(`resetCandidatePool`). -/
def resetCandidatePool (ts : TransitionStorage) : TransitionStorage :=
  { ts with mIndexCandidates := ts.mIndexPrior, mIndexFree := ts.mIndexPrior }

/-- Index of the start of the Candidate pool (`getCandidatePoolBegin`). -/
def getCandidatePoolBegin (ts : TransitionStorage) : Nat := ts.mIndexCandidates

/-- Index of the end of the Candidate pool (`getCandidatePoolEnd`). -/
def getCandidatePoolEnd (ts : TransitionStorage) : Nat := ts.mIndexFree

/-- Index of the start of the Active pool (`getActivePoolBegin`). -/
def getActivePoolBegin (_ts : TransitionStorage) : Nat := 0

/-- Index of the end of the Active pool (`getActivePoolEnd`). -/
def getActivePoolEnd (ts : TransitionStorage) : Nat := ts.mIndexFree

/-- Return a pointer to the first Transition in the free pool
(`getFreeAgent`): the slot and the storage with its high water mark
updated. -/
def getFreeAgent (SIZE : Nat) (ts : TransitionStorage) : Option (Nat × TransitionStorage) :=
  let ts1 : TransitionStorage :=
    if ts.mIndexFree > ts.mHighWater then { ts with mHighWater := ts.mIndexFree } else ts
  if ts1.mIndexFree < SIZE then
    (ts1.slotAt ts1.mIndexFree).map fun p => (p, ts1)
  else if 1 ≤ SIZE then
    (ts1.slotAt (SIZE - 1)).map fun p => (p, ts1)
  else none

/-- Immediately add the free agent Transition at index mIndexFree to the
Active pool (`addFreeAgentToActivePool`). -/
def addFreeAgentToActivePool (SIZE : Nat) (ts : TransitionStorage) : TransitionStorage :=
  if ts.mIndexFree ≥ SIZE then ts
  else
    { ts with
      mIndexFree := ts.mIndexFree + 1
      mIndexPrior := ts.mIndexFree + 1
      mIndexCandidates := ts.mIndexFree + 1 }

/-- Allocate one Transition just after the Active pool, but before the
Candidate pool, to keep the most recent prior Transition (`reservePrior`):
the index of the reserved pointer-vector entry and the new storage. -/
def reservePrior (ts : TransitionStorage) : Nat × TransitionStorage :=
  (ts.mIndexPrior,
    { ts with
      mIndexCandidates := ts.mIndexCandidates + 1
      mIndexFree := ts.mIndexFree + 1 })

/-- Swap the Free agent transition with the current Prior transition
(`setFreeAgentAsPrior`). -/
def setFreeAgentAsPrior (ts : TransitionStorage) : Option TransitionStorage :=
  ts.swap ts.mIndexPrior ts.mIndexFree

/-- Add the current prior into the Candidates pool
(`addPriorToCandidatePool`). -/
def addPriorToCandidatePool (ts : TransitionStorage) : TransitionStorage :=
  { ts with mIndexCandidates := ts.mIndexCandidates - 1 }

/-- The loop of `addFreeAgentToCandidatePool`, entered with loop variable
`i`. -/
def addFreeAgentToCandidatePoolLoop (ts : TransitionStorage) : Nat → Option TransitionStorage
  | 0 => some ts
  | i + 1 =>
    if i + 1 > ts.mIndexCandidates then
      (ts.slotAt (i + 1)).bind fun curr =>
      (ts.slotAt i).bind fun prev =>
      (ts.deref curr).bind fun currT =>
      (ts.deref prev).bind fun prevT =>
      if currT.transitionTime.ge prevT.transitionTime then some ts
      else
        (ts.setSlot (i + 1) prev).bind fun ts1 =>
        (ts1.setSlot i curr).bind fun ts2 =>
        addFreeAgentToCandidatePoolLoop ts2 i
    else some ts

/-- Add the free agent Transition at index mIndexFree to the Candidate pool,
sorted by transitionTime (`addFreeAgentToCandidatePool`). -/
def addFreeAgentToCandidatePool (SIZE : Nat) (ts : TransitionStorage) :
    Option TransitionStorage :=
  if ts.mIndexFree ≥ SIZE then some ts
  else
    (addFreeAgentToCandidatePoolLoop ts ts.mIndexFree).map fun ts1 =>
      { ts1 with mIndexFree := ts1.mIndexFree + 1 }

/-- The loop of `addActiveCandidatesToActivePool`: `n` candidates are left,
the next one at index `iCandidate`; the result is the final `iActive` and
the storage. -/
def addActiveCandidatesLoop :
    Nat → Nat → Nat → TransitionStorage → Option (Nat × TransitionStorage)
  | 0, iActive, _, ts => some (iActive, ts)
  | n + 1, iActive, iCandidate, ts =>
    (ts.getTransition iCandidate).bind fun c =>
    if c.active then
      if iActive ≠ iCandidate then
        (ts.swap iActive iCandidate).bind fun ts1 =>
        addActiveCandidatesLoop n (iActive + 1) (iCandidate + 1) ts1
      else addActiveCandidatesLoop n (iActive + 1) (iCandidate + 1) ts
    else addActiveCandidatesLoop n iActive (iCandidate + 1) ts

/-- Add active candidates into the Active pool, and collapse the Candidate
pool (`addActiveCandidatesToActivePool`). -/
def addActiveCandidatesToActivePool (ts : TransitionStorage) : Option TransitionStorage :=
  (addActiveCandidatesLoop (ts.mIndexFree - ts.mIndexCandidates) ts.mIndexPrior
      ts.mIndexCandidates ts).map fun r =>
    { r.2 with mIndexPrior := r.1, mIndexCandidates := r.1, mIndexFree := r.1 }

/-- The loop of `findTransition`: `n` iterations are left, the next index is
`i` and `m` is the match found so far (`none` for `nullptr`). -/
def findTransitionLoop (ts : TransitionStorage) (epochSeconds : Int) :
    Nat → Nat → Option Nat → Option (Option Nat)
  | 0, _, m => some m
  | n + 1, i, m =>
    (ts.slotAt i).bind fun candidate =>
    (ts.deref candidate).bind fun c =>
    if c.startEpochSeconds > epochSeconds then some m
    else findTransitionLoop ts epochSeconds n (i + 1) (some candidate)

/-- Return the Transition matching the given epochSeconds. Return nullptr if
no matching Transition found (`findTransition`). The outer `Option` is the
definedness of the reads, the inner one the returned pointer. -/
def findTransition (ts : TransitionStorage) (epochSeconds : Int) : Option (Option Nat) :=
  findTransitionLoop ts epochSeconds ts.mIndexFree 0 none

/-- The loop of `findTransitionForDateTime`. -/
def findTransitionForDateTimeLoop (ts : TransitionStorage) (localDate : DateTuple) :
    Nat → Nat → Option Nat → Option (Option Nat)
  | 0, _, m => some m
  | n + 1, i, m =>
    (ts.slotAt i).bind fun candidate =>
    (ts.deref candidate).bind fun c =>
    if c.startDateTime.gt localDate then some m
    else findTransitionForDateTimeLoop ts localDate n (i + 1) (some candidate)

/-- Reset the high water mark (`resetHighWater`). -/
def resetHighWater (ts : TransitionStorage) : TransitionStorage := { ts with mHighWater := 0 }

/-- Return the high water mark (`getHighWater`). -/
def getHighWater (ts : TransitionStorage) : Nat := ts.mHighWater

end TransitionStorage

/-! ## Collaborators of the query API -/

/-- Modelled from the spec: `TimeOffset` is declared outside `src/`; a UTC
offset held as a count of 15-minute units in one signed byte. -/
structure TimeOffset where
  mOffsetCode : Int
deriving DecidableEq, Repr, Inhabited

namespace TimeOffset

/-- Modelled from the spec: the distinguished error code, `Int8::MIN`. -/
def kErrorCode : Int := -128

/-- Modelled from the spec: `TimeOffset::forOffsetCode`, whose parameter is
an `int8_t`. -/
def forOffsetCode (offsetCode : Int) : TimeOffset := { mOffsetCode := wrap8 offsetCode }

/-- Modelled from the spec: `TimeOffset::forError`. -/
def forError : TimeOffset := { mOffsetCode := kErrorCode }

/-- Modelled from the spec: `TimeOffset::isError`. -/
def isError (o : TimeOffset) : Bool := o.mOffsetCode == kErrorCode

/-- Modelled from the spec: `TimeOffset::toSeconds`, 15 minutes per unit. -/
def toSeconds (o : TimeOffset) : Int := 900 * o.mOffsetCode

end TimeOffset

/-- Modelled from the spec: `LocalDateTime` is not under `src/`; a civil date
with a time of day. -/
structure LocalDateTime where
  yearTiny : Int
  month : Int
  day : Int
  hour : Int
  minute : Int
  second : Int
deriving DecidableEq, Repr, Inhabited

namespace LocalDateTime

/-- Modelled from the spec: `LocalDateTime::localDate`. -/
def localDate (ldt : LocalDateTime) : LocalDate :=
  { yearTiny := ldt.yearTiny, month := ldt.month, day := ldt.day }

/-- Modelled from the spec: seconds since 2000-01-01T00:00:00 of a local
date-time, as an `acetime_t`. -/
def toEpochSeconds (ldt : LocalDateTime) : Int :=
  wrap32 (86400 * ldt.localDate.toEpochDays + 3600 * ldt.hour + 60 * ldt.minute + ldt.second)

/-- Modelled from the spec: the local date-time of a count of seconds since
2000-01-01T00:00:00. -/
def forEpochSeconds (epochSeconds : Int) : LocalDateTime :=
  let ld := LocalDate.forEpochDays (epochSeconds / 86400)
  let seconds := epochSeconds % 86400
  { yearTiny := ld.yearTiny, month := ld.month, day := ld.day,
    hour := seconds / 3600, minute := (seconds % 3600) / 60, second := seconds % 60 }

end LocalDateTime

/-- Modelled from the spec: `OffsetDateTime` is not under `src/`; a local
date-time together with its UTC offset. -/
structure OffsetDateTime where
  mLocalDateTime : LocalDateTime
  mTimeOffset : TimeOffset
deriving DecidableEq, Repr, Inhabited

namespace OffsetDateTime

/-- Modelled from the spec: `OffsetDateTime::forLocalDateTimeAndOffset`. -/
def forLocalDateTimeAndOffset (ldt : LocalDateTime) (offset : TimeOffset) : OffsetDateTime :=
  { mLocalDateTime := ldt, mTimeOffset := offset }

/-- Modelled from the spec: `OffsetDateTime::toEpochSeconds`, the local
seconds less the offset. -/
def toEpochSeconds (odt : OffsetDateTime) : Int :=
  wrap32 (odt.mLocalDateTime.toEpochSeconds - odt.mTimeOffset.toSeconds)

/-- Modelled from the spec: `OffsetDateTime::forEpochSeconds`, the local
date-time at the given offset of an instant. -/
def forEpochSeconds (epochSeconds : Int) (offset : TimeOffset) : OffsetDateTime :=
  { mLocalDateTime := LocalDateTime.forEpochSeconds (wrap32 (epochSeconds + offset.toSeconds)),
    mTimeOffset := offset }

end OffsetDateTime

/-- Modelled from the spec: `basic::MonthDay`, the result of the shared
monthday helper. -/
structure MonthDay where
  month : Int
  day : Int
deriving DecidableEq, Repr, Inhabited

/-- Modelled from the spec: `BasicZoneProcessor::calcStartDayOfMonth` is not
under `src/`. The day of month of a rule `(year, month, onDayOfWeek,
onDayOfMonth)`: the day itself when no day of week is given; the first such
day of week on or after `onDayOfMonth` (`onDayOfMonth = 0` standing for the
last one of the month); for a negative `onDayOfMonth` the last such day of week
on or before its absolute value. -/
def calcStartDayOfMonth (year month onDayOfWeek onDayOfMonth : Int) : MonthDay :=
  if onDayOfWeek = 0 then { month := month, day := onDayOfMonth }
  else if onDayOfMonth ≥ 0 then
    let daysInMonth := LocalDate.daysInMonth year month
    let onDayOfMonth := if onDayOfMonth = 0 then daysInMonth - 6 else onDayOfMonth
    let limitDate : LocalDate :=
      { yearTiny := year - LocalDate.kEpochYear, month := month, day := onDayOfMonth }
    let dayOfWeekShift := (onDayOfWeek - limitDate.dayOfWeek + 7) % 7
    let day := onDayOfMonth + dayOfWeekShift
    if day > daysInMonth then { month := month + 1, day := day - daysInMonth }
    else { month := month, day := day }
  else
    let onDayOfMonth := -onDayOfMonth
    let limitDate : LocalDate :=
      { yearTiny := year - LocalDate.kEpochYear, month := month, day := onDayOfMonth }
    let dayOfWeekShift := (limitDate.dayOfWeek - onDayOfWeek + 7) % 7
    let day := onDayOfMonth - dayOfWeekShift
    if day < 1 then
      { month := month - 1, day := day + LocalDate.daysInMonth year (month - 1) }
    else { month := month, day := day }

/-! ## Character buffers -/

/-- Write of `buf[i] = c`; `none` outside the buffer. -/
def writeAt (buf : List Char) (i : Nat) (c : Char) : Option (List Char) :=
  if i < buf.length then some (buf.set i c) else none

/-- The C `strncpy(dest, src, n)`: exactly `n` bytes are written, the
characters of `src` followed by NUL padding. -/
def strncpy (dest src : List Char) (n : Nat) : Option (List Char) :=
  if n ≤ dest.length then
    some (src.take n ++ List.replicate (n - src.length) NUL ++ dest.drop n)
  else none

/-- The C `memcpy(dest, src, n)` for `n` characters of `src`. -/
def memcpy (dest src : List Char) (n : Nat) : Option (List Char) :=
  if n ≤ dest.length ∧ n ≤ src.length + 1 then
    some ((src ++ [NUL]).take n ++ dest.drop n)
  else none

/-- The inner loop of `copyAndReplace`, which copies what is left of
`newString`: the result is the rest of `newString`, the buffer, `dst` and
`dstSize`. -/
def copyAndReplaceInner :
    List Char → List Char → Nat → Nat → Option (List Char × List Char × Nat × Nat)
  | [], buf, dst, dstSize => some ([], buf, dst, dstSize)
  | c :: rest, buf, dst, dstSize =>
    if dstSize > 0 then
      (writeAt buf dst c).bind fun buf1 => copyAndReplaceInner rest buf1 (dst + 1) (dstSize - 1)
    else some (c :: rest, buf, dst, dstSize)

/-- The outer loop of `copyAndReplace`: the result is the buffer, `dst` and
`dstSize`. -/
def copyAndReplaceLoop (oldChar : Char) :
    List Char → List Char → List Char → Nat → Nat → Option (List Char × Nat × Nat)
  | [], _, buf, dst, dstSize => some (buf, dst, dstSize)
  | c :: src, newString, buf, dst, dstSize =>
    if dstSize > 0 then
      if c = oldChar then
        (copyAndReplaceInner newString buf dst dstSize).bind fun r =>
          copyAndReplaceLoop oldChar src r.1 r.2.1 r.2.2.1 r.2.2.2
      else
        (writeAt buf dst c).bind fun buf1 =>
          copyAndReplaceLoop oldChar src newString buf1 (dst + 1) (dstSize - 1)
    else some (buf, dst, dstSize)

/-- Copy at most dstSize characters from src to dst, while replacing all
occurance of oldChar with newString (`copyAndReplace`). The result is the
buffer `dst` after the call. -/
def copyAndReplace (dst : List Char) (dstSize : Nat) (src : List Char) (oldChar : Char)
    (newString : List Char) : Option (List Char) :=
  (copyAndReplaceLoop oldChar src newString dst 0 dstSize).bind fun r =>
    if r.2.2 = 0 then
      if r.2.1 = 0 then none else writeAt r.1 (r.2.1 - 1) NUL
    else writeAt r.1 r.2.1 NUL

/-- Create the time zone abbreviation in dest from the format string, the
time zone deltaCode, and the replacement letterString (`createAbbreviation`).
The result is the buffer `dest` after the call; a null `letterString` is
`none`. -/
def createAbbreviation (dest : List Char) (destSize : Nat) (format : List Char)
    (deltaCode : Int) (letterString : Option (List Char)) : Option (List Char) :=
  match letterString with
  | none =>
    (strncpy dest format destSize).bind fun d =>
      if destSize = 0 then none else writeAt d (destSize - 1) NUL
  | some letters =>
    if '%' ∈ format then copyAndReplace dest destSize format '%' letters
    else if '/' ∈ format then
      let slashPos := (format.takeWhile (fun c => c != '/')).length
      if deltaCode % 256 = 0 then
        let headLength := slashPos % 256
        let headLength := if headLength ≥ destSize then (destSize + 255) % 256 else headLength
        (memcpy dest format headLength).bind fun d => writeAt d headLength NUL
      else
        let tail := format.drop (slashPos + 1)
        let tailLength := tail.length % 256
        let tailLength := if tailLength ≥ destSize then (destSize + 255) % 256 else tailLength
        (memcpy dest tail tailLength).bind fun d => writeAt d tailLength NUL
    else
      (strncpy dest format destSize).bind fun d =>
        if destSize = 0 then none else writeAt d (destSize - 1) NUL

/-! ## Reading a transition's format and letter -/

namespace Transition

/-- The C string held in `letterBuf`; `none` when the two bytes hold no
NUL. -/
def letterBufStr (t : Transition) : Option (List Char) :=
  if t.letterBuf.1 = NUL then some []
  else if t.letterBuf.2 = NUL then some [t.letterBuf.1]
  else none

/-- The format of the era of the transition's match (`format`); `none` when
a pointer on the way is null or dangling. -/
def format (t : Transition) (matchArr : List ZoneMatch) : Option (List Char) :=
  t.matchPtr.bind fun mi => (matchArr[mi]?).bind fun m => m.era.format

/-- Return the letter string. Returns nullptr if the RULES column is empty
(`letter`). The outer `Option` is the definedness of the reads, the inner one
the returned pointer. -/
def letter (t : Transition) (matchArr : List ZoneMatch) : Option (Option (List Char)) :=
  match t.rule with
  | none => some none
  | some rule =>
    if rule.letter ≥ 32 then t.letterBufStr.map some
    else
      t.matchPtr.bind fun mi =>
      (matchArr[mi]?).bind fun m =>
      m.era.zonePolicy.bind fun policy =>
      if rule.letter ≥ policy.letters.length then t.letterBufStr.map some
      else (policy.letters[rule.letter]?).map some

end Transition

namespace TransitionStorage

/-- Read-modify-write through a `Transition*`. -/
def modify (ts : TransitionStorage) (p : Nat) (f : Transition → Transition) :
    Option TransitionStorage :=
  (ts.deref p).bind fun t => ts.store p (f t)

/-- The conversion of `findTransitionForDateTime` of a local date-time to a
DateTuple. -/
def localDateTuple (ldt : LocalDateTime) : DateTuple :=
  { yearTiny := ldt.yearTiny, month := ldt.month, day := ldt.day,
    timeCode := wrap8 (ldt.hour * 4 + ldt.minute / 15), modifier := 'w' }

/-- Return the Transition matching the given dateTime. Return nullptr if no
matching Transition found (`findTransitionForDateTime`). -/
def findTransitionForDateTime (ts : TransitionStorage) (ldt : LocalDateTime) :
    Option (Option Nat) :=
  findTransitionForDateTimeLoop ts (localDateTuple ldt) ts.mIndexFree 0 none

end TransitionStorage

/-! ## ExtendedZoneProcessor -/

/-- The mutable members of `class ExtendedZoneProcessor` together with its
zone. -/
structure ExtendedZoneProcessor where
  mZoneInfo : ZoneInfo
  mYear : Int
  mIsFilled : Bool
  mNumMatches : Nat
  mMatches : List ZoneMatch
  mTransitionStorage : TransitionStorage
deriving DecidableEq, Repr, Inhabited

namespace ExtendedZoneProcessor

/-- Number of Extended Matches (`kMaxMatches`). -/
def kMaxMatches : Nat := 4

/-- Max number of Transitions required for a given Zone (`kMaxTransitions`). -/
def kMaxTransitions : Nat := 8

/-- Maximum number of interior years (`kMaxInteriorYears`). -/
def kMaxInteriorYears : Nat := 4

/-- Return (1, 0, -1) depending on how era compares to (yearTiny, month)
(`compareEraToYearMonth`). -/
def compareEraToYearMonth (era : ZoneEra) (yearTiny month : Int) : Int :=
  if era.untilYearTiny < yearTiny then -1
  else if era.untilYearTiny > yearTiny then 1
  else if era.untilMonth < month then -1
  else if era.untilMonth > month then 1
  else if era.untilDay > 1 then 1
  else if era.untilTimeCode > 0 then 1
  else 0

/-- Determines if era overlaps the interval [startYm, untilYm)
(`eraOverlapsInterval`). -/
def eraOverlapsInterval (prev era : ZoneEra) (startYm untilYm : YearMonthTuple) : Bool :=
  decide (compareEraToYearMonth prev untilYm.yearTiny untilYm.month < 0)
    && decide (compareEraToYearMonth era startYm.yearTiny startYm.month > 0)

/-- Create a ZoneMatch object around the 'era' which intersects the half-open
[startYm, untilYm) interval (`createMatch`). -/
def createMatch (prev era : ZoneEra) (startYm untilYm : YearMonthTuple) : ZoneMatch :=
  let startDate : DateTuple :=
    { yearTiny := prev.untilYearTiny, month := prev.untilMonth, day := prev.untilDay,
      timeCode := wrap8 prev.untilTimeCode, modifier := prev.untilTimeModifier }
  let lowerBound : DateTuple :=
    { yearTiny := startYm.yearTiny, month := startYm.month, day := 1, timeCode := 0,
      modifier := 'w' }
  let startDate := if startDate.lt lowerBound then lowerBound else startDate
  let untilDate : DateTuple :=
    { yearTiny := era.untilYearTiny, month := era.untilMonth, day := era.untilDay,
      timeCode := wrap8 era.untilTimeCode, modifier := era.untilTimeModifier }
  let upperBound : DateTuple :=
    { yearTiny := untilYm.yearTiny, month := untilYm.month, day := 1, timeCode := 0,
      modifier := 'w' }
  let untilDate := if upperBound.lt untilDate then upperBound else untilDate
  { startDateTime := startDate, untilDateTime := untilDate, era := era }

/-- Write of `matches[i] = m`; `none` outside the array. -/
def setMatch (matchArr : List ZoneMatch) (i : Nat) (m : ZoneMatch) : Option (List ZoneMatch) :=
  if i < matchArr.length then some (matchArr.set i m) else none

/-- The loop of `findMatches` over the eras that are left, with the previous
era, the array of matches and the number of matches so far. -/
def findMatchesLoop (startYm untilYm : YearMonthTuple) (maxMatches : Nat) :
    List ZoneEra → ZoneEra → List ZoneMatch → Nat → Option (Nat × List ZoneMatch)
  | [], _, matchArr, iMatch => some (iMatch, matchArr)
  | era :: rest, prev, matchArr, iMatch =>
    if eraOverlapsInterval prev era startYm untilYm then
      if iMatch < maxMatches then
        (setMatch matchArr iMatch (createMatch prev era startYm untilYm)).bind fun matches1 =>
          findMatchesLoop startYm untilYm maxMatches rest era matches1 (iMatch + 1)
      else findMatchesLoop startYm untilYm maxMatches rest era matchArr iMatch
    else findMatchesLoop startYm untilYm maxMatches rest era matchArr iMatch

/-- Find the ZoneEras which overlap [startYm, untilYm), ignoring day, time
and timeModifier (`findMatches`): the number of matches and the array of
matches. -/
def findMatches (zoneInfo : ZoneInfo) (startYm untilYm : YearMonthTuple)
    (matchArr : List ZoneMatch) (maxMatches : Nat) : Option (Nat × List ZoneMatch) :=
  findMatchesLoop startYm untilYm maxMatches zoneInfo.eras kAnchorEra matchArr 0

/-- The loop of `calcInteriorYears`: `acc` holds the years written so far;
`none` when the fuel runs out. -/
def calcInteriorYearsLoop (maxInteriorYears : Nat) (fromYear toYear endYear : Int) :
    Nat → Int → List Int → Option (List Int)
  | 0, _, _ => none
  | fuel + 1, year, acc =>
    if year ≤ endYear then
      if fromYear ≤ year ∧ year ≤ toYear then
        if acc.length + 1 ≥ maxInteriorYears then some (acc ++ [year])
        else calcInteriorYearsLoop maxInteriorYears fromYear toYear endYear fuel
          (wrap8 (year + 1)) (acc ++ [year])
      else calcInteriorYearsLoop maxInteriorYears fromYear toYear endYear fuel
        (wrap8 (year + 1)) acc
    else some acc

/-- Calculate interior years. Up to maxInteriorYears, usually 3 or 4
(`calcInteriorYears`): the years written to `interiorYears`, whose number is
the returned count. The fuel covers every state `(year, count)` of the loop,
so `none` is a loop that does not end. -/
def calcInteriorYears (maxInteriorYears : Nat) (fromYear toYear startYear endYear : Int) :
    Option (List Int) :=
  calcInteriorYearsLoop maxInteriorYears fromYear toYear endYear
    (256 * (maxInteriorYears + 1)) startYear []

/-- Return the most recent prior year of the rule[from_year, to_year]
(`getMostRecentPriorYear`). -/
def getMostRecentPriorYear (fromYear toYear startYear _endYear : Int) : Int :=
  if fromYear < startYear then
    if toYear < startYear then toYear
    else wrap8 (startYear - 1)
  else LocalDate.kInvalidYearTiny

/-- The transition time of a rule in a year (`getTransitionTime`). -/
def getTransitionTime (yearTiny : Int) (rule : ZoneRule) : DateTuple :=
  let monthDay := calcStartDayOfMonth (yearTiny + LocalDate.kEpochYear) rule.inMonth
    rule.onDayOfWeek rule.onDayOfMonth
  { yearTiny := yearTiny, month := monthDay.month, day := monthDay.day,
    timeCode := wrap8 rule.atTimeCode, modifier := rule.atTimeModifier }

/-- Populate Transition 't' using the startTime from 'rule' (if it exists)
else from the start time of 'match' (`createTransitionForYear`); `matchPtr`
points to `m`. -/
def createTransitionForYear (t : Transition) (year : Int) (rule : Option ZoneRule)
    (matchPtr : Nat) (m : ZoneMatch) : Transition :=
  let t : Transition :=
    { t with
      matchPtr := some matchPtr
      rule := rule
      offsetCode := m.era.offsetCode
      letterBuf := (NUL, t.letterBuf.2) }
  match rule with
  | some r =>
    let t : Transition :=
      { t with transitionTime := getTransitionTime year r, deltaCode := r.deltaCode }
    if r.letter ≥ 32 then
      if r.letter ≠ '-'.toNat then { t with letterBuf := (Char.ofNat r.letter, NUL) }
      else t
    else t
  | none =>
    { t with transitionTime := m.startDateTime, deltaCode := m.era.deltaCode }

/-- Like compareTransitionToMatch() except perform a fuzzy match within at
least one-month of the match.start or match.until
(`compareTransitionToMatchFuzzy`). -/
def compareTransitionToMatchFuzzy (t : Transition) (m : ZoneMatch) : Int :=
  let ttMonths := t.transitionTime.yearTiny * 12 + t.transitionTime.month
  let matchStartMonths := m.startDateTime.yearTiny * 12 + m.startDateTime.month
  if ttMonths < matchStartMonths - 1 then -1
  else
    let matchUntilMonths := m.untilDateTime.yearTiny * 12 + m.untilDateTime.month
    if matchUntilMonths + 2 ≤ ttMonths then 2
    else 1

/-- Set the current transition as the most recent prior if it fits
(`setAsPriorTransition`). -/
def setAsPriorTransition (ts : TransitionStorage) (t : Nat) : Option TransitionStorage :=
  ts.getPrior.bind fun prior =>
  (ts.deref prior).bind fun priorT =>
  (ts.deref t).bind fun tT =>
  if priorT.active then
    if priorT.transitionTime.lt tT.transitionTime then
      (ts.modify t fun x => { x with active := true }).bind fun ts1 => ts1.setFreeAgentAsPrior
    else some ts
  else
    (ts.modify t fun x => { x with active := true }).bind fun ts1 => ts1.setFreeAgentAsPrior

/-- The loop of `findCandidateTransitions` over the interior years of one
rule. -/
def interiorYearsLoop (rule : ZoneRule) (matchPtr : Nat) (m : ZoneMatch) :
    List Int → TransitionStorage → Option TransitionStorage
  | [], ts => some ts
  | year :: rest, ts =>
    (ts.getFreeAgent kMaxTransitions).bind fun r =>
    (r.2.modify r.1 fun x => createTransitionForYear x year (some rule) matchPtr m).bind fun ts1 =>
    (ts1.deref r.1).bind fun tT =>
    let status := compareTransitionToMatchFuzzy tT m
    if status < 0 then
      (setAsPriorTransition ts1 r.1).bind fun ts2 => interiorYearsLoop rule matchPtr m rest ts2
    else if status = 1 then
      (ts1.addFreeAgentToCandidatePool kMaxTransitions).bind fun ts2 =>
        interiorYearsLoop rule matchPtr m rest ts2
    else interiorYearsLoop rule matchPtr m rest ts1

/-- The loop of `findCandidateTransitions` over the rules of the policy. -/
def candidateRulesLoop (matchPtr : Nat) (m : ZoneMatch) (startY endY : Int) :
    List ZoneRule → TransitionStorage → Option TransitionStorage
  | [], ts => some ts
  | rule :: rest, ts =>
    (calcInteriorYears kMaxInteriorYears rule.fromYearTiny rule.toYearTiny startY endY).bind
      fun interiorYears =>
    (interiorYearsLoop rule matchPtr m interiorYears ts).bind fun ts1 =>
    let priorYear := getMostRecentPriorYear rule.fromYearTiny rule.toYearTiny startY endY
    if priorYear ≠ LocalDate.kInvalidYearTiny then
      (ts1.getFreeAgent kMaxTransitions).bind fun r =>
      (r.2.modify r.1 fun x =>
          createTransitionForYear x priorYear (some rule) matchPtr m).bind fun ts2 =>
      (setAsPriorTransition ts2 r.1).bind fun ts3 =>
        candidateRulesLoop matchPtr m startY endY rest ts3
    else candidateRulesLoop matchPtr m startY endY rest ts1

/-- Find the candidate transitions of a named match
(`findCandidateTransitions`); `matchPtr` points to `m`. -/
def findCandidateTransitions (ts : TransitionStorage) (matchPtr : Nat) (m : ZoneMatch) :
    Option TransitionStorage :=
  m.era.zonePolicy.bind fun policy =>
  let startY := m.startDateTime.yearTiny
  let endY := m.untilDateTime.yearTiny
  let r := ts.reservePrior
  let prior := r.1
  (r.2.slotAt prior).bind fun p0 =>
  (r.2.modify p0 fun x => { x with active := false }).bind fun ts1 =>
  (candidateRulesLoop matchPtr m startY endY policy.rules ts1).bind fun ts2 =>
  (ts2.slotAt prior).bind fun p1 =>
  (ts2.deref p1).bind fun priorT =>
  if priorT.active then some ts2.addPriorToCandidatePool else some ts2

/-- The loop of `fixTransitionTimes`: `n` entries are left, the next one at
index `iter`; `prev` is the previous transition. -/
def fixTransitionTimesLoop :
    Nat → Nat → Nat → TransitionStorage → Option TransitionStorage
  | 0, _, _, ts => some ts
  | n + 1, iter, prev, ts =>
    (ts.slotAt iter).bind fun curr =>
    (ts.deref curr).bind fun currT =>
    (ts.deref prev).bind fun prevT =>
    let e := expandDateTuple currT.transitionTime prevT.offsetCode prevT.deltaCode
    (ts.store curr
      { currT with transitionTime := e.1, transitionTimeS := e.2.1, transitionTimeU := e.2.2 }).bind
      fun ts1 => fixTransitionTimesLoop n (iter + 1) curr ts1

/-- Normalize the transitionTime* fields of the array of Transition objects
(`fixTransitionTimes`), for the entries `[begin, end)` of the pointer
vector. -/
def fixTransitionTimes (ts : TransitionStorage) (begin_ end_ : Nat) : Option TransitionStorage :=
  (ts.slotAt begin_).bind fun prev =>
    fixTransitionTimesLoop (end_ - begin_) begin_ prev ts

/-- Compare the temporal location of transition compared to the interval
defined by the match (`compareTransitionToMatch`). -/
def compareTransitionToMatch (transition : Transition) (m : ZoneMatch) : Int :=
  let matchStart := m.startDateTime
  let transitionTime :=
    if matchStart.modifier = 's' then transition.transitionTimeS
    else if matchStart.modifier = 'u' then transition.transitionTimeU
    else transition.transitionTime
  if transitionTime.lt matchStart then -1
  else if transitionTime.eq matchStart then 0
  else
    let matchUntil := m.untilDateTime
    let transitionTime :=
      if matchUntil.modifier = 's' then transition.transitionTimeS
      else if matchUntil.modifier = 'u' then transition.transitionTimeU
      else transition.transitionTime
    if transitionTime.lt matchUntil then 1
    else 2

/-- Determine the active status of a transition depending on the temporal
relationship to the given match (`processActiveTransition`): the storage and
the new `*prior`. -/
def processActiveTransition (ts : TransitionStorage) (m : ZoneMatch) (transition : Nat)
    (prior : Option Nat) : Option (TransitionStorage × Option Nat) :=
  (ts.deref transition).bind fun tT =>
  let status := compareTransitionToMatch tT m
  if status = 2 then
    (ts.modify transition fun x => { x with active := false }).map fun ts1 => (ts1, prior)
  else if status = 1 then
    (ts.modify transition fun x => { x with active := true }).map fun ts1 => (ts1, prior)
  else if status = 0 then
    match prior with
    | some p =>
      (ts.modify p fun x => { x with active := false }).bind fun ts1 =>
      (ts1.modify transition fun x => { x with active := true }).map fun ts2 =>
        (ts2, some transition)
    | none =>
      (ts.modify transition fun x => { x with active := true }).map fun ts1 =>
        (ts1, some transition)
  else
    match prior with
    | some p =>
      (ts.deref p).bind fun pT =>
      if pT.transitionTime.lt tT.transitionTime then
        (ts.modify p fun x => { x with active := false }).bind fun ts1 =>
        (ts1.modify transition fun x => { x with active := true }).map fun ts2 =>
          (ts2, some transition)
      else some (ts, prior)
    | none =>
      (ts.modify transition fun x => { x with active := true }).map fun ts1 =>
        (ts1, some transition)

/-- The loop of `selectActiveTransitions`. -/
def selectActiveLoop (m : ZoneMatch) :
    Nat → Nat → TransitionStorage → Option Nat → Option (TransitionStorage × Option Nat)
  | 0, _, ts, prior => some (ts, prior)
  | n + 1, iter, ts, prior =>
    (ts.slotAt iter).bind fun transition =>
    (processActiveTransition ts m transition prior).bind fun r =>
      selectActiveLoop m n (iter + 1) r.1 r.2

/-- Scan through the Candidate transitions, and mark the ones which are
active (`selectActiveTransitions`). -/
def selectActiveTransitions (ts : TransitionStorage) (m : ZoneMatch) :
    Option TransitionStorage :=
  let begin_ := ts.getCandidatePoolBegin
  let end_ := ts.getCandidatePoolEnd
  (selectActiveLoop m (end_ - begin_) begin_ ts none).bind fun r =>
    match r.2 with
    | some prior =>
      r.1.modify prior fun x =>
        { x with originalTransitionTime := x.transitionTime, transitionTime := m.startDateTime }
    | none => some r.1

/-- The loop of `generateStartUntilTimes`: the result is the storage and the
final `prev`. -/
def generateStartUntilLoop :
    Nat → Nat → Nat → Bool → TransitionStorage → Option (TransitionStorage × Nat)
  | 0, _, prev, _, ts => some (ts, prev)
  | n + 1, iter, prev, isAfterFirst, ts =>
    (ts.slotAt iter).bind fun t =>
    (ts.deref t).bind fun tT0 =>
    let tt := tT0.transitionTime
    (if isAfterFirst then ts.modify prev fun x => { x with transitionTimeU := tt }
      else some ts).bind fun ts1 =>
    (ts1.deref prev).bind fun prevT =>
    (ts1.deref t).bind fun tT =>
    let code := wrap8 (tt.timeCode - prevT.offsetCode - prevT.deltaCode
      + tT.offsetCode + tT.deltaCode)
    let st := normalizeDateTuple
      { yearTiny := tt.yearTiny, month := tt.month, day := tt.day, timeCode := code,
        modifier := tt.modifier }
    let offsetSeconds := wrap32 (900 * (st.timeCode - tT.offsetCode - tT.deltaCode))
    let ld := LocalDate.forTinyComponents st.yearTiny st.month st.day
    (ts1.store t
      { tT with
        transitionTimeS := st
        startEpochSeconds := wrap32 (ld.toEpochSeconds + offsetSeconds) }).bind fun ts2 =>
    generateStartUntilLoop n (iter + 1) t true ts2

/-- Generate startDateTime and untilDateTime of the transitions defined by
the [start, end) iterators (`generateStartUntilTimes`). -/
def generateStartUntilTimes (ts : TransitionStorage) (matchArr : List ZoneMatch)
    (begin_ end_ : Nat) : Option TransitionStorage :=
  (ts.slotAt begin_).bind fun prev0 =>
  (generateStartUntilLoop (end_ - begin_) begin_ prev0 false ts).bind fun r =>
  let prev := r.2
  (r.1.deref prev).bind fun prevT =>
  prevT.matchPtr.bind fun mi =>
  (matchArr[mi]?).bind fun m =>
  let e := expandDateTuple m.untilDateTime prevT.offsetCode prevT.deltaCode
  r.1.modify prev fun x => { x with transitionTimeU := e.1 }

/-- The loop of `calcAbbreviations`. -/
def calcAbbreviationsLoop (matchArr : List ZoneMatch) :
    Nat → Nat → TransitionStorage → Option TransitionStorage
  | 0, _, ts => some ts
  | n + 1, iter, ts =>
    (ts.slotAt iter).bind fun t =>
    (ts.deref t).bind fun tT =>
    (tT.format matchArr).bind fun format =>
    (tT.letter matchArr).bind fun letter =>
    (createAbbreviation tT.abbrevBuf Transition.kAbbrevSize format tT.deltaCode letter).bind
      fun buf =>
    (ts.store t { tT with abbrevBuf := buf }).bind fun ts1 =>
      calcAbbreviationsLoop matchArr n (iter + 1) ts1

/-- Calculate the time zone abbreviations for each Transition
(`calcAbbreviations`). -/
def calcAbbreviations (ts : TransitionStorage) (matchArr : List ZoneMatch)
    (begin_ end_ : Nat) : Option TransitionStorage :=
  calcAbbreviationsLoop matchArr (end_ - begin_) begin_ ts

/-- Create the Transition of a match without a policy
(`findTransitionsFromSimpleMatch`). -/
def findTransitionsFromSimpleMatch (ts : TransitionStorage) (matchPtr : Nat) (m : ZoneMatch) :
    Option TransitionStorage :=
  (ts.getFreeAgent kMaxTransitions).bind fun r =>
  (r.2.modify r.1 fun x => createTransitionForYear x 0 none matchPtr m).map fun ts1 =>
    ts1.addFreeAgentToActivePool kMaxTransitions

/-- Create the Transitions of a match with a policy
(`findTransitionsFromNamedMatch`). -/
def findTransitionsFromNamedMatch (ts : TransitionStorage) (matchPtr : Nat) (m : ZoneMatch) :
    Option TransitionStorage :=
  let ts0 := ts.resetCandidatePool
  (findCandidateTransitions ts0 matchPtr m).bind fun ts1 =>
  (fixTransitionTimes ts1 ts1.getCandidatePoolBegin ts1.getCandidatePoolEnd).bind fun ts2 =>
  (selectActiveTransitions ts2 m).bind fun ts3 =>
  ts3.addActiveCandidatesToActivePool

/-- Create the Transitions defined by the given match
(`findTransitionsForMatch`). -/
def findTransitionsForMatch (ts : TransitionStorage) (matchArr : List ZoneMatch)
    (matchPtr : Nat) : Option TransitionStorage :=
  (matchArr[matchPtr]?).bind fun m =>
  match m.era.zonePolicy with
  | none => findTransitionsFromSimpleMatch ts matchPtr m
  | some _ => findTransitionsFromNamedMatch ts matchPtr m

/-- The loop of `findTransitions`: `n` matches are left, the next one at
index `i`. -/
def findTransitionsLoop (matchArr : List ZoneMatch) :
    Nat → Nat → TransitionStorage → Option TransitionStorage
  | 0, _, ts => some ts
  | n + 1, i, ts =>
    (findTransitionsForMatch ts matchArr i).bind fun ts1 =>
      findTransitionsLoop matchArr n (i + 1) ts1

/-- Create the Transition objects which are defined by the list of matches
and store them in the transitionStorage container (`findTransitions`). -/
def findTransitions (ts : TransitionStorage) (matchArr : List ZoneMatch) (numMatches : Nat) :
    Option TransitionStorage :=
  findTransitionsLoop matchArr numMatches 0 ts

/-- Check if the ZoneRule cache is filled for the given year (`isFilled`). -/
def isFilled (zp : ExtendedZoneProcessor) (year : Int) : Bool :=
  zp.mIsFilled && decide (year = zp.mYear)

/-- Initialize the zone rules cache, keyed by the "current" year
(`init(const LocalDate&)`). Returns success status and the processor after
the call. -/
def init (zp : ExtendedZoneProcessor) (ld : LocalDate) :
    Option (Bool × ExtendedZoneProcessor) :=
  let year := ld.year
  if zp.isFilled year then some (true, zp)
  else
    let zp1 : ExtendedZoneProcessor :=
      { zp with
        mYear := year
        mNumMatches := 0
        mTransitionStorage := zp.mTransitionStorage.init kMaxTransitions }
    if year < zp1.mZoneInfo.startYear - 1 ∨ zp1.mZoneInfo.untilYear < year then
      some (false, zp1)
    else
      let startYm : YearMonthTuple :=
        { yearTiny := wrap8 (year - LocalDate.kEpochYear - 1), month := 12 }
      let untilYm : YearMonthTuple :=
        { yearTiny := wrap8 (year - LocalDate.kEpochYear + 1), month := 2 }
      (findMatches zp1.mZoneInfo startYm untilYm zp1.mMatches kMaxMatches).bind fun fm =>
      let zp2 : ExtendedZoneProcessor := { zp1 with mNumMatches := fm.1, mMatches := fm.2 }
      (findTransitions zp2.mTransitionStorage zp2.mMatches zp2.mNumMatches).bind fun ts1 =>
      let begin_ := ts1.getActivePoolBegin
      let end_ := ts1.getActivePoolEnd
      (fixTransitionTimes ts1 begin_ end_).bind fun ts2 =>
      (generateStartUntilTimes ts2 zp2.mMatches begin_ end_).bind fun ts3 =>
      (calcAbbreviations ts3 zp2.mMatches begin_ end_).bind fun ts4 =>
      some (true, { zp2 with mTransitionStorage := ts4, mIsFilled := true })

/-- Initialize using the epochSeconds (`init(acetime_t)`). -/
def initForEpochSeconds (zp : ExtendedZoneProcessor) (epochSeconds : Int) :
    Option (Bool × ExtendedZoneProcessor) :=
  init zp (LocalDate.forEpochSeconds epochSeconds)

/-- Return the Transition matching the given epochSeconds
(`ExtendedZoneProcessor::findTransition`). -/
def findTransition (zp : ExtendedZoneProcessor) (epochSeconds : Int) : Option (Option Nat) :=
  zp.mTransitionStorage.findTransition epochSeconds

/-- The total UTC offset at an instant (`getUtcOffset`), with the processor
after the call. -/
def getUtcOffset (zp : ExtendedZoneProcessor) (epochSeconds : Int) :
    Option (TimeOffset × ExtendedZoneProcessor) :=
  (initForEpochSeconds zp epochSeconds).bind fun r =>
  if !r.1 then some (TimeOffset.forError, r.2)
  else
    (r.2.findTransition epochSeconds).bind fun transition =>
    match transition with
    | some p =>
      (r.2.mTransitionStorage.deref p).map fun t =>
        (TimeOffset.forOffsetCode (t.offsetCode + t.deltaCode), r.2)
    | none => some (TimeOffset.forError, r.2)

/-- The DST offset at an instant (`getDeltaOffset`); the found transition is
dereferenced without a null check. -/
def getDeltaOffset (zp : ExtendedZoneProcessor) (epochSeconds : Int) :
    Option (TimeOffset × ExtendedZoneProcessor) :=
  (initForEpochSeconds zp epochSeconds).bind fun r =>
  if !r.1 then some (TimeOffset.forError, r.2)
  else
    (r.2.findTransition epochSeconds).bind fun transition =>
    transition.bind fun p =>
    (r.2.mTransitionStorage.deref p).map fun t => (TimeOffset.forOffsetCode t.deltaCode, r.2)

/-- The abbreviation at an instant (`getAbbrev`), as a C string; the found
transition is dereferenced without a null check. -/
def getAbbrev (zp : ExtendedZoneProcessor) (epochSeconds : Int) :
    Option (List Char × ExtendedZoneProcessor) :=
  (initForEpochSeconds zp epochSeconds).bind fun r =>
  if !r.1 then some ([], r.2)
  else
    (r.2.findTransition epochSeconds).bind fun transition =>
    transition.bind fun p =>
    (r.2.mTransitionStorage.deref p).map fun t => (cstr t.abbrevBuf, r.2)

/-- The offset date-time of a local date-time (`getOffsetDateTime`), with the
processor after the call. -/
def getOffsetDateTime (zp : ExtendedZoneProcessor) (ldt : LocalDateTime) :
    Option (OffsetDateTime × ExtendedZoneProcessor) :=
  (init zp ldt.localDate).bind fun r =>
  (if r.1 then
      (r.2.mTransitionStorage.findTransitionForDateTime ldt).bind fun transition =>
      match transition with
      | some p =>
        (r.2.mTransitionStorage.deref p).map fun t =>
          TimeOffset.forOffsetCode (t.offsetCode + t.deltaCode)
      | none => some TimeOffset.forError
    else some TimeOffset.forError).bind fun offset =>
  let odt := OffsetDateTime.forLocalDateTimeAndOffset ldt offset
  if offset.isError then some (odt, r.2)
  else
    let epochSeconds := odt.toEpochSeconds
    (r.2.mTransitionStorage.findTransition epochSeconds).bind fun transition =>
    (match transition with
      | some p =>
        (r.2.mTransitionStorage.deref p).map fun (t : Transition) =>
          TimeOffset.forOffsetCode (t.offsetCode + t.deltaCode)
      | none => some TimeOffset.forError).map fun offset2 =>
    (OffsetDateTime.forEpochSeconds epochSeconds offset2, r.2)

/-- Set the underlying ZoneInfo (`setZoneInfo`). -/
def setZoneInfo (zp : ExtendedZoneProcessor) (zoneInfo : ZoneInfo) : ExtendedZoneProcessor :=
  if zp.mZoneInfo = zoneInfo then zp
  else { zp with mZoneInfo := zoneInfo, mYear := 0, mIsFilled := false, mNumMatches := 0 }

end ExtendedZoneProcessor

/-! ## Auxiliary definitions of the proofs -/

/-- A linear scan with break: the shape shared by `findTransition` and
`findTransitionForDateTime`. -/
def scanLoop (ts : TransitionStorage) (stop : Transition → Bool) :
    Nat → Nat → Option Nat → Option (Option Nat)
  | 0, _, m => some m
  | n + 1, i, m =>
    (ts.slotAt i).bind fun candidate =>
    (ts.deref candidate).bind fun c =>
    if stop c then some m else scanLoop ts stop n (i + 1) (some candidate)

/-! ## Example zones -/

/-- The policy `US` of the zone database, as compiled for the years from
2000 on. -/
def kPolicyUS : ZonePolicy :=
  { rules := [
      { fromYearTiny := -33, toYearTiny := 6, inMonth := 10, onDayOfWeek := 7,
        onDayOfMonth := 0, atTimeCode := 8, atTimeModifier := 'w', deltaCode := 0,
        letter := 'S'.toNat },
      { fromYearTiny := -24, toYearTiny := -14, inMonth := 4, onDayOfWeek := 7,
        onDayOfMonth := 0, atTimeCode := 8, atTimeModifier := 'w', deltaCode := 4,
        letter := 'D'.toNat },
      { fromYearTiny := -13, toYearTiny := 6, inMonth := 4, onDayOfWeek := 7,
        onDayOfMonth := 1, atTimeCode := 8, atTimeModifier := 'w', deltaCode := 4,
        letter := 'D'.toNat },
      { fromYearTiny := 7, toYearTiny := 126, inMonth := 3, onDayOfWeek := 7,
        onDayOfMonth := 8, atTimeCode := 8, atTimeModifier := 'w', deltaCode := 4,
        letter := 'D'.toNat },
      { fromYearTiny := 7, toYearTiny := 126, inMonth := 11, onDayOfWeek := 7,
        onDayOfMonth := 1, atTimeCode := 8, atTimeModifier := 'w', deltaCode := 0,
        letter := 'S'.toNat }],
    letters := [] }

/-- The zone America/Los_Angeles: base offset -08:00, policy `US`, format
`P%T`, without an end. -/
def kZoneAmerica_Los_Angeles : ZoneInfo :=
  { zoneId := 1
    startYear := 2000
    untilYear := 2050
    eras := [
      { offsetCode := -32, zonePolicy := some kPolicyUS, deltaCode := 0,
        format := some ['P', '%', 'T'], untilYearTiny := 127, untilMonth := 1, untilDay := 1,
        untilTimeCode := 0, untilTimeModifier := 'w' }] }

/-- A transition slot before its first use. -/
def blankTransition : Transition :=
  { (default : Transition) with abbrevBuf := List.replicate Transition.kAbbrevSize NUL }

/-- A transition pool as constructed: `SIZE` blank slots, no high water. -/
def newStorage (SIZE : Nat) : TransitionStorage :=
  { mPool := List.replicate SIZE blankTransition
    mTransitions := List.range SIZE
    mIndexPrior := 0
    mIndexCandidates := 0
    mIndexFree := 0
    mHighWater := 0 }

/-- A processor as constructed for a zone: nothing cached. -/
def newProcessor (zoneInfo : ZoneInfo) : ExtendedZoneProcessor :=
  { mZoneInfo := zoneInfo
    mYear := 0
    mIsFilled := false
    mNumMatches := 0
    mMatches := List.replicate ExtendedZoneProcessor.kMaxMatches default
    mTransitionStorage := newStorage ExtendedZoneProcessor.kMaxTransitions }

/-- The processor after a call of `init`, unchanged when the call is
undefined. -/
def afterInit (zp : ExtendedZoneProcessor) (ld : LocalDate) : ExtendedZoneProcessor :=
  match zp.init ld with
  | some r => r.2
  | none => zp

/-- The Los Angeles processor with the year 2018 cached. -/
def losAngeles2018 : ExtendedZoneProcessor :=
  afterInit (newProcessor kZoneAmerica_Los_Angeles) { yearTiny := 18, month := 3, day := 11 }

/-- The three pool indexes `(mIndexPrior, mIndexCandidates, mIndexFree)`. -/
def TransitionStorage.indexes (ts : TransitionStorage) : Nat × Nat × Nat :=
  (ts.mIndexPrior, ts.mIndexCandidates, ts.mIndexFree)

/-- The Prior and Candidate pools are empty: the Active pool is
`[0, mIndexFree)`. -/
def TransitionStorage.collapsed (ts : TransitionStorage) : Prop :=
  ts.mIndexPrior = ts.mIndexCandidates ∧ ts.mIndexCandidates = ts.mIndexFree

instance (ts : TransitionStorage) : Decidable ts.collapsed := by
  unfold TransitionStorage.collapsed; exact inferInstance

/-- The Julian-day formula of `LocalDate.toEpochDays` on the three
components of a date. -/
def epochDaysOf (yearTiny month day : Int) : Int :=
  (1461 * (yearTiny + 2000 + 4800 + (if month ≤ 2 then -1 else 0))) / 4
    + (367 * (month - 2 - 12 * (if month ≤ 2 then -1 else 0))) / 12
    - (3 * ((yearTiny + 2000 + 4900 + (if month ≤ 2 then -1 else 0)) / 100)) / 4
    + day - 32075 - 2451545

/-- The day number of the date of a tuple: days since 2000-01-01. -/
def DateTuple.epochDays (dt : DateTuple) : Int :=
  (LocalDate.forTinyComponents dt.yearTiny dt.month dt.day).toEpochDays

/-- The instant of a tuple read at a total UTC offset, in 15-minute units
since 2000-01-01T00:00 UTC. -/
def DateTuple.utcCode (dt : DateTuple) (offsetCode : Int) : Int :=
  dt.epochDays * 96 + dt.timeCode - offsetCode

/-- The date of the tuple is a civil date and its year fits a tiny year. -/
def DateTuple.validDate (dt : DateTuple) : Prop :=
  (LocalDate.forTinyComponents dt.yearTiny dt.month dt.day).isValid
    ∧ -128 ≤ dt.yearTiny ∧ dt.yearTiny ≤ 127

instance (dt : DateTuple) : Decidable dt.validDate := by
  unfold DateTuple.validDate; exact inferInstance

/-- The fields of a transition that `generateStartUntilTimes` only reads. -/
def coreEq (a b : Transition) : Prop :=
  a.transitionTime = b.transitionTime ∧ a.offsetCode = b.offsetCode
    ∧ a.deltaCode = b.deltaCode ∧ a.matchPtr = b.matchPtr

/-- One iteration of the loop of `generateStartUntilTimes`, as a function of
the transition `tT` at `iter` and of `prevT`: the transition with its new
start fields. -/
def startUntilStep (prevT tT : Transition) : Transition :=
  let tt := tT.transitionTime
  let code := wrap8 (tt.timeCode - prevT.offsetCode - prevT.deltaCode
    + tT.offsetCode + tT.deltaCode)
  let st := normalizeDateTuple
    { yearTiny := tt.yearTiny, month := tt.month, day := tt.day, timeCode := code,
      modifier := tt.modifier }
  let offsetSeconds := wrap32 (900 * (st.timeCode - tT.offsetCode - tT.deltaCode))
  let ld := LocalDate.forTinyComponents st.yearTiny st.month st.day
  { tT with
    transitionTimeS := st
    startEpochSeconds := wrap32 (ld.toEpochSeconds + offsetSeconds) }

/-- A zone that crosses the date line late in the day: -12:00 until
2018-06-01 23:45 (wall), then +14:00. -/
def kZoneDateLineJump : ZoneInfo :=
  { zoneId := 2
    startYear := 2000
    untilYear := 2050
    eras := [
      { offsetCode := -48, zonePolicy := none, deltaCode := 0, format := some ['-', '1', '2'],
        untilYearTiny := 18, untilMonth := 6, untilDay := 1, untilTimeCode := 95,
        untilTimeModifier := 'w' },
      { offsetCode := 56, zonePolicy := none, deltaCode := 0, format := some ['+', '1', '4'],
        untilYearTiny := 127, untilMonth := 1, untilDay := 1, untilTimeCode := 0,
        untilTimeModifier := 'w' }] }

/-- The date-line zone with the year 2018 cached. -/
def dateLineJump2018 : ExtendedZoneProcessor :=
  afterInit (newProcessor kZoneDateLineJump) { yearTiny := 18, month := 6, day := 1 }

/-- The Los Angeles pool of 2018 after one more call of
`generateStartUntilTimes` over its three transitions. -/
def losAngelesRegenerated : TransitionStorage :=
  (ExtendedZoneProcessor.generateStartUntilTimes losAngeles2018.mTransitionStorage
    losAngeles2018.mMatches 0 3).getD default

/-- The seconds since 2000-01-01T00:00:00 of a local date-time, before the
cut to an `acetime_t`. -/
def LocalDateTime.seconds (ldt : LocalDateTime) : Int :=
  86400 * ldt.localDate.toEpochDays + 3600 * ldt.hour + 60 * ldt.minute + ldt.second

/-- A local date-time of the civil calendar: a valid date in the tiny years
and a time of day. -/
def LocalDateTime.isValid (ldt : LocalDateTime) : Prop :=
  ldt.localDate.isValid ∧ -128 ≤ ldt.yearTiny ∧ ldt.yearTiny ≤ 127
    ∧ 0 ≤ ldt.hour ∧ ldt.hour ≤ 23 ∧ 0 ≤ ldt.minute ∧ ldt.minute ≤ 59
    ∧ 0 ≤ ldt.second ∧ ldt.second ≤ 59

instance (ldt : LocalDateTime) : Decidable ldt.isValid := by
  unfold LocalDateTime.isValid; exact inferInstance

/-! ## Auxiliary definitions for the order of the Active transitions -/

/-- No two entries of the pointer vector point to the same pool slot. -/
def TransitionStorage.distinctSlots (ts : TransitionStorage) : Prop :=
  ∀ i j p, ts.slotAt i = some p → ts.slotAt j = some p → i = j

/-- The two tuples have the same date and time code (the modifier is not
compared). -/
def DateTuple.same (a b : DateTuple) : Prop :=
  a.yearTiny = b.yearTiny ∧ a.month = b.month ∧ a.day = b.day ∧ a.timeCode = b.timeCode

instance (a b : DateTuple) : Decidable (a.same b) := by
  unfold DateTuple.same; exact inferInstance

/-- A wall-mode tuple with a time of day: modifier `w` and a time code in
`[0, 96)`. -/
def DateTuple.isWall (dt : DateTuple) : Prop :=
  dt.modifier = 'w' ∧ 0 ≤ dt.timeCode ∧ dt.timeCode < 96

instance (dt : DateTuple) : Decidable dt.isWall := by
  unfold DateTuple.isWall; exact inferInstance

/-- The state of the pool while `findCandidateTransitions` collects the
candidates of the match `m` behind `n` Active transitions `G`: the entry `n` is
the reserved prior, the Candidate pool `[n + 1, mIndexFree)` is in strict
order and holds `good` times of the years and months that
`compareTransitionToMatchFuzzy` accepts, each of them `fresh`; an active prior
has a `good` time and lies before the year or the months of the candidates. -/
def candidateInv (G : Nat → Option Transition) (n : Nat) (m : ZoneMatch)
    (good fresh : DateTuple → Prop) (ts : TransitionStorage) : Prop :=
  ts.mIndexPrior = n ∧ ts.mIndexCandidates = n + 1 ∧ n + 1 ≤ ts.mIndexFree
  ∧ ts.distinctSlots
  ∧ (∀ i, i < n → ts.getTransition i = G i)
  ∧ (∀ i j, n + 1 ≤ i → i < j → j < ts.mIndexFree →
      ∀ a ∈ ts.getTransition i, ∀ b ∈ ts.getTransition j,
        a.transitionTime.lt b.transitionTime = true)
  ∧ (∀ i, n + 1 ≤ i → i < ts.mIndexFree → ∀ c ∈ ts.getTransition i,
      good c.transitionTime
      ∧ m.startDateTime.yearTiny ≤ c.transitionTime.yearTiny
      ∧ m.startDateTime.yearTiny * 12 + m.startDateTime.month - 1
          ≤ c.transitionTime.yearTiny * 12 + c.transitionTime.month
      ∧ c.transitionTime.month ≤ 12
      ∧ fresh c.transitionTime)
  ∧ (∀ p ∈ ts.getTransition n, p.active = true →
      good p.transitionTime
      ∧ (p.transitionTime.yearTiny < m.startDateTime.yearTiny
        ∨ (p.transitionTime.yearTiny * 12 + p.transitionTime.month
              < m.startDateTime.yearTiny * 12 + m.startDateTime.month - 1
            ∧ 0 ≤ p.transitionTime.month)))

/-- A wall-mode rule with a time of day, whose month stays a calendar month
in each of the given years. -/
def ZoneRule.isWall (r : ZoneRule) (years : List Int) : Prop :=
  r.atTimeModifier = 'w' ∧ 0 ≤ r.atTimeCode ∧ r.atTimeCode < 96
  ∧ ∀ y ∈ years, 1 ≤ (ExtendedZoneProcessor.getTransitionTime y r).month
      ∧ (ExtendedZoneProcessor.getTransitionTime y r).month ≤ 12

instance (r : ZoneRule) (years : List Int) : Decidable (r.isWall years) := by
  unfold ZoneRule.isWall; exact inferInstance

/-- The two rules never fire at the same date and time of day in one of the
given years that both cover. -/
def ZoneRule.apart (years : List Int) (r r2 : ZoneRule) : Prop :=
  ∀ y ∈ years, r.fromYearTiny ≤ y → y ≤ r.toYearTiny →
    r2.fromYearTiny ≤ y → y ≤ r2.toYearTiny →
    ¬ (ExtendedZoneProcessor.getTransitionTime y r).same
        (ExtendedZoneProcessor.getTransitionTime y r2)

instance (years : List Int) (r r2 : ZoneRule) : Decidable (ZoneRule.apart years r r2) := by
  unfold ZoneRule.apart; exact inferInstance

/-- The tuple differs from the times of the given rules in the given
years. -/
def freshFor (years : List Int) (rules : List ZoneRule) (dt : DateTuple) : Prop :=
  ∀ r ∈ rules, ∀ y ∈ years, r.fromYearTiny ≤ y → y ≤ r.toYearTiny →
    ¬ dt.same (ExtendedZoneProcessor.getTransitionTime y r)

/-- The transition with its `active` flag cleared: transitions that differ
in the flag only have the same image. -/
def Transition.clearActive (t : Transition) : Transition := { t with active := false }

/-- The state of `selectActiveTransitions` before it looks at the entry
`iter`, in terms of the pool `ts0` it started from: only `active` flags have
changed, and none below `c`; among the entries `[c, iter)` those after the
match are inactive, those within the match are active, and of the others
exactly the rolling prior is active. -/
def selectInv (m : ZoneMatch) (c : Nat) (ts0 ts : TransitionStorage) (iter : Nat)
    (prior : Option Nat) : Prop :=
  (∀ i, ts.slotAt i = ts0.slotAt i)
  ∧ (∀ i, (ts.getTransition i).map Transition.clearActive
      = (ts0.getTransition i).map Transition.clearActive)
  ∧ (∀ i, c ≤ i → i < iter → ∀ a ∈ ts.getTransition i,
      (ExtendedZoneProcessor.compareTransitionToMatch a m = 2 → a.active = false)
      ∧ (ExtendedZoneProcessor.compareTransitionToMatch a m = 1 → a.active = true)
      ∧ (ExtendedZoneProcessor.compareTransitionToMatch a m ≠ 1 →
          ExtendedZoneProcessor.compareTransitionToMatch a m ≠ 2 →
          (a.active = true ↔ ts.slotAt i = prior)))
  ∧ (∀ p, prior = some p → ∃ i, c ≤ i ∧ i < iter ∧ ts.slotAt i = some p
      ∧ ∀ a ∈ ts.getTransition i,
          ExtendedZoneProcessor.compareTransitionToMatch a m ≠ 1
          ∧ ExtendedZoneProcessor.compareTransitionToMatch a m ≠ 2)
  ∧ (∀ i, i < c → ts.getTransition i = ts0.getTransition i)

/-- A wall-mode policy for the given years: wall-mode rules that are
pairwise apart. -/
def ZonePolicy.isWall (pol : ZonePolicy) (years : List Int) : Prop :=
  (∀ r ∈ pol.rules, r.isWall years) ∧ pol.rules.Pairwise (ZoneRule.apart years)

instance (pol : ZonePolicy) (years : List Int) : Decidable (pol.isWall years) := by
  unfold ZonePolicy.isWall; exact inferInstance

/-- A match with wall-mode bounds, not empty, within the given years, whose
policy (if any) is a wall-mode policy. -/
def ZoneMatch.isWall (m : ZoneMatch) (years : List Int) : Prop :=
  m.startDateTime.isWall ∧ m.untilDateTime.isWall
  ∧ m.startDateTime.lt m.untilDateTime = true
  ∧ -127 ≤ m.startDateTime.yearTiny ∧ m.startDateTime.yearTiny ≤ 127
  ∧ m.untilDateTime.yearTiny ≤ 126
  ∧ (∀ y, m.startDateTime.yearTiny ≤ y → y ≤ m.untilDateTime.yearTiny → y ∈ years)
  ∧ ∀ pol ∈ m.era.zonePolicy, pol.isWall years

/-- The Active pool `[0, mIndexFree)` with the other pools empty: wall-mode
transition times in strict order. -/
def activeSorted (ts : TransitionStorage) : Prop :=
  ts.mIndexPrior = ts.mIndexFree ∧ ts.mIndexCandidates = ts.mIndexFree
  ∧ ts.distinctSlots
  ∧ (∀ i, i < ts.mIndexFree → ∀ a ∈ ts.getTransition i, a.transitionTime.isWall)
  ∧ ∀ i j, i < j → j < ts.mIndexFree →
      ∀ a ∈ ts.getTransition i, ∀ b ∈ ts.getTransition j,
        a.transitionTime.lt b.transitionTime = true

/-- The end of an era as the tuple that `createMatch` builds. -/
def ZoneEra.untilTuple (era : ZoneEra) : DateTuple :=
  { yearTiny := era.untilYearTiny, month := era.untilMonth, day := era.untilDay,
    timeCode := wrap8 era.untilTimeCode, modifier := era.untilTimeModifier }

/-- A wall-mode era for the given years: it ends at a wall-mode time of day
of a day of the month, and its policy (if any) is a wall-mode policy. -/
def ZoneEra.isWall (era : ZoneEra) (years : List Int) : Prop :=
  era.untilTimeModifier = 'w' ∧ 0 ≤ era.untilTimeCode ∧ era.untilTimeCode < 96
  ∧ 1 ≤ era.untilDay
  ∧ ∀ pol ∈ era.zonePolicy, pol.isWall years

instance (era : ZoneEra) (years : List Int) : Decidable (era.isWall years) := by
  unfold ZoneEra.isWall; exact inferInstance

/-- The first instant of a month as a wall-mode tuple: the bounds that
`createMatch` builds from the window. -/
def YearMonthTuple.firstDay (ym : YearMonthTuple) : DateTuple :=
  { yearTiny := ym.yearTiny, month := ym.month, day := 1, timeCode := 0, modifier := 'w' }

/-- Each era of the list ends after the one before it, the first one after
`prev`. -/
def erasIncreasing : ZoneEra → List ZoneEra → Bool
  | _, [] => true
  | prev, era :: rest => prev.untilTuple.lt era.untilTuple && erasIncreasing era rest

/-- A wall-mode zone for the given years: wall-mode eras, each ending after
the one before it (the first one after the anchor). -/
def ZoneInfo.isWall (zi : ZoneInfo) (years : List Int) : Prop :=
  erasIncreasing kAnchorEra zi.eras = true ∧ ∀ era ∈ zi.eras, era.isWall years

instance (zi : ZoneInfo) (years : List Int) : Decidable (zi.isWall years) := by
  unfold ZoneInfo.isWall; exact inferInstance

/-- A zone whose first era, with the policy `US`, ends on 2018-11-04 at
01:30 standard time, half an hour after the change back to standard time
(02:00 daylight saving time is 01:00 standard time); a fixed era at -08:00
follows. -/
def kZoneEraAfterFallBack : ZoneInfo :=
  { zoneId := 4
    startYear := 2000
    untilYear := 2050
    eras := [
      { offsetCode := -32, zonePolicy := some kPolicyUS, deltaCode := 0,
        format := some ['P', '%', 'T'], untilYearTiny := 18, untilMonth := 11, untilDay := 4,
        untilTimeCode := 6, untilTimeModifier := 's' },
      { offsetCode := -32, zonePolicy := none, deltaCode := 0,
        format := some ['P', 'S', 'T'], untilYearTiny := 127, untilMonth := 1, untilDay := 1,
        untilTimeCode := 0, untilTimeModifier := 'w' }] }

/-- The zone `kZoneEraAfterFallBack` with the year 2018 cached. -/
def eraAfterFallBack2018 : ExtendedZoneProcessor :=
  afterInit (newProcessor kZoneEraAfterFallBack) { yearTiny := 18, month := 3, day := 11 }

/-- The value fits in an `int8_t`. -/
def fitsInt8 (x : Int) : Prop := -128 ≤ x ∧ x ≤ 127

instance (x : Int) : Decidable (fitsInt8 x) := by
  unfold fitsInt8; exact inferInstance

/-- The two time codes that `expandDateTuple` computes from `tt` (before it
normalizes them) fit in the `int8_t` they are stored in. -/
def expandFits (tt : DateTuple) (offsetCode deltaCode : Int) : Prop :=
  if tt.modifier = 's' then
    fitsInt8 (tt.timeCode - offsetCode) ∧ fitsInt8 (tt.timeCode + deltaCode)
  else if tt.modifier = 'u' then
    fitsInt8 (tt.timeCode + offsetCode) ∧ fitsInt8 (tt.timeCode + offsetCode + deltaCode)
  else
    fitsInt8 (tt.timeCode - deltaCode) ∧ fitsInt8 (tt.timeCode - deltaCode - offsetCode)

instance (tt : DateTuple) (o d : Int) : Decidable (expandFits tt o d) := by
  unfold expandFits; exact inferInstance

/-- The instant of a tuple in 15-minute units counted from 2000-01-01T00:00
of the tuple's own clock: day number times 96 plus the time code. -/
def DateTuple.quarters (dt : DateTuple) : Int := dt.epochDays * 96 + dt.timeCode

/-- The later of two tuples under `operator<`; the first one when neither is
less than the other. -/
def DateTuple.later (a b : DateTuple) : DateTuple := if a.lt b then b else a

/-- The earlier of two tuples under `operator<`; the first one when neither
is less than the other. -/
def DateTuple.earlier (a b : DateTuple) : DateTuple := if b.lt a then b else a

/-- The eras of a zone, each paired with the era before it; the first era is
paired with `prev`. -/
def eraPairs : ZoneEra → List ZoneEra → List (ZoneEra × ZoneEra)
  | _, [] => []
  | prev, era :: rest => (prev, era) :: eraPairs era rest

/-- The overlap test of the specification for a pair (prev, curr) and the
window [startYm, untilYm): prev ends before untilYm and curr ends after
startYm under `compareEraToYearMonth`. -/
def pairOverlaps (startYm untilYm : YearMonthTuple) (p : ZoneEra × ZoneEra) : Bool :=
  decide (ExtendedZoneProcessor.compareEraToYearMonth p.1 untilYm.yearTiny untilYm.month < 0
    ∧ ExtendedZoneProcessor.compareEraToYearMonth p.2 startYm.yearTiny startYm.month > 0)

/-- The match of the specification for a pair (prev, curr): it starts at the
later of prev's end and the first instant of startYm, ends at the earlier of
curr's end and the first instant of untilYm, and carries curr. -/
def matchOfPair (startYm untilYm : YearMonthTuple) (p : ZoneEra × ZoneEra) : ZoneMatch :=
  { startDateTime := DateTuple.later p.1.untilTuple startYm.firstDay
    untilDateTime := DateTuple.earlier p.2.untilTuple untilYm.firstDay
    era := p.2 }

/-- The matches of the specification for a zone and a window, in era order:
one for each era that overlaps the window, the first era preceded by the
anchor era. -/
def overlapMatches (zoneInfo : ZoneInfo) (startYm untilYm : YearMonthTuple) : List ZoneMatch :=
  ((eraPairs kAnchorEra zoneInfo.eras).filter (pairOverlaps startYm untilYm)).map
    (matchOfPair startYm untilYm)

/-- Reset the TransitionStorage high water mark
(`resetTransitionHighWater`). -/
def ExtendedZoneProcessor.resetTransitionHighWater (zp : ExtendedZoneProcessor) :
    ExtendedZoneProcessor :=
  { zp with mTransitionStorage := zp.mTransitionStorage.resetHighWater }

/-- Get the TransitionStorage high water mark (`getTransitionHighWater`). -/
def ExtendedZoneProcessor.getTransitionHighWater (zp : ExtendedZoneProcessor) : Nat :=
  zp.mTransitionStorage.getHighWater

/-- An era without a policy that ends on the first day of a month. -/
def simpleEra (offsetCode untilYearTiny untilMonth : Int) : ZoneEra :=
  { offsetCode := offsetCode, zonePolicy := none, deltaCode := 0, format := some ['L', 'M', 'T'],
    untilYearTiny := untilYearTiny, untilMonth := untilMonth, untilDay := 1,
    untilTimeCode := 0, untilTimeModifier := 'w' }

/-- A zone that changes its offset four times in 2018: -08:00 until February,
-07:00 until April, -06:00 until June, -05:00 until August and -04:00 from
then on. -/
def kZoneFiveEras : ZoneInfo :=
  { zoneId := 5
    startYear := 2000
    untilYear := 2050
    eras := [simpleEra (-32) 18 2, simpleEra (-28) 18 4, simpleEra (-24) 18 6,
      simpleEra (-20) 18 8, simpleEra (-16) 127 1] }

/-- The five-era zone with the year 2018 cached. -/
def fiveEras2018 : ExtendedZoneProcessor :=
  afterInit (newProcessor kZoneFiveEras) { yearTiny := 18, month := 10, day := 1 }

/-- A rule that fires every year from 2000 to 2126 on the first day of a
month at 02:00 wall time. -/
def monthlyRule (inMonth deltaCode : Int) (letter : Char) : ZoneRule :=
  { fromYearTiny := 0, toYearTiny := 126, inMonth := inMonth, onDayOfWeek := 0,
    onDayOfMonth := 1, atTimeCode := 8, atTimeModifier := 'w', deltaCode := deltaCode,
    letter := letter.toNat }

/-- A policy that changes the clock on the first day of each month from
March to October. -/
def kPolicyMonthly : ZonePolicy :=
  { rules := [monthlyRule 3 4 'D', monthlyRule 4 0 'S', monthlyRule 5 4 'D',
      monthlyRule 6 0 'S', monthlyRule 7 4 'D', monthlyRule 8 0 'S', monthlyRule 9 4 'D',
      monthlyRule 10 0 'S'],
    letters := [] }

/-- A zone with the base offset +01:00 and the first `n` rules of the monthly
policy, without an end. -/
def kZoneMonthly (n : Nat) : ZoneInfo :=
  { zoneId := 6
    startYear := 2000
    untilYear := 2050
    eras := [
      { offsetCode := 4, zonePolicy := some { kPolicyMonthly with rules := kPolicyMonthly.rules.take n },
        deltaCode := 0, format := some ['M', '%', 'T'], untilYearTiny := 127, untilMonth := 1,
        untilDay := 1, untilTimeCode := 0, untilTimeModifier := 'w' }] }

/-- The match of the monthly zone for the window of the year 2018. -/
def monthlyMatch : ZoneMatch :=
  { startDateTime := YearMonthTuple.firstDay { yearTiny := 17, month := 12 }
    untilDateTime := YearMonthTuple.firstDay { yearTiny := 19, month := 2 }
    era :=
      { offsetCode := 4, zonePolicy := some { kPolicyMonthly with rules := kPolicyMonthly.rules.take 7 },
        deltaCode := 0, format := some ['M', '%', 'T'], untilYearTiny := 127, untilMonth := 1,
        untilDay := 1, untilTimeCode := 0, untilTimeModifier := 'w' } }

/-- The pool of the monthly zone inside `findCandidateTransitions` for the
year 2018, after the prior was reserved and the first six rules were
processed (`none` when a step before is undefined). -/
def monthlyPoolFull : Option TransitionStorage :=
  let r := (newStorage ExtendedZoneProcessor.kMaxTransitions).resetCandidatePool.reservePrior
  (r.2.slotAt r.1).bind fun p0 =>
  (r.2.modify p0 fun x => { x with active := false }).bind fun ts1 =>
  ExtendedZoneProcessor.candidateRulesLoop 0 monthlyMatch 17 19 (kPolicyMonthly.rules.take 6) ts1

/-- The text that the loop of `copyAndReplace` produces when the buffer has
room: `newString` in the place of the first `oldChar` of `src`, and what the
inner loop left of `newString` (nothing) in the place of each later one. -/
def replaceText (oldChar : Char) : List Char → List Char → List Char
  | [], _ => []
  | c :: src, newString =>
    if c = oldChar then newString ++ replaceText oldChar src []
    else c :: replaceText oldChar src newString

/-- The buffer `d` is the buffer `dest` with the C string `s` written into its
first `destSize` characters: `s` and its NUL lie within them, and nothing
else of the buffer beyond them is changed. -/
def bufHolds (dest d : List Char) (destSize : Nat) (s : List Char) : Prop :=
  d.length = dest.length ∧ s.length < destSize
    ∧ (∀ i, i < s.length → d[i]? = s[i]?) ∧ d[s.length]? = some NUL
    ∧ (∀ i, destSize ≤ i → d[i]? = dest[i]?)

/-- The abbreviation of the specification, before it is cut to the buffer:
format itself when letterString is null; otherwise, when format contains
exactly one `%`, format with that `%` replaced by letterString; otherwise,
when format contains `/`, the part before the first `/` if deltaCode is 0 and
the part after it if not; otherwise format itself. -/
def abbreviationRef (format : List Char) (deltaCode : Int)
    (letterString : Option (List Char)) : List Char :=
  match letterString with
  | none => format
  | some letters =>
    if format.count '%' = 1 then
      format.takeWhile (fun c => c != '%') ++ letters
        ++ (format.dropWhile (fun c => c != '%')).drop 1
    else if '/' ∈ format then
      if deltaCode = 0 then format.takeWhile (fun c => c != '/')
      else (format.dropWhile (fun c => c != '/')).drop 1
    else format

/-- A buffer of `n` characters that are not NUL. -/
def dirtyBuffer (n : Nat) : List Char := List.replicate n '#'

/-- The pointer-vector entries `[a, b)`, as a list of transition pointers. -/
def TransitionStorage.region (ts : TransitionStorage) (a b : Nat) : List Nat :=
  (ts.mTransitions.drop a).take (b - a)

/-- The transition behind a pointer has its `active` flag set. -/
def TransitionStorage.isActiveSlot (ts : TransitionStorage) (p : Nat) : Bool :=
  match ts.deref p with
  | some t => t.active
  | none => false

/-- Modelled from the spec: `TimeOffset::forHourMinute` is declared outside
`src/`; the offset of a signed hour and a signed minute (both `int8_t`), 15
minutes per unit. -/
def TimeOffset.forHourMinute (hour minute : Int) : TimeOffset :=
  { mOffsetCode := wrap8 (hour * 4 + Int.tdiv minute 15) }

/-- Modelled from the spec: the length of an offset string `+hh:mm`
(`kTimeOffsetStringLength`), declared outside `src/`. -/
def TimeOffset.kTimeOffsetStringLength : Nat := 6

/-- Read of the character at index `i` of a C string given by its characters
before the NUL: the NUL itself at index `length`, `none` beyond it. -/
def cstrAt (s : List Char) (i : Nat) : Option Char :=
  if i < s.length then s[i]? else if i = s.length then some NUL else none

/-- The value of `c - (char) 0x30` stored in a `uint8_t`. -/
def digitByte (c : Char) : Nat := (c.toNat + 256 - '0'.toNat) % 256

/-- Parse an offset string that starts at index `pos` of `offsetString`
(`TimeOffset::forOffsetStringChainable`): the offset and the new value of the
caller's string pointer, as an index. -/
def TimeOffset.forOffsetStringChainable (offsetString : List Char) (pos : Nat) :
    Option (TimeOffset × Nat) :=
  let s := pos
  -- '+' or '-'
  (cstrAt offsetString s).bind fun utcSign =>
  let s := s + 1
  if utcSign ≠ '-' ∧ utcSign ≠ '+' then some (TimeOffset.forError, pos)
  else
    -- hour
    (cstrAt offsetString s).bind fun c1 =>
    let s := s + 1
    let hour := digitByte c1
    (cstrAt offsetString s).bind fun c2 =>
    let s := s + 1
    let hour := (10 * hour + digitByte c2) % 256
    let s := s + 1
    -- minute
    (cstrAt offsetString s).bind fun c4 =>
    let s := s + 1
    let minute := digitByte c4
    (cstrAt offsetString s).bind fun c5 =>
    let s := s + 1
    let minute := (10 * minute + digitByte c5) % 256
    let s := s + 1
    if utcSign = '+' then some (TimeOffset.forHourMinute (wrap8 hour) (wrap8 minute), s)
    else some (TimeOffset.forHourMinute (wrap8 (-(hour : Int))) (wrap8 (-(minute : Int))), s)

/-- Parse an offset string (`TimeOffset::forOffsetString`). -/
def TimeOffset.forOffsetString (offsetString : List Char) : Option TimeOffset :=
  -- verify exact ISO 8601 string length
  if offsetString.length ≠ TimeOffset.kTimeOffsetStringLength then some TimeOffset.forError
  else (TimeOffset.forOffsetStringChainable offsetString 0).map Prod.fst

/-- The character is one of the decimal digits `0` to `9`. -/
def isDecimalDigit (c : Char) : Prop := 48 ≤ c.toNat ∧ c.toNat ≤ 57

instance (c : Char) : Decidable (isDecimalDigit c) := by
  unfold isDecimalDigit; exact inferInstance

/-- The decimal value of the two digit characters `c1 c2`. -/
def decimalValue (c1 c2 : Char) : Int := 10 * ((c1.toNat : Int) - 48) + ((c2.toNat : Int) - 48)

/-- The members of `class SystemClockCoroutine` that the sync period depends
on. -/
structure SystemClockCoroutine where
  mSyncPeriodSeconds : Nat
  mCurrentSyncPeriodSeconds : Nat
  mRequestStatus : Nat
deriving DecidableEq, Repr, Inhabited

namespace SystemClockCoroutine

/-- The request was sent (`kStatusSent`). -/
def kStatusSent : Nat := 0

/-- The response arrived (`kStatusOk`). -/
def kStatusOk : Nat := 1

/-- The request timed out (`kStatusTimedOut`). -/
def kStatusTimedOut : Nat := 2

/-- One pass through the body of the `COROUTINE_LOOP` of `runCoroutine`, from
the request to the end of the delay and the choice of the next period;
`responseReady` tells how the wait loop ended: with the response (`true`) or
with the timeout (`false`). -/
def runCycle (c : SystemClockCoroutine) (responseReady : Bool) : SystemClockCoroutine :=
  -- Send request
  let c : SystemClockCoroutine := { c with mRequestStatus := kStatusSent }
  -- Wait for request
  let c : SystemClockCoroutine :=
    { c with mRequestStatus := if responseReady then kStatusOk else kStatusTimedOut }
  -- Process the response
  let c : SystemClockCoroutine :=
    if c.mRequestStatus = kStatusOk then
      { c with mCurrentSyncPeriodSeconds := c.mSyncPeriodSeconds }
    else c
  -- Determine the retry delay time based on success or failure
  if c.mRequestStatus = kStatusTimedOut then
    if c.mCurrentSyncPeriodSeconds ≥ c.mSyncPeriodSeconds / 2 then
      { c with mCurrentSyncPeriodSeconds := c.mSyncPeriodSeconds }
    else
      { c with mCurrentSyncPeriodSeconds := (c.mCurrentSyncPeriodSeconds * 2) % 65536 }
  else c

/-- The coroutine after the loop cycles with the given outcomes, in order. -/
def runCycles (c : SystemClockCoroutine) : List Bool → SystemClockCoroutine
  | [] => c
  | r :: rest => runCycles (runCycle c r) rest

end SystemClockCoroutine

/-- A transition slot that holds a wall transition time at 02:00 on the first
day of a month of 2018, and an `active` flag. -/
def slotOfMonth (month : Int) (active : Bool) : Transition :=
  { blankTransition with
    transitionTime :=
      { yearTiny := 18, month := month, day := 1, timeCode := 8, modifier := 'w' }
    active := active }

/-- A pool of 8 slots with the Active region `[0, 1)` (January), the Prior
region `[1, 2)` (February), the Candidates `[2, 5)` of March (active), March
(not active) and November (active), and the free agent of March (active) at
index 5. -/
def examplePool : TransitionStorage :=
  { mPool := [slotOfMonth 1 true, slotOfMonth 2 true, slotOfMonth 3 true, slotOfMonth 3 false,
      slotOfMonth 11 true, slotOfMonth 3 true, blankTransition, blankTransition]
    mTransitions := List.range 8
    mIndexPrior := 1
    mIndexCandidates := 2
    mIndexFree := 5
    mHighWater := 5 }

/-- A pool of 8 slots that are all Active: the Prior, Candidate and Free
regions are empty. -/
def fullActivePool : TransitionStorage :=
  { newStorage 8 with mIndexPrior := 8, mIndexCandidates := 8, mIndexFree := 8, mHighWater := 8 }

/-- The transition after `expandDateTuple` was applied to its
`transitionTime`, as in the loop of `fixTransitionTimes`. -/
def Transition.expanded (t : Transition) (offsetCode deltaCode : Int) : Transition :=
  let e := expandDateTuple t.transitionTime offsetCode deltaCode
  { t with transitionTime := e.1, transitionTimeS := e.2.1, transitionTimeU := e.2.2 }

/-- The month count `yearTiny * 12 + month` of the fuzzy comparison. -/
def DateTuple.months (dt : DateTuple) : Int := dt.yearTiny * 12 + dt.month

/-- A rule that fires on the first day of a month at 02:00 wall time in the
years `fromYearTiny .. toYearTiny`. -/
def firstDayRule (fromYearTiny toYearTiny inMonth deltaCode : Int) (letter : Char) : ZoneRule :=
  { fromYearTiny := fromYearTiny, toYearTiny := toYearTiny, inMonth := inMonth,
    onDayOfWeek := 0, onDayOfMonth := 1, atTimeCode := 8, atTimeModifier := 'w',
    deltaCode := deltaCode, letter := letter.toNat }

/-- A policy in which the rule of November 1 occurs twice; its rules of
February 1 and March 1 end with the year 2017. -/
def kPolicyDuplicateRule : ZonePolicy :=
  { rules := [firstDayRule 0 17 2 4 'D', firstDayRule 0 126 11 0 'S',
      firstDayRule 0 17 3 4 'D', firstDayRule 0 126 11 0 'S'],
    letters := [] }

/-- A zone with the base offset +01:00 and the policy with the duplicate rule,
without an end. -/
def kZoneDuplicateRule : ZoneInfo :=
  { zoneId := 7
    startYear := 2000
    untilYear := 2050
    eras := [
      { offsetCode := 4, zonePolicy := some kPolicyDuplicateRule,
        deltaCode := 0, format := some ['M', '%', 'T'], untilYearTiny := 127, untilMonth := 1,
        untilDay := 1, untilTimeCode := 0, untilTimeModifier := 'w' }] }

/-- The processor of the zone with the duplicate rule, with the year 2018
cached. -/
def duplicateRule2018 : ExtendedZoneProcessor :=
  afterInit (newProcessor kZoneDuplicateRule) { yearTiny := 18, month := 6, day := 1 }

/-- An expanded candidate transition at 02:00 wall time on the first day of a
month, at the offset +01:00, with an `active` flag. -/
def candidateAt (yearTiny month : Int) (active : Bool) : Transition :=
  Transition.expanded
    { blankTransition with
      transitionTime :=
        { yearTiny := yearTiny, month := month, day := 1, timeCode := 8, modifier := 'w' }
      offsetCode := 4
      active := active }
    4 0

/-- A pool of 8 slots with three Candidates: two of 2017-11-01 02:00, the
second with its `active` flag set, and one of 2018-03-01 02:00. -/
def staleCandidates : TransitionStorage :=
  { mPool := [candidateAt 17 11 false, candidateAt 17 11 true, candidateAt 18 3 false,
      blankTransition, blankTransition, blankTransition, blankTransition, blankTransition]
    mTransitions := List.range 8
    mIndexPrior := 0
    mIndexCandidates := 0
    mIndexFree := 3
    mHighWater := 3 }

/-- The tuple of a transition in the mode of a bound of a match: the one that
`compareTransitionToMatch` compares with that bound. -/
def Transition.tupleInModeOf (t : Transition) (bound : DateTuple) : DateTuple :=
  if bound.modifier = 's' then t.transitionTimeS
  else if bound.modifier = 'u' then t.transitionTimeU
  else t.transitionTime

/-- A tuple with a civil date and a time of day: the time code is in
`[0, 96)`. -/
def DateTuple.isTimeOfDay (dt : DateTuple) : Prop :=
  dt.validDate ∧ 0 ≤ dt.timeCode ∧ dt.timeCode < 96

instance (dt : DateTuple) : Decidable dt.isTimeOfDay := by
  unfold DateTuple.isTimeOfDay; exact inferInstance

/-- The text that the documentation of `copyAndReplace` describes: `src` with
every occurrence of `oldChar` replaced by the whole `newString`. -/
def replaceAll (oldChar : Char) : List Char → List Char → List Char
  | [], _ => []
  | c :: src, newString =>
    if c = oldChar then newString ++ replaceAll oldChar src newString
    else c :: replaceAll oldChar src newString

/-- A zone whose only era, at -08:00 without a policy, ends on 2010-01-01; the
years of the zone are 2000 to 2050. -/
def kZoneEnded : ZoneInfo :=
  { zoneId := 8
    startYear := 2000
    untilYear := 2050
    eras := [simpleEra (-32) 10 1] }

/-- The processor of the zone that ended in 2010, with the year 2005
cached. -/
def ended2005 : ExtendedZoneProcessor :=
  afterInit (newProcessor kZoneEnded) { yearTiny := 5, month := 6, day := 1 }

/-- A zone with the base offset +01:00 whose policy has a rule of May 1 for
the years 2000 to 2010, a rule of March 1 (daylight saving time) and two rules
of November 1 02:00, the first back to standard time, the second with one hour
of daylight saving time. -/
def kZoneHistory : ZoneInfo :=
  { zoneId := 10
    startYear := 2000
    untilYear := 2050
    eras := [
      { offsetCode := 4,
        zonePolicy := some
          { rules := [firstDayRule 0 10 5 4 'D', firstDayRule 0 126 3 4 'D',
              firstDayRule 0 126 11 0 'S', firstDayRule 0 126 11 4 'D'],
            letters := [] },
        deltaCode := 0, format := some ['M', '%', 'T'], untilYearTiny := 127, untilMonth := 1,
        untilDay := 1, untilTimeCode := 0, untilTimeModifier := 'w' }] }

/-- The processor of the zone `kZoneHistory` after a query in the year
2005. -/
def history2005 : ExtendedZoneProcessor :=
  afterInit (newProcessor kZoneHistory) { yearTiny := 5, month := 6, day := 1 }

/-- The `n` years `year, year + 1, ...`, ascending. -/
def yearsFrom : Nat → Int → List Int
  | 0, _ => []
  | n + 1, year => year :: yearsFrom n (year + 1)

/-- The interior years of the specification: in ascending order, the first
`maxInteriorYears` of the years `y` with `startYear <= y <= endYear` and
`fromYear <= y <= toYear`. -/
def interiorYearsRef (maxInteriorYears : Nat) (fromYear toYear startYear endYear : Int) :
    List Int :=
  ((yearsFrom (endYear + 1 - startYear).toNat startYear).filter
    (fun y => decide (fromYear ≤ y ∧ y ≤ toYear))).take maxInteriorYears

/-- The pointer vector is a permutation of the `SIZE` pool slots. -/
def TransitionStorage.isPermutation (SIZE : Nat) (ts : TransitionStorage) : Prop :=
  ts.mTransitions.Perm (List.range SIZE) ∧ ts.mPool.length = SIZE

/-- The transition that the prior slot holds after the transition `x` was
offered to a prior slot that held `p`: `p` when it is an active prior that is
not earlier than `x`, and `x`, marked active, otherwise. -/
def priorStep (p x : Transition) : Transition :=
  if p.active = true ∧ p.transitionTime.lt x.transitionTime = false then p
  else { x with active := true }

/-- A sequence of calls of `setAsPriorTransition`, as in the loops of
`findCandidateTransitions`: each transition of the list in turn becomes the
content of the free agent and is offered as prior. -/
def offerPriors : List Transition → TransitionStorage → Option TransitionStorage
  | [], ts => some ts
  | x :: xs, ts =>
    (ts.slotAt ts.mIndexFree).bind fun t =>
    (ts.modify t fun _ => x).bind fun ts1 =>
    (ExtendedZoneProcessor.setAsPriorTransition ts1 t).bind fun ts2 =>
    offerPriors xs ts2

/-- The state of the pool while `findCandidateTransitions` collects the
candidates of the match `m` behind `n` Active transitions, whatever the modes
of the transition times are: the entry `n` is the reserved prior, the
Candidate pool `[n + 1, mIndexFree)` is in non-decreasing order and holds
times of the years and months that `compareTransitionToMatchFuzzy` accepts;
an active prior lies before the year or the months of the candidates. -/
def candidateInvLe (n : Nat) (m : ZoneMatch) (ts : TransitionStorage) : Prop :=
  ts.mIndexPrior = n ∧ ts.mIndexCandidates = n + 1 ∧ n + 1 ≤ ts.mIndexFree
  ∧ ts.distinctSlots
  ∧ (∀ i j, n + 1 ≤ i → i < j → j < ts.mIndexFree →
      ∀ a ∈ ts.getTransition i, ∀ b ∈ ts.getTransition j,
        a.transitionTime.le b.transitionTime = true)
  ∧ (∀ i, n + 1 ≤ i → i < ts.mIndexFree → ∀ c ∈ ts.getTransition i,
      m.startDateTime.yearTiny ≤ c.transitionTime.yearTiny
      ∧ m.startDateTime.yearTiny * 12 + m.startDateTime.month - 1
          ≤ c.transitionTime.yearTiny * 12 + c.transitionTime.month)
  ∧ (∀ p ∈ ts.getTransition n, p.active = true →
      p.transitionTime.yearTiny < m.startDateTime.yearTiny
      ∨ (p.transitionTime.yearTiny * 12 + p.transitionTime.month
            < m.startDateTime.yearTiny * 12 + m.startDateTime.month - 1
          ∧ 0 ≤ p.transitionTime.month))

/-- The match of the monthly zone with the rules of March, April and May, for
the window of the year 2018. -/
def monthlyMatch3 : ZoneMatch :=
  { monthlyMatch with
    era :=
      { monthlyMatch.era with
        zonePolicy := some { kPolicyMonthly with rules := kPolicyMonthly.rules.take 3 } } }

/-- What a call of `init` computes and caches in the processor: the year, the
filled flag, the matches and the transition pool with its high-water mark
(everything but the zone itself). -/
def ExtendedZoneProcessor.cache (zp : ExtendedZoneProcessor) :
    Int × Bool × Nat × List ZoneMatch × TransitionStorage :=
  (zp.mYear, zp.mIsFilled, zp.mNumMatches, zp.mMatches, zp.mTransitionStorage)

/-- The five-era zone without its fifth era: -08:00 until February 2018,
-07:00 until April, -06:00 until June and -05:00 until August, and no era
after that. -/
def kZoneFourEras : ZoneInfo :=
  { kZoneFiveEras with eras := kZoneFiveEras.eras.take 4 }

/-- A policy that on 2018-03-11 sets the clock forward twice: +1:00 at 02:00
(wall) and +2:00 at 03:15 (wall), a quarter of an hour later; the standard
time of the years before comes from the November rule. -/
def kPolicyDoubleJump : ZonePolicy :=
  { rules := [
      { fromYearTiny := 7, toYearTiny := 126, inMonth := 11, onDayOfWeek := 7,
        onDayOfMonth := 1, atTimeCode := 8, atTimeModifier := 'w', deltaCode := 0,
        letter := 'S'.toNat },
      { fromYearTiny := 7, toYearTiny := 126, inMonth := 3, onDayOfWeek := 7,
        onDayOfMonth := 8, atTimeCode := 8, atTimeModifier := 'w', deltaCode := 4,
        letter := 'D'.toNat },
      { fromYearTiny := 7, toYearTiny := 126, inMonth := 3, onDayOfWeek := 7,
        onDayOfMonth := 8, atTimeCode := 13, atTimeModifier := 'w', deltaCode := 8,
        letter := 'M'.toNat }],
    letters := [] }

/-- A zone at -08:00 with the policy `kPolicyDoubleJump`. -/
def kZoneDoubleJump : ZoneInfo :=
  { zoneId := 11
    startYear := 2000
    untilYear := 2050
    eras := [
      { offsetCode := -32, zonePolicy := some kPolicyDoubleJump, deltaCode := 0,
        format := some ['P', '%', 'T'], untilYearTiny := 127, untilMonth := 1, untilDay := 1,
        untilTimeCode := 0, untilTimeModifier := 'w' }] }

/-- The double-jump zone with the year 2018 cached. -/
def doubleJump2018 : ExtendedZoneProcessor :=
  afterInit (newProcessor kZoneDoubleJump) { yearTiny := 18, month := 3, day := 11 }

/-- A tuple of the civil calendar inside the tiny years: a valid date, a year
in `[-127, 126]` and a time code that fits a signed byte. -/
def DateTuple.inner (dt : DateTuple) : Prop :=
  dt.validDate ∧ -127 ≤ dt.yearTiny ∧ dt.yearTiny ≤ 126
    ∧ -128 ≤ dt.timeCode ∧ dt.timeCode ≤ 127

instance (dt : DateTuple) : Decidable dt.inner := by
  unfold DateTuple.inner; exact inferInstance

/-- The dates of the two tuples are at least three days apart. -/
def DateTuple.daysApart (a b : DateTuple) : Prop :=
  a.epochDays + 3 ≤ b.epochDays ∨ b.epochDays + 3 ≤ a.epochDays

instance (a b : DateTuple) : Decidable (a.daysApart b) := by
  unfold DateTuple.daysApart; exact inferInstance

/-- The transition time `tt` comes from the tuple `x`: it is `x` itself or
the wall version that `expandDateTuple` makes of `x` for some offsets. -/
def DateTuple.fromSource (tt x : DateTuple) : Prop :=
  x.inner ∧ (tt = x ∨ ∃ o d, tt = (expandDateTuple x o d).1)

/-- The transition time `tt` comes from a tuple within the match `m`: a tuple
whose day is not before the start of the match and at least three days before
its until. -/
def DateTuple.fromSourceIn (tt : DateTuple) (m : ZoneMatch) : Prop :=
  ∃ x, tt.fromSource x ∧ m.startDateTime.epochDays ≤ x.epochDays
    ∧ x.epochDays + 3 ≤ m.untilDateTime.epochDays

/-- The transition times `a` and `b` come from two tuples, the second one at
least three days after the first. -/
def DateTuple.fromSourcesApart (a b : DateTuple) : Prop :=
  ∃ x y, a.fromSource x ∧ b.fromSource y ∧ x.epochDays + 3 ≤ y.epochDays

/-- The Active pool `[0, mIndexFree)` with the other pools empty: the
transition times come from tuples at least three days apart, in the order of
the pool. -/
def activeApart (ts : TransitionStorage) : Prop :=
  ts.mIndexPrior = ts.mIndexFree ∧ ts.mIndexCandidates = ts.mIndexFree
  ∧ ts.distinctSlots
  ∧ ∀ i j, i < j → j < ts.mIndexFree →
      ∀ a ∈ ts.getTransition i, ∀ b ∈ ts.getTransition j,
        a.transitionTime.fromSourcesApart b.transitionTime

/-- The years in which a rule fires for a match of the years
`startY .. endY`: the years of the match that the rule covers, and the most
recent prior year of the rule. -/
def ZoneRule.firingYears (r : ZoneRule) (startY endY : Int) : List Int :=
  (yearsFrom (endY + 1 - startY).toNat startY).filter
      (fun y => decide (r.fromYearTiny ≤ y ∧ y ≤ r.toYearTiny))
    ++ (if ExtendedZoneProcessor.getMostRecentPriorYear r.fromYearTiny r.toYearTiny startY endY
          ≠ LocalDate.kInvalidYearTiny
        then [ExtendedZoneProcessor.getMostRecentPriorYear r.fromYearTiny r.toYearTiny
          startY endY]
        else [])

/-- The transition times of a rule in its firing years. -/
def ZoneRule.firingTimes (r : ZoneRule) (startY endY : Int) : List DateTuple :=
  (r.firingYears startY endY).map fun y => ExtendedZoneProcessor.getTransitionTime y r

/-- A match whose dates lie apart: its start and until are tuples of the
civil calendar, the until at least three days after the start, and the
transition times of its rules in their firing years are tuples of the civil
calendar that lie at least three days apart from each other and from the
start and the until of the match. -/
def ZoneMatch.isSeparated (m : ZoneMatch) : Prop :=
  m.startDateTime.inner ∧ m.untilDateTime.inner
  ∧ m.startDateTime.epochDays + 3 ≤ m.untilDateTime.epochDays
  ∧ ∀ pol ∈ m.era.zonePolicy,
      pol.rules.Pairwise (fun r r2 =>
        ∀ x ∈ r.firingTimes m.startDateTime.yearTiny m.untilDateTime.yearTiny,
        ∀ x2 ∈ r2.firingTimes m.startDateTime.yearTiny m.untilDateTime.yearTiny,
          x.daysApart x2)
      ∧ ∀ r ∈ pol.rules,
          (r.firingTimes m.startDateTime.yearTiny m.untilDateTime.yearTiny).Pairwise
            DateTuple.daysApart
          ∧ ∀ x ∈ r.firingTimes m.startDateTime.yearTiny m.untilDateTime.yearTiny,
              x.inner ∧ x.daysApart m.startDateTime ∧ x.daysApart m.untilDateTime

instance (m : ZoneMatch) : Decidable m.isSeparated := by
  unfold ZoneMatch.isSeparated; exact inferInstance

/-- A zone whose dates lie apart in the window `[startYm, untilYm)`: each
match of an era that overlaps the window has its dates apart, and each match
ends no later than the day the matches after it start. -/
def ZoneInfo.isSeparated (zi : ZoneInfo) (startYm untilYm : YearMonthTuple) : Prop :=
  (∀ m ∈ overlapMatches zi startYm untilYm, m.isSeparated)
  ∧ (overlapMatches zi startYm untilYm).Pairwise
      (fun m m2 => m.untilDateTime.epochDays ≤ m2.startDateTime.epochDays)

instance (zi : ZoneInfo) (startYm untilYm : YearMonthTuple) :
    Decidable (zi.isSeparated startYm untilYm) := by
  unfold ZoneInfo.isSeparated; exact inferInstance

/-- A policy in the manner of the rules of the European Union: summer time
from the last Sunday of March to the last Sunday of October, both changes at
01:00 UTC. -/
def kPolicyUtcRules : ZonePolicy :=
  { rules := [
      { fromYearTiny := -19, toYearTiny := 126, inMonth := 3, onDayOfWeek := 7,
        onDayOfMonth := 0, atTimeCode := 4, atTimeModifier := 'u', deltaCode := 4,
        letter := 'S'.toNat },
      { fromYearTiny := -4, toYearTiny := 126, inMonth := 10, onDayOfWeek := 7,
        onDayOfMonth := 0, atTimeCode := 4, atTimeModifier := 'u', deltaCode := 0,
        letter := '-'.toNat }],
    letters := [] }

/-- A zone with the policy `kPolicyUtcRules` whose first era, at +01:00, ends
on 2018-07-01 at 00:00 standard time; the second era, at +02:00, has no
end. -/
def kZoneUtcRules : ZoneInfo :=
  { zoneId := 12
    startYear := 2000
    untilYear := 2050
    eras := [
      { offsetCode := 4, zonePolicy := some kPolicyUtcRules, deltaCode := 0,
        format := some ['C', 'E', '%', 'T'], untilYearTiny := 18, untilMonth := 7, untilDay := 1,
        untilTimeCode := 0, untilTimeModifier := 's' },
      { offsetCode := 8, zonePolicy := some kPolicyUtcRules, deltaCode := 0,
        format := some ['E', 'E', '%', 'T'], untilYearTiny := 127, untilMonth := 1,
        untilDay := 1, untilTimeCode := 0, untilTimeModifier := 'w' }] }

/-- The zone `kZoneUtcRules` with the year 2018 cached. -/
def utcRules2018 : ExtendedZoneProcessor :=
  afterInit (newProcessor kZoneUtcRules) { yearTiny := 18, month := 3, day := 11 }

/-- The Los Angeles processor after the year 2018 was cached and a query for
2060-01-01 (epoch second 1893456000), outside the zone's years, has
failed. -/
def losAngelesAfterFailure : ExtendedZoneProcessor :=
  afterInit losAngeles2018 { yearTiny := 60, month := 1, day := 1 }

/-! # Theorems -/

open ExtendedZoneProcessor

/-! ## C1: findTransition -/

theorem findTransitionLoop_eq_scan (ts : TransitionStorage) (e : Int) (n i : Nat)
    (m : Option Nat) :
    ts.findTransitionLoop e n i m
      = scanLoop ts (fun c => decide (c.startEpochSeconds > e)) n i m := by
  induction n generalizing i m with
  | zero => rfl
  | succ n ih =>
    simp only [TransitionStorage.findTransitionLoop, scanLoop, ih, decide_eq_true_eq]

theorem findTransitionForDateTimeLoop_eq_scan (ts : TransitionStorage) (d : DateTuple)
    (n i : Nat) (m : Option Nat) :
    ts.findTransitionForDateTimeLoop d n i m
      = scanLoop ts (fun c => c.startDateTime.gt d) n i m := by
  induction n generalizing i m with
  | zero => rfl
  | succ n ih =>
    simp only [TransitionStorage.findTransitionForDateTimeLoop, scanLoop, ih]

/-- The scan returns the entry before the first one that stops it. -/
theorem scanLoop_prefix (ts : TransitionStorage) (stop : Transition → Bool) :
    ∀ (n i : Nat) (m : Option Nat) (k : Nat), k ≤ n →
      (∀ j, i ≤ j → j < i + n → (ts.getTransition j).isSome) →
      (∀ j a, i ≤ j → j < i + k → ts.getTransition j = some a → stop a = false) →
      (k = n ∨ ∀ a, ts.getTransition (i + k) = some a → stop a = true) →
      scanLoop ts stop n i m = some (if k = 0 then m else ts.slotAt (i + k - 1)) := by
  intro n
  induction n with
  | zero =>
    intro i m k hk _ _ _
    have : k = 0 := by omega
    subst this
    simp [scanLoop]
  | succ n ih =>
    intro i m k hk hread hpre hstop
    have hr := hread i (le_refl _) (by omega)
    obtain ⟨a, ha⟩ := Option.isSome_iff_exists.mp hr
    have ha' := ha
    unfold TransitionStorage.getTransition at ha'
    obtain ⟨p, hp, hpa⟩ := Option.bind_eq_some.mp ha'
    by_cases hk0 : k = 0
    · subst hk0
      have hs : stop a = true := by
        rcases hstop with h | h
        · omega
        · exact h a (by simpa using ha)
      simp [scanLoop, hp, hpa, hs]
    · have hs : stop a = false := hpre i a (le_refl _) (by omega) ha
      have := ih (i + 1) (some p) (k - 1) (by omega)
        (fun j h1 h2 => hread j (by omega) (by omega))
        (fun j b h1 h2 hb => hpre j b (by omega) (by omega) hb)
        (by
          rcases hstop with h | h
          · left; omega
          · right; intro b hb; apply h b
            have : i + k = i + 1 + (k - 1) := by omega
            rw [this]; exact hb)
      simp only [scanLoop, hp, hpa, hs, Option.bind, Bool.false_eq_true, if_false]
      rw [this]
      by_cases hk1 : k - 1 = 0
      · have : k = 1 := by omega
        subst this
        simp [hp]
      · have e1 : i + 1 + (k - 1) - 1 = i + k - 1 := by omega
        simp [hk1, hk0, e1]


/-- Two scans that stop on the same entries give the same result. -/
theorem scanLoop_congr (ts : TransitionStorage) (stop stop2 : Transition → Bool) :
    ∀ (n i : Nat) (m : Option Nat),
      (∀ j a, i ≤ j → j < i + n → ts.getTransition j = some a → stop a = stop2 a) →
      scanLoop ts stop n i m = scanLoop ts stop2 n i m := by
  intro n
  induction n with
  | zero => intro i m _; rfl
  | succ n ih =>
    intro i m h
    simp only [scanLoop]
    cases hp : ts.slotAt i with
    | none => rfl
    | some p =>
      cases hpa : ts.deref p with
      | none => simp [Option.bind, hpa]
      | some a =>
        have ha : ts.getTransition i = some a := by
          simp [TransitionStorage.getTransition, hp, hpa]
        have hs := h i a (le_refl _) (by omega) ha
        have hrec := ih (i + 1) (some p) (fun j b h1 h2 hb => h j b (by omega) (by omega) hb)
        simp only [Option.bind, hpa, hs, hrec]

/-- C1. In a pool whose transitions `[0, mIndexFree)` are readable and have
non-decreasing `startEpochSeconds`, `findTransition(t)` returns null when no
transition starts at or before `t` and otherwise the last transition whose
`startEpochSeconds <= t`; `getUtcOffset` (after a successful `init` that left
this pool) returns the error offset in the first case and
`forOffsetCode(offsetCode + deltaCode)` of that transition in the second; and
two instants that no `startEpochSeconds` separates get the same transition. -/
theorem C1_findTransition_lastStart (ts : TransitionStorage) (epochSeconds : Int)
    (hread : ∀ i, i < ts.mIndexFree → (ts.getTransition i).isSome)
    (hsorted : ∀ i, i < ts.mIndexFree → ∀ j, j < ts.mIndexFree → i ≤ j →
      ∀ a ∈ ts.getTransition i, ∀ b ∈ ts.getTransition j,
        a.startEpochSeconds ≤ b.startEpochSeconds) :
    ((∀ i, i < ts.mIndexFree → ∀ a ∈ ts.getTransition i,
          epochSeconds < a.startEpochSeconds) →
      ts.findTransition epochSeconds = some none ∧
      ∀ zp zp2 : ExtendedZoneProcessor,
        initForEpochSeconds zp epochSeconds = some (true, zp2) →
        zp2.mTransitionStorage = ts →
        getUtcOffset zp epochSeconds = some (TimeOffset.forError, zp2))
    ∧ (∀ i, i < ts.mIndexFree → ∀ a ∈ ts.getTransition i,
        a.startEpochSeconds ≤ epochSeconds →
        (∀ j, j < ts.mIndexFree → i < j → ∀ b ∈ ts.getTransition j,
          epochSeconds < b.startEpochSeconds) →
        ts.findTransition epochSeconds = some (ts.slotAt i) ∧
        ∀ zp zp2 : ExtendedZoneProcessor,
          initForEpochSeconds zp epochSeconds = some (true, zp2) →
          zp2.mTransitionStorage = ts →
          getUtcOffset zp epochSeconds
            = some (TimeOffset.forOffsetCode (a.offsetCode + a.deltaCode), zp2))
    ∧ (∀ e2 : Int,
        (∀ i, i < ts.mIndexFree → ∀ a ∈ ts.getTransition i,
          (a.startEpochSeconds ≤ epochSeconds ↔ a.startEpochSeconds ≤ e2)) →
        ts.findTransition e2 = ts.findTransition epochSeconds) := by
  refine ⟨?_, ?_, ?_⟩
  · intro hall
    have hf : ts.findTransition epochSeconds = some none := by
      unfold TransitionStorage.findTransition
      rw [findTransitionLoop_eq_scan]
      have := scanLoop_prefix ts (fun c => decide (c.startEpochSeconds > epochSeconds))
        ts.mIndexFree 0 none 0 (Nat.zero_le _)
        (fun j _ h2 => hread j (by omega))
        (fun j a _ h2 _ => by omega)
        (by
          by_cases h0 : ts.mIndexFree = 0
          · left; exact h0.symm
          · right; intro a ha
            have := hall 0 (by omega) a (by simpa using ha)
            simpa using this)
      simpa using this
    refine ⟨hf, ?_⟩
    intro zp zp2 hinit hts
    subst hts
    simp [getUtcOffset, hinit, ExtendedZoneProcessor.findTransition, hf]
  · intro i hi a ha hle hlast
    have ha' : ts.getTransition i = some a := ha
    obtain ⟨p, hp, hpa⟩ := Option.bind_eq_some.mp ha'
    have hf : ts.findTransition epochSeconds = some (ts.slotAt i) := by
      unfold TransitionStorage.findTransition
      rw [findTransitionLoop_eq_scan]
      have := scanLoop_prefix ts (fun c => decide (c.startEpochSeconds > epochSeconds))
        ts.mIndexFree 0 none (i + 1) (by omega)
        (fun j _ h2 => hread j (by omega))
        (fun j b _ h2 hb => by
          have := hsorted j (by omega) i hi (by omega) b hb a ha
          simp only [gt_iff_lt, decide_eq_false_iff_not, not_lt]
          omega)
        (by
          by_cases h0 : i + 1 = ts.mIndexFree
          · left; exact h0
          · right; intro b hb
            have := hlast (i + 1) (by omega) (by omega) b (by simpa using hb)
            simpa using this)
      simpa using this
    refine ⟨hf, ?_⟩
    intro zp zp2 hinit hts
    subst hts
    simp [getUtcOffset, hinit, ExtendedZoneProcessor.findTransition, hf, hp, hpa]
  · intro e2 h
    unfold TransitionStorage.findTransition
    rw [findTransitionLoop_eq_scan, findTransitionLoop_eq_scan]
    apply scanLoop_congr
    intro j a _ hj ha
    have := h j (by omega) a ha
    simp only [gt_iff_lt, decide_eq_decide]
    constructor <;> intro h1 <;> omega

/-- A successful `init` leads to the processor `afterInit`. -/
theorem init_eq_afterInit (zp : ExtendedZoneProcessor) (ld : LocalDate) (b : Bool)
    (h : (zp.init ld).map Prod.fst = some b) : zp.init ld = some (b, afterInit zp ld) := by
  unfold afterInit
  cases hx : zp.init ld with
  | none => simp [hx] at h
  | some r =>
    obtain ⟨b2, z⟩ := r
    simp [hx] at h
    simp [h]

/-- Witness of C1 on the Los Angeles pool of 2018, at
2018-03-11T10:00:00Z (epoch second 574077600), the start of the second
transition, whose total offset is -07:00. -/
theorem C1_findTransition_lastStart_witness :
    (∀ i, i < losAngeles2018.mTransitionStorage.mIndexFree →
        (losAngeles2018.mTransitionStorage.getTransition i).isSome)
    ∧ (∀ i, i < losAngeles2018.mTransitionStorage.mIndexFree →
        ∀ j, j < losAngeles2018.mTransitionStorage.mIndexFree → i ≤ j →
        ∀ a ∈ losAngeles2018.mTransitionStorage.getTransition i,
        ∀ b ∈ losAngeles2018.mTransitionStorage.getTransition j,
          a.startEpochSeconds ≤ b.startEpochSeconds)
    ∧ losAngeles2018.mTransitionStorage.findTransition 574077600
        = some (losAngeles2018.mTransitionStorage.slotAt 1)
    ∧ getUtcOffset (newProcessor kZoneAmerica_Los_Angeles) 574077600
        = some (TimeOffset.forOffsetCode
            ((losAngeles2018.mTransitionStorage.mPool.getD 1 default).offsetCode
              + (losAngeles2018.mTransitionStorage.mPool.getD 1 default).deltaCode),
            losAngeles2018)
    ∧ (losAngeles2018.mTransitionStorage.mPool.getD 1 default).offsetCode
        + (losAngeles2018.mTransitionStorage.mPool.getD 1 default).deltaCode = -28 := by
  have h := (C1_findTransition_lastStart losAngeles2018.mTransitionStorage 574077600
    (by decide) (by decide)).2.1 1 (by decide)
    (losAngeles2018.mTransitionStorage.mPool.getD 1 default) (by decide) (by decide)
    (by decide)
  have hd : LocalDate.forEpochSeconds 574077600 = { yearTiny := 18, month := 3, day := 11 } := by
    decide
  have hinit : initForEpochSeconds (newProcessor kZoneAmerica_Los_Angeles) 574077600
      = some (true, losAngeles2018) := by
    unfold initForEpochSeconds losAngeles2018
    rw [hd]
    exact init_eq_afterInit _ _ true (by decide)
  exact ⟨by decide, by decide, h.1,
    h.2 (newProcessor kZoneAmerica_Los_Angeles) losAngeles2018 hinit rfl, by decide⟩

/-! ## C2: findTransitionForDateTime -/

theorem DateTuple.lt_iff (a b : DateTuple) :
    a.lt b = true ↔
      (a.yearTiny < b.yearTiny ∨ (a.yearTiny = b.yearTiny ∧
        (a.month < b.month ∨ (a.month = b.month ∧
          (a.day < b.day ∨ (a.day = b.day ∧ a.timeCode < b.timeCode)))))) := by
  unfold DateTuple.lt
  split_ifs <;> simp <;> omega

theorem DateTuple.le_iff (a b : DateTuple) :
    a.le b = true ↔
      (a.yearTiny < b.yearTiny ∨ (a.yearTiny = b.yearTiny ∧
        (a.month < b.month ∨ (a.month = b.month ∧
          (a.day < b.day ∨ (a.day = b.day ∧ a.timeCode ≤ b.timeCode)))))) := by
  unfold DateTuple.le
  rw [Bool.not_eq_true', ← Bool.not_eq_true, DateTuple.lt_iff]
  omega

theorem DateTuple.le_trans {a b c : DateTuple} (h1 : a.le b = true) (h2 : b.le c = true) :
    a.le c = true := by
  rw [DateTuple.le_iff] at *
  omega

theorem DateTuple.lt_of_lt_of_le {a b c : DateTuple} (h1 : a.lt b = true) (h2 : b.le c = true) :
    a.lt c = true := by
  rw [DateTuple.le_iff] at h2
  rw [DateTuple.lt_iff] at *
  omega

theorem DateTuple.gt_false_iff_le (a b : DateTuple) : a.gt b = false ↔ a.le b = true := by
  simp [DateTuple.gt, DateTuple.le]

/-- C2. In a pool whose transitions `[0, mIndexFree)` are readable and have
non-decreasing `startDateTime`, `findTransitionForDateTime(ldt)` compares with
the tuple `(yearTiny, month, day, hour*4 + minute/15, 'w')` and returns null
when every transition starts after it, and otherwise the last transition whose
`startDateTime <= ldt`. Hence in a gap between consecutive transitions A and B
(`A.untilDateTime <= ldt < B.startDateTime`, A's interval not empty) it returns
A, and in an overlap (`B.startDateTime <= ldt < A.untilDateTime`, no later
transition started yet) it returns the later transition B. -/
theorem C2_findTransitionForDateTime_lastStart (ts : TransitionStorage) (ldt : LocalDateTime)
    (hread : ∀ i, i < ts.mIndexFree → (ts.getTransition i).isSome)
    (hsorted : ∀ i, i < ts.mIndexFree → ∀ j, j < ts.mIndexFree → i ≤ j →
      ∀ a ∈ ts.getTransition i, ∀ b ∈ ts.getTransition j,
        a.startDateTime.le b.startDateTime = true) :
    TransitionStorage.localDateTuple ldt
        = { yearTiny := ldt.yearTiny, month := ldt.month, day := ldt.day,
            timeCode := wrap8 (ldt.hour * 4 + ldt.minute / 15), modifier := 'w' }
    ∧ ((∀ i, i < ts.mIndexFree → ∀ a ∈ ts.getTransition i,
          (TransitionStorage.localDateTuple ldt).lt a.startDateTime = true) →
        ts.findTransitionForDateTime ldt = some none)
    ∧ (∀ i, i < ts.mIndexFree → ∀ a ∈ ts.getTransition i,
        a.startDateTime.le (TransitionStorage.localDateTuple ldt) = true →
        (∀ j, j < ts.mIndexFree → i < j → ∀ b ∈ ts.getTransition j,
          (TransitionStorage.localDateTuple ldt).lt b.startDateTime = true) →
        ts.findTransitionForDateTime ldt = some (ts.slotAt i))
    ∧ (∀ i, i + 1 < ts.mIndexFree →
        ∀ a ∈ ts.getTransition i, ∀ b ∈ ts.getTransition (i + 1),
        a.startDateTime.le a.untilDateTime = true →
        a.untilDateTime.le (TransitionStorage.localDateTuple ldt) = true →
        (TransitionStorage.localDateTuple ldt).lt b.startDateTime = true →
        ts.findTransitionForDateTime ldt = some (ts.slotAt i))
    ∧ (∀ i, i + 1 < ts.mIndexFree →
        ∀ a ∈ ts.getTransition i, ∀ b ∈ ts.getTransition (i + 1),
        b.startDateTime.le (TransitionStorage.localDateTuple ldt) = true →
        (TransitionStorage.localDateTuple ldt).lt a.untilDateTime = true →
        (∀ j, j < ts.mIndexFree → i + 1 < j → ∀ c ∈ ts.getTransition j,
          (TransitionStorage.localDateTuple ldt).lt c.startDateTime = true) →
        ts.findTransitionForDateTime ldt = some (ts.slotAt (i + 1))) := by
  have key : ∀ i, i < ts.mIndexFree → ∀ a ∈ ts.getTransition i,
      a.startDateTime.le (TransitionStorage.localDateTuple ldt) = true →
      (∀ j, j < ts.mIndexFree → i < j → ∀ b ∈ ts.getTransition j,
        (TransitionStorage.localDateTuple ldt).lt b.startDateTime = true) →
      ts.findTransitionForDateTime ldt = some (ts.slotAt i) := by
    intro i hi a ha hle hlast
    unfold TransitionStorage.findTransitionForDateTime
    rw [findTransitionForDateTimeLoop_eq_scan]
    have := scanLoop_prefix ts
      (fun c => c.startDateTime.gt (TransitionStorage.localDateTuple ldt))
      ts.mIndexFree 0 none (i + 1) (by omega)
      (fun j _ h2 => hread j (by omega))
      (fun j b _ h2 hb => by
        have h1 := hsorted j (by omega) i hi (by omega) b hb a ha
        exact (DateTuple.gt_false_iff_le _ _).mpr (DateTuple.le_trans h1 hle))
      (by
        by_cases h0 : i + 1 = ts.mIndexFree
        · left; exact h0
        · right; intro b hb
          have := hlast (i + 1) (by omega) (by omega) b (by simpa using hb)
          simpa [DateTuple.gt] using this)
    simpa using this
  refine ⟨rfl, ?_, key, ?_, ?_⟩
  · intro hall
    unfold TransitionStorage.findTransitionForDateTime
    rw [findTransitionForDateTimeLoop_eq_scan]
    have := scanLoop_prefix ts
      (fun c => c.startDateTime.gt (TransitionStorage.localDateTuple ldt))
      ts.mIndexFree 0 none 0 (Nat.zero_le _)
      (fun j _ h2 => hread j (by omega))
      (fun j a _ h2 _ => by omega)
      (by
        by_cases h0 : ts.mIndexFree = 0
        · left; exact h0.symm
        · right; intro a ha
          have := hall 0 (by omega) a (by simpa using ha)
          simpa [DateTuple.gt] using this)
    simpa using this
  · intro i hi a ha b hb hne hun hlt
    apply key i (by omega) a ha (DateTuple.le_trans hne hun)
    intro j hj hij c hc
    have h1 := hsorted (i + 1) hi j hj (by omega) b hb c hc
    exact DateTuple.lt_of_lt_of_le hlt h1
  · intro i hi a _ b hb hle _ hlast
    exact key (i + 1) hi b hb hle hlast


/-- Witness of C2 on the Los Angeles pool of 2018: 2018-11-04T01:30:00 lies
in the overlap of the second transition (until 02:00) and the third (start
01:00), and resolves to the third, whose total offset is -08:00. -/
theorem C2_findTransitionForDateTime_lastStart_witness :
    (∀ i, i < losAngeles2018.mTransitionStorage.mIndexFree →
        (losAngeles2018.mTransitionStorage.getTransition i).isSome)
    ∧ (∀ i, i < losAngeles2018.mTransitionStorage.mIndexFree →
        ∀ j, j < losAngeles2018.mTransitionStorage.mIndexFree → i ≤ j →
        ∀ a ∈ losAngeles2018.mTransitionStorage.getTransition i,
        ∀ b ∈ losAngeles2018.mTransitionStorage.getTransition j,
          a.startDateTime.le b.startDateTime = true)
    ∧ losAngeles2018.mTransitionStorage.findTransitionForDateTime
          { yearTiny := 18, month := 11, day := 4, hour := 1, minute := 30, second := 0 }
        = some (losAngeles2018.mTransitionStorage.slotAt 2)
    ∧ (losAngeles2018.mTransitionStorage.getTransition 2).map
          (fun t => t.offsetCode + t.deltaCode) = some (-32) := by
  have h := (C2_findTransitionForDateTime_lastStart losAngeles2018.mTransitionStorage
    { yearTiny := 18, month := 11, day := 4, hour := 1, minute := 30, second := 0 }
    (by decide) (by decide)).2.2.2.2 1 (by decide)
    (losAngeles2018.mTransitionStorage.mPool.getD 1 default) (by decide)
    (losAngeles2018.mTransitionStorage.mPool.getD 4 default) (by decide)
    (by decide) (by decide) (by decide)
  exact ⟨by decide, by decide, h, by decide⟩

/-! ## C9: the year cache -/

/-- A cache that counts as filled for the year makes `init` return at once. -/
theorem init_of_isFilled (zp : ExtendedZoneProcessor) (ld : LocalDate)
    (h : zp.isFilled ld.year = true) : zp.init ld = some (true, zp) := by
  unfold ExtendedZoneProcessor.init
  simp [h]

/-- C9. When the cache is filled for the year of the query, `init` returns
success and leaves the whole processor (cached year, filled flag, matches and
transition pool) unchanged, so a query leaves it unchanged and a repeated
query gives the same answer; `init` changes the processor only when the cache
is not filled or the requested year differs from the cached year. -/
theorem C9_init_cached (zp : ExtendedZoneProcessor) (ld : LocalDate)
    (h : zp.isFilled ld.year = true) :
    zp.init ld = some (true, zp)
    ∧ (∀ epochSeconds, LocalDate.forEpochSeconds epochSeconds = ld →
        ∀ r, getUtcOffset zp epochSeconds = some r →
          r.2 = zp ∧ getUtcOffset r.2 epochSeconds = some r)
    ∧ (∀ (zp0 : ExtendedZoneProcessor) (ld0 : LocalDate) r, zp0.init ld0 = some r → r.2 ≠ zp0 →
        zp0.mIsFilled = false ∨ ld0.year ≠ zp0.mYear) := by
  have hinit : zp.init ld = some (true, zp) := init_of_isFilled zp ld h
  refine ⟨hinit, ?_, ?_⟩
  · intro e he r hr
    have h1 : initForEpochSeconds zp e = some (true, zp) := by
      unfold initForEpochSeconds
      rw [he]; exact hinit
    have h2 : r.2 = zp := by
      unfold getUtcOffset at hr
      rw [h1] at hr
      simp only [Option.bind, Bool.not_true, Bool.false_eq_true, if_false] at hr
      cases hf : zp.findTransition e with
      | none => simp [hf] at hr
      | some tr =>
        rw [hf] at hr
        cases tr with
        | none => simp at hr; rw [← hr]
        | some p =>
          simp only at hr
          cases hd : zp.mTransitionStorage.deref p with
          | none => simp [hd] at hr
          | some t => simp [hd] at hr; rw [← hr]
    exact ⟨h2, by rw [h2]; exact hr⟩
  · intro zp0 ld0 r hr hne
    by_contra hcon
    have hf : zp0.isFilled ld0.year = true := by
      unfold isFilled
      simp only [not_or, Bool.not_eq_false, ne_eq, not_not] at hcon
      simp [hcon.1, hcon.2]
    unfold ExtendedZoneProcessor.init at hr
    simp [hf] at hr
    exact hne (by rw [← hr])

/-- Witness of C9: the Los Angeles processor with 2018 cached, queried again
for a date of 2018. -/
theorem C9_init_cached_witness :
    losAngeles2018.isFilled (LocalDate.year { yearTiny := 18, month := 11, day := 4 }) = true
    ∧ losAngeles2018.init { yearTiny := 18, month := 11, day := 4 }
        = some (true, losAngeles2018) :=
  ⟨by decide, (C9_init_cached losAngeles2018 { yearTiny := 18, month := 11, day := 4 }
    (by decide)).1⟩

/-! ## C10: a failing init -/

/-- `init` returns failure exactly on its out-of-range path, where it has
set the year, cleared the match count and re-initialised the storage. -/
theorem init_eq_false (zp : ExtendedZoneProcessor) (ld : LocalDate) (zp2 : ExtendedZoneProcessor)
    (h : zp.init ld = some (false, zp2)) :
    zp2 = { zp with
      mYear := ld.year
      mNumMatches := 0
      mTransitionStorage := zp.mTransitionStorage.init kMaxTransitions } := by
  unfold ExtendedZoneProcessor.init at h
  by_cases hf : zp.isFilled ld.year = true
  · simp [hf] at h
  · simp only [hf, Bool.false_eq_true, if_false] at h
    by_cases hr : ld.year < zp.mZoneInfo.startYear - 1 ∨ zp.mZoneInfo.untilYear < ld.year
    · simp only [hr, if_true, Option.some.injEq, Prod.mk.injEq, true_and] at h
      exact h.symm
    · simp only [hr, if_false] at h
      simp only [Option.bind_eq_some] at h
      obtain ⟨_, _, _, _, _, _, _, _, _, _, h⟩ := h
      simp at h

/-- An out-of-range year makes `init` fail unless the cache counts as filled
for that year. -/
theorem init_outOfRange (zp : ExtendedZoneProcessor) (ld : LocalDate)
    (hf : zp.isFilled ld.year = false)
    (hr : ld.year < zp.mZoneInfo.startYear - 1 ∨ zp.mZoneInfo.untilYear < ld.year) :
    zp.init ld = some (false,
      { zp with
        mYear := ld.year
        mNumMatches := 0
        mTransitionStorage := zp.mTransitionStorage.init kMaxTransitions }) := by
  unfold ExtendedZoneProcessor.init
  simp [hf, hr]

/-- C10 (as amended). A failing `init(y)` (a year outside the supported range,
the cache not counted as filled for it) returns false after setting the cached
year to `y`, clearing the match count and re-initialising the pool: all three
pool indexes are 0 and the pointer vector is the identity, while the pool
slots, the matches array, the high water mark and the zone are as before. -/
theorem C10_init_failure_frame (zp : ExtendedZoneProcessor) (ld : LocalDate)
    (hf : zp.isFilled ld.year = false)
    (hr : ld.year < zp.mZoneInfo.startYear - 1 ∨ zp.mZoneInfo.untilYear < ld.year) :
    ∃ zp2, zp.init ld = some (false, zp2)
      ∧ zp2.mYear = ld.year
      ∧ zp2.mNumMatches = 0
      ∧ zp2.mMatches = zp.mMatches
      ∧ zp2.mZoneInfo = zp.mZoneInfo
      ∧ zp2.mTransitionStorage.mIndexPrior = 0
      ∧ zp2.mTransitionStorage.mIndexCandidates = 0
      ∧ zp2.mTransitionStorage.mIndexFree = 0
      ∧ zp2.mTransitionStorage.mTransitions = List.range kMaxTransitions
      ∧ zp2.mTransitionStorage.mPool = zp.mTransitionStorage.mPool
      ∧ zp2.mTransitionStorage.mHighWater = zp.mTransitionStorage.mHighWater :=
  ⟨_, init_outOfRange zp ld hf hr, rfl, rfl, rfl, rfl, rfl, rfl, rfl, rfl, rfl, rfl⟩

/-- Witness of C10 (as amended): the Los Angeles processor with 2018 cached,
asked for the year 2060. -/
theorem C10_init_failure_frame_witness :
    losAngeles2018.isFilled (LocalDate.year { yearTiny := 60, month := 1, day := 1 }) = false
    ∧ (LocalDate.year { yearTiny := 60, month := 1, day := 1 }
          < losAngeles2018.mZoneInfo.startYear - 1
        ∨ losAngeles2018.mZoneInfo.untilYear
          < LocalDate.year { yearTiny := 60, month := 1, day := 1 })
    ∧ ∃ zp2, losAngeles2018.init { yearTiny := 60, month := 1, day := 1 } = some (false, zp2)
      ∧ zp2.mYear = 2060
      ∧ zp2.mNumMatches = 0
      ∧ zp2.mTransitionStorage.mIndexFree = 0 := by
  obtain ⟨zp2, h1, h2, h3, _, _, _, _, h4, _⟩ :=
    C10_init_failure_frame losAngeles2018 { yearTiny := 60, month := 1, day := 1 }
      (by decide) (by decide)
  exact ⟨by decide, by decide, zp2, h1, h2, h3, h4⟩

/-- Counterexample of C10 as stated: on the Los Angeles processor with 2018
cached (one match, three transitions), the failing `init` for 2060 leaves
`mIsFilled` true, and clears the match count and the pool indexes. -/
theorem C10_counterexample :
    losAngeles2018.mIsFilled = true
    ∧ losAngeles2018.mNumMatches = 1
    ∧ losAngeles2018.mTransitionStorage.mIndexFree = 3
    ∧ (losAngeles2018.init { yearTiny := 60, month := 1, day := 1 }).map
        (fun r => (r.1, r.2.mIsFilled, r.2.mNumMatches, r.2.mTransitionStorage.mIndexPrior,
          r.2.mTransitionStorage.mIndexCandidates, r.2.mTransitionStorage.mIndexFree))
        = some (false, true, 0, 0, 0, 0) := by
  decide

/-! ## C5: out-of-range years -/

/-- C5, the code at the failing input. On the Los Angeles zone (years 2000 to
2050) a query for 2018 succeeds; a query for 2060-01-01 then fails but leaves
`mIsFilled` set with `mYear = 2060`; the same query repeated finds the cache
"filled": `init` reports success although the year is out of range,
`getUtcOffset` still returns the error offset (no transition), and
`getDeltaOffset` and `getAbbrev` dereference the null transition. -/
theorem C5_stale_filled_flag :
    LocalDate.forEpochSeconds 1893456000 = { yearTiny := 60, month := 1, day := 1 }
    ∧ kZoneAmerica_Los_Angeles.untilYear
        < LocalDate.year { yearTiny := 60, month := 1, day := 1 }
    ∧ (newProcessor kZoneAmerica_Los_Angeles).init { yearTiny := 18, month := 3, day := 11 }
        = some (true, losAngeles2018)
    ∧ initForEpochSeconds losAngeles2018 1893456000 = some (false, losAngelesAfterFailure)
    ∧ losAngelesAfterFailure.mIsFilled = true
    ∧ initForEpochSeconds losAngelesAfterFailure 1893456000
        = some (true, losAngelesAfterFailure)
    ∧ getUtcOffset losAngelesAfterFailure 1893456000
        = some (TimeOffset.forError, losAngelesAfterFailure)
    ∧ getDeltaOffset losAngelesAfterFailure 1893456000 = none
    ∧ getAbbrev losAngelesAfterFailure 1893456000 = none := by
  have hd : LocalDate.forEpochSeconds 1893456000 = { yearTiny := 60, month := 1, day := 1 } := by
    decide
  have h3 : initForEpochSeconds losAngelesAfterFailure 1893456000
      = some (true, losAngelesAfterFailure) := by
    unfold initForEpochSeconds
    rw [hd]
    exact init_of_isFilled _ _ (by decide)
  refine ⟨hd, by decide, init_eq_afterInit _ _ true (by decide), ?_, by decide, h3, ?_, ?_, ?_⟩
  · unfold initForEpochSeconds losAngelesAfterFailure
    rw [hd]
    exact init_eq_afterInit _ _ false (by decide)
  · unfold getUtcOffset
    rw [h3]
    have : losAngelesAfterFailure.findTransition 1893456000 = some none := by decide
    simp [this]
  · unfold getDeltaOffset
    rw [h3]
    have : losAngelesAfterFailure.findTransition 1893456000 = some none := by decide
    simp [this]
  · unfold getAbbrev
    rw [h3]
    have : losAngelesAfterFailure.findTransition 1893456000 = some none := by decide
    simp [this]

/-! ## C8: the pools after init -/

namespace TransitionStorage

theorem store_frame {ts ts2 : TransitionStorage} {p : Nat} {t : Transition}
    (h : ts.store p t = some ts2) :
    ts2.indexes = ts.indexes ∧ ts2.mTransitions = ts.mTransitions
      ∧ ts2.mHighWater = ts.mHighWater ∧ ts2.mPool.length = ts.mPool.length := by
  unfold store at h
  split_ifs at h
  simp only [Option.some.injEq] at h
  subst h
  simp [indexes]

theorem modify_frame {ts ts2 : TransitionStorage} {p : Nat} {f : Transition → Transition}
    (h : ts.modify p f = some ts2) :
    ts2.indexes = ts.indexes ∧ ts2.mTransitions = ts.mTransitions
      ∧ ts2.mHighWater = ts.mHighWater ∧ ts2.mPool.length = ts.mPool.length := by
  unfold modify at h
  obtain ⟨t, _, h⟩ := Option.bind_eq_some.mp h
  exact store_frame h

theorem getFreeAgent_frame {SIZE : Nat} {ts : TransitionStorage} {r : Nat × TransitionStorage}
    (h : ts.getFreeAgent SIZE = some r) :
    r.2.indexes = ts.indexes ∧ r.2.mTransitions = ts.mTransitions ∧ r.2.mPool = ts.mPool := by
  unfold getFreeAgent at h
  simp only at h
  split_ifs at h <;>
    (obtain ⟨p, _, h⟩ := Option.map_eq_some'.mp h; subst h; simp [indexes])

end TransitionStorage

theorem fixTransitionTimesLoop_frame :
    ∀ (n iter prev : Nat) (ts ts2 : TransitionStorage),
      fixTransitionTimesLoop n iter prev ts = some ts2 →
      ts2.indexes = ts.indexes ∧ ts2.mTransitions = ts.mTransitions
        ∧ ts2.mHighWater = ts.mHighWater ∧ ts2.mPool.length = ts.mPool.length := by
  intro n
  induction n with
  | zero =>
    intro iter prev ts ts2 h
    simp only [fixTransitionTimesLoop, Option.some.injEq] at h
    subst h; exact ⟨rfl, rfl, rfl, rfl⟩
  | succ n ih =>
    intro iter prev ts ts2 h
    simp only [fixTransitionTimesLoop, Option.bind_eq_some] at h
    obtain ⟨curr, _, currT, _, prevT, _, ts1, hs, h⟩ := h
    have h1 := TransitionStorage.store_frame hs
    have h2 := ih _ _ _ _ h
    exact ⟨h2.1.trans h1.1, h2.2.1.trans h1.2.1, h2.2.2.1.trans h1.2.2.1,
      h2.2.2.2.trans h1.2.2.2⟩

theorem fixTransitionTimes_frame {ts ts2 : TransitionStorage} {b e : Nat}
    (h : fixTransitionTimes ts b e = some ts2) :
    ts2.indexes = ts.indexes ∧ ts2.mTransitions = ts.mTransitions
      ∧ ts2.mHighWater = ts.mHighWater ∧ ts2.mPool.length = ts.mPool.length := by
  unfold fixTransitionTimes at h
  obtain ⟨prev, _, h⟩ := Option.bind_eq_some.mp h
  exact fixTransitionTimesLoop_frame _ _ _ _ _ h

theorem generateStartUntilLoop_frame :
    ∀ (n iter prev : Nat) (isAfterFirst : Bool) (ts : TransitionStorage)
      (r : TransitionStorage × Nat),
      generateStartUntilLoop n iter prev isAfterFirst ts = some r →
      r.1.indexes = ts.indexes ∧ r.1.mTransitions = ts.mTransitions
        ∧ r.1.mHighWater = ts.mHighWater ∧ r.1.mPool.length = ts.mPool.length := by
  intro n
  induction n with
  | zero =>
    intro iter prev b ts r h
    simp only [generateStartUntilLoop, Option.some.injEq] at h
    subst h; exact ⟨rfl, rfl, rfl, rfl⟩
  | succ n ih =>
    intro iter prev b ts r h
    simp only [generateStartUntilLoop, Option.bind_eq_some] at h
    obtain ⟨t, _, tT0, _, ts1, h1, prevT, _, tT, _, ts2, h2, h⟩ := h
    have e1 : ts1.indexes = ts.indexes ∧ ts1.mTransitions = ts.mTransitions
        ∧ ts1.mHighWater = ts.mHighWater ∧ ts1.mPool.length = ts.mPool.length := by
      cases b with
      | false =>
        simp only [Bool.false_eq_true, if_false, Option.some.injEq] at h1
        subst h1; exact ⟨rfl, rfl, rfl, rfl⟩
      | true =>
        simp only [if_true] at h1
        exact TransitionStorage.modify_frame h1
    have e2 := TransitionStorage.store_frame h2
    have e3 := ih _ _ _ _ _ h
    exact ⟨e3.1.trans (e2.1.trans e1.1), e3.2.1.trans (e2.2.1.trans e1.2.1),
      e3.2.2.1.trans (e2.2.2.1.trans e1.2.2.1), e3.2.2.2.trans (e2.2.2.2.trans e1.2.2.2)⟩

theorem generateStartUntilTimes_frame {ts ts2 : TransitionStorage} {ms : List ZoneMatch}
    {b e : Nat} (h : generateStartUntilTimes ts ms b e = some ts2) :
    ts2.indexes = ts.indexes ∧ ts2.mTransitions = ts.mTransitions
      ∧ ts2.mHighWater = ts.mHighWater ∧ ts2.mPool.length = ts.mPool.length := by
  unfold generateStartUntilTimes at h
  simp only [Option.bind_eq_some] at h
  obtain ⟨prev0, _, r, hl, prevT, _, mi, _, m, _, h⟩ := h
  have e1 := generateStartUntilLoop_frame _ _ _ _ _ _ hl
  have e2 := TransitionStorage.modify_frame h
  exact ⟨e2.1.trans e1.1, e2.2.1.trans e1.2.1, e2.2.2.1.trans e1.2.2.1,
    e2.2.2.2.trans e1.2.2.2⟩

theorem calcAbbreviationsLoop_frame (ms : List ZoneMatch) :
    ∀ (n iter : Nat) (ts ts2 : TransitionStorage),
      calcAbbreviationsLoop ms n iter ts = some ts2 →
      ts2.indexes = ts.indexes ∧ ts2.mTransitions = ts.mTransitions
        ∧ ts2.mHighWater = ts.mHighWater ∧ ts2.mPool.length = ts.mPool.length := by
  intro n
  induction n with
  | zero =>
    intro iter ts ts2 h
    simp only [calcAbbreviationsLoop, Option.some.injEq] at h
    subst h; exact ⟨rfl, rfl, rfl, rfl⟩
  | succ n ih =>
    intro iter ts ts2 h
    simp only [calcAbbreviationsLoop, Option.bind_eq_some] at h
    obtain ⟨t, _, tT, _, fmt, _, letter, _, buf, _, ts1, hs, h⟩ := h
    have h1 := TransitionStorage.store_frame hs
    have h2 := ih _ _ _ h
    exact ⟨h2.1.trans h1.1, h2.2.1.trans h1.2.1, h2.2.2.1.trans h1.2.2.1,
      h2.2.2.2.trans h1.2.2.2⟩

theorem collapsed_of_indexes {ts ts2 : TransitionStorage} (h : ts2.indexes = ts.indexes)
    (hc : ts.collapsed) : ts2.collapsed := by
  unfold TransitionStorage.indexes at h
  unfold TransitionStorage.collapsed at *
  simp only [Prod.mk.injEq] at h
  omega

theorem findTransitionsForMatch_collapsed {ts ts2 : TransitionStorage} {ms : List ZoneMatch}
    {i : Nat} (hc : ts.collapsed) (h : findTransitionsForMatch ts ms i = some ts2) :
    ts2.collapsed := by
  unfold findTransitionsForMatch at h
  obtain ⟨m, _, h⟩ := Option.bind_eq_some.mp h
  cases hp : m.era.zonePolicy with
  | none =>
    simp only [hp] at h
    unfold findTransitionsFromSimpleMatch at h
    obtain ⟨r, hr, h⟩ := Option.bind_eq_some.mp h
    obtain ⟨ts1, hm, h⟩ := Option.map_eq_some'.mp h
    have e1 := TransitionStorage.getFreeAgent_frame hr
    have e2 := TransitionStorage.modify_frame hm
    have c1 : ts1.collapsed := collapsed_of_indexes (e2.1.trans e1.1) hc
    subst h
    unfold TransitionStorage.addFreeAgentToActivePool
    split_ifs
    · exact c1
    · simp [TransitionStorage.collapsed]
  | some pol =>
    simp only [hp] at h
    unfold findTransitionsFromNamedMatch at h
    simp only [Option.bind_eq_some] at h
    obtain ⟨ts1, _, ts2', _, ts3, _, h⟩ := h
    unfold TransitionStorage.addActiveCandidatesToActivePool at h
    obtain ⟨r, _, h⟩ := Option.map_eq_some'.mp h
    subst h
    simp [TransitionStorage.collapsed]

theorem findTransitionsLoop_collapsed (ms : List ZoneMatch) :
    ∀ (n i : Nat) (ts ts2 : TransitionStorage), ts.collapsed →
      findTransitionsLoop ms n i ts = some ts2 → ts2.collapsed := by
  intro n
  induction n with
  | zero =>
    intro i ts ts2 hc h
    simp only [findTransitionsLoop, Option.some.injEq] at h
    subst h; exact hc
  | succ n ih =>
    intro i ts ts2 hc h
    simp only [findTransitionsLoop, Option.bind_eq_some] at h
    obtain ⟨ts1, h1, h⟩ := h
    exact ih _ _ _ (findTransitionsForMatch_collapsed hc h1) h

/-- The storage after a recomputing, successful `init` has empty Prior and
Candidate pools. -/
theorem init_recompute_collapsed (zp : ExtendedZoneProcessor) (ld : LocalDate)
    (b : Bool) (zp2 : ExtendedZoneProcessor)
    (hf : zp.isFilled ld.year = false) (h : zp.init ld = some (b, zp2)) :
    zp2.mTransitionStorage.collapsed := by
  unfold ExtendedZoneProcessor.init at h
  simp only [hf, Bool.false_eq_true, if_false] at h
  split_ifs at h with hr
  · simp only [Option.some.injEq, Prod.mk.injEq] at h
    rw [← h.2]
    simp [TransitionStorage.collapsed, TransitionStorage.init]
  · simp only [Option.bind_eq_some] at h
    obtain ⟨fm, _, ts1, h1, ts2, h2, ts3, h3, ts4, h4, h⟩ := h
    simp only [Option.some.injEq, Prod.mk.injEq] at h
    rw [← h.2]
    have c1 : ts1.collapsed :=
      findTransitionsLoop_collapsed _ _ _ _ _
        (by simp [TransitionStorage.collapsed, TransitionStorage.init]) h1
    have e2 := fixTransitionTimes_frame h2
    have e3 := generateStartUntilTimes_frame h3
    have e4 := calcAbbreviationsLoop_frame _ _ _ _ _ h4
    exact collapsed_of_indexes (e4.1.trans (e3.1.trans e2.1)) c1

/-- C8. After a successful `init(year)` the Prior and Candidate pools are
empty (`mIndexPrior == mIndexCandidates == mIndexFree`), so the Active pool
is exactly `[0, mIndexFree)`: for every zone and year when `init` recomputes
the cache, and on a cache hit for every processor whose cached pool already
has this shape. The constructed processor (nothing cached) has it, and every
call of `init`, successful or not, keeps it. -/
theorem C8_init_pools_collapsed (zp : ExtendedZoneProcessor) (ld : LocalDate) (b : Bool)
    (zp2 : ExtendedZoneProcessor)
    (hzp : zp.mIsFilled = true → zp.mTransitionStorage.collapsed)
    (h : zp.init ld = some (b, zp2)) :
    (b = true →
      zp2.mTransitionStorage.mIndexPrior = zp2.mTransitionStorage.mIndexCandidates
      ∧ zp2.mTransitionStorage.mIndexCandidates = zp2.mTransitionStorage.mIndexFree)
    ∧ (zp2.mIsFilled = true → zp2.mTransitionStorage.collapsed) := by
  have hc : zp2.mTransitionStorage.collapsed := by
    cases hf : zp.isFilled ld.year with
    | false => exact init_recompute_collapsed zp ld b zp2 hf h
    | true =>
      have h2 := init_of_isFilled zp ld hf
      rw [h2] at h
      simp only [Option.some.injEq, Prod.mk.injEq] at h
      rw [← h.2]
      apply hzp
      unfold isFilled at hf
      simp only [Bool.and_eq_true] at hf
      exact hf.1
  exact ⟨fun _ => ⟨hc.1, hc.2⟩, fun _ => hc⟩

/-- Witness of C8: `init` of the constructed Los Angeles processor for
2018. -/
theorem C8_init_pools_collapsed_witness :
    ((newProcessor kZoneAmerica_Los_Angeles).mIsFilled = true →
        (newProcessor kZoneAmerica_Los_Angeles).mTransitionStorage.collapsed)
    ∧ (newProcessor kZoneAmerica_Los_Angeles).init { yearTiny := 18, month := 3, day := 11 }
        = some (true, losAngeles2018)
    ∧ losAngeles2018.mTransitionStorage.mIndexPrior
        = losAngeles2018.mTransitionStorage.mIndexCandidates
    ∧ losAngeles2018.mTransitionStorage.mIndexCandidates
        = losAngeles2018.mTransitionStorage.mIndexFree
    ∧ losAngeles2018.mTransitionStorage.mIndexFree = 3 := by
  have hi : (newProcessor kZoneAmerica_Los_Angeles).init { yearTiny := 18, month := 3, day := 11 }
      = some (true, losAngeles2018) := init_eq_afterInit _ _ true (by decide)
  have h := (C8_init_pools_collapsed (newProcessor kZoneAmerica_Los_Angeles)
    { yearTiny := 18, month := 3, day := 11 } true losAngeles2018 (by decide) hi).1 rfl
  exact ⟨by decide, hi, h.1, h.2, by decide⟩

/-! ## Civil calendar arithmetic -/

theorem LocalDate.toEpochDays_eq (ld : LocalDate) :
    ld.toEpochDays = epochDaysOf ld.yearTiny ld.month ld.day := rfl

theorem LocalDate.isLeapYear_iff (y : Int) :
    LocalDate.isLeapYear y = true ↔ (y % 4 = 0 ∧ (y % 100 ≠ 0 ∨ y % 400 = 0)) := by
  simp [LocalDate.isLeapYear]

theorem LocalDate.daysInMonth_cases (y m : Int) :
    (m = 2 ∧ (y % 4 = 0 ∧ (y % 100 ≠ 0 ∨ y % 400 = 0)) ∧ LocalDate.daysInMonth y m = 29)
    ∨ (m = 2 ∧ ¬ (y % 4 = 0 ∧ (y % 100 ≠ 0 ∨ y % 400 = 0)) ∧ LocalDate.daysInMonth y m = 28)
    ∨ ((m = 4 ∨ m = 6 ∨ m = 9 ∨ m = 11) ∧ LocalDate.daysInMonth y m = 30)
    ∨ (m ≠ 2 ∧ m ≠ 4 ∧ m ≠ 6 ∧ m ≠ 9 ∧ m ≠ 11 ∧ LocalDate.daysInMonth y m = 31) := by
  unfold LocalDate.daysInMonth
  by_cases h2 : m = 2
  · by_cases hl : LocalDate.isLeapYear y = true
    · left; refine ⟨h2, (LocalDate.isLeapYear_iff y).mp hl, ?_⟩; simp [h2, hl]
    · right; left
      refine ⟨h2, fun h => hl ((LocalDate.isLeapYear_iff y).mpr h), ?_⟩; simp [h2, hl]
  · by_cases h30 : m = 4 ∨ m = 6 ∨ m = 9 ∨ m = 11
    · right; right; left; exact ⟨h30, by simp [h2, h30]⟩
    · right; right; right
      simp only [not_or] at h30
      exact ⟨h2, h30.1, h30.2.1, h30.2.2.1, h30.2.2.2, by simp [h2, h30]⟩

theorem yearPart_eq (Y : Int) :
    (1461 * Y) / 4 - (3 * ((Y + 100) / 100)) / 4 = 365 * Y + Y / 4 - Y / 100 + Y / 400 := by
  have h1 : (1461 * Y) / 4 = 365 * Y + Y / 4 := by omega
  have h2 : (Y + 100) / 100 = Y / 100 + 1 := by omega
  have h3 : Y / 400 = (Y / 100) / 4 := by omega
  have h4 : (3 * (Y / 100 + 1)) / 4 = Y / 100 - (Y / 100) / 4 := by omega
  rw [h1, h2, h4, h3]
  omega

/-- The day number in closed form: `Y` is the year shifted so that January
and February belong to the previous year. -/
theorem epochDaysOf_eq (y m d : Int) :
    epochDaysOf y m d =
      (if m ≤ 2 then
        365 * (y + 6799) + (y + 6799) / 4 - (y + 6799) / 100 + (y + 6799) / 400
          + (367 * (m + 10)) / 12 + d - 2483620
      else
        365 * (y + 6800) + (y + 6800) / 4 - (y + 6800) / 100 + (y + 6800) / 400
          + (367 * (m - 2)) / 12 + d - 2483620) := by
  unfold epochDaysOf
  split_ifs with h
  · have := yearPart_eq (y + 6799)
    have e1 : y + 2000 + 4800 + -1 = y + 6799 := by ring
    have e2 : y + 2000 + 4900 + -1 = y + 6799 + 100 := by ring
    have e3 : m - 2 - 12 * -1 = m + 10 := by ring
    rw [e1, e2, e3]
    omega
  · have := yearPart_eq (y + 6800)
    have e1 : y + 2000 + 4800 + 0 = y + 6800 := by ring
    have e2 : y + 2000 + 4900 + 0 = y + 6800 + 100 := by ring
    have e3 : m - 2 - 12 * 0 = m - 2 := by ring
    rw [e1, e2, e3]
    omega

/-- The first day of the next month follows the last day of a month. -/
theorem epochDaysOf_next_month (y m : Int) (h1 : 1 ≤ m) (h2 : m ≤ 11) :
    epochDaysOf y (m + 1) 1 = epochDaysOf y m (LocalDate.daysInMonth (y + 2000) m) + 1 := by
  have hdm := LocalDate.daysInMonth_cases (y + 2000) m
  generalize LocalDate.daysInMonth (y + 2000) m = dim at hdm
  rw [epochDaysOf_eq, epochDaysOf_eq]
  have hmc : m = 1 ∨ m = 2 ∨ m = 3 ∨ m = 4 ∨ m = 5 ∨ m = 6 ∨ m = 7 ∨ m = 8 ∨ m = 9 ∨ m = 10
      ∨ m = 11 := by omega
  rcases hmc with h | h | h | h | h | h | h | h | h | h | h <;> subst h <;> norm_num <;> omega

/-- January 1 follows December 31. -/
theorem epochDaysOf_next_year (y : Int) :
    epochDaysOf (y + 1) 1 1 = epochDaysOf y 12 31 + 1 := by
  rw [epochDaysOf_eq, epochDaysOf_eq]
  have e1 : y + 1 + 6799 = y + 6800 := by ring
  rw [e1]
  norm_num
  omega

/-- The day number of the next civil day. -/
theorem toEpochDays_incrementOneDay (ld : LocalDate) (hv : ld.isValid)
    (hy0 : -128 ≤ ld.yearTiny) (hy1 : ld.yearTiny ≤ 127)
    (hy : ld.yearTiny < 127 ∨ ¬ (ld.month = 12 ∧ ld.day = 31)) :
    (incrementOneDay ld).toEpochDays = ld.toEpochDays + 1 := by
  obtain ⟨hm1, hm2, hd1, hd2⟩ := hv
  have hdm := LocalDate.daysInMonth_cases ld.year ld.month
  rw [LocalDate.toEpochDays_eq, LocalDate.toEpochDays_eq]
  unfold incrementOneDay
  by_cases h1 : ld.day + 1 > LocalDate.daysInMonth ld.year ld.month
  · have hd : ld.day = LocalDate.daysInMonth ld.year ld.month := by omega
    by_cases h2 : ld.month + 1 > 12
    · have hm : ld.month = 12 := by omega
      have h31 : ld.day = 31 := by omega
      have hw : wrap8 (ld.yearTiny + 1) = ld.yearTiny + 1 := by unfold wrap8; omega
      simp only [h1, h2, if_true, hw]
      rw [epochDaysOf_next_year, hm, h31]
    · simp only [h1, h2, if_true, if_false]
      rw [epochDaysOf_next_month _ _ hm1 (by omega), hd]
      rfl
  · simp only [h1, if_false]
    unfold epochDaysOf
    omega

/-- The day number of the previous civil day. -/
theorem toEpochDays_decrementOneDay (ld : LocalDate) (hv : ld.isValid)
    (hy0 : -128 ≤ ld.yearTiny) (hy1 : ld.yearTiny ≤ 127)
    (hy : -128 < ld.yearTiny ∨ ¬ (ld.month = 1 ∧ ld.day = 1)) :
    (decrementOneDay ld).toEpochDays = ld.toEpochDays - 1 := by
  obtain ⟨hm1, hm2, hd1, hd2⟩ := hv
  rw [LocalDate.toEpochDays_eq, LocalDate.toEpochDays_eq]
  unfold decrementOneDay
  by_cases h1 : ld.day - 1 = 0
  · have hd : ld.day = 1 := by omega
    by_cases h2 : ld.month = 1
    · have hw : wrap8 (ld.yearTiny - 1) = ld.yearTiny - 1 := by unfold wrap8; omega
      simp only [h1, h2, if_true, hw]
      have := epochDaysOf_next_year (ld.yearTiny - 1)
      have e : ld.yearTiny - 1 + 1 = ld.yearTiny := by ring
      rw [e] at this
      rw [hd, this]; ring
    · simp only [h1, h2, if_true, if_false]
      have := epochDaysOf_next_month ld.yearTiny (ld.month - 1) (by omega) (by omega)
      have e : ld.month - 1 + 1 = ld.month := by ring
      rw [e] at this
      rw [hd, this]
      unfold LocalDate.year LocalDate.kEpochYear
      ring
  · simp only [h1, if_false]
    unfold epochDaysOf
    omega


theorem wrap8_of_fits {x : Int} (h1 : -128 ≤ x) (h2 : x ≤ 127) : wrap8 x = x := by
  unfold wrap8; omega

/-- `normalizeDateTuple` keeps the modifier. -/
theorem normalizeDateTuple_modifier (dt : DateTuple) :
    (normalizeDateTuple dt).modifier = dt.modifier := by
  unfold normalizeDateTuple
  simp only
  split_ifs <;> rfl

/-- `normalizeDateTuple` keeps the instant: the day carried into the date is
taken out of the time code. -/
theorem normalizeDateTuple_instant (dt : DateTuple) (hv : dt.validDate)
    (h1 : -128 ≤ dt.timeCode) (h2 : dt.timeCode ≤ 127)
    (hhi : 96 ≤ dt.timeCode → ¬ (dt.yearTiny = 127 ∧ dt.month = 12 ∧ dt.day = 31))
    (hlo : dt.timeCode ≤ -96 → ¬ (dt.yearTiny = -128 ∧ dt.month = 1 ∧ dt.day = 1)) :
    (normalizeDateTuple dt).epochDays * 96 + (normalizeDateTuple dt).timeCode
      = dt.epochDays * 96 + dt.timeCode := by
  obtain ⟨hval, hy0, hy1⟩ := hv
  unfold normalizeDateTuple
  simp only
  by_cases hA : dt.timeCode ≤ -(4 * 24)
  · simp only [hA, if_true]
    have hd := toEpochDays_decrementOneDay
      (LocalDate.forTinyComponents dt.yearTiny dt.month dt.day) hval hy0 hy1
      (by
        by_cases hy : -128 < dt.yearTiny
        · left; exact hy
        · right; intro hc
          exact hlo (by omega) ⟨by
            have : dt.yearTiny = -128 := by
              have := hy0; simp only [LocalDate.forTinyComponents] at *; omega
            exact this, hc.1, hc.2⟩)
    have hw : wrap8 (dt.timeCode + 4 * 24) = dt.timeCode + 96 := by unfold wrap8; omega
    simp only [DateTuple.epochDays, LocalDate.forTinyComponents] at hd ⊢
    rw [hw, hd]; ring
  · simp only [hA, if_false]
    by_cases hB : (4 : Int) * 24 ≤ dt.timeCode
    · simp only [hB, if_true]
      have hd := toEpochDays_incrementOneDay
        (LocalDate.forTinyComponents dt.yearTiny dt.month dt.day) hval hy0 hy1
        (by
          by_cases hy : dt.yearTiny < 127
          · left; exact hy
          · right; intro hc
            exact hhi (by omega) ⟨by
              have : dt.yearTiny = 127 := by
                have := hy1; simp only [LocalDate.forTinyComponents] at *; omega
              exact this, hc.1, hc.2⟩)
      have hw : wrap8 (dt.timeCode - 4 * 24) = dt.timeCode - 96 := by unfold wrap8; omega
      simp only [DateTuple.epochDays, LocalDate.forTinyComponents] at hd ⊢
      rw [hw, hd]; ring
    · simp only [hB, if_false]

/-! ## C7: generateStartUntilTimes -/

namespace TransitionStorage

theorem deref_store {ts ts2 : TransitionStorage} {p : Nat} {t : Transition}
    (h : ts.store p t = some ts2) (q : Nat) :
    ts2.deref q = if q = p then some t else ts.deref q := by
  unfold store at h
  split_ifs at h with hp
  simp only [Option.some.injEq] at h
  subst h
  unfold deref
  by_cases hq : q = p
  · subst hq; simp [hp]
  · simp only [hq, if_false]
    rw [List.getElem?_set_ne (Ne.symm hq)]

theorem slotAt_store {ts ts2 : TransitionStorage} {p : Nat} {t : Transition}
    (h : ts.store p t = some ts2) (i : Nat) : ts2.slotAt i = ts.slotAt i := by
  unfold slotAt
  rw [(store_frame h).2.1]

theorem deref_modify {ts ts2 : TransitionStorage} {p : Nat} {f : Transition → Transition}
    (h : ts.modify p f = some ts2) :
    ∃ t0, ts.deref p = some t0 ∧ ∀ q, ts2.deref q = if q = p then some (f t0) else ts.deref q := by
  unfold modify at h
  obtain ⟨t0, h0, h⟩ := Option.bind_eq_some.mp h
  exact ⟨t0, h0, deref_store h⟩

theorem slotAt_modify {ts ts2 : TransitionStorage} {p : Nat} {f : Transition → Transition}
    (h : ts.modify p f = some ts2) (i : Nat) : ts2.slotAt i = ts.slotAt i := by
  unfold slotAt
  rw [(modify_frame h).2.1]

end TransitionStorage

/-- The loop of `generateStartUntilTimes` unfolded once. -/
theorem generateStartUntilLoop_succ (n iter prev : Nat) (b : Bool) (ts : TransitionStorage)
    (r : TransitionStorage × Nat)
    (h : generateStartUntilLoop (n + 1) iter prev b ts = some r) :
    ∃ t tT0 ts1 prevT tT ts2,
      ts.slotAt iter = some t ∧ ts.deref t = some tT0
      ∧ (if b then ts.modify prev fun x => { x with transitionTimeU := tT0.transitionTime }
          else some ts) = some ts1
      ∧ ts1.deref prev = some prevT ∧ ts1.deref t = some tT
      ∧ ts1.store t (startUntilStep prevT tT) = some ts2
      ∧ tT.transitionTime = tT0.transitionTime
      ∧ generateStartUntilLoop n (iter + 1) t true ts2 = some r := by
  simp only [generateStartUntilLoop, Option.bind_eq_some] at h
  obtain ⟨t, h1, tT0, h2, ts1, h3, prevT, h4, tT, h5, ts2, h6, h7⟩ := h
  have htt : tT.transitionTime = tT0.transitionTime := by
    cases b with
    | false =>
      simp only [Bool.false_eq_true, if_false, Option.some.injEq] at h3
      subst h3; rw [h2] at h5; simp only [Option.some.injEq] at h5; rw [h5]
    | true =>
      simp only [if_true] at h3
      obtain ⟨p0, hp0, hq⟩ := TransitionStorage.deref_modify h3
      rw [hq t] at h5
      split_ifs at h5 with hpt
      · subst hpt
        rw [h2] at hp0
        simp only [Option.some.injEq] at hp0 h5
        subst hp0; rw [← h5]
      · rw [h2] at h5; simp only [Option.some.injEq] at h5; rw [h5]
  refine ⟨t, tT0, ts1, prevT, tT, ts2, h1, h2, h3, h4, h5, ?_, htt, h7⟩
  rw [← htt] at h6
  exact h6

theorem coreEq_refl (a : Transition) : coreEq a a := ⟨rfl, rfl, rfl, rfl⟩

theorem coreEq_trans {a b c : Transition} (h1 : coreEq a b) (h2 : coreEq b c) : coreEq a c :=
  ⟨h1.1.trans h2.1, h1.2.1.trans h2.2.1, h1.2.2.1.trans h2.2.2.1, h1.2.2.2.trans h2.2.2.2⟩

theorem coreEq_startUntilStep (p t : Transition) : coreEq (startUntilStep p t) t :=
  ⟨rfl, rfl, rfl, rfl⟩

/-- What the loop of `generateStartUntilTimes` leaves alone: the pointer
vector, the fields it only reads, the start of a transition outside the range
and the until time of a transition that is no predecessor in the range. -/
theorem generateStartUntilLoop_keeps :
    ∀ (n iter prev : Nat) (b : Bool) (ts : TransitionStorage) (r : TransitionStorage × Nat),
      generateStartUntilLoop n iter prev b ts = some r →
      (∀ i, r.1.slotAt i = ts.slotAt i)
      ∧ ∀ q t0, ts.deref q = some t0 → ∃ t2, r.1.deref q = some t2 ∧ coreEq t2 t0
        ∧ ((∀ j, iter ≤ j → j < iter + n → ts.slotAt j ≠ some q) →
            t2.transitionTimeS = t0.transitionTimeS
              ∧ t2.startEpochSeconds = t0.startEpochSeconds)
        ∧ ((b = true → 0 < n → q ≠ prev) →
            (∀ j, iter ≤ j → j + 1 < iter + n → ts.slotAt j ≠ some q) →
            t2.transitionTimeU = t0.transitionTimeU) := by
  intro n
  induction n with
  | zero =>
    intro iter prev b ts r h
    simp only [generateStartUntilLoop, Option.some.injEq] at h
    subst h
    exact ⟨fun _ => rfl,
      fun q t0 h0 => ⟨t0, h0, coreEq_refl _, fun _ => ⟨rfl, rfl⟩, fun _ _ => rfl⟩⟩
  | succ n ih =>
    intro iter prev b ts r h
    obtain ⟨t, tT0, ts1, prevT, tT, ts2, h1, h2, h3, h4, h5, h6, htt, h7⟩ :=
      generateStartUntilLoop_succ n iter prev b ts r h
    obtain ⟨ihs, ihd⟩ := ih (iter + 1) t true ts2 r h7
    -- the first iteration
    have hs1 : ∀ i, ts1.slotAt i = ts.slotAt i := by
      intro i
      cases b with
      | false =>
        simp only [Bool.false_eq_true, if_false, Option.some.injEq] at h3
        subst h3; rfl
      | true =>
        simp only [if_true] at h3
        exact TransitionStorage.slotAt_modify h3 i
    have hs2 : ∀ i, ts2.slotAt i = ts.slotAt i := fun i =>
      (TransitionStorage.slotAt_store h6 i).trans (hs1 i)
    have hd1 : ∀ q t0, ts.deref q = some t0 → ∃ t1, ts1.deref q = some t1 ∧ coreEq t1 t0
        ∧ (t1.transitionTimeS = t0.transitionTimeS
          ∧ t1.startEpochSeconds = t0.startEpochSeconds)
        ∧ ((b = true → q ≠ prev) → t1.transitionTimeU = t0.transitionTimeU) := by
      intro q t0 h0
      cases b with
      | false =>
        simp only [Bool.false_eq_true, if_false, Option.some.injEq] at h3
        subst h3
        exact ⟨t0, h0, coreEq_refl _, ⟨rfl, rfl⟩, fun _ => rfl⟩
      | true =>
        simp only [if_true] at h3
        obtain ⟨p0, hp0, hq⟩ := TransitionStorage.deref_modify h3
        by_cases hqp : q = prev
        · subst hqp
          rw [h0] at hp0
          simp only [Option.some.injEq] at hp0
          subst hp0
          refine ⟨{ t0 with transitionTimeU := tT0.transitionTime }, by rw [hq q]; simp,
            ⟨rfl, rfl, rfl, rfl⟩, ⟨rfl, rfl⟩, fun hc => absurd rfl (hc rfl)⟩
        · exact ⟨t0, by rw [hq q]; simp [hqp, h0], coreEq_refl _, ⟨rfl, rfl⟩, fun _ => rfl⟩
    have hd2 : ∀ q t0, ts.deref q = some t0 → ∃ t2, ts2.deref q = some t2 ∧ coreEq t2 t0
        ∧ (q ≠ t → t2.transitionTimeS = t0.transitionTimeS
          ∧ t2.startEpochSeconds = t0.startEpochSeconds)
        ∧ ((b = true → q ≠ prev) → t2.transitionTimeU = t0.transitionTimeU) := by
      intro q t0 h0
      obtain ⟨t1, ht1, hc1, hS1, hU1⟩ := hd1 q t0 h0
      have hq := TransitionStorage.deref_store h6 q
      by_cases hqt : q = t
      · subst hqt
        rw [h5] at ht1
        have e : tT = t1 := Option.some.inj ht1
        refine ⟨startUntilStep prevT tT, by rw [hq]; simp, ?_, fun hc => absurd rfl hc,
          fun hc => ?_⟩
        · rw [e]; exact coreEq_trans (coreEq_startUntilStep _ _) hc1
        · show tT.transitionTimeU = _
          rw [e]; exact hU1 hc
      · exact ⟨t1, by rw [hq]; simp [hqt, ht1], hc1, fun _ => hS1, hU1⟩
    refine ⟨fun i => (ihs i).trans (hs2 i), ?_⟩
    intro q t0 h0
    obtain ⟨t2, ht2, hc2, hS2, hU2⟩ := hd2 q t0 h0
    obtain ⟨t3, ht3, hc3, hS3, hU3⟩ := ihd q t2 ht2
    refine ⟨t3, ht3, coreEq_trans hc3 hc2, ?_, ?_⟩
    · intro hout
      have hqt : q ≠ t := by
        intro hc
        exact hout iter (le_refl _) (by omega) (by rw [h1, hc])
      have e3 := hS3 (fun j hj1 hj2 => by rw [hs2 j]; exact hout j (by omega) (by omega))
      have e2 := hS2 hqt
      exact ⟨e3.1.trans e2.1, e3.2.trans e2.2⟩
    · intro hprev hout
      rw [hU3 (fun _ hn => by
          intro hc
          exact hout iter (le_refl _) (by omega) (by rw [h1, hc]))
        (fun j hj1 hj2 => by rw [hs2 j]; exact hout j (by omega) (by omega)),
        hU2 (fun hb => hprev hb (by omega))]

theorem startUntilStep_congr {p p2 t t2 : Transition} (hp : coreEq p p2) (ht : coreEq t t2) :
    (startUntilStep p t).transitionTimeS = (startUntilStep p2 t2).transitionTimeS
    ∧ (startUntilStep p t).startEpochSeconds = (startUntilStep p2 t2).startEpochSeconds := by
  obtain ⟨_, hp2, hp3, _⟩ := hp
  obtain ⟨ht1, ht2, ht3, _⟩ := ht
  simp only [startUntilStep, hp2, hp3, ht1, ht2, ht3, and_self]

/-- The loop of `generateStartUntilTimes` is its first iteration followed by
the loop over the rest. -/
theorem generateStartUntilLoop_split (n iter prev : Nat) (b : Bool) (ts : TransitionStorage)
    (r : TransitionStorage × Nat)
    (h : generateStartUntilLoop (n + 1) iter prev b ts = some r) :
    ∃ t ts2, ts.slotAt iter = some t
      ∧ generateStartUntilLoop 1 iter prev b ts = some (ts2, t)
      ∧ generateStartUntilLoop n (iter + 1) t true ts2 = some r := by
  simp only [generateStartUntilLoop, Option.bind_eq_some] at h ⊢
  obtain ⟨t, h1, tT0, h2, ts1, h3, prevT, h4, tT, h5, ts2, h6, h7⟩ := h
  exact ⟨t, ts2, h1, ⟨t, h1, tT0, h2, ts1, h3, prevT, h4, tT, h5, ts2, h6, rfl⟩, h7⟩

theorem getTransition_eq_some {ts : TransitionStorage} {i : Nat} {a : Transition} :
    ts.getTransition i = some a ↔ ∃ p, ts.slotAt i = some p ∧ ts.deref p = some a := by
  unfold TransitionStorage.getTransition
  exact Option.bind_eq_some

/-- The first iteration of the loop of `generateStartUntilTimes`. -/
theorem generateStartUntilLoop_one (iter prev : Nat) (b : Bool) (ts ts2 : TransitionStorage)
    (t : Nat) (h : generateStartUntilLoop 1 iter prev b ts = some (ts2, t))
    (hprev : b = true → ts.slotAt iter ≠ some prev) :
    ts.slotAt iter = some t
    ∧ ∀ p0 t0, ts.deref prev = some p0 → ts.deref t = some t0 →
      (∃ t2, ts2.deref t = some t2
        ∧ t2.transitionTimeS = (startUntilStep p0 t0).transitionTimeS
        ∧ t2.startEpochSeconds = (startUntilStep p0 t0).startEpochSeconds)
      ∧ (b = true → ∃ p2, ts2.deref prev = some p2 ∧ p2.transitionTimeU = t0.transitionTime) := by
  obtain ⟨t', tT0, ts1, prevT, tT, ts2', h1, h2, h3, h4, h5, h6, htt, h7⟩ :=
    generateStartUntilLoop_succ 0 iter prev b ts (ts2, t) h
  simp only [generateStartUntilLoop, Option.some.injEq, Prod.mk.injEq] at h7
  obtain ⟨e1, e2⟩ := h7
  subst e1 e2
  refine ⟨h1, ?_⟩
  intro p0 t0 hp0 ht0
  rw [h2] at ht0
  have e0 : tT0 = t0 := Option.some.inj ht0
  subst e0
  have hq := TransitionStorage.deref_store h6
  cases b with
  | false =>
    simp only [Bool.false_eq_true, if_false, Option.some.injEq] at h3
    subst h3
    rw [hp0] at h4
    rw [h2] at h5
    have e1 : p0 = prevT := Option.some.inj h4
    have e2 : tT0 = tT := Option.some.inj h5
    subst e1 e2
    exact ⟨⟨startUntilStep p0 tT0, by rw [hq]; simp, rfl, rfl⟩, fun hc => absurd hc (by simp)⟩
  | true =>
    simp only [if_true] at h3
    obtain ⟨p0', hp0', hm⟩ := TransitionStorage.deref_modify h3
    rw [hp0] at hp0'
    have e1 : p0 = p0' := Option.some.inj hp0'
    subst e1
    have hne : t' ≠ prev := by
      intro hc
      exact hprev rfl (by rw [h1, hc])
    rw [hm prev] at h4
    simp only [if_true, Option.some.injEq] at h4
    rw [hm t'] at h5
    simp only [hne, if_false] at h5
    rw [h2] at h5
    have e2 : tT0 = tT := Option.some.inj h5
    subst e2
    refine ⟨⟨startUntilStep prevT tT0, by rw [hq]; simp, ?_⟩, fun _ => ⟨prevT, ?_, ?_⟩⟩
    · exact startUntilStep_congr (by rw [← h4]; exact ⟨rfl, rfl, rfl, rfl⟩) (coreEq_refl _)
    · rw [hq prev]
      simp only [Ne.symm hne, if_false]
      rw [hm prev]; simp [h4]
    · rw [← h4]

/-- What the loop of `generateStartUntilTimes` establishes on distinct
transitions: the final `prev`, the start of the first transition (from
`prev`), the until time of `prev`, and for two consecutive transitions the
until time of the first and the start of the second. -/
theorem generateStartUntilLoop_links :
    ∀ (n iter prev : Nat) (b : Bool) (ts : TransitionStorage) (r : TransitionStorage × Nat),
      generateStartUntilLoop n iter prev b ts = some r →
      (∀ i j, iter ≤ i → i < j → j < iter + n → ts.slotAt i ≠ ts.slotAt j) →
      (b = true → ∀ j, iter ≤ j → j < iter + n → ts.slotAt j ≠ some prev) →
      ((n = 0 ∧ r.2 = prev) ∨ (0 < n ∧ ts.slotAt (iter + n - 1) = some r.2))
      ∧ (0 < n → ∀ p0 t0, ts.deref prev = some p0 → ts.getTransition iter = some t0 →
          (∃ t2, r.1.getTransition iter = some t2
            ∧ t2.transitionTimeS = (startUntilStep p0 t0).transitionTimeS
            ∧ t2.startEpochSeconds = (startUntilStep p0 t0).startEpochSeconds)
          ∧ (b = true → ∃ p2, r.1.deref prev = some p2
              ∧ p2.transitionTimeU = t0.transitionTime))
      ∧ (∀ j, iter ≤ j → j + 1 < iter + n → ∀ a c, ts.getTransition j = some a →
          ts.getTransition (j + 1) = some c →
          ∃ a2 c2, r.1.getTransition j = some a2 ∧ r.1.getTransition (j + 1) = some c2
            ∧ a2.transitionTimeU = c.transitionTime
            ∧ c2.transitionTimeS = (startUntilStep a c).transitionTimeS
            ∧ c2.startEpochSeconds = (startUntilStep a c).startEpochSeconds) := by
  intro n
  induction n with
  | zero =>
    intro iter prev b ts r h _ _
    simp only [generateStartUntilLoop, Option.some.injEq] at h
    subst h
    exact ⟨Or.inl ⟨rfl, rfl⟩, fun hc => absurd hc (by omega), fun j h1 h2 => absurd h2 (by omega)⟩
  | succ n ih =>
    intro iter prev b ts r h hdist hprev
    obtain ⟨t, ts2, hst, hone, hrest⟩ := generateStartUntilLoop_split n iter prev b ts r h
    -- facts on the first iteration
    obtain ⟨hs2, hk2⟩ := generateStartUntilLoop_keeps 1 iter prev b ts (ts2, t) hone
    simp only at hs2 hk2
    obtain ⟨_, hfirst⟩ := generateStartUntilLoop_one iter prev b ts ts2 t hone
      (fun hb => hprev hb iter (le_refl _) (by omega))
    -- facts on the rest
    obtain ⟨hs3, hk3⟩ := generateStartUntilLoop_keeps n (iter + 1) t true ts2 r hrest
    have hdist2 : ∀ i j, iter + 1 ≤ i → i < j → j < iter + 1 + n →
        ts2.slotAt i ≠ ts2.slotAt j := by
      intro i j h1 h2 h3
      rw [hs2 i, hs2 j]
      exact hdist i j (by omega) h2 (by omega)
    have hprev2 : true = true → ∀ j, iter + 1 ≤ j → j < iter + 1 + n → ts2.slotAt j ≠ some t := by
      intro _ j h1 h2
      rw [hs2 j, ← hst]
      exact Ne.symm (hdist iter j (le_refl _) (by omega) (by omega))
    obtain ⟨ilast, ifirst, ipairs⟩ := ih (iter + 1) t true ts2 r hrest hdist2 hprev2
    have hnot : ∀ j, iter + 1 ≤ j → j < iter + 1 + n → ts2.slotAt j ≠ some t :=
      hprev2 rfl
    refine ⟨Or.inr ⟨by omega, ?_⟩, ?_, ?_⟩
    · rcases ilast with ⟨hn, hr⟩ | ⟨hn, hr⟩
      · subst hn; simp only [Nat.add_zero, Nat.add_sub_cancel] at *
        rw [hr]; exact hst
      · rw [hs2] at hr
        have : iter + 1 + n - 1 = iter + (n + 1) - 1 := by omega
        rw [← this]; exact hr
    · intro _ p0 t0 hp0 ht0
      obtain ⟨q, hq1, hq2⟩ := getTransition_eq_some.mp ht0
      rw [hst] at hq1
      have e : t = q := Option.some.inj hq1
      subst e
      obtain ⟨⟨t2, ht2, hS2, hE2⟩, hU2⟩ := hfirst p0 t0 hp0 hq2
      obtain ⟨t3, ht3, _, hS3, _⟩ := hk3 t t2 ht2
      have hS3' := hS3 hnot
      refine ⟨⟨t3, getTransition_eq_some.mpr ⟨t, by rw [hs3, hs2]; exact hst, ht3⟩,
        hS3'.1.trans hS2, hS3'.2.trans hE2⟩, ?_⟩
      intro hb
      obtain ⟨p2, hp2, hpU⟩ := hU2 hb
      obtain ⟨p3, hp3, _, _, hU3⟩ := hk3 prev p2 hp2
      have hpt : prev ≠ t := by
        intro hc
        exact hprev hb iter (le_refl _) (by omega) (by rw [hst, hc])
      refine ⟨p3, hp3, ?_⟩
      rw [hU3 (fun _ _ => hpt) (fun j h1 h2 => by
        rw [hs2 j]; exact hprev hb j (by omega) (by omega)), hpU]
    · intro j hj1 hj2 a c ha hc
      obtain ⟨qa, hqa1, hqa2⟩ := getTransition_eq_some.mp ha
      obtain ⟨qc, hqc1, hqc2⟩ := getTransition_eq_some.mp hc
      obtain ⟨a', ha', hca, _, _⟩ := hk2 qa a hqa2
      obtain ⟨c', hc', hcc, _, _⟩ := hk2 qc c hqc2
      by_cases hji : j = iter
      · subst hji
        rw [hst] at hqa1
        have e : t = qa := Option.some.inj hqa1
        subst e
        have hn : 0 < n := by omega
        obtain ⟨⟨c2, hc2, hS, hE⟩, hU⟩ := ifirst hn a' c' ha'
          (getTransition_eq_some.mpr ⟨qc, by rw [hs2]; exact hqc1, hc'⟩)
        obtain ⟨a2, ha2, haU⟩ := hU rfl
        have hcg := startUntilStep_congr hca hcc
        refine ⟨a2, c2, getTransition_eq_some.mpr ⟨t, by rw [hs3, hs2]; exact hst, ha2⟩, hc2,
          haU.trans hcc.1, hS.trans hcg.1, hE.trans hcg.2⟩
      · obtain ⟨a2, c2, h1, h2, h3, h4, h5⟩ := ipairs j (by omega) (by omega) a' c'
          (getTransition_eq_some.mpr ⟨qa, by rw [hs2]; exact hqa1, ha'⟩)
          (getTransition_eq_some.mpr ⟨qc, by rw [hs2]; exact hqc1, hc'⟩)
        have hcg := startUntilStep_congr hca hcc
        exact ⟨a2, c2, h1, h2, h3.trans hcc.1, h4.trans hcg.1, h5.trans hcg.2⟩

theorem expandDateTuple_modifier (tt : DateTuple) (o d : Int) :
    (expandDateTuple tt o d).1.modifier = 'w' := by
  unfold expandDateTuple
  split_ifs <;> simp only [normalizeDateTuple_modifier]

theorem coreEq_symm {a b : Transition} (h : coreEq a b) : coreEq b a :=
  ⟨h.1.symm, h.2.1.symm, h.2.2.1.symm, h.2.2.2.symm⟩

theorem deref_isSome_iff (ts : TransitionStorage) (q : Nat) :
    (ts.deref q).isSome ↔ q < ts.mPool.length := by
  unfold TransitionStorage.deref
  rw [Option.isSome_iff_exists]
  constructor
  · rintro ⟨a, ha⟩
    exact (List.getElem?_eq_some_iff.mp ha).1
  · intro h
    exact ⟨ts.mPool[q], List.getElem?_eq_getElem h⟩

/-- A loop of `generateStartUntilTimes` that returns has read every
transition of its range. -/
theorem generateStartUntilLoop_reads :
    ∀ (n iter prev : Nat) (b : Bool) (ts : TransitionStorage) (r : TransitionStorage × Nat),
      generateStartUntilLoop n iter prev b ts = some r →
      ∀ j, iter ≤ j → j < iter + n → (ts.getTransition j).isSome := by
  intro n
  induction n with
  | zero => intro iter prev b ts r _ j h1 h2; omega
  | succ n ih =>
    intro iter prev b ts r h j h1 h2
    obtain ⟨t, tT0, ts1, prevT, tT, ts2, e1, e2, e3, e4, e5, e6, e7, e8⟩ :=
      generateStartUntilLoop_succ n iter prev b ts r h
    by_cases hj : j = iter
    · subst hj
      rw [Option.isSome_iff_exists]
      exact ⟨tT0, getTransition_eq_some.mpr ⟨t, e1, e2⟩⟩
    · obtain ⟨t', ts2', _, hone, hrest⟩ := generateStartUntilLoop_split n iter prev b ts r h
      have hf := generateStartUntilLoop_frame 1 iter prev b ts (ts2', t') hone
      obtain ⟨hs, _⟩ := generateStartUntilLoop_keeps 1 iter prev b ts (ts2', t') hone
      have := ih (iter + 1) t' true ts2' r hrest j (by omega) (by omega)
      obtain ⟨x, hx⟩ := Option.isSome_iff_exists.mp this
      obtain ⟨q, hq1, hq2⟩ := getTransition_eq_some.mp hx
      have hlt : q < ts.mPool.length := by
        have := (deref_isSome_iff ts2' q).mp (by rw [hq2]; rfl)
        rw [← hf.2.2.2]; exact this
      obtain ⟨y, hy⟩ := Option.isSome_iff_exists.mp ((deref_isSome_iff ts q).mpr hlt)
      rw [Option.isSome_iff_exists]
      have hsj : ts2'.slotAt j = ts.slotAt j := hs j
      exact ⟨y, getTransition_eq_some.mpr ⟨q, by rw [← hsj]; exact hq1, hy⟩⟩

/-- The start computed by an iteration denotes the instant of the transition
time read in the previous transition's offset. -/
theorem startUntilStep_utcCode (a c : Transition) (hv : c.transitionTime.validDate)
    (h1 : -128 ≤ c.transitionTime.timeCode - a.offsetCode - a.deltaCode
      + c.offsetCode + c.deltaCode)
    (h2 : c.transitionTime.timeCode - a.offsetCode - a.deltaCode
      + c.offsetCode + c.deltaCode ≤ 127)
    (hhi : 96 ≤ c.transitionTime.timeCode - a.offsetCode - a.deltaCode
        + c.offsetCode + c.deltaCode →
      ¬ (c.transitionTime.yearTiny = 127 ∧ c.transitionTime.month = 12
        ∧ c.transitionTime.day = 31))
    (hlo : c.transitionTime.timeCode - a.offsetCode - a.deltaCode
        + c.offsetCode + c.deltaCode ≤ -96 →
      ¬ (c.transitionTime.yearTiny = -128 ∧ c.transitionTime.month = 1
        ∧ c.transitionTime.day = 1)) :
    (startUntilStep a c).transitionTimeS.utcCode (c.offsetCode + c.deltaCode)
      = c.transitionTime.utcCode (a.offsetCode + a.deltaCode) := by
  have hn := normalizeDateTuple_instant
    { yearTiny := c.transitionTime.yearTiny, month := c.transitionTime.month,
      day := c.transitionTime.day,
      timeCode := c.transitionTime.timeCode - a.offsetCode - a.deltaCode
        + c.offsetCode + c.deltaCode,
      modifier := c.transitionTime.modifier }
    hv h1 h2 hhi hlo
  simp only [startUntilStep, DateTuple.utcCode, wrap8_of_fits h1 h2]
  simp only [DateTuple.epochDays] at hn ⊢
  omega

/-- C7 (as amended). After `generateStartUntilTimes` over the entries
`[begin, end)` of the pointer vector (distinct transitions), for every two
consecutive transitions `t_i`, `t_{i+1}`: `t_i.untilDateTime` equals
`t_{i+1}.transitionTime`; `t_{i+1}.startDateTime` is the normalised
`transitionTime` with the time code shifted from `t_i`'s to `t_{i+1}`'s total
offset and cut to a signed byte; and the two denote the same instant whenever
the transition time has a valid date, the shifted time code fits in a signed
byte and the day carry stays within the tiny years. The last transition's
`untilDateTime` is its match's `untilDateTime` expanded to wall mode with the
last transition's own `offsetCode` and `deltaCode`. -/
theorem C7_generateStartUntilTimes_links (ts ts2 : TransitionStorage) (ms : List ZoneMatch)
    (begin_ end_ : Nat)
    (h : generateStartUntilTimes ts ms begin_ end_ = some ts2)
    (hdist : ∀ i, i < end_ → ∀ j, j < end_ → begin_ ≤ i → i < j →
      ts.slotAt i ≠ ts.slotAt j) :
    (∀ i, begin_ ≤ i → i + 1 < end_ →
      ∃ ti tj, ts2.getTransition i = some ti ∧ ts2.getTransition (i + 1) = some tj
        ∧ ti.untilDateTime = tj.transitionTime
        ∧ tj.startDateTime = normalizeDateTuple
            { yearTiny := tj.transitionTime.yearTiny, month := tj.transitionTime.month,
              day := tj.transitionTime.day,
              timeCode := wrap8 (tj.transitionTime.timeCode - ti.offsetCode - ti.deltaCode
                + tj.offsetCode + tj.deltaCode),
              modifier := tj.transitionTime.modifier }
        ∧ (tj.transitionTime.validDate →
            -128 ≤ tj.transitionTime.timeCode - ti.offsetCode - ti.deltaCode
              + tj.offsetCode + tj.deltaCode →
            tj.transitionTime.timeCode - ti.offsetCode - ti.deltaCode
              + tj.offsetCode + tj.deltaCode ≤ 127 →
            (96 ≤ tj.transitionTime.timeCode - ti.offsetCode - ti.deltaCode
                + tj.offsetCode + tj.deltaCode →
              ¬ (tj.transitionTime.yearTiny = 127 ∧ tj.transitionTime.month = 12
                ∧ tj.transitionTime.day = 31)) →
            (tj.transitionTime.timeCode - ti.offsetCode - ti.deltaCode
                + tj.offsetCode + tj.deltaCode ≤ -96 →
              ¬ (tj.transitionTime.yearTiny = -128 ∧ tj.transitionTime.month = 1
                ∧ tj.transitionTime.day = 1)) →
            ti.untilDateTime.utcCode (ti.offsetCode + ti.deltaCode)
              = tj.startDateTime.utcCode (tj.offsetCode + tj.deltaCode)))
    ∧ (begin_ < end_ →
      ∃ tl mi m, ts2.getTransition (end_ - 1) = some tl ∧ tl.matchPtr = some mi
        ∧ ms[mi]? = some m
        ∧ tl.untilDateTime = (expandDateTuple m.untilDateTime tl.offsetCode tl.deltaCode).1
        ∧ tl.untilDateTime.modifier = 'w') := by
  unfold generateStartUntilTimes at h
  simp only [Option.bind_eq_some] at h
  obtain ⟨prev0, hprev0, r, hl, prevT, hpT, mi, hmi, m, hm, hmod⟩ := h
  have hn : begin_ + (end_ - begin_) = end_ ∨ end_ ≤ begin_ := by omega
  obtain ⟨hs, hk⟩ := generateStartUntilLoop_keeps _ _ _ _ _ _ hl
  obtain ⟨llast, _, lpairs⟩ := generateStartUntilLoop_links _ _ _ _ _ _ hl
    (fun i j h1 h2 h3 => hdist i (by omega) j (by omega) h1 h2) (fun hc => absurd hc (by simp))
  obtain ⟨p0, hp0, hq⟩ := TransitionStorage.deref_modify hmod
  have hs2 : ∀ i, ts2.slotAt i = ts.slotAt i := fun i =>
    (TransitionStorage.slotAt_modify hmod i).trans (hs i)
  rw [hpT] at hp0
  have e0 : prevT = p0 := Option.some.inj hp0
  subst e0
  constructor
  · intro i hi1 hi2
    -- the transitions before the call
    have hlen := (generateStartUntilLoop_frame _ _ _ _ _ _ hl).2.2.2
    have hra : ∃ a, ts.getTransition i = some a := by
      by_contra hc
      have := generateStartUntilLoop_reads _ _ _ _ _ _ hl i hi1 (by omega)
      exact hc (Option.isSome_iff_exists.mp this)
    have hrc : ∃ c, ts.getTransition (i + 1) = some c := by
      by_contra hc
      have := generateStartUntilLoop_reads _ _ _ _ _ _ hl (i + 1) (by omega) (by omega)
      exact hc (Option.isSome_iff_exists.mp this)
    obtain ⟨a, ha⟩ := hra
    obtain ⟨c, hc⟩ := hrc
    obtain ⟨a2, c2, ha2, hc2, hU, hS, _⟩ := lpairs i hi1 (by omega) a c ha hc
    obtain ⟨qa, hqa1, hqa2⟩ := getTransition_eq_some.mp ha
    obtain ⟨qc, hqc1, hqc2⟩ := getTransition_eq_some.mp hc
    obtain ⟨a2', ha2', hca, _, _⟩ := hk qa a hqa2
    obtain ⟨c2', hc2', hcc, _, _⟩ := hk qc c hqc2
    obtain ⟨qa', hqa1', hqa2'⟩ := getTransition_eq_some.mp ha2
    obtain ⟨qc', hqc1', hqc2'⟩ := getTransition_eq_some.mp hc2
    rw [hs, hqa1] at hqa1'
    rw [hs, hqc1] at hqc1'
    have e1 : qa = qa' := Option.some.inj hqa1'
    have e2 : qc = qc' := Option.some.inj hqc1'
    subst e1 e2
    rw [ha2'] at hqa2'
    rw [hc2'] at hqc2'
    have e3 : a2' = a2 := Option.some.inj hqa2'
    have e4 : c2' = c2 := Option.some.inj hqc2'
    subst e3 e4
    -- slot `i` is not the last transition
    have hlast : ts.slotAt (end_ - 1) = some r.2 := by
      rcases llast with ⟨h0, _⟩ | ⟨_, h1⟩
      · omega
      · have : begin_ + (end_ - begin_) - 1 = end_ - 1 := by omega
        rw [← this]; exact h1
    have hqa_ne : qa ≠ r.2 := by
      intro hcon
      exact hdist i (by omega) (end_ - 1) (by omega) hi1 (by omega) (by rw [hqa1, hlast, hcon])
    have hfa : ts2.getTransition i = some a2' :=
      getTransition_eq_some.mpr ⟨qa, by rw [hs2]; exact hqa1, by
        rw [hq qa]; simp [hqa_ne, ha2']⟩
    -- the transition at `i + 1` may be the last one: only its until time changes
    obtain ⟨cf, hcf, hcfc, hcf2⟩ : ∃ cf, ts2.deref qc = some cf
        ∧ coreEq cf c2' ∧ cf.transitionTimeS = c2'.transitionTimeS := by
      by_cases hcl : qc = r.2
      · have e : c2' = prevT := by
          rw [hcl, hpT] at hc2'; exact (Option.some.inj hc2').symm
        exact ⟨{ prevT with
            transitionTimeU :=
              (expandDateTuple m.untilDateTime prevT.offsetCode prevT.deltaCode).1 },
          by rw [hq qc]; simp [hcl], by rw [e]; exact ⟨rfl, rfl, rfl, rfl⟩, by rw [e]⟩
      · exact ⟨c2', by rw [hq qc]; simp [hcl, hc2'], coreEq_refl _, rfl⟩
    have hfc : ts2.getTransition (i + 1) = some cf :=
      getTransition_eq_some.mpr ⟨qc, by rw [hs2]; exact hqc1, hcf⟩
    have hcfc2 : coreEq cf c := coreEq_trans hcfc hcc
    have hstart : cf.transitionTimeS = (startUntilStep a2' cf).transitionTimeS := by
      rw [hcf2, hS]
      exact (startUntilStep_congr (coreEq_symm hca) (coreEq_symm hcfc2)).1
    refine ⟨a2', cf, hfa, hfc, ?_, hstart, ?_⟩
    · show a2'.transitionTimeU = cf.transitionTime
      rw [hU, hcfc2.1]
    · intro hv h1 h2 h3 h4
      show a2'.transitionTimeU.utcCode _ = cf.transitionTimeS.utcCode _
      rw [hstart, startUntilStep_utcCode a2' cf hv h1 h2 h3 h4, hU, hcfc2.1]
  · intro hbe
    have hlast : ts.slotAt (end_ - 1) = some r.2 := by
      rcases llast with ⟨h0, _⟩ | ⟨_, h1⟩
      · omega
      · have : begin_ + (end_ - begin_) - 1 = end_ - 1 := by omega
        rw [← this]; exact h1
    refine ⟨{ prevT with
        transitionTimeU :=
          (expandDateTuple m.untilDateTime prevT.offsetCode prevT.deltaCode).1 },
      mi, m, getTransition_eq_some.mpr ⟨r.2, by rw [hs2]; exact hlast, by
      rw [hq r.2]; simp⟩, hmi, hm, rfl, ?_⟩
    exact expandDateTuple_modifier _ _ _

theorem eq_some_getD_of_isSome {α : Type} (o : Option α) (d : α) (h : o.isSome = true) :
    o = some (o.getD d) := by
  cases o with
  | none => simp at h
  | some x => rfl

/-- Witness of C7 (as amended): `generateStartUntilTimes` over the three
Los Angeles transitions of 2018; the second transition (PDT) ends and the
third (PST) starts at the same instant. -/
theorem C7_generateStartUntilTimes_links_witness :
    generateStartUntilTimes losAngeles2018.mTransitionStorage losAngeles2018.mMatches 0 3
        = some losAngelesRegenerated
    ∧ (∀ i, i < 3 → ∀ j, j < 3 → 0 ≤ i → i < j →
        losAngeles2018.mTransitionStorage.slotAt i ≠ losAngeles2018.mTransitionStorage.slotAt j)
    ∧ ∃ ti tj, losAngelesRegenerated.getTransition 1 = some ti
        ∧ losAngelesRegenerated.getTransition 2 = some tj
        ∧ ti.untilDateTime = tj.transitionTime
        ∧ ti.untilDateTime.utcCode (ti.offsetCode + ti.deltaCode)
            = tj.startDateTime.utcCode (tj.offsetCode + tj.deltaCode) := by
  have h : generateStartUntilTimes losAngeles2018.mTransitionStorage losAngeles2018.mMatches 0 3
      = some losAngelesRegenerated := eq_some_getD_of_isSome _ _ (by decide)
  have hd : ∀ i, i < 3 → ∀ j, j < 3 → 0 ≤ i → i < j →
      losAngeles2018.mTransitionStorage.slotAt i ≠ losAngeles2018.mTransitionStorage.slotAt j := by
    decide
  obtain ⟨ti, tj, h1, h2, h3, _, h5⟩ :=
    (C7_generateStartUntilTimes_links _ _ _ 0 3 h hd).1 1 (by decide) (by decide)
  have e1 : losAngelesRegenerated.getTransition 1
      = some (losAngelesRegenerated.mPool.getD 1 default) := by decide
  have e2 : losAngelesRegenerated.getTransition 2
      = some (losAngelesRegenerated.mPool.getD 4 default) := by decide
  rw [e1] at h1
  rw [e2] at h2
  have f1 := Option.some.inj h1
  have f2 := Option.some.inj h2
  subst f1 f2
  exact ⟨h, hd, _, _, e1, e2, h3,
    h5 (by decide) (by decide) (by decide) (by decide) (by decide)⟩

/-- Counterexample of C7 as stated. After `init` for 2018 on a zone that
moves from -12:00 to +14:00 at 23:45, the shifted time code 95 + 48 + 56 = 199
does not fit in a signed byte: the first transition's `untilDateTime` (read
at -12:00) and the second's `startDateTime` (read at +14:00) are valid dates
that lie 256 quarter hours apart. -/
theorem C7_counterexample :
    ((newProcessor kZoneDateLineJump).init { yearTiny := 18, month := 6, day := 1 }).map
        Prod.fst = some true
    ∧ (dateLineJump2018.mTransitionStorage.getTransition 0).map
        (fun t => (t.untilDateTime, t.offsetCode + t.deltaCode,
          t.untilDateTime.utcCode (t.offsetCode + t.deltaCode)))
        = some ({ yearTiny := 18, month := 6, day := 1, timeCode := 95, modifier := 'w' },
            -48, 645839)
    ∧ (dateLineJump2018.mTransitionStorage.getTransition 1).map
        (fun t => (t.transitionTime, t.startDateTime, t.offsetCode + t.deltaCode,
          t.startDateTime.utcCode (t.offsetCode + t.deltaCode)))
        = some ({ yearTiny := 18, month := 6, day := 1, timeCode := 95, modifier := 'w' },
            { yearTiny := 18, month := 6, day := 1, timeCode := -57, modifier := 'w' },
            56, 645583) := by
  decide

/-! ## C3: round trip of getOffsetDateTime -/

/-- The day number of a date given by the shifted year `yq + 84` (March
based), the March-based month `mp` and the day, within the centuries that
32-bit epoch seconds reach. -/
theorem epochDaysOf_marchBased (yq mp d yr hr : Int) (hy1 : 6647 ≤ yq) (hy2 : yq ≤ 6783)
    (hmp0 : 0 ≤ mp) (hmp1 : mp ≤ 11)
    (h3 : (yq + yr) % 4 = 3) (hh : 5 * (yr / 4) + 2 = 153 * mp + hr) (hd : d = hr / 5 + 1) :
    epochDaysOf (yq - 4716 + (12 + 2 - ((mp + 2) % 12 + 1)) / 12 - 2000) ((mp + 2) % 12 + 1) d
      = (1461 * yq + yr - 3) / 4 - 1414 - 2451545 := by
  rw [epochDaysOf_eq]
  have hmc : mp = 0 ∨ mp = 1 ∨ mp = 2 ∨ mp = 3 ∨ mp = 4 ∨ mp = 5 ∨ mp = 6 ∨ mp = 7 ∨ mp = 8
      ∨ mp = 9 ∨ mp = 10 ∨ mp = 11 := by omega
  have hcent : (yq + 84) / 100 - (yq + 84) / 400 = 51 := by omega
  have hq : (1461 * yq + yr - 3) / 4 = 365 * yq + yq / 4 + yr / 4 := by omega
  have h84 : (yq + 84) / 4 = yq / 4 + 21 := by omega
  rw [hq]
  rcases hmc with h | h | h | h | h | h | h | h | h | h | h | h <;> subst h <;> norm_num <;>
    first
    | (have e : yq - 4716 - 2000 + 6800 = yq + 84 := by ring
       rw [e]; omega)
    | (have e : yq - 4716 + 1 - 2000 + 6799 = yq + 84 := by ring
       rw [e]; omega)

/-- On the days that 32-bit epoch seconds reach, the civil date of a day
number has that day number. -/
theorem toEpochDays_forEpochDays (D : Int) (h1 : -24856 ≤ D) (h2 : D ≤ 24855) :
    (LocalDate.forEpochDays D).toEpochDays = D := by
  rw [LocalDate.toEpochDays_eq]
  unfold LocalDate.forEpochDays
  simp only
  have hq2 : ((4 * (D + 2451545) + 274277) / 146097 * 3) / 4 = 51 := by omega
  rw [hq2]
  have he : 4 * (D + 2451545 + 1401 + 51 - 38) + 3 = 4 * D + 9811839 := by ring
  rw [he]
  generalize hyq : (4 * D + 9811839) / 1461 = yq
  generalize hyr : (4 * D + 9811839) % 1461 = yr
  generalize hmp : (5 * (yr / 4) + 2) / 153 = mp
  generalize hhr : (5 * (yr / 4) + 2) % 153 = hr
  have hmp0 : 0 ≤ mp := by omega
  have hmp1 : mp ≤ 11 := by omega
  have hy1 : 6647 ≤ yq := by omega
  have hy2 : yq ≤ 6783 := by omega
  have hmon : 1 ≤ (mp + 2) % 12 + 1 ∧ (mp + 2) % 12 + 1 ≤ 12 := by omega
  have hyear : -128 ≤ yq - 4716 + (12 + 2 - ((mp + 2) % 12 + 1)) / 12 - LocalDate.kEpochYear
      ∧ yq - 4716 + (12 + 2 - ((mp + 2) % 12 + 1)) / 12 - LocalDate.kEpochYear ≤ 127 := by
    unfold LocalDate.kEpochYear; omega
  rw [wrap8_of_fits hyear.1 hyear.2]
  have := epochDaysOf_marchBased yq mp (hr / 5 + 1) yr hr hy1 hy2 hmp0 hmp1 (by omega) (by omega)
    rfl
  unfold LocalDate.kEpochYear
  rw [this]
  omega

theorem wrap32_range (x : Int) : -2147483648 ≤ wrap32 x ∧ wrap32 x ≤ 2147483647 := by
  unfold wrap32; omega

theorem wrap32_of_fits {x : Int} (h1 : -2147483648 ≤ x) (h2 : x ≤ 2147483647) :
    wrap32 x = x := by
  unfold wrap32; omega

theorem wrap32_add_sub (e k : Int) : wrap32 (wrap32 (e + k) - k) = wrap32 e := by
  unfold wrap32; omega

/-- A local date-time made from 32-bit epoch seconds gives them back. -/
theorem LocalDateTime.toEpochSeconds_forEpochSeconds (x : Int) (h1 : -2147483648 ≤ x)
    (h2 : x ≤ 2147483647) :
    (LocalDateTime.forEpochSeconds x).toEpochSeconds = x := by
  have hd := toEpochDays_forEpochDays (x / 86400) (by omega) (by omega)
  have hl : (LocalDateTime.forEpochSeconds x).localDate = LocalDate.forEpochDays (x / 86400) := rfl
  unfold LocalDateTime.toEpochSeconds
  rw [hl, hd]
  simp only [LocalDateTime.forEpochSeconds]
  have : 86400 * (x / 86400) + 3600 * (x % 86400 / 3600) + 60 * (x % 86400 % 3600 / 60)
      + x % 86400 % 60 = x := by omega
  rw [this]
  exact wrap32_of_fits h1 h2

/-- An offset date-time made from 32-bit epoch seconds gives them back. -/
theorem OffsetDateTime.roundtrip_forEpochSeconds (e : Int) (offset : TimeOffset)
    (h1 : -2147483648 ≤ e) (h2 : e ≤ 2147483647) :
    (OffsetDateTime.forEpochSeconds e offset).toEpochSeconds = e := by
  unfold OffsetDateTime.toEpochSeconds OffsetDateTime.forEpochSeconds
  simp only
  have hr := wrap32_range (e + offset.toSeconds)
  rw [LocalDateTime.toEpochSeconds_forEpochSeconds _ hr.1 hr.2, wrap32_add_sub]
  exact wrap32_of_fits h1 h2

/-- A successful `init` leaves the cache filled for the year asked. -/
theorem isFilled_of_init (zp zp2 : ExtendedZoneProcessor) (ld : LocalDate)
    (h : zp.init ld = some (true, zp2)) : zp2.isFilled ld.year = true := by
  unfold ExtendedZoneProcessor.init at h
  by_cases hf : zp.isFilled ld.year = true
  · simp only [hf, if_true, Option.some.injEq, Prod.mk.injEq, true_and] at h
    rw [← h]; exact hf
  · simp only [hf, Bool.false_eq_true, if_false] at h
    split_ifs at h with hr
    · simp at h
    · simp only [Option.bind_eq_some] at h
      obtain ⟨fm, _, ts1, _, ts2, _, ts3, _, ts4, _, h⟩ := h
      simp only [Option.some.injEq, Prod.mk.injEq, true_and] at h
      rw [← h]
      simp [isFilled]

/-- C3 (amended). When `getOffsetDateTime(ldt)` succeeds (its result carries no error
offset), the result is round-trip stable: the transition that covers the
result's epoch seconds in the processor's pool exists, its total offset
`offsetCode + deltaCode` is the offset carried by the result, and rebuilding
the date-time from (epoch seconds, that offset) gives the result back; and
when those epoch seconds lie in the year of `ldt`, `getUtcOffset` returns the
offset carried by the result. -/
theorem C3_getOffsetDateTime_roundtrip (zp zp2 : ExtendedZoneProcessor) (ldt : LocalDateTime)
    (odt : OffsetDateTime)
    (h : getOffsetDateTime zp ldt = some (odt, zp2))
    (hok : odt.mTimeOffset.isError = false) :
    ∃ p t, zp2.mTransitionStorage.findTransition odt.toEpochSeconds = some (some p)
      ∧ zp2.mTransitionStorage.deref p = some t
      ∧ TimeOffset.forOffsetCode (t.offsetCode + t.deltaCode) = odt.mTimeOffset
      ∧ OffsetDateTime.forEpochSeconds odt.toEpochSeconds
          (TimeOffset.forOffsetCode (t.offsetCode + t.deltaCode)) = odt
      ∧ ((LocalDate.forEpochSeconds odt.toEpochSeconds).year = ldt.localDate.year →
          getUtcOffset zp2 odt.toEpochSeconds = some (odt.mTimeOffset, zp2)) := by
  unfold getOffsetDateTime at h
  simp only [Option.bind_eq_some] at h
  obtain ⟨r, hinit, offset, hfirst, h⟩ := h
  by_cases herr : offset.isError = true
  · simp only [herr, if_true, Option.some.injEq, Prod.mk.injEq] at h
    rw [← h.1] at hok
    simp only [OffsetDateTime.forLocalDateTimeAndOffset] at hok
    rw [herr] at hok
    exact absurd hok (by simp)
  · simp only [herr, Bool.false_eq_true, if_false, Option.bind_eq_some,
      Option.map_eq_some'] at h
    obtain ⟨transition, hf, offset2, hoff, h⟩ := h
    simp only [Prod.mk.injEq] at h
    obtain ⟨hodt, hzp⟩ := h
    subst hzp
    have hsucc : r.1 = true := by
      by_contra hc
      simp only [hc, Bool.false_eq_true, if_false, Option.some.injEq] at hfirst
      rw [← hfirst] at herr
      exact herr rfl
    have hr := wrap32_range
      ((OffsetDateTime.forLocalDateTimeAndOffset ldt offset).mLocalDateTime.toEpochSeconds
        - (OffsetDateTime.forLocalDateTimeAndOffset ldt offset).mTimeOffset.toSeconds)
    have hrt := OffsetDateTime.roundtrip_forEpochSeconds
      (OffsetDateTime.forLocalDateTimeAndOffset ldt offset).toEpochSeconds offset2 hr.1 hr.2
    rw [hodt] at hrt
    cases transition with
    | none =>
      simp only [Option.some.injEq] at hoff
      rw [← hodt, ← hoff] at hok
      simp [OffsetDateTime.forEpochSeconds, TimeOffset.forError, TimeOffset.isError] at hok
    | some p =>
      simp only [Option.map_eq_some'] at hoff
      obtain ⟨t, ht, hoff⟩ := hoff
      have hfind : r.2.mTransitionStorage.findTransition odt.toEpochSeconds = some (some p) := by
        rw [hrt]; exact hf
      have hoffset : TimeOffset.forOffsetCode (t.offsetCode + t.deltaCode) = odt.mTimeOffset := by
        rw [hoff, ← hodt]; rfl
      refine ⟨p, t, hfind, ht, hoffset, ?_, ?_⟩
      · rw [hrt, hoff]; exact hodt
      · intro hyear
        have hfilled : r.2.isFilled ldt.localDate.year = true :=
          isFilled_of_init zp r.2 ldt.localDate (by
            rw [hinit]
            obtain ⟨b, z⟩ := r
            simp only at hsucc
            rw [hsucc])
        have hi : initForEpochSeconds r.2 odt.toEpochSeconds = some (true, r.2) := by
          unfold initForEpochSeconds
          apply init_of_isFilled
          rw [hyear]; exact hfilled
        unfold getUtcOffset
        rw [hi]
        simp [ExtendedZoneProcessor.findTransition, hfind, ht, hoffset]

/-- Witness of C3: the Los Angeles gap input 2018-03-11T02:30:00 and the
overlap input 2018-11-04T01:30:00. -/
theorem C3_getOffsetDateTime_roundtrip_witness :
    (∃ odt zp2,
      getOffsetDateTime (newProcessor kZoneAmerica_Los_Angeles)
          { yearTiny := 18, month := 3, day := 11, hour := 2, minute := 30, second := 0 }
        = some (odt, zp2)
      ∧ odt.mTimeOffset.isError = false
      ∧ ∃ p t, zp2.mTransitionStorage.findTransition odt.toEpochSeconds = some (some p)
        ∧ zp2.mTransitionStorage.deref p = some t
        ∧ TimeOffset.forOffsetCode (t.offsetCode + t.deltaCode) = odt.mTimeOffset
        ∧ OffsetDateTime.forEpochSeconds odt.toEpochSeconds
            (TimeOffset.forOffsetCode (t.offsetCode + t.deltaCode)) = odt) := by
  have h := eq_some_getD_of_isSome
    (getOffsetDateTime (newProcessor kZoneAmerica_Los_Angeles)
      { yearTiny := 18, month := 3, day := 11, hour := 2, minute := 30, second := 0 })
    default (by decide)
  obtain ⟨p, t, h1, h2, h3, h4, _⟩ :=
    C3_getOffsetDateTime_roundtrip _ _ _ _ h (by decide)
  exact ⟨_, _, h, by decide, p, t, h1, h2, h3, h4⟩

/-! ## Chronological order of tuples -/

/-- The first day of the next year. -/
theorem epochDaysOf_yearStart_succ (y : Int) :
    epochDaysOf (y + 1) 1 1
      = epochDaysOf y 1 1 + 365 + (if LocalDate.isLeapYear (y + 2000) then 1 else 0) := by
  have hl := LocalDate.isLeapYear_iff (y + 2000)
  rw [epochDaysOf_eq, epochDaysOf_eq]
  have e1 : y + 1 + 6799 = y + 6800 := by ring
  rw [e1]
  by_cases hleap : LocalDate.isLeapYear (y + 2000) = true
  · have := hl.mp hleap
    simp only [hleap]; norm_num; omega
  · have : ¬ ((y + 2000) % 4 = 0 ∧ ((y + 2000) % 100 ≠ 0 ∨ (y + 2000) % 400 = 0)) :=
      fun hc => hleap (hl.mpr hc)
    simp only [hleap]; norm_num; omega

/-- Later years start later. -/
theorem epochDaysOf_yearStart_mono (y : Int) (n : Nat) :
    epochDaysOf y 1 1 + 365 * n ≤ epochDaysOf (y + n) 1 1 := by
  induction n with
  | zero => simp
  | succ n ih =>
    have := epochDaysOf_yearStart_succ (y + n)
    have e : y + ((n + 1 : Nat) : Int) = y + n + 1 := by push_cast; ring
    rw [e, this]
    push_cast
    split_ifs <;> omega

theorem epochDaysOf_day (y m d : Int) : epochDaysOf y m d = epochDaysOf y m 1 + d - 1 := by
  unfold epochDaysOf; omega

theorem daysInMonth_pos (y m : Int) : 28 ≤ LocalDate.daysInMonth y m := by
  have := LocalDate.daysInMonth_cases y m
  omega

/-- Later months of a year start later. -/
theorem epochDaysOf_month_mono (y m : Int) (n : Nat) (h1 : 1 ≤ m) (h2 : m + n ≤ 12) :
    epochDaysOf y m 1 ≤ epochDaysOf y (m + n) 1 := by
  induction n with
  | zero => simp
  | succ n ih =>
    have h := epochDaysOf_next_month y (m + n) (by omega) (by push_cast at h2; omega)
    have e : m + ((n + 1 : Nat) : Int) = m + n + 1 := by push_cast; ring
    rw [e, h, epochDaysOf_day y (m + n)]
    have := daysInMonth_pos (y + 2000) (m + n)
    have := ih (by push_cast at h2; omega)
    omega

/-- The order of valid dates is the order of their day numbers. -/
theorem epochDaysOf_lt_of_lt (y1 m1 d1 y2 m2 d2 : Int)
    (hm1 : 1 ≤ m1 ∧ m1 ≤ 12) (hd1 : 1 ≤ d1 ∧ d1 ≤ LocalDate.daysInMonth (y1 + 2000) m1)
    (hm2 : 1 ≤ m2 ∧ m2 ≤ 12) (hd2 : 1 ≤ d2)
    (h : y1 < y2 ∨ (y1 = y2 ∧ (m1 < m2 ∨ (m1 = m2 ∧ d1 < d2)))) :
    epochDaysOf y1 m1 d1 < epochDaysOf y2 m2 d2 := by
  -- the end of the month of the first date
  have hend : m1 ≤ 11 → epochDaysOf y1 m1 d1 < epochDaysOf y1 (m1 + 1) 1 := by
    intro hm
    rw [epochDaysOf_next_month y1 m1 hm1.1 hm, epochDaysOf_day y1 m1 d1,
      epochDaysOf_day y1 m1 (LocalDate.daysInMonth (y1 + 2000) m1)]
    omega
  have hyend : epochDaysOf y1 m1 d1 < epochDaysOf (y1 + 1) 1 1 := by
    by_cases hm : m1 ≤ 11
    · have h1 := hend hm
      have h2 := epochDaysOf_month_mono y1 (m1 + 1) (12 - (m1 + 1)).toNat (by omega) (by omega)
      have e : m1 + 1 + ((12 - (m1 + 1)).toNat : Int) = 12 := by omega
      rw [e] at h2
      have h3 := epochDaysOf_next_year y1
      have h4 := epochDaysOf_day y1 12 31
      omega
    · have e : m1 = 12 := by omega
      subst e
      have h3 := epochDaysOf_next_year y1
      have h4 := epochDaysOf_day y1 12 31
      have h5 := epochDaysOf_day y1 12 d1
      have : LocalDate.daysInMonth (y1 + 2000) 12 = 31 := by
        have := LocalDate.daysInMonth_cases (y1 + 2000) 12
        omega
      omega
  have hstart2 : epochDaysOf y2 1 1 ≤ epochDaysOf y2 m2 d2 := by
    have h2 := epochDaysOf_month_mono y2 1 (m2 - 1).toNat (by omega) (by omega)
    have e : 1 + ((m2 - 1).toNat : Int) = m2 := by omega
    rw [e] at h2
    have := epochDaysOf_day y2 m2 d2
    omega
  rcases h with h | ⟨hy, h⟩
  · have h2 := epochDaysOf_yearStart_mono (y1 + 1) (y2 - (y1 + 1)).toNat
    have e : y1 + 1 + ((y2 - (y1 + 1)).toNat : Int) = y2 := by omega
    rw [e] at h2
    omega
  · subst hy
    rcases h with h | ⟨hm, h⟩
    · have h1 := hend (by omega)
      have h2 := epochDaysOf_month_mono y1 (m1 + 1) (m2 - (m1 + 1)).toNat (by omega) (by omega)
      have e : m1 + 1 + ((m2 - (m1 + 1)).toNat : Int) = m2 := by omega
      rw [e] at h2
      have := epochDaysOf_day y1 m2 d2
      omega
    · subst hm
      have := epochDaysOf_day y1 m1 d1
      have := epochDaysOf_day y1 m1 d2
      omega

/-- On tuples with valid dates and time codes within one day, the order of
tuples is the order of instants. -/
theorem DateTuple.instant_lt_of_lt (a b : DateTuple) (ha : a.validDate) (hb : b.validDate)
    (hta : 0 ≤ a.timeCode ∧ a.timeCode < 96) (htb : 0 ≤ b.timeCode ∧ b.timeCode < 96)
    (h : a.lt b = true) :
    a.epochDays * 96 + a.timeCode < b.epochDays * 96 + b.timeCode := by
  rw [DateTuple.lt_iff] at h
  obtain ⟨⟨hma1, hma2, hda1, hda2⟩, _, _⟩ := ha
  obtain ⟨⟨hmb1, hmb2, hdb1, hdb2⟩, _, _⟩ := hb
  simp only [LocalDate.forTinyComponents, LocalDate.year, LocalDate.kEpochYear] at *
  simp only [DateTuple.epochDays, LocalDate.toEpochDays_eq, LocalDate.forTinyComponents]
  by_cases hd : a.yearTiny = b.yearTiny ∧ a.month = b.month ∧ a.day = b.day
  · obtain ⟨e1, e2, e3⟩ := hd
    rw [e1, e2, e3]
    omega
  · have := epochDaysOf_lt_of_lt a.yearTiny a.month a.day b.yearTiny b.month b.day
      ⟨hma1, hma2⟩ ⟨hda1, hda2⟩ ⟨hmb1, hmb2⟩ hdb1 (by omega)
    omega

theorem DateTuple.instant_le_of_le (a b : DateTuple) (ha : a.validDate) (hb : b.validDate)
    (hta : 0 ≤ a.timeCode ∧ a.timeCode < 96) (htb : 0 ≤ b.timeCode ∧ b.timeCode < 96)
    (h : a.le b = true) :
    a.epochDays * 96 + a.timeCode ≤ b.epochDays * 96 + b.timeCode := by
  by_cases hlt : a.lt b = true
  · exact le_of_lt (DateTuple.instant_lt_of_lt a b ha hb hta htb hlt)
  · rw [DateTuple.le_iff] at h
    rw [DateTuple.lt_iff] at hlt
    have e : a.yearTiny = b.yearTiny ∧ a.month = b.month ∧ a.day = b.day
        ∧ a.timeCode = b.timeCode := by omega
    simp only [DateTuple.epochDays, LocalDate.forTinyComponents]
    rw [e.1, e.2.1, e.2.2.1, e.2.2.2]

/-! ## C4: local date-times in a gap -/

/-- `findTransition` returns the last transition that starts at or before
the instant, in a pool sorted by `startEpochSeconds`. -/
theorem findTransition_of_last (ts : TransitionStorage) (epochSeconds : Int)
    (hread : ∀ i, i < ts.mIndexFree → (ts.getTransition i).isSome)
    (hsorted : ∀ i, i < ts.mIndexFree → ∀ j, j < ts.mIndexFree → i ≤ j →
      ∀ a ∈ ts.getTransition i, ∀ b ∈ ts.getTransition j,
        a.startEpochSeconds ≤ b.startEpochSeconds)
    (i : Nat) (hi : i < ts.mIndexFree) (a : Transition) (ha : a ∈ ts.getTransition i)
    (hle : a.startEpochSeconds ≤ epochSeconds)
    (hlast : ∀ j, j < ts.mIndexFree → i < j → ∀ b ∈ ts.getTransition j,
      epochSeconds < b.startEpochSeconds) :
    ts.findTransition epochSeconds = some (ts.slotAt i) := by
  unfold TransitionStorage.findTransition
  rw [findTransitionLoop_eq_scan]
  have := scanLoop_prefix ts (fun c => decide (c.startEpochSeconds > epochSeconds))
    ts.mIndexFree 0 none (i + 1) (by omega)
    (fun j _ h2 => hread j (by omega))
    (fun j b _ h2 hb => by
      have := hsorted j (by omega) i hi (by omega) b hb a ha
      simp only [gt_iff_lt, decide_eq_false_iff_not, not_lt]
      omega)
    (by
      by_cases h0 : i + 1 = ts.mIndexFree
      · left; exact h0
      · right; intro b hb
        have := hlast (i + 1) (by omega) (by omega) b (by simpa using hb)
        simpa using this)
  simpa using this

/-- `findTransitionForDateTime` returns the last transition whose start is
at or before the local date-time, in a pool sorted by `startDateTime`. -/
theorem findTransitionForDateTime_of_last (ts : TransitionStorage) (ldt : LocalDateTime)
    (hread : ∀ i, i < ts.mIndexFree → (ts.getTransition i).isSome)
    (hsorted : ∀ i, i < ts.mIndexFree → ∀ j, j < ts.mIndexFree → i ≤ j →
      ∀ a ∈ ts.getTransition i, ∀ b ∈ ts.getTransition j,
        a.startDateTime.le b.startDateTime = true)
    (i : Nat) (hi : i < ts.mIndexFree) (a : Transition) (ha : a ∈ ts.getTransition i)
    (hle : a.startDateTime.le (TransitionStorage.localDateTuple ldt) = true)
    (hlast : ∀ j, j < ts.mIndexFree → i < j → ∀ b ∈ ts.getTransition j,
      (TransitionStorage.localDateTuple ldt).lt b.startDateTime = true) :
    ts.findTransitionForDateTime ldt = some (ts.slotAt i) := by
  unfold TransitionStorage.findTransitionForDateTime
  rw [findTransitionForDateTimeLoop_eq_scan]
  have := scanLoop_prefix ts
    (fun c => c.startDateTime.gt (TransitionStorage.localDateTuple ldt))
    ts.mIndexFree 0 none (i + 1) (by omega)
    (fun j _ h2 => hread j (by omega))
    (fun j b _ h2 hb => by
      have h1 := hsorted j (by omega) i hi (by omega) b hb a ha
      exact (DateTuple.gt_false_iff_le _ _).mpr (DateTuple.le_trans h1 hle))
    (by
      by_cases h0 : i + 1 = ts.mIndexFree
      · left; exact h0
      · right; intro b hb
        have := hlast (i + 1) (by omega) (by omega) b (by simpa using hb)
        simpa [DateTuple.gt] using this)
  simpa using this

/-- The tuple of a valid local date-time: its time code is the quarter hour
of the day, and its instant is not after the date-time. -/
theorem localDateTuple_of_valid (ldt : LocalDateTime) (hv : ldt.isValid) :
    (TransitionStorage.localDateTuple ldt).validDate
    ∧ 0 ≤ (TransitionStorage.localDateTuple ldt).timeCode
    ∧ (TransitionStorage.localDateTuple ldt).timeCode < 96
    ∧ 900 * ((TransitionStorage.localDateTuple ldt).epochDays * 96
        + (TransitionStorage.localDateTuple ldt).timeCode) ≤ ldt.seconds := by
  obtain ⟨h1, h2, h3, h4, h5, h6, h7, h8, h9⟩ := hv
  have hw : wrap8 (ldt.hour * 4 + ldt.minute / 15) = ldt.hour * 4 + ldt.minute / 15 := by
    apply wrap8_of_fits <;> omega
  refine ⟨⟨h1, h2, h3⟩, ?_, ?_, ?_⟩
  · simp only [TransitionStorage.localDateTuple, hw]; omega
  · simp only [TransitionStorage.localDateTuple, hw]; omega
  · simp only [TransitionStorage.localDateTuple, hw, LocalDateTime.seconds, DateTuple.epochDays,
      LocalDate.forTinyComponents, LocalDateTime.localDate]
    omega

/-- C4 (as amended). Let `ldt` be a valid local date-time in a gap between
the consecutive transitions A and B of the pool left by a successful `init`:
`A.untilDateTime <= ldt < B.startDateTime`, with A's interval not empty, B
starting at the instant A ends, and the pool sorted by start. If B is still in
effect at the instant `ldt - a` (no later transition has started by then),
`getOffsetDateTime(ldt)` returns the date-time of the epoch seconds
`ldt - a` at the offset `b` of B, whose local time is `ldt` shifted forward
by `b - a`. -/
theorem C4_getOffsetDateTime_gap (zp zp2 : ExtendedZoneProcessor) (ldt : LocalDateTime)
    (i : Nat) (a b : Transition)
    (hinit : zp.init ldt.localDate = some (true, zp2))
    (hread : ∀ i, i < zp2.mTransitionStorage.mIndexFree →
      (zp2.mTransitionStorage.getTransition i).isSome)
    (hsortedD : ∀ i, i < zp2.mTransitionStorage.mIndexFree →
      ∀ j, j < zp2.mTransitionStorage.mIndexFree → i ≤ j →
      ∀ a ∈ zp2.mTransitionStorage.getTransition i,
      ∀ b ∈ zp2.mTransitionStorage.getTransition j,
        a.startDateTime.le b.startDateTime = true)
    (hsortedE : ∀ i, i < zp2.mTransitionStorage.mIndexFree →
      ∀ j, j < zp2.mTransitionStorage.mIndexFree → i ≤ j →
      ∀ a ∈ zp2.mTransitionStorage.getTransition i,
      ∀ b ∈ zp2.mTransitionStorage.getTransition j,
        a.startEpochSeconds ≤ b.startEpochSeconds)
    (hi : i + 1 < zp2.mTransitionStorage.mIndexFree)
    (ha : a ∈ zp2.mTransitionStorage.getTransition i)
    (hb : b ∈ zp2.mTransitionStorage.getTransition (i + 1))
    (hldt : ldt.isValid)
    (hstart : a.startDateTime.le a.untilDateTime = true)
    (hgap1 : a.untilDateTime.le (TransitionStorage.localDateTuple ldt) = true)
    (hgap2 : (TransitionStorage.localDateTuple ldt).lt b.startDateTime = true)
    (huntil : a.untilDateTime.validDate ∧ 0 ≤ a.untilDateTime.timeCode
      ∧ a.untilDateTime.timeCode < 96)
    (hcons : b.startEpochSeconds
      = 900 * a.untilDateTime.utcCode (a.offsetCode + a.deltaCode))
    (hfitA : -128 < a.offsetCode + a.deltaCode ∧ a.offsetCode + a.deltaCode ≤ 127)
    (hfitB : -128 ≤ b.offsetCode + b.deltaCode ∧ b.offsetCode + b.deltaCode ≤ 127)
    (hrange : -2147483648 ≤ ldt.seconds ∧ ldt.seconds ≤ 2147483647
      ∧ -2147483648 ≤ ldt.seconds - 900 * (a.offsetCode + a.deltaCode)
      ∧ ldt.seconds - 900 * (a.offsetCode + a.deltaCode) ≤ 2147483647
      ∧ -2147483648 ≤ ldt.seconds + 900 * (b.offsetCode + b.deltaCode
          - (a.offsetCode + a.deltaCode))
      ∧ ldt.seconds + 900 * (b.offsetCode + b.deltaCode - (a.offsetCode + a.deltaCode))
          ≤ 2147483647)
    (hnext : ∀ j, j < zp2.mTransitionStorage.mIndexFree → i + 1 < j →
      ∀ c ∈ zp2.mTransitionStorage.getTransition j,
        ldt.seconds - 900 * (a.offsetCode + a.deltaCode) < c.startEpochSeconds) :
    ∃ odt, getOffsetDateTime zp ldt = some (odt, zp2)
      ∧ odt = OffsetDateTime.forEpochSeconds
          (ldt.seconds - 900 * (a.offsetCode + a.deltaCode))
          (TimeOffset.forOffsetCode (b.offsetCode + b.deltaCode))
      ∧ odt.toEpochSeconds = ldt.seconds - 900 * (a.offsetCode + a.deltaCode)
      ∧ odt.mTimeOffset.mOffsetCode = b.offsetCode + b.deltaCode
      ∧ odt.mLocalDateTime.toEpochSeconds
          = ldt.seconds + 900 * (b.offsetCode + b.deltaCode - (a.offsetCode + a.deltaCode)) := by
  obtain ⟨hlv, hl0, hl1, hlsec⟩ := localDateTuple_of_valid ldt hldt
  have ha' : zp2.mTransitionStorage.getTransition i = some a := ha
  have hb' : zp2.mTransitionStorage.getTransition (i + 1) = some b := hb
  obtain ⟨pa, hpa1, hpa2⟩ := getTransition_eq_some.mp ha'
  obtain ⟨pb, hpb1, hpb2⟩ := getTransition_eq_some.mp hb'
  -- first lookup: A
  have hfindA : zp2.mTransitionStorage.findTransitionForDateTime ldt = some (some pa) := by
    rw [← hpa1]
    apply findTransitionForDateTime_of_last _ _ hread hsortedD i (by omega) a ha
      (DateTuple.le_trans hstart hgap1)
    intro j hj hij c hc
    have h1 := hsortedD (i + 1) hi j hj (by omega) b hb c hc
    exact DateTuple.lt_of_lt_of_le hgap2 h1
  -- the epoch seconds computed with A's offset
  have hwa : wrap8 (a.offsetCode + a.deltaCode) = a.offsetCode + a.deltaCode :=
    wrap8_of_fits (by omega) hfitA.2
  have hwb : wrap8 (b.offsetCode + b.deltaCode) = b.offsetCode + b.deltaCode :=
    wrap8_of_fits hfitB.1 hfitB.2
  have hsecs : ldt.toEpochSeconds = ldt.seconds := wrap32_of_fits hrange.1 hrange.2.1
  have he : (OffsetDateTime.forLocalDateTimeAndOffset ldt
      (TimeOffset.forOffsetCode (a.offsetCode + a.deltaCode))).toEpochSeconds
      = ldt.seconds - 900 * (a.offsetCode + a.deltaCode) := by
    simp only [OffsetDateTime.toEpochSeconds, OffsetDateTime.forLocalDateTimeAndOffset,
      TimeOffset.toSeconds, TimeOffset.forOffsetCode, hwa, hsecs]
    exact wrap32_of_fits hrange.2.2.1 hrange.2.2.2.1
  -- second lookup: B
  have hlow : b.startEpochSeconds ≤ ldt.seconds - 900 * (a.offsetCode + a.deltaCode) := by
    have := DateTuple.instant_le_of_le _ _ huntil.1 hlv ⟨huntil.2.1, huntil.2.2⟩ ⟨hl0, hl1⟩ hgap1
    rw [hcons]
    unfold DateTuple.utcCode
    omega
  have hfindB : zp2.mTransitionStorage.findTransition
      (ldt.seconds - 900 * (a.offsetCode + a.deltaCode)) = some (some pb) := by
    rw [← hpb1]
    exact findTransition_of_last _ _ hread hsortedE (i + 1) hi b hb hlow hnext
  have hnerr : (TimeOffset.forOffsetCode (a.offsetCode + a.deltaCode)).isError = false := by
    simp only [TimeOffset.isError, TimeOffset.forOffsetCode, hwa, TimeOffset.kErrorCode,
      beq_eq_false_iff_ne, ne_eq]
    omega
  refine ⟨_, ?_, rfl, ?_, ?_, ?_⟩
  · unfold getOffsetDateTime
    simp only [hinit, Option.bind, hfindA, hpa2, Option.map, hnerr, if_true,
      Bool.false_eq_true, if_false, he, hfindB, hpb2]
  · exact OffsetDateTime.roundtrip_forEpochSeconds _ _ hrange.2.2.1 hrange.2.2.2.1
  · simp only [OffsetDateTime.forEpochSeconds, TimeOffset.forOffsetCode, hwb]
  · simp only [OffsetDateTime.forEpochSeconds, TimeOffset.forOffsetCode, hwb,
      TimeOffset.toSeconds]
    have e : ldt.seconds - 900 * (a.offsetCode + a.deltaCode)
        + 900 * (b.offsetCode + b.deltaCode)
        = ldt.seconds + 900 * (b.offsetCode + b.deltaCode - (a.offsetCode + a.deltaCode)) := by
      ring
    rw [e, wrap32_of_fits hrange.2.2.2.2.1 hrange.2.2.2.2.2]
    exact LocalDateTime.toEpochSeconds_forEpochSeconds _ hrange.2.2.2.2.1 hrange.2.2.2.2.2

/-- Witness of C4 (as amended): Los Angeles, 2018-03-11T02:30:00, in the gap
between the transition to PST of 2017 (offset code -32) and the transition to
PDT of 2018 (offset code -28). The result is the instant 10:30 UTC at -07:00,
whose local time 03:30 is the input shifted forward by one hour. -/
theorem C4_getOffsetDateTime_gap_witness :
    ∃ odt, getOffsetDateTime (newProcessor kZoneAmerica_Los_Angeles)
          { yearTiny := 18, month := 3, day := 11, hour := 2, minute := 30, second := 0 }
        = some (odt, losAngeles2018)
      ∧ odt.toEpochSeconds = 574050600 + 28800
      ∧ odt.mTimeOffset.mOffsetCode = -28
      ∧ odt.mLocalDateTime.toEpochSeconds = 574050600 + 3600 := by
  have hinit := init_eq_afterInit (newProcessor kZoneAmerica_Los_Angeles)
    { yearTiny := 18, month := 3, day := 11 } true (by decide)
  obtain ⟨odt, h1, _, h3, h4, h5⟩ :=
    C4_getOffsetDateTime_gap (newProcessor kZoneAmerica_Los_Angeles) losAngeles2018
      { yearTiny := 18, month := 3, day := 11, hour := 2, minute := 30, second := 0 }
      0 (losAngeles2018.mTransitionStorage.mPool.getD 3 default)
      (losAngeles2018.mTransitionStorage.mPool.getD 1 default)
      hinit (by decide) (by decide) (by decide) (by decide) (by decide) (by decide)
      (by decide) (by decide) (by decide) (by decide) (by decide) (by decide) (by decide)
      (by decide) (by decide) (by decide)
  have e1 : (losAngeles2018.mTransitionStorage.mPool.getD 3 default).offsetCode
      + (losAngeles2018.mTransitionStorage.mPool.getD 3 default).deltaCode = -32 := by decide
  have e2 : (losAngeles2018.mTransitionStorage.mPool.getD 1 default).offsetCode
      + (losAngeles2018.mTransitionStorage.mPool.getD 1 default).deltaCode = -28 := by decide
  have e3 : LocalDateTime.seconds
      { yearTiny := 18, month := 3, day := 11, hour := 2, minute := 30, second := 0 }
      = 574050600 := by decide
  rw [e1, e3] at h3
  rw [e2] at h4
  rw [e1, e2, e3] at h5
  exact ⟨odt, h1, h3, h4, h5⟩

/-! ## C6: the order of the Active transitions -/

theorem DateTuple.lt_irrefl (a : DateTuple) : a.lt a = false := by
  rw [← Bool.not_eq_true, DateTuple.lt_iff]
  omega

theorem DateTuple.lt_trans {a b c : DateTuple} (h1 : a.lt b = true) (h2 : b.lt c = true) :
    a.lt c = true := by
  rw [DateTuple.lt_iff] at *
  omega

theorem DateTuple.lt_of_le_of_lt {a b c : DateTuple} (h1 : a.le b = true) (h2 : b.lt c = true) :
    a.lt c = true := by
  rw [DateTuple.le_iff] at h1
  rw [DateTuple.lt_iff] at *
  omega

theorem DateTuple.le_of_lt {a b : DateTuple} (h : a.lt b = true) : a.le b = true := by
  rw [DateTuple.le_iff]
  rw [DateTuple.lt_iff] at h
  omega

theorem DateTuple.lt_eq_false_iff (a b : DateTuple) : a.lt b = false ↔ b.le a = true := by
  simp [DateTuple.le]

theorem DateTuple.ge_iff_le (a b : DateTuple) : a.ge b = true ↔ b.le a = true := by
  simp [DateTuple.ge, DateTuple.le]

/-- Two tuples are in strict order one way or the other, or have the same
date and time code. -/
theorem DateTuple.lt_or_same_or_gt (a b : DateTuple) :
    a.lt b = true ∨ a.same b ∨ b.lt a = true := by
  rw [DateTuple.lt_iff, DateTuple.lt_iff]
  unfold DateTuple.same
  omega

theorem DateTuple.lt_of_le_of_not_same {a b : DateTuple} (h1 : a.le b = true)
    (h2 : ¬ a.same b) : a.lt b = true := by
  rw [DateTuple.le_iff] at h1
  rw [DateTuple.lt_iff]
  unfold DateTuple.same at h2
  omega

theorem DateTuple.not_same_of_lt {a b : DateTuple} (h : a.lt b = true) : ¬ a.same b := by
  rw [DateTuple.lt_iff] at h
  unfold DateTuple.same
  omega

theorem DateTuple.eq_iff (a b : DateTuple) : a.eq b = true ↔ a = b := by
  cases a; cases b
  simp [DateTuple.eq, and_assoc]

namespace TransitionStorage

theorem setSlot_spec {ts ts2 : TransitionStorage} {i p : Nat}
    (h : ts.setSlot i p = some ts2) :
    i < ts.mTransitions.length ∧ ts2.mPool = ts.mPool ∧ ts2.indexes = ts.indexes
      ∧ ts2.mHighWater = ts.mHighWater
      ∧ ts2.mTransitions.length = ts.mTransitions.length
      ∧ ∀ j, ts2.slotAt j = if j = i then some p else ts.slotAt j := by
  unfold setSlot at h
  split_ifs at h with hi
  simp only [Option.some.injEq] at h
  subst h
  refine ⟨hi, rfl, rfl, rfl, by simp, ?_⟩
  intro j
  unfold slotAt
  by_cases hj : j = i
  · subst hj; simp [hi]
  · simp only [hj, if_false]
    rw [List.getElem?_set_ne (Ne.symm hj)]

theorem deref_congr {ts ts2 : TransitionStorage} (h : ts2.mPool = ts.mPool) (q : Nat) :
    ts2.deref q = ts.deref q := by
  unfold deref; rw [h]

/-- The effect of `swap` on the pointer vector. -/
theorem swap_spec {ts ts2 : TransitionStorage} {a b : Nat} (h : ts.swap a b = some ts2) :
    ∃ pa pb, ts.slotAt a = some pa ∧ ts.slotAt b = some pb
      ∧ ts2.mPool = ts.mPool ∧ ts2.indexes = ts.indexes ∧ ts2.mHighWater = ts.mHighWater
      ∧ ∀ j, ts2.slotAt j = if j = b then some pa else if j = a then some pb else ts.slotAt j := by
  unfold swap at h
  simp only [Option.bind_eq_some] at h
  obtain ⟨pa, ha, pb, hb, ts1, h1, h2⟩ := h
  obtain ⟨_, e1, e2, e3, _, e5⟩ := setSlot_spec h1
  obtain ⟨_, f1, f2, f3, _, f5⟩ := setSlot_spec h2
  refine ⟨pa, pb, ha, hb, f1.trans e1, f2.trans e2, f3.trans e3, ?_⟩
  intro j
  rw [f5, e5]

theorem swap_getTransition {ts ts2 : TransitionStorage} {a b : Nat}
    (h : ts.swap a b = some ts2) (j : Nat) :
    ts2.getTransition j = if j = b then ts.getTransition a
      else if j = a then ts.getTransition b else ts.getTransition j := by
  obtain ⟨pa, pb, ha, hb, e1, _, _, e4⟩ := swap_spec h
  unfold getTransition
  rw [e4]
  have hd : ∀ q, ts2.deref q = ts.deref q := deref_congr e1
  by_cases h1 : j = b
  · simp only [h1, if_true, ha, Option.bind, hd]
  · by_cases h2 : j = a
    · subst h2
      simp only [h1, if_true, if_false, hb, Option.bind, hd]
    · simp only [h1, h2, if_false]
      cases ts.slotAt j <;> simp [Option.bind, hd]

theorem swap_distinctSlots {ts ts2 : TransitionStorage} {a b : Nat}
    (h : ts.swap a b = some ts2) (hd : ts.distinctSlots) : ts2.distinctSlots := by
  obtain ⟨pa, pb, ha, hb, _, _, _, e4⟩ := swap_spec h
  have key : ∀ j, ts2.slotAt j
      = ts.slotAt (if j = b then a else if j = a then b else j) := by
    intro j
    rw [e4]
    by_cases h1 : j = b
    · simp only [h1, if_true, ha]
    · by_cases h2 : j = a
      · subst h2
        simp only [h1, if_true, if_false, hb]
      · simp only [h1, h2, if_false]
  intro i j p hi hj
  rw [key] at hi hj
  have := hd _ _ _ hi hj
  split_ifs at this <;> omega

theorem modify_distinctSlots {ts ts2 : TransitionStorage} {p : Nat} {f : Transition → Transition}
    (h : ts.modify p f = some ts2) (hd : ts.distinctSlots) : ts2.distinctSlots := by
  intro i j q hi hj
  rw [slotAt_modify h] at hi hj
  exact hd i j q hi hj

/-- The effect of `modify` through the slot of index `i` on the transitions
read by index. -/
theorem modify_getTransition {ts ts2 : TransitionStorage} {p i : Nat}
    {f : Transition → Transition} (h : ts.modify p f = some ts2) (hd : ts.distinctSlots)
    (hi : ts.slotAt i = some p) (j : Nat) :
    ts2.getTransition j = if j = i then (ts.getTransition i).map f else ts.getTransition j := by
  obtain ⟨t0, h0, h1⟩ := deref_modify h
  unfold getTransition
  rw [slotAt_modify h]
  by_cases hj : j = i
  · subst hj
    simp only [hi, Option.bind, if_true, h1, h0, Option.map]
  · simp only [hj, if_false]
    cases hs : ts.slotAt j with
    | none => rfl
    | some q =>
      simp only [Option.bind]
      rw [h1]
      have : q ≠ p := by
        intro e
        subst e
        exact hj (hd _ _ _ hs hi)
      simp [this]

end TransitionStorage

namespace TransitionStorage

/-- One exchange of the insertion loop is a `swap` of two neighbours. -/
theorem insertStep_eq_swap (ts : TransitionStorage) (i curr prev : Nat)
    (h1 : ts.slotAt (i + 1) = some curr) (h2 : ts.slotAt i = some prev) :
    ((ts.setSlot (i + 1) prev).bind fun ts1 => ts1.setSlot i curr) = ts.swap (i + 1) i := by
  unfold swap
  simp [h1, h2]

/-- The insertion loop unfolded once. -/
theorem addFreeAgentToCandidatePoolLoop_succ (ts ts2 : TransitionStorage) (i : Nat)
    (h : addFreeAgentToCandidatePoolLoop ts (i + 1) = some ts2) :
    (¬ i + 1 > ts.mIndexCandidates ∧ ts2 = ts)
    ∨ (i + 1 > ts.mIndexCandidates ∧ ∃ currT prevT, ts.getTransition (i + 1) = some currT
        ∧ ts.getTransition i = some prevT
        ∧ ((prevT.transitionTime.le currT.transitionTime = true ∧ ts2 = ts)
          ∨ (currT.transitionTime.lt prevT.transitionTime = true
              ∧ ∃ ts1, ts.swap (i + 1) i = some ts1
                ∧ addFreeAgentToCandidatePoolLoop ts1 i = some ts2))) := by
  unfold addFreeAgentToCandidatePoolLoop at h
  split_ifs at h with hc
  · right
    refine ⟨hc, ?_⟩
    simp only [Option.bind_eq_some] at h
    obtain ⟨curr, h1, prev, h2, currT, h3, prevT, h4, h⟩ := h
    refine ⟨currT, prevT, getTransition_eq_some.mpr ⟨curr, h1, h3⟩,
      getTransition_eq_some.mpr ⟨prev, h2, h4⟩, ?_⟩
    split_ifs at h with hge
    · left
      simp only [Option.some.injEq] at h
      exact ⟨(DateTuple.ge_iff_le _ _).mp hge, h.symm⟩
    · right
      have hlt : currT.transitionTime.lt prevT.transitionTime = true := by
        simpa [DateTuple.ge] using hge
      have hs := insertStep_eq_swap ts i curr prev h1 h2
      obtain ⟨ts1, h5, h6⟩ := Option.bind_eq_some.mp h
      obtain ⟨ts1b, h7, h8⟩ := Option.bind_eq_some.mp h6
      refine ⟨hlt, ts1b, ?_, h8⟩
      rw [← hs]
      simp [h5, h7]
  · left
    simp only [Option.some.injEq] at h
    exact ⟨hc, h.symm⟩

/-- The insertion loop only permutes the pointer-vector entries
`[mIndexCandidates, k]`. -/
theorem addFreeAgentToCandidatePoolLoop_frame :
    ∀ (k : Nat) (ts ts2 : TransitionStorage),
      addFreeAgentToCandidatePoolLoop ts k = some ts2 →
      ts2.mPool = ts.mPool ∧ ts2.indexes = ts.indexes ∧ ts2.mHighWater = ts.mHighWater
      ∧ (ts.distinctSlots → ts2.distinctSlots)
      ∧ (∀ j, j < ts.mIndexCandidates ∨ k < j → ts2.getTransition j = ts.getTransition j)
      ∧ (∀ j, ts.mIndexCandidates ≤ j → j ≤ k →
          ∃ j2, ts.mIndexCandidates ≤ j2 ∧ j2 ≤ k ∧ ts2.getTransition j = ts.getTransition j2) := by
  intro k
  induction k with
  | zero =>
    intro ts ts2 h
    simp only [addFreeAgentToCandidatePoolLoop, Option.some.injEq] at h
    subst h
    exact ⟨rfl, rfl, rfl, id, fun _ _ => rfl, fun j h1 h2 => ⟨j, h1, h2, rfl⟩⟩
  | succ i ih =>
    intro ts ts2 h
    rcases addFreeAgentToCandidatePoolLoop_succ ts ts2 i h with
      ⟨_, e⟩ | ⟨hc, currT, prevT, _, _, ⟨_, e⟩ | ⟨_, ts1, hs, hl⟩⟩
    · subst e
      exact ⟨rfl, rfl, rfl, id, fun _ _ => rfl, fun j h1 h2 => ⟨j, h1, h2, rfl⟩⟩
    · subst e
      exact ⟨rfl, rfl, rfl, id, fun _ _ => rfl, fun j h1 h2 => ⟨j, h1, h2, rfl⟩⟩
    · obtain ⟨pa, pb, _, _, e1, e2, e3, _⟩ := swap_spec hs
      obtain ⟨f1, f2, f3, f4, f5, f6⟩ := ih ts1 ts2 hl
      have hg := swap_getTransition hs
      have hcand : ts1.mIndexCandidates = ts.mIndexCandidates := by
        unfold indexes at e2
        simp only [Prod.mk.injEq] at e2
        exact e2.2.1
      rw [hcand] at f5 f6
      refine ⟨f1.trans e1, f2.trans e2, f3.trans e3,
        fun hd => f4 (swap_distinctSlots hs hd), ?_, ?_⟩
      · intro j hj
        rw [f5 j (by omega), hg]
        have h1 : j ≠ i := by omega
        have h2 : j ≠ i + 1 := by omega
        simp [h1, h2]
      · intro j h1 h2
        by_cases hj : j = i + 1
        · subst hj
          rw [f5 (i + 1) (by omega), hg]
          exact ⟨i, by omega, by omega, by simp⟩
        · obtain ⟨j2, g1, g2, g3⟩ := f6 j h1 (by omega)
          rw [g3, hg]
          by_cases hj2 : j2 = i
          · exact ⟨i + 1, by omega, by omega, by simp [hj2]⟩
          · have : j2 ≠ i + 1 := by omega
            exact ⟨j2, g1, by omega, by simp [hj2, this]⟩

/-- The insertion loop sorts: when all pairs of `[mIndexCandidates, K]` are
in strict order except those that end at the entry `k` being inserted, and
that entry differs from the ones below it, all pairs are in strict order
afterwards. -/
theorem addFreeAgentToCandidatePoolLoop_sorted (K : Nat) :
    ∀ (k : Nat) (ts ts2 : TransitionStorage),
      addFreeAgentToCandidatePoolLoop ts k = some ts2 → k ≤ K →
      (∀ i j, ts.mIndexCandidates ≤ i → i < j → j ≤ K → j ≠ k →
        ∀ a ∈ ts.getTransition i, ∀ b ∈ ts.getTransition j,
          a.transitionTime.lt b.transitionTime = true) →
      (∀ i, ts.mIndexCandidates ≤ i → i < k →
        ∀ a ∈ ts.getTransition i, ∀ b ∈ ts.getTransition k,
          ¬ a.transitionTime.same b.transitionTime) →
      ∀ i j, ts.mIndexCandidates ≤ i → i < j → j ≤ K →
        ∀ a ∈ ts2.getTransition i, ∀ b ∈ ts2.getTransition j,
          a.transitionTime.lt b.transitionTime = true := by
  intro k
  induction k with
  | zero =>
    intro ts ts2 h _ hs _ i j h1 h2 h3 a ha b hb
    simp only [addFreeAgentToCandidatePoolLoop, Option.some.injEq] at h
    subst h
    exact hs i j h1 h2 h3 (by omega) a ha b hb
  | succ k ih =>
    intro ts ts2 h hK hs hdist i j h1 h2 h3 a ha b hb
    rcases addFreeAgentToCandidatePoolLoop_succ ts ts2 k h with
      ⟨hc, e⟩ | ⟨hc, currT, prevT, hcurr, hprev, ⟨hle, e⟩ | ⟨hlt, ts1, hsw, hl⟩⟩
    · subst e
      by_cases hj : j = k + 1
      · omega
      · exact hs i j h1 h2 h3 hj a ha b hb
    · subst e
      by_cases hj : j = k + 1
      · subst hj
        have hb2 : b = currT := Option.some.inj (hb.symm.trans hcurr)
        subst hb2
        have hkk : prevT.transitionTime.lt b.transitionTime = true :=
          DateTuple.lt_of_le_of_not_same hle (hdist k (by omega) (by omega) prevT hprev b hb)
        by_cases hi : i = k
        · subst hi
          have ha2 : a = prevT := Option.some.inj (ha.symm.trans hprev)
          subst ha2
          exact hkk
        · exact DateTuple.lt_trans (hs i k h1 (by omega) (by omega) (by omega) a ha prevT hprev)
            hkk
      · exact hs i j h1 h2 h3 hj a ha b hb
    · obtain ⟨pa, pb, _, _, e1, e2, e3, _⟩ := swap_spec hsw
      have hg := swap_getTransition hsw
      have hcand : ts1.mIndexCandidates = ts.mIndexCandidates := by
        unfold indexes at e2
        simp only [Prod.mk.injEq] at e2
        exact e2.2.1
      have := ih ts1 ts2 hl (by omega)
      rw [hcand] at this
      refine this ?_ ?_ i j h1 h2 h3 a ha b hb
      · intro i' j' g1 g2 g3 g4 a' ha' b' hb'
        rw [Membership.mem, Option.instMembership] at ha' hb'
        simp only [hg] at ha' hb'
        by_cases hj1 : j' = k + 1
        · subst hj1
          simp only [if_neg (show k + 1 ≠ k by omega), if_true] at hb'
          by_cases hi1 : i' = k
          · subst hi1
            simp only [if_true] at ha'
            have ea : a' = currT := Option.some.inj (ha'.symm.trans hcurr)
            have eb : b' = prevT := Option.some.inj (hb'.symm.trans hprev)
            rw [ea, eb]
            exact hlt
          · simp only [if_neg hi1, if_neg (show i' ≠ k + 1 by omega)] at ha'
            exact hs i' k g1 (by omega) (by omega) (by omega) a' ha' b' hb'
        · simp only [if_neg g4, if_neg hj1] at hb'
          by_cases hi1 : i' = k
          · subst hi1
            simp only [if_true] at ha'
            exact hs (i' + 1) j' (by omega) (by omega) g3 hj1 a' ha' b' hb'
          · by_cases hi2 : i' = k + 1
            · subst hi2
              simp only [if_neg hi1, if_true] at ha'
              exact hs k j' (by omega) (by omega) g3 hj1 a' ha' b' hb'
            · simp only [if_neg hi1, if_neg hi2] at ha'
              exact hs i' j' g1 g2 g3 hj1 a' ha' b' hb'
      · intro i' g1 g2 a' ha' b' hb'
        rw [Membership.mem, Option.instMembership] at ha' hb'
        simp only [hg] at ha' hb'
        simp only [if_true] at hb'
        simp only [if_neg (show i' ≠ k by omega), if_neg (show i' ≠ k + 1 by omega)] at ha'
        exact hdist i' g1 (by omega) a' ha' b' hb'

end TransitionStorage

namespace TransitionStorage

theorem indexes_eq_iff (ts ts2 : TransitionStorage) :
    ts2.indexes = ts.indexes ↔ ts2.mIndexPrior = ts.mIndexPrior
      ∧ ts2.mIndexCandidates = ts.mIndexCandidates ∧ ts2.mIndexFree = ts.mIndexFree := by
  unfold indexes
  simp only [Prod.mk.injEq]

theorem getTransition_congr {ts ts2 : TransitionStorage} (h1 : ts2.mPool = ts.mPool)
    (h2 : ts2.mTransitions = ts.mTransitions) (j : Nat) :
    ts2.getTransition j = ts.getTransition j := by
  unfold getTransition slotAt deref
  rw [h1, h2]

theorem slotAt_congr {ts ts2 : TransitionStorage}
    (h2 : ts2.mTransitions = ts.mTransitions) (j : Nat) : ts2.slotAt j = ts.slotAt j := by
  unfold slotAt
  rw [h2]

theorem distinctSlots_congr {ts ts2 : TransitionStorage}
    (h2 : ts2.mTransitions = ts.mTransitions) (hd : ts.distinctSlots) : ts2.distinctSlots := by
  intro i j p hi hj
  rw [slotAt_congr h2] at hi hj
  exact hd i j p hi hj

/-- The free agent is the entry at `mIndexFree` while the pool is not full;
the high water mark then covers `mIndexFree`. -/
theorem getFreeAgent_spec {SIZE : Nat} {ts : TransitionStorage} {r : Nat × TransitionStorage}
    (h : ts.getFreeAgent SIZE = some r) :
    r.2.mPool = ts.mPool ∧ r.2.mTransitions = ts.mTransitions ∧ r.2.indexes = ts.indexes
      ∧ ts.mHighWater ≤ r.2.mHighWater ∧ ts.mIndexFree ≤ r.2.mHighWater
      ∧ (ts.mIndexFree < SIZE → ts.slotAt ts.mIndexFree = some r.1) := by
  unfold getFreeAgent at h
  simp only at h
  by_cases hw : ts.mIndexFree > ts.mHighWater
  · simp only [hw, if_true] at h
    split_ifs at h with h1 h2
    · obtain ⟨p, hp, h⟩ := Option.map_eq_some'.mp h
      subst h
      refine ⟨rfl, rfl, rfl, by simp; omega, by simp, fun _ => ?_⟩
      exact hp
    · obtain ⟨p, hp, h⟩ := Option.map_eq_some'.mp h
      subst h
      exact ⟨rfl, rfl, rfl, by simp; omega, by simp, fun hh => absurd hh h1⟩
  · simp only [hw, if_false] at h
    split_ifs at h with h1 h2
    · obtain ⟨p, hp, h⟩ := Option.map_eq_some'.mp h
      subst h
      exact ⟨rfl, rfl, rfl, le_refl _, by simp; omega, fun _ => hp⟩
    · obtain ⟨p, hp, h⟩ := Option.map_eq_some'.mp h
      subst h
      exact ⟨rfl, rfl, rfl, le_refl _, by simp; omega, fun hh => absurd hh h1⟩

end TransitionStorage

theorem getTransitionTime_yearTiny (y : Int) (r : ZoneRule) :
    (getTransitionTime y r).yearTiny = y := rfl

theorem getTransitionTime_isWall (y : Int) (r : ZoneRule) (h1 : r.atTimeModifier = 'w')
    (h2 : 0 ≤ r.atTimeCode) (h3 : r.atTimeCode < 96) : (getTransitionTime y r).isWall := by
  have hw : wrap8 r.atTimeCode = r.atTimeCode := wrap8_of_fits (by omega) (by omega)
  unfold DateTuple.isWall getTransitionTime
  simp only [hw]
  exact ⟨h1, h2, h3⟩

theorem createTransitionForYear_rule (t : Transition) (y : Int) (r : ZoneRule) (mp : Nat)
    (m : ZoneMatch) :
    (createTransitionForYear t y (some r) mp m).transitionTime = getTransitionTime y r
      ∧ (createTransitionForYear t y (some r) mp m).active = t.active := by
  unfold createTransitionForYear
  simp only
  split_ifs <;> exact ⟨rfl, rfl⟩

theorem createTransitionForYear_simple (t : Transition) (y : Int) (mp : Nat) (m : ZoneMatch) :
    (createTransitionForYear t y none mp m).transitionTime = m.startDateTime := rfl

/-- The effect of `setAsPriorTransition` for the free agent `t` at
`mIndexFree`: either nothing changes, or the entries at `mIndexPrior` and
`mIndexFree` are exchanged after the free agent was marked active. -/
theorem setAsPriorTransition_spec {ts ts2 : TransitionStorage} {t : Nat}
    (h : setAsPriorTransition ts t = some ts2) (hd : ts.distinctSlots)
    (ht : ts.slotAt ts.mIndexFree = some t) (hne : ts.mIndexPrior ≠ ts.mIndexFree) :
    ts2.indexes = ts.indexes ∧ ts2.mHighWater = ts.mHighWater ∧ ts2.distinctSlots
      ∧ ∃ priorT tT, ts.getTransition ts.mIndexPrior = some priorT
        ∧ ts.getTransition ts.mIndexFree = some tT
        ∧ ((ts2 = ts ∧ priorT.active = true)
          ∨ (ts2.getTransition ts.mIndexPrior = some { tT with active := true }
              ∧ ∀ j, j ≠ ts.mIndexPrior → j ≠ ts.mIndexFree →
                ts2.getTransition j = ts.getTransition j)) := by
  unfold setAsPriorTransition at h
  simp only [Option.bind_eq_some] at h
  obtain ⟨prior, hp, priorT, hpT, tT, htT, h⟩ := h
  have hprior : ts.getTransition ts.mIndexPrior = some priorT :=
    getTransition_eq_some.mpr ⟨prior, hp, hpT⟩
  have hfree : ts.getTransition ts.mIndexFree = some tT :=
    getTransition_eq_some.mpr ⟨t, ht, htT⟩
  have repl : ∀ ts1, ts.modify t (fun x => { x with active := true }) = some ts1 →
      ts1.setFreeAgentAsPrior = some ts2 →
      ts2.indexes = ts.indexes ∧ ts2.mHighWater = ts.mHighWater ∧ ts2.distinctSlots
      ∧ ts2.getTransition ts.mIndexPrior = some { tT with active := true }
      ∧ ∀ j, j ≠ ts.mIndexPrior → j ≠ ts.mIndexFree →
          ts2.getTransition j = ts.getTransition j := by
    intro ts1 h1 h2
    unfold TransitionStorage.setFreeAgentAsPrior at h2
    have e1 := TransitionStorage.modify_frame h1
    have i1 := (TransitionStorage.indexes_eq_iff _ _).mp e1.1
    rw [i1.1, i1.2.2] at h2
    obtain ⟨pa, pb, _, _, f1, f2, f3, _⟩ := TransitionStorage.swap_spec h2
    have g := TransitionStorage.swap_getTransition h2
    have g1 := TransitionStorage.modify_getTransition h1 hd ht
    refine ⟨f2.trans e1.1, f3.trans e1.2.2.1,
      TransitionStorage.swap_distinctSlots h2 (TransitionStorage.modify_distinctSlots h1 hd),
      ?_, ?_⟩
    · rw [g]
      simp only [hne, if_false, if_true]
      rw [g1]
      simp [hfree]
    · intro j j1 j2
      rw [g]
      simp only [j1, j2, if_false]
      rw [g1]
      simp [j2]
  refine ⟨?_, ?_, ?_, priorT, tT, hprior, hfree, ?_⟩
  · split_ifs at h with ha hl
    · obtain ⟨ts1, h1, h2⟩ := Option.bind_eq_some.mp h
      exact (repl ts1 h1 h2).1
    · simp only [Option.some.injEq] at h; rw [← h]
    · obtain ⟨ts1, h1, h2⟩ := Option.bind_eq_some.mp h
      exact (repl ts1 h1 h2).1
  · split_ifs at h with ha hl
    · obtain ⟨ts1, h1, h2⟩ := Option.bind_eq_some.mp h
      exact (repl ts1 h1 h2).2.1
    · simp only [Option.some.injEq] at h; rw [← h]
    · obtain ⟨ts1, h1, h2⟩ := Option.bind_eq_some.mp h
      exact (repl ts1 h1 h2).2.1
  · split_ifs at h with ha hl
    · obtain ⟨ts1, h1, h2⟩ := Option.bind_eq_some.mp h
      exact (repl ts1 h1 h2).2.2.1
    · simp only [Option.some.injEq] at h; rw [← h]; exact hd
    · obtain ⟨ts1, h1, h2⟩ := Option.bind_eq_some.mp h
      exact (repl ts1 h1 h2).2.2.1
  · split_ifs at h with ha hl
    · obtain ⟨ts1, h1, h2⟩ := Option.bind_eq_some.mp h
      exact Or.inr (repl ts1 h1 h2).2.2.2
    · simp only [Option.some.injEq] at h
      exact Or.inl ⟨h.symm, ha⟩
    · obtain ⟨ts1, h1, h2⟩ := Option.bind_eq_some.mp h
      exact Or.inr (repl ts1 h1 h2).2.2.2

/-- The effect of `addFreeAgentToCandidatePool` while the pool is not full:
the free agent joins the Candidate pool, which stays in strict order when the
free agent's time differs from the candidates'. -/
theorem TransitionStorage.addFreeAgentToCandidatePool_spec {SIZE : Nat}
    {ts ts2 : TransitionStorage} (h : ts.addFreeAgentToCandidatePool SIZE = some ts2)
    (hf : ts.mIndexFree < SIZE) :
    (ts2.mIndexPrior = ts.mIndexPrior ∧ ts2.mIndexCandidates = ts.mIndexCandidates
      ∧ ts2.mIndexFree = ts.mIndexFree + 1)
    ∧ ts2.mHighWater = ts.mHighWater
    ∧ (ts.distinctSlots → ts2.distinctSlots)
    ∧ (∀ j, j < ts.mIndexCandidates ∨ ts.mIndexFree < j →
        ts2.getTransition j = ts.getTransition j)
    ∧ (∀ j, ts.mIndexCandidates ≤ j → j ≤ ts.mIndexFree →
        ∃ j2, ts.mIndexCandidates ≤ j2 ∧ j2 ≤ ts.mIndexFree
          ∧ ts2.getTransition j = ts.getTransition j2)
    ∧ ((∀ i j, ts.mIndexCandidates ≤ i → i < j → j < ts.mIndexFree →
          ∀ a ∈ ts.getTransition i, ∀ b ∈ ts.getTransition j,
            a.transitionTime.lt b.transitionTime = true) →
        (∀ i, ts.mIndexCandidates ≤ i → i < ts.mIndexFree →
          ∀ a ∈ ts.getTransition i, ∀ b ∈ ts.getTransition ts.mIndexFree,
            ¬ a.transitionTime.same b.transitionTime) →
        ∀ i j, ts.mIndexCandidates ≤ i → i < j → j ≤ ts.mIndexFree →
          ∀ a ∈ ts2.getTransition i, ∀ b ∈ ts2.getTransition j,
            a.transitionTime.lt b.transitionTime = true) := by
  unfold TransitionStorage.addFreeAgentToCandidatePool at h
  simp only [ge_iff_le, show ¬ SIZE ≤ ts.mIndexFree by omega, if_false] at h
  obtain ⟨ts1, hl, h⟩ := Option.map_eq_some'.mp h
  obtain ⟨f1, f2, f3, f4, f5, f6⟩ :=
    TransitionStorage.addFreeAgentToCandidatePoolLoop_frame _ _ _ hl
  have i1 := (TransitionStorage.indexes_eq_iff _ _).mp f2
  have hg : ∀ j, ts2.getTransition j = ts1.getTransition j := by
    intro j; rw [← h]; rfl
  have hs : ∀ j, ts2.slotAt j = ts1.slotAt j := by
    intro j; rw [← h]; rfl
  refine ⟨⟨?_, ?_, ?_⟩, ?_, ?_, ?_, ?_, ?_⟩
  · rw [← h]; exact i1.1
  · rw [← h]; exact i1.2.1
  · rw [← h]; simp only; rw [i1.2.2]
  · rw [← h]; exact f3
  · intro hd i j p hi hj
    rw [hs] at hi hj
    exact f4 hd i j p hi hj
  · intro j hj
    rw [hg]; exact f5 j hj
  · intro j h1 h2
    obtain ⟨j2, g1, g2, g3⟩ := f6 j h1 h2
    exact ⟨j2, g1, g2, by rw [hg]; exact g3⟩
  · intro hsort hdist i j h1 h2 h3 a ha b hb
    rw [Membership.mem, Option.instMembership] at ha hb
    simp only [hg] at ha hb
    exact TransitionStorage.addFreeAgentToCandidatePoolLoop_sorted ts.mIndexFree ts.mIndexFree
      ts ts1 hl (le_refl _)
      (fun i j g1 g2 g3 g4 => hsort i j g1 g2 (by omega)) hdist i j h1 h2 h3 a ha b hb

/-- Without wrap-around of the year counter the interior years come out in
increasing order, from both ranges. -/
theorem calcInteriorYearsLoop_spec (mx : Nat) (fromY toY endY : Int) (hend : endY ≤ 126) :
    ∀ (fuel : Nat) (year : Int) (acc ys : List Int),
      calcInteriorYearsLoop mx fromY toY endY fuel year acc = some ys →
      -128 ≤ year → acc.Pairwise (· < ·) → (∀ y ∈ acc, y < year) →
      ys.Pairwise (· < ·)
        ∧ ∀ y ∈ ys, y ∈ acc ∨ (year ≤ y ∧ y ≤ endY ∧ fromY ≤ y ∧ y ≤ toY) := by
  intro fuel
  induction fuel with
  | zero => intro year acc ys h; simp [calcInteriorYearsLoop] at h
  | succ fuel ih =>
    intro year acc ys h hy hp hacc
    unfold calcInteriorYearsLoop at h
    have hpw : (acc ++ [year]).Pairwise (· < ·) := by
      rw [List.pairwise_append]
      refine ⟨hp, List.pairwise_singleton _ _, ?_⟩
      intro a ha b hb
      simp only [List.mem_singleton] at hb
      subst hb
      exact hacc a ha
    split_ifs at h with h1 h2 h3
    · simp only [Option.some.injEq] at h
      subst h
      refine ⟨hpw, ?_⟩
      intro y hy2
      rcases List.mem_append.mp hy2 with h4 | h4
      · exact Or.inl h4
      · simp only [List.mem_singleton] at h4
        subst h4
        exact Or.inr ⟨le_refl _, h1, h2.1, h2.2⟩
    · have hw : wrap8 (year + 1) = year + 1 := wrap8_of_fits (by omega) (by omega)
      rw [hw] at h
      obtain ⟨g1, g2⟩ := ih (year + 1) (acc ++ [year]) ys h (by omega) hpw (by
        intro y hy2
        rcases List.mem_append.mp hy2 with h4 | h4
        · have := hacc y h4; omega
        · simp only [List.mem_singleton] at h4
          omega)
      refine ⟨g1, ?_⟩
      intro y hy2
      rcases g2 y hy2 with h4 | h4
      · rcases List.mem_append.mp h4 with h5 | h5
        · exact Or.inl h5
        · simp only [List.mem_singleton] at h5
          subst h5
          exact Or.inr ⟨le_refl _, h1, h2.1, h2.2⟩
      · exact Or.inr ⟨by omega, h4.2⟩
    · have hw : wrap8 (year + 1) = year + 1 := wrap8_of_fits (by omega) (by omega)
      rw [hw] at h
      obtain ⟨g1, g2⟩ := ih (year + 1) acc ys h (by omega) hp (by
        intro y hy2
        have := hacc y hy2; omega)
      refine ⟨g1, ?_⟩
      intro y hy2
      rcases g2 y hy2 with h4 | h4
      · exact Or.inl h4
      · exact Or.inr ⟨by omega, h4.2⟩
    · simp only [Option.some.injEq] at h
      subst h
      exact ⟨hp, fun y hy2 => Or.inl hy2⟩

theorem calcInteriorYears_spec (mx : Nat) (fromY toY startY endY : Int) (ys : List Int)
    (h : calcInteriorYears mx fromY toY startY endY = some ys)
    (hstart : -128 ≤ startY) (hend : endY ≤ 126) :
    ys.Pairwise (· < ·)
      ∧ ∀ y ∈ ys, startY ≤ y ∧ y ≤ endY ∧ fromY ≤ y ∧ y ≤ toY := by
  unfold calcInteriorYears at h
  obtain ⟨g1, g2⟩ := calcInteriorYearsLoop_spec mx fromY toY endY hend _ _ _ _ h hstart
    List.Pairwise.nil (by simp)
  refine ⟨g1, ?_⟩
  intro y hy
  rcases g2 y hy with h4 | h4
  · simp at h4
  · exact h4

theorem getMostRecentPriorYear_lt (fromY toY startY endY : Int) (hstart : -127 ≤ startY)
    (hs2 : startY ≤ 127)
    (h : getMostRecentPriorYear fromY toY startY endY ≠ LocalDate.kInvalidYearTiny) :
    getMostRecentPriorYear fromY toY startY endY < startY := by
  unfold getMostRecentPriorYear at *
  split_ifs at * with h1 h2
  · exact h2
  · rw [wrap8_of_fits (by omega) (by omega)]
    omega
  · exact absurd rfl h

theorem TransitionStorage.swap_highWater {ts ts2 : TransitionStorage} {a b : Nat}
    (h : ts.swap a b = some ts2) : ts2.mHighWater = ts.mHighWater := by
  obtain ⟨_, _, _, _, _, _, e, _⟩ := TransitionStorage.swap_spec h
  exact e

theorem setAsPriorTransition_highWater {ts ts2 : TransitionStorage} {t : Nat}
    (h : setAsPriorTransition ts t = some ts2) : ts2.mHighWater = ts.mHighWater := by
  unfold setAsPriorTransition at h
  simp only [Option.bind_eq_some] at h
  obtain ⟨prior, _, priorT, _, tT, _, h⟩ := h
  have repl : ∀ ts1, ts.modify t (fun x => { x with active := true }) = some ts1 →
      ts1.setFreeAgentAsPrior = some ts2 → ts2.mHighWater = ts.mHighWater := by
    intro ts1 h1 h2
    unfold TransitionStorage.setFreeAgentAsPrior at h2
    rw [TransitionStorage.swap_highWater h2, (TransitionStorage.modify_frame h1).2.2.1]
  split_ifs at h with ha hl
  · obtain ⟨ts1, h1, h2⟩ := Option.bind_eq_some.mp h
    exact repl ts1 h1 h2
  · simp only [Option.some.injEq] at h; rw [← h]
  · obtain ⟨ts1, h1, h2⟩ := Option.bind_eq_some.mp h
    exact repl ts1 h1 h2

theorem TransitionStorage.addFreeAgentToCandidatePool_highWater {SIZE : Nat}
    {ts ts2 : TransitionStorage} (h : ts.addFreeAgentToCandidatePool SIZE = some ts2) :
    ts2.mHighWater = ts.mHighWater := by
  unfold TransitionStorage.addFreeAgentToCandidatePool at h
  split_ifs at h with h1
  · simp only [Option.some.injEq] at h; rw [← h]
  · obtain ⟨ts1, hl, h⟩ := Option.map_eq_some'.mp h
    rw [← h]
    exact (TransitionStorage.addFreeAgentToCandidatePoolLoop_frame _ _ _ hl).2.2.1

theorem interiorYearsLoop_highWater (rule : ZoneRule) (mp : Nat) (m : ZoneMatch) :
    ∀ (ys : List Int) (ts ts2 : TransitionStorage),
      interiorYearsLoop rule mp m ys ts = some ts2 →
      ts.mHighWater ≤ ts2.mHighWater ∧ (ys ≠ [] → ts.mIndexFree ≤ ts2.mHighWater) := by
  intro ys
  induction ys with
  | nil =>
    intro ts ts2 h
    simp only [interiorYearsLoop, Option.some.injEq] at h
    subst h
    exact ⟨le_refl _, fun h => absurd rfl h⟩
  | cons y rest ih =>
    intro ts ts2 h
    unfold interiorYearsLoop at h
    simp only [Option.bind_eq_some] at h
    obtain ⟨r, hr, ts1, h1, tT, _, h⟩ := h
    obtain ⟨_, _, _, e1, e2, _⟩ := TransitionStorage.getFreeAgent_spec hr
    have e3 := (TransitionStorage.modify_frame h1).2.2.1
    have key : ts1.mHighWater ≤ ts2.mHighWater := by
      split_ifs at h with s1 s2
      · obtain ⟨ts3, h3, h4⟩ := Option.bind_eq_some.mp h
        have := (ih _ _ h4).1
        rw [setAsPriorTransition_highWater h3] at this
        exact this
      · obtain ⟨ts3, h3, h4⟩ := Option.bind_eq_some.mp h
        have := (ih _ _ h4).1
        rw [TransitionStorage.addFreeAgentToCandidatePool_highWater h3] at this
        exact this
      · exact (ih _ _ h).1
    rw [e3] at key
    exact ⟨by omega, fun _ => by omega⟩

theorem candidateRulesLoop_highWater (mp : Nat) (m : ZoneMatch) (startY endY : Int) :
    ∀ (rules : List ZoneRule) (ts ts2 : TransitionStorage),
      candidateRulesLoop mp m startY endY rules ts = some ts2 →
      ts.mHighWater ≤ ts2.mHighWater := by
  intro rules
  induction rules with
  | nil =>
    intro ts ts2 h
    simp only [candidateRulesLoop, Option.some.injEq] at h
    subst h
    exact le_refl _
  | cons rule rest ih =>
    intro ts ts2 h
    unfold candidateRulesLoop at h
    simp only [Option.bind_eq_some] at h
    obtain ⟨ys, _, ts1, h1, h⟩ := h
    have e1 := (interiorYearsLoop_highWater _ _ _ _ _ _ h1).1
    split_ifs at h with hp
    · simp only [Option.bind_eq_some] at h
      obtain ⟨r, hr, ts3, h3, ts4, h4, h5⟩ := h
      obtain ⟨_, _, _, f1, _, _⟩ := TransitionStorage.getFreeAgent_spec hr
      have f2 := (TransitionStorage.modify_frame h3).2.2.1
      have f3 := setAsPriorTransition_highWater h4
      have f4 := ih _ _ h5
      omega
    · have := ih _ _ h
      omega

/-- Taking the free agent below the capacity and writing it changes only the
entry at `mIndexFree`. -/
theorem freeAgent_modify {SIZE : Nat} {ts ts1 : TransitionStorage} {r : Nat × TransitionStorage}
    {F : Transition → Transition} (hd : ts.distinctSlots) (hf : ts.mIndexFree < SIZE)
    (h1 : ts.getFreeAgent SIZE = some r) (h2 : r.2.modify r.1 F = some ts1) :
    ts1.indexes = ts.indexes ∧ ts1.distinctSlots ∧ ts1.slotAt ts.mIndexFree = some r.1
      ∧ (∀ j, j ≠ ts.mIndexFree → ts1.getTransition j = ts.getTransition j)
      ∧ ∃ t0, ts.getTransition ts.mIndexFree = some t0
          ∧ ts1.getTransition ts.mIndexFree = some (F t0) := by
  obtain ⟨e1, e2, e3, _, _, e6⟩ := TransitionStorage.getFreeAgent_spec h1
  have hs := e6 hf
  have hd2 : r.2.distinctSlots := TransitionStorage.distinctSlots_congr e2 hd
  have hs2 : r.2.slotAt ts.mIndexFree = some r.1 := by
    rw [TransitionStorage.slotAt_congr e2]; exact hs
  have g := TransitionStorage.modify_getTransition h2 hd2 hs2
  have gc : ∀ j, r.2.getTransition j = ts.getTransition j :=
    TransitionStorage.getTransition_congr e1 e2
  obtain ⟨t0, h0, _⟩ := TransitionStorage.deref_modify h2
  have ht0 : ts.getTransition ts.mIndexFree = some t0 := by
    rw [← gc]
    exact getTransition_eq_some.mpr ⟨r.1, hs2, h0⟩
  refine ⟨(TransitionStorage.modify_frame h2).1.trans e3,
    TransitionStorage.modify_distinctSlots h2 hd2, ?_, ?_, t0, ht0, ?_⟩
  · rw [TransitionStorage.slotAt_modify h2]; exact hs2
  · intro j hj
    rw [g, if_neg hj, gc]
  · rw [g, if_pos rfl, gc, ht0]
    rfl

theorem candidateInv.mono {G : Nat → Option Transition} {n : Nat} {m : ZoneMatch}
    {good fresh fresh2 : DateTuple → Prop} {ts : TransitionStorage}
    (h : candidateInv G n m good fresh ts) (hf : ∀ dt, fresh dt → fresh2 dt) :
    candidateInv G n m good fresh2 ts := by
  obtain ⟨h1, h2, h3, h4, h5, h6, h7, h8⟩ := h
  refine ⟨h1, h2, h3, h4, h5, h6, ?_, h8⟩
  intro i i1 i2 c hc
  obtain ⟨c1, c2, c3, c4, c5⟩ := h7 i i1 i2 c hc
  exact ⟨c1, c2, c3, c4, hf _ c5⟩

/-- The invariant of `findCandidateTransitions` does not look at the entries
from `mIndexFree` on. -/
theorem candidateInv.of_agree {G : Nat → Option Transition} {n : Nat} {m : ZoneMatch}
    {good fresh : DateTuple → Prop} {ts ts1 : TransitionStorage}
    (h : candidateInv G n m good fresh ts) (hi : ts1.indexes = ts.indexes)
    (hd : ts1.distinctSlots)
    (hg : ∀ j, j < ts.mIndexFree → ts1.getTransition j = ts.getTransition j) :
    candidateInv G n m good fresh ts1 := by
  obtain ⟨h1, h2, h3, h4, h5, h6, h7, h8⟩ := h
  obtain ⟨i1, i2, i3⟩ := (TransitionStorage.indexes_eq_iff _ _).mp hi
  refine ⟨i1.trans h1, i2.trans h2, by omega, hd, ?_, ?_, ?_, ?_⟩
  · intro i hi2
    rw [hg i (by omega)]; exact h5 i hi2
  · intro i j g1 g2 g3 a ha b hb
    rw [i3] at g3
    rw [Membership.mem, Option.instMembership] at ha hb
    simp only [hg i (by omega), hg j g3] at ha hb
    exact h6 i j g1 g2 g3 a ha b hb
  · intro i g1 g2 c hc
    rw [i3] at g2
    rw [Membership.mem, Option.instMembership] at hc
    simp only [hg i g2] at hc
    exact h7 i g1 g2 c hc
  · intro p hp
    rw [Membership.mem, Option.instMembership] at hp
    simp only [hg n (by omega)] at hp
    exact h8 p hp

/-- A free agent that becomes the prior keeps the invariant of
`findCandidateTransitions`. -/
theorem candidateInv.priorStep {G : Nat → Option Transition} {n : Nat} {m : ZoneMatch}
    {good fresh : DateTuple → Prop} {ts ts1 ts2 : TransitionStorage}
    {r : Nat × TransitionStorage} {F : Transition → Transition}
    (hinv : candidateInv G n m good fresh ts) (hf : ts.mIndexFree < kMaxTransitions)
    (h1 : ts.getFreeAgent kMaxTransitions = some r) (h2 : r.2.modify r.1 F = some ts1)
    (h3 : setAsPriorTransition ts1 r.1 = some ts2)
    (hnew : ∀ t0, good (F t0).transitionTime
      ∧ ((F t0).transitionTime.yearTiny < m.startDateTime.yearTiny
        ∨ ((F t0).transitionTime.yearTiny * 12 + (F t0).transitionTime.month
              < m.startDateTime.yearTiny * 12 + m.startDateTime.month - 1
            ∧ 0 ≤ (F t0).transitionTime.month))) :
    candidateInv G n m good fresh ts2 := by
  obtain ⟨e1, e2, e3, e4, t0, _, e5⟩ := freeAgent_modify hinv.2.2.2.1 hf h1 h2
  have hinv1 : candidateInv G n m good fresh ts1 :=
    hinv.of_agree e1 e2 (fun j hj => e4 j (by omega))
  obtain ⟨i1, i2, i3⟩ := (TransitionStorage.indexes_eq_iff _ _).mp e1
  obtain ⟨k1, k2, k3, k4, k5, k6, k7, k8⟩ := hinv1
  obtain ⟨f1, _, f3, priorT, tT, _, f5, f6⟩ :=
    setAsPriorTransition_spec h3 e2 (by rw [i3]; exact e3) (by omega)
  rcases f6 with ⟨f6, _⟩ | ⟨f6, f7⟩
  · rw [f6]
    exact ⟨k1, k2, k3, k4, k5, k6, k7, k8⟩
  · obtain ⟨j1, j2, j3⟩ := (TransitionStorage.indexes_eq_iff _ _).mp f1
    have hT : tT = F t0 := by
      rw [i3, e5] at f5
      exact (Option.some.inj f5).symm
    have hg : ∀ j, j ≠ n → j < ts1.mIndexFree → ts2.getTransition j = ts1.getTransition j :=
      fun j g1 g2 => f7 j (by omega) (by omega)
    refine ⟨j1.trans k1, j2.trans k2, by omega, f3, ?_, ?_, ?_, ?_⟩
    · intro i hi
      rw [hg i (by omega) (by omega)]; exact k5 i hi
    · intro i j g1 g2 g3 a ha b hb
      rw [j3] at g3
      rw [Membership.mem, Option.instMembership] at ha hb
      simp only [hg i (by omega) (by omega), hg j (by omega) g3] at ha hb
      exact k6 i j g1 g2 g3 a ha b hb
    · intro i g1 g2 c hc
      rw [j3] at g2
      rw [Membership.mem, Option.instMembership] at hc
      simp only [hg i (by omega) g2] at hc
      exact k7 i g1 g2 c hc
    · intro p hp _
      rw [Membership.mem, Option.instMembership] at hp
      rw [k1] at f6
      rw [f6] at hp
      have ep : p = { tT with active := true } := (Option.some.inj hp).symm
      rw [ep, hT]
      exact hnew t0

/-- A free agent that joins the Candidate pool keeps the invariant of
`findCandidateTransitions`. -/
theorem candidateInv.candidateStep {G : Nat → Option Transition} {n : Nat} {m : ZoneMatch}
    {good fresh fresh2 : DateTuple → Prop} {ts ts1 ts2 : TransitionStorage}
    {r : Nat × TransitionStorage} {F : Transition → Transition}
    (hinv : candidateInv G n m good fresh ts) (hf : ts.mIndexFree < kMaxTransitions)
    (h1 : ts.getFreeAgent kMaxTransitions = some r) (h2 : r.2.modify r.1 F = some ts1)
    (h3 : ts1.addFreeAgentToCandidatePool kMaxTransitions = some ts2)
    (hmono : ∀ dt, fresh dt → fresh2 dt)
    (hnew : ∀ t0, good (F t0).transitionTime
      ∧ m.startDateTime.yearTiny ≤ (F t0).transitionTime.yearTiny
      ∧ m.startDateTime.yearTiny * 12 + m.startDateTime.month - 1
          ≤ (F t0).transitionTime.yearTiny * 12 + (F t0).transitionTime.month
      ∧ (F t0).transitionTime.month ≤ 12
      ∧ fresh2 (F t0).transitionTime
      ∧ ∀ dt, fresh dt → ¬ dt.same (F t0).transitionTime) :
    candidateInv G n m good fresh2 ts2 := by
  obtain ⟨e1, e2, e3, e4, t0, _, e5⟩ := freeAgent_modify hinv.2.2.2.1 hf h1 h2
  have hinv1 : candidateInv G n m good fresh ts1 :=
    hinv.of_agree e1 e2 (fun j hj => e4 j (by omega))
  obtain ⟨i1, i2, i3⟩ := (TransitionStorage.indexes_eq_iff _ _).mp e1
  obtain ⟨k1, k2, k3, k4, k5, k6, k7, k8⟩ := hinv1
  obtain ⟨⟨j1, j2, j3⟩, _, f3, f4, f5, f6⟩ :=
    TransitionStorage.addFreeAgentToCandidatePool_spec h3 (by rw [i3]; exact hf)
  rw [k2] at f4 f5 f6
  rw [← i3] at e5
  refine ⟨j1.trans k1, j2.trans k2, by omega, f3 k4, ?_, ?_, ?_, ?_⟩
  · intro i hi
    rw [f4 i (Or.inl (by omega))]; exact k5 i hi
  · intro i j g1 g2 g3 a ha b hb
    refine f6 k6 ?_ i j g1 g2 (by omega) a ha b hb
    intro i' g4 g5 a' ha' b' hb'
    rw [Membership.mem, Option.instMembership] at hb'
    rw [e5] at hb'
    have eb : b' = F t0 := (Option.some.inj hb').symm
    rw [eb]
    exact (hnew t0).2.2.2.2.2 _ (k7 i' g4 g5 a' ha').2.2.2.2
  · intro i g1 g2 c hc
    obtain ⟨j2, g3, g4, g5⟩ := f5 i g1 (by omega)
    rw [Membership.mem, Option.instMembership] at hc
    rw [g5] at hc
    by_cases hj : j2 = ts1.mIndexFree
    · rw [hj, e5] at hc
      have ec : c = F t0 := (Option.some.inj hc).symm
      rw [ec]
      obtain ⟨n1, n2, n3, n4, n5, _⟩ := hnew t0
      exact ⟨n1, n2, n3, n4, n5⟩
    · obtain ⟨c1, c2, c3, c4, c5⟩ := k7 j2 g3 (by omega) c hc
      exact ⟨c1, c2, c3, c4, hmono _ c5⟩
  · intro p hp
    rw [Membership.mem, Option.instMembership] at hp
    rw [f4 n (Or.inl (by omega))] at hp
    exact k8 p hp

/-- A free agent that is dropped keeps the invariant of
`findCandidateTransitions`. -/
theorem candidateInv.skipStep {G : Nat → Option Transition} {n : Nat} {m : ZoneMatch}
    {good fresh : DateTuple → Prop} {ts ts1 : TransitionStorage} {r : Nat × TransitionStorage}
    {F : Transition → Transition}
    (hinv : candidateInv G n m good fresh ts) (hf : ts.mIndexFree < kMaxTransitions)
    (h1 : ts.getFreeAgent kMaxTransitions = some r) (h2 : r.2.modify r.1 F = some ts1) :
    candidateInv G n m good fresh ts1 := by
  obtain ⟨e1, e2, _, e4, _⟩ := freeAgent_modify hinv.2.2.2.1 hf h1 h2
  exact hinv.of_agree e1 e2 (fun j hj => e4 j (by omega))

/-- The transition written to the free agent is the one read back. -/
theorem freeAgent_readBack {ts ts1 : TransitionStorage} {r : Nat × TransitionStorage}
    {F : Transition → Transition} {tT : Transition}
    (hd : ts.distinctSlots) (hf : ts.mIndexFree < kMaxTransitions)
    (h1 : ts.getFreeAgent kMaxTransitions = some r) (h2 : r.2.modify r.1 F = some ts1)
    (h3 : ts1.deref r.1 = some tT) : ∃ t0, tT = F t0 := by
  obtain ⟨_, _, e3, _, t0, _, e5⟩ := freeAgent_modify hd hf h1 h2
  obtain ⟨p, hp1, hp2⟩ := getTransition_eq_some.mp e5
  rw [e3] at hp1
  have : p = r.1 := (Option.some.inj hp1).symm
  subst this
  rw [h3] at hp2
  exact ⟨t0, Option.some.inj hp2⟩

theorem compareTransitionToMatchFuzzy_neg (t : Transition) (m : ZoneMatch)
    (h : compareTransitionToMatchFuzzy t m < 0) :
    t.transitionTime.yearTiny * 12 + t.transitionTime.month
      < m.startDateTime.yearTiny * 12 + m.startDateTime.month - 1 := by
  unfold compareTransitionToMatchFuzzy at h
  simp only at h
  split_ifs at h with h1 h2
  · exact h1
  · omega
  · omega

theorem compareTransitionToMatchFuzzy_one (t : Transition) (m : ZoneMatch)
    (h0 : ¬ compareTransitionToMatchFuzzy t m < 0) :
    m.startDateTime.yearTiny * 12 + m.startDateTime.month - 1
      ≤ t.transitionTime.yearTiny * 12 + t.transitionTime.month := by
  unfold compareTransitionToMatchFuzzy at h0
  simp only at h0
  split_ifs at h0 with h1 h2
  · omega
  · omega
  · omega

/-- The loop over the interior years of one rule keeps the invariant of
`findCandidateTransitions`. -/
theorem interiorYearsLoop_inv (G : Nat → Option Transition) (n : Nat) (m : ZoneMatch)
    (mp : Nat) (rule : ZoneRule) (years : List Int) (good freshRest : DateTuple → Prop)
    (hgood : ∀ y ∈ years, rule.fromYearTiny ≤ y → y ≤ rule.toYearTiny →
      good (getTransitionTime y rule))
    (r4 : ∀ y ∈ years, rule.fromYearTiny ≤ y → y ≤ rule.toYearTiny →
      1 ≤ (getTransitionTime y rule).month ∧ (getTransitionTime y rule).month ≤ 12)
    (hfreshNew : ∀ y ∈ years, rule.fromYearTiny ≤ y → y ≤ rule.toYearTiny →
      freshRest (getTransitionTime y rule)) :
    ∀ (ys : List Int) (ts ts2 : TransitionStorage),
      interiorYearsLoop rule mp m ys ts = some ts2 →
      ts2.mHighWater < kMaxTransitions →
      ys.Pairwise (· < ·) →
      (∀ y ∈ ys, y ∈ years ∧ m.startDateTime.yearTiny ≤ y
        ∧ rule.fromYearTiny ≤ y ∧ y ≤ rule.toYearTiny) →
      candidateInv G n m good
        (fun dt => freshRest dt ∧ ∀ y ∈ ys, ¬ dt.same (getTransitionTime y rule)) ts →
      candidateInv G n m good freshRest ts2 := by
  intro ys
  induction ys with
  | nil =>
    intro ts ts2 h _ _ _ hinv
    simp only [interiorYearsLoop, Option.some.injEq] at h
    subst h
    exact hinv.mono (fun dt hdt => hdt.1)
  | cons y rest ih =>
    intro ts ts2 h hhw hpw hys hinv
    have hf : ts.mIndexFree < kMaxTransitions := by
      have := (interiorYearsLoop_highWater _ _ _ _ _ _ h).2 (by simp)
      omega
    unfold interiorYearsLoop at h
    simp only [Option.bind_eq_some] at h
    obtain ⟨r, hr, ts1, h1, tT, hT, h⟩ := h
    obtain ⟨t0, et⟩ := freeAgent_readBack hinv.2.2.2.1 hf hr h1 hT
    obtain ⟨hy1, hy2, hy3, hy4⟩ := hys y (List.mem_cons_self _ _)
    have hpw2 := List.pairwise_cons.mp hpw
    have hys2 : ∀ y' ∈ rest, y' ∈ years ∧ m.startDateTime.yearTiny ≤ y'
        ∧ rule.fromYearTiny ≤ y' ∧ y' ≤ rule.toYearTiny :=
      fun y' hy' => hys y' (List.mem_cons_of_mem _ hy')
    have htt : ∀ x, (createTransitionForYear x y (some rule) mp m).transitionTime
        = getTransitionTime y rule := fun x => (createTransitionForYear_rule x y rule mp m).1
    have hwall := hgood y hy1 hy3 hy4
    have hmono : ∀ dt, (freshRest dt ∧ ∀ y' ∈ y :: rest, ¬ dt.same (getTransitionTime y' rule))
        → (freshRest dt ∧ ∀ y' ∈ rest, ¬ dt.same (getTransitionTime y' rule)) :=
      fun dt hdt => ⟨hdt.1, fun y' hy' => hdt.2 y' (List.mem_cons_of_mem _ hy')⟩
    split_ifs at h with s1 s2
    · obtain ⟨ts3, h3, h4⟩ := Option.bind_eq_some.mp h
      refine ih ts3 ts2 h4 hhw hpw2.2 hys2 (candidateInv.mono ?_ hmono)
      refine hinv.priorStep hf hr h1 h3 ?_
      intro x
      rw [htt]
      refine ⟨hwall, Or.inr ⟨?_, ?_⟩⟩
      · have := compareTransitionToMatchFuzzy_neg tT m s1
        rw [et, htt] at this
        exact this
      · have := (r4 y hy1 hy3 hy4).1
        omega
    · obtain ⟨ts3, h3, h4⟩ := Option.bind_eq_some.mp h
      refine ih ts3 ts2 h4 hhw hpw2.2 hys2 ?_
      refine hinv.candidateStep hf hr h1 h3 hmono ?_
      intro x
      rw [htt]
      refine ⟨hwall, ?_, ?_, (r4 y hy1 hy3 hy4).2, ⟨hfreshNew y hy1 hy3 hy4, ?_⟩, ?_⟩
      · rw [getTransitionTime_yearTiny]; exact hy2
      · have := compareTransitionToMatchFuzzy_one tT m s1
        rw [et, htt] at this
        exact this
      · intro y' hy' hsame
        have h5 := hsame.1
        rw [getTransitionTime_yearTiny, getTransitionTime_yearTiny] at h5
        have := hpw2.1 y' hy'
        omega
      · intro dt hdt
        exact hdt.2 y (List.mem_cons_self _ _)
    · exact ih ts1 ts2 h hhw hpw2.2 hys2 (candidateInv.mono (hinv.skipStep hf hr h1) hmono)

/-- The loop over the rules of the policy keeps the invariant of
`findCandidateTransitions`. -/
theorem candidateRulesLoop_inv (G : Nat → Option Transition) (n : Nat) (m : ZoneMatch)
    (mp : Nat) (years : List Int) (good : DateTuple → Prop)
    (hyears : ∀ y, m.startDateTime.yearTiny ≤ y → y ≤ m.untilDateTime.yearTiny → y ∈ years)
    (hstart : -127 ≤ m.startDateTime.yearTiny) (hs2 : m.startDateTime.yearTiny ≤ 127)
    (hend : m.untilDateTime.yearTiny ≤ 126) :
    ∀ (rules : List ZoneRule) (ts ts2 : TransitionStorage),
      candidateRulesLoop mp m m.startDateTime.yearTiny m.untilDateTime.yearTiny rules ts
        = some ts2 →
      ts2.mHighWater < kMaxTransitions →
      (∀ r ∈ rules, (∀ y ∈ years, r.fromYearTiny ≤ y → y ≤ r.toYearTiny →
          good (getTransitionTime y r))
        ∧ (∀ y ∈ years, r.fromYearTiny ≤ y → y ≤ r.toYearTiny →
          1 ≤ (getTransitionTime y r).month ∧ (getTransitionTime y r).month ≤ 12)
        ∧ (getMostRecentPriorYear r.fromYearTiny r.toYearTiny m.startDateTime.yearTiny
              m.untilDateTime.yearTiny ≠ LocalDate.kInvalidYearTiny →
            good (getTransitionTime
              (getMostRecentPriorYear r.fromYearTiny r.toYearTiny m.startDateTime.yearTiny
                m.untilDateTime.yearTiny) r))) →
      rules.Pairwise (ZoneRule.apart years) →
      candidateInv G n m good (freshFor years rules) ts →
      candidateInv G n m good (fun _ => True) ts2 := by
  intro rules
  induction rules with
  | nil =>
    intro ts ts2 h _ _ _ hinv
    simp only [candidateRulesLoop, Option.some.injEq] at h
    subst h
    exact hinv.mono (fun _ _ => trivial)
  | cons rule rest ih =>
    intro ts ts2 h hhw hrules hpw hinv
    unfold candidateRulesLoop at h
    simp only [Option.bind_eq_some] at h
    obtain ⟨ys, hys, ts1, h1, h⟩ := h
    obtain ⟨y1, y2⟩ := calcInteriorYears_spec _ _ _ _ _ _ hys (by omega) hend
    have hpw2 := List.pairwise_cons.mp hpw
    have hrule := hrules rule (List.mem_cons_self _ _)
    have hrules2 := fun r (hr : r ∈ rest) => hrules r (List.mem_cons_of_mem _ hr)
    have hfreshNew : ∀ y ∈ years, rule.fromYearTiny ≤ y → y ≤ rule.toYearTiny →
        freshFor years rest (getTransitionTime y rule) := by
      intro y hy c1 c2 r' hr' y' hy' c3 c4 hsame
      have h5 := hsame.1
      rw [getTransitionTime_yearTiny, getTransitionTime_yearTiny] at h5
      subst h5
      exact hpw2.1 r' hr' y hy c1 c2 c3 c4 hsame
    have hinv0 : candidateInv G n m good
        (fun dt => freshFor years rest dt ∧ ∀ y ∈ ys, ¬ dt.same (getTransitionTime y rule)) ts := by
      refine hinv.mono ?_
      intro dt hdt
      refine ⟨fun r' hr' => hdt r' (List.mem_cons_of_mem _ hr'), ?_⟩
      intro y hy
      obtain ⟨c1, c2, c3, c4⟩ := y2 y hy
      exact hdt rule (List.mem_cons_self _ _) y (hyears y c1 c2) c3 c4
    have hloop : ∀ ts1', interiorYearsLoop rule mp m ys ts = some ts1' →
        ts1'.mHighWater < kMaxTransitions →
        candidateInv G n m good (freshFor years rest) ts1' := by
      intro ts1' g1 g2
      exact interiorYearsLoop_inv G n m mp rule years good (freshFor years rest) hrule.1
        hrule.2.1 hfreshNew
        ys ts ts1' g1 g2 y1
        (fun y hy => ⟨hyears y (y2 y hy).1 (y2 y hy).2.1, (y2 y hy).1, (y2 y hy).2.2⟩) hinv0
    split_ifs at h with hp
    · simp only [Option.bind_eq_some] at h
      obtain ⟨r, hr, ts3, h3, ts4, h4, h5⟩ := h
      obtain ⟨_, _, _, f1, f0, _⟩ := TransitionStorage.getFreeAgent_spec hr
      have f2 := (TransitionStorage.modify_frame h3).2.2.1
      have f3 := setAsPriorTransition_highWater h4
      have f4 := candidateRulesLoop_highWater _ _ _ _ _ _ _ h5
      have hinv1 := hloop ts1 h1 (by omega)
      refine ih ts4 ts2 h5 hhw hrules2 hpw2.2 ?_
      refine hinv1.priorStep (by omega) hr h3 h4 ?_
      intro x
      rw [(createTransitionForYear_rule x _ rule mp m).1]
      refine ⟨hrule.2.2 hp, Or.inl ?_⟩
      rw [getTransitionTime_yearTiny]
      exact getMostRecentPriorYear_lt _ _ _ _ hstart hs2 hp
    · have f4 := candidateRulesLoop_highWater _ _ _ _ _ _ _ h
      exact ih ts1 ts2 h hhw hrules2 hpw2.2 (hloop ts1 h1 (by omega))

theorem findCandidateTransitions_highWater {ts ts2 : TransitionStorage} {mp : Nat}
    {m : ZoneMatch} (h : findCandidateTransitions ts mp m = some ts2) :
    ts.mHighWater ≤ ts2.mHighWater := by
  unfold findCandidateTransitions at h
  simp only [Option.bind_eq_some] at h
  obtain ⟨pol, _, p0, _, ts1, h1, ts3, h3, p1, _, priorT, _, h⟩ := h
  have e1 := (TransitionStorage.modify_frame h1).2.2.1
  have e2 := candidateRulesLoop_highWater _ _ _ _ _ _ _ h3
  have e0 : ts.reservePrior.2.mHighWater = ts.mHighWater := rfl
  split_ifs at h <;>
    (simp only [Option.some.injEq] at h; rw [← h])
  · simp only [TransitionStorage.addPriorToCandidatePool]; omega
  · omega

/-- The Candidate pool left by `findCandidateTransitions` behind `n` Active
transitions, for a policy whose rules fire at `good` times, apart from each
other, in calendar months, and without overflow of the pool: the Active
transitions are as before, the candidates (the prior first, when there is
one) are `good` times in strict order. -/
theorem findCandidateTransitions_spec {ts ts2 : TransitionStorage} {mp n : Nat}
    {m : ZoneMatch} {pol : ZonePolicy} (years : List Int) (good : DateTuple → Prop)
    (h : findCandidateTransitions ts mp m = some ts2)
    (hhw : ts2.mHighWater < kMaxTransitions)
    (hpol : m.era.zonePolicy = some pol)
    (hrules : ∀ r ∈ pol.rules, (∀ y ∈ years, r.fromYearTiny ≤ y → y ≤ r.toYearTiny →
          good (getTransitionTime y r))
        ∧ (∀ y ∈ years, r.fromYearTiny ≤ y → y ≤ r.toYearTiny →
          1 ≤ (getTransitionTime y r).month ∧ (getTransitionTime y r).month ≤ 12)
        ∧ (getMostRecentPriorYear r.fromYearTiny r.toYearTiny m.startDateTime.yearTiny
              m.untilDateTime.yearTiny ≠ LocalDate.kInvalidYearTiny →
            good (getTransitionTime
              (getMostRecentPriorYear r.fromYearTiny r.toYearTiny m.startDateTime.yearTiny
                m.untilDateTime.yearTiny) r)))
    (hpw : pol.rules.Pairwise (ZoneRule.apart years))
    (hyears : ∀ y, m.startDateTime.yearTiny ≤ y → y ≤ m.untilDateTime.yearTiny → y ∈ years)
    (hstart : -127 ≤ m.startDateTime.yearTiny) (hs2 : m.startDateTime.yearTiny ≤ 127)
    (hend : m.untilDateTime.yearTiny ≤ 126)
    (hn : ts.mIndexPrior = n ∧ ts.mIndexCandidates = n ∧ ts.mIndexFree = n)
    (hd : ts.distinctSlots) :
    ts2.mIndexPrior = n
    ∧ (ts2.mIndexCandidates = n ∨ ts2.mIndexCandidates = n + 1)
    ∧ ts2.mIndexCandidates ≤ ts2.mIndexFree
    ∧ ts2.distinctSlots
    ∧ (∀ i, i < n → ts2.getTransition i = ts.getTransition i)
    ∧ (∀ i j, ts2.mIndexCandidates ≤ i → i < j → j < ts2.mIndexFree →
        ∀ a ∈ ts2.getTransition i, ∀ b ∈ ts2.getTransition j,
          a.transitionTime.lt b.transitionTime = true)
    ∧ (∀ i, ts2.mIndexCandidates ≤ i → i < ts2.mIndexFree → ∀ c ∈ ts2.getTransition i,
        good c.transitionTime) := by
  unfold findCandidateTransitions at h
  simp only [Option.bind_eq_some] at h
  obtain ⟨pol2, hpol2, p0, hp0, ts1, h1, ts3, h3, p1, hp1, priorT, hpT, h⟩ := h
  rw [hpol] at hpol2
  have epol : pol = pol2 := Option.some.inj hpol2
  subst epol
  obtain ⟨n1, n2, n3⟩ := hn
  have hd0 : ts.reservePrior.2.distinctSlots := TransitionStorage.distinctSlots_congr rfl hd
  have hp0' : ts.reservePrior.2.slotAt n = some p0 := by
    have : ts.reservePrior.1 = n := n1
    rw [this] at hp0; exact hp0
  have g1 := TransitionStorage.modify_getTransition h1 hd0 hp0'
  have e1 := TransitionStorage.modify_frame h1
  obtain ⟨i1, i2, i3⟩ := (TransitionStorage.indexes_eq_iff _ _).mp e1.1
  have gc : ∀ j, ts.reservePrior.2.getTransition j = ts.getTransition j :=
    TransitionStorage.getTransition_congr rfl rfl
  have hinv1 : candidateInv ts.getTransition n m good (freshFor years pol.rules) ts1 := by
    refine ⟨?_, ?_, ?_, TransitionStorage.modify_distinctSlots h1 hd0, ?_, ?_, ?_, ?_⟩
    · rw [i1]; exact n1
    · rw [i2]; simp only [TransitionStorage.reservePrior]; omega
    · rw [i3]; simp only [TransitionStorage.reservePrior]; omega
    · intro i hi
      rw [g1, if_neg (by omega), gc]
    · intro i j c1 c2 c3
      rw [i3] at c3
      simp only [TransitionStorage.reservePrior] at c3
      omega
    · intro i c1 c2
      rw [i3] at c2
      simp only [TransitionStorage.reservePrior] at c2
      omega
    · intro p hp hact
      rw [Membership.mem, Option.instMembership] at hp
      rw [g1, if_pos rfl] at hp
      obtain ⟨x, _, hx⟩ := Option.map_eq_some'.mp hp
      rw [← hx] at hact
      simp at hact
  have hhw3 : ts3.mHighWater < kMaxTransitions := by
    split_ifs at h <;>
      (simp only [Option.some.injEq] at h; rw [← h] at hhw)
    · simpa [TransitionStorage.addPriorToCandidatePool] using hhw
    · exact hhw
  obtain ⟨k1, k2, k3, k4, k5, k6, k7, k8⟩ :=
    candidateRulesLoop_inv ts.getTransition n m mp years good hyears hstart hs2 hend
      pol.rules ts1 ts3 h3 hhw3 hrules hpw hinv1
  have hpr : ts3.getTransition n = some priorT := by
    have : ts.reservePrior.1 = n := n1
    rw [this] at hp1
    exact getTransition_eq_some.mpr ⟨p1, hp1, hpT⟩
  split_ifs at h with hact
  · simp only [Option.some.injEq] at h
    subst h
    have gg : ∀ j, ts3.addPriorToCandidatePool.getTransition j = ts3.getTransition j :=
      TransitionStorage.getTransition_congr rfl rfl
    have ic : ts3.addPriorToCandidatePool.mIndexCandidates = n := by
      simp only [TransitionStorage.addPriorToCandidatePool]; omega
    have if_ : ts3.addPriorToCandidatePool.mIndexFree = ts3.mIndexFree := rfl
    obtain ⟨w1, w2⟩ := k8 priorT hpr hact
    refine ⟨k1, Or.inl ic, by rw [ic, if_]; omega,
      TransitionStorage.distinctSlots_congr rfl k4, ?_, ?_, ?_⟩
    · intro i hi; rw [gg]; exact k5 i hi
    · intro i j c1 c2 c3 a ha b hb
      rw [ic] at c1
      rw [if_] at c3
      rw [Membership.mem, Option.instMembership] at ha hb
      rw [gg] at ha hb
      by_cases hi : i = n
      · subst hi
        rw [hpr] at ha
        have ea : a = priorT := (Option.some.inj ha).symm
        subst ea
        obtain ⟨_, b2, b3, b4, _⟩ := k7 j (by omega) c3 b hb
        rw [DateTuple.lt_iff]
        rcases w2 with w2 | ⟨w2, w3⟩
        · left; omega
        · omega
      · exact k6 i j (by omega) c2 c3 a ha b hb
    · intro i c1 c2 c hc
      rw [ic] at c1
      rw [if_] at c2
      rw [Membership.mem, Option.instMembership] at hc
      rw [gg] at hc
      by_cases hi : i = n
      · subst hi
        rw [hpr] at hc
        have ec : c = priorT := (Option.some.inj hc).symm
        subst ec
        exact w1
      · exact (k7 i (by omega) c2 c hc).1
  · simp only [Option.some.injEq] at h
    subst h
    refine ⟨k1, Or.inr k2, by omega, k4, k5, ?_, ?_⟩
    · intro i j c1 c2 c3 a ha b hb
      exact k6 i j (by omega) c2 c3 a ha b hb
    · intro i c1 c2 c hc
      exact (k7 i (by omega) c2 c hc).1

theorem normalizeDateTuple_of_small (dt : DateTuple) (h1 : -96 < dt.timeCode)
    (h2 : dt.timeCode < 96) : normalizeDateTuple dt = dt := by
  unfold normalizeDateTuple
  simp only
  rw [if_neg (by omega), if_neg (by omega)]

/-- A wall-mode tuple with a time of day is its own wall version. -/
theorem expandDateTuple_isWall (tt : DateTuple) (o d : Int) (h : tt.isWall) :
    (expandDateTuple tt o d).1 = tt := by
  obtain ⟨h1, h2, h3⟩ := h
  unfold expandDateTuple
  have hs : tt.modifier ≠ 's' := by rw [h1]; decide
  have hu : tt.modifier ≠ 'u' := by rw [h1]; decide
  simp only [hs, hu, if_false]
  rw [normalizeDateTuple_of_small _ (by simp; omega) (by simp; omega)]
  cases tt
  simp only at h1
  simp [h1]

/-- The loop of `fixTransitionTimes` keeps every wall-mode `transitionTime`
with a time of day. -/
theorem fixTransitionTimesLoop_keeps :
    ∀ (n iter prev : Nat) (ts ts2 : TransitionStorage),
      fixTransitionTimesLoop n iter prev ts = some ts2 →
      ∀ q t0, ts.deref q = some t0 →
        ∃ t2, ts2.deref q = some t2 ∧ t2.active = t0.active
          ∧ (t0.transitionTime.isWall → t2.transitionTime = t0.transitionTime) := by
  intro n
  induction n with
  | zero =>
    intro iter prev ts ts2 h q t0 h0
    simp only [fixTransitionTimesLoop, Option.some.injEq] at h
    subst h
    exact ⟨t0, h0, rfl, fun _ => rfl⟩
  | succ n ih =>
    intro iter prev ts ts2 h q t0 h0
    unfold fixTransitionTimesLoop at h
    simp only [Option.bind_eq_some] at h
    obtain ⟨curr, _, currT, hc, prevT, _, ts1, h1, h2⟩ := h
    have hd := TransitionStorage.deref_store h1 q
    by_cases hq : q = curr
    · subst hq
      simp only [if_true] at hd
      rw [hc] at h0
      have e0 : currT = t0 := Option.some.inj h0
      subst e0
      obtain ⟨t2, g1, g2, g3⟩ := ih _ _ _ _ h2 q _ hd
      refine ⟨t2, g1, g2, ?_⟩
      intro hw
      have e := expandDateTuple_isWall currT.transitionTime prevT.offsetCode prevT.deltaCode hw
      simp only [e] at g3
      exact g3 hw
    · simp only [if_neg hq] at hd
      rw [h0] at hd
      exact ih _ _ _ _ h2 q t0 hd

/-- The transitions read by index after `fixTransitionTimes`: every
wall-mode `transitionTime` with a time of day is as before. -/
theorem fixTransitionTimes_keeps {ts ts2 : TransitionStorage} {b e : Nat}
    (h : fixTransitionTimes ts b e = some ts2) :
    ts2.indexes = ts.indexes ∧ ts2.mHighWater = ts.mHighWater
    ∧ (∀ i, ts2.slotAt i = ts.slotAt i)
    ∧ (ts.distinctSlots → ts2.distinctSlots)
    ∧ ∀ i t2, ts2.getTransition i = some t2 →
        ∃ t0, ts.getTransition i = some t0 ∧ t2.active = t0.active
          ∧ (t0.transitionTime.isWall → t2.transitionTime = t0.transitionTime) := by
  obtain ⟨e1, e2, e3, e4⟩ := fixTransitionTimes_frame h
  have hs : ∀ i, ts2.slotAt i = ts.slotAt i := TransitionStorage.slotAt_congr e2
  refine ⟨e1, e3, hs, TransitionStorage.distinctSlots_congr e2, ?_⟩
  intro i t2 h2
  obtain ⟨p, hp, hp2⟩ := getTransition_eq_some.mp h2
  rw [hs] at hp
  have hsome : (ts.deref p).isSome := by
    rw [deref_isSome_iff, ← e4, ← deref_isSome_iff, hp2]
    rfl
  obtain ⟨t0, h0⟩ := Option.isSome_iff_exists.mp hsome
  unfold fixTransitionTimes at h
  obtain ⟨prev, _, hl⟩ := Option.bind_eq_some.mp h
  obtain ⟨t2', g1, g2, g3⟩ := fixTransitionTimesLoop_keeps _ _ _ _ _ hl p t0 h0
  rw [hp2] at g1
  have : t2' = t2 := (Option.some.inj g1).symm
  subst this
  exact ⟨t0, getTransition_eq_some.mpr ⟨p, hp, h0⟩, g2, g3⟩

/-- The loop of `fixTransitionTimes` writes only through the entries of its
range. -/
theorem fixTransitionTimesLoop_outside :
    ∀ (n iter prev : Nat) (ts ts2 : TransitionStorage),
      fixTransitionTimesLoop n iter prev ts = some ts2 →
      ∀ q, (∀ j, iter ≤ j → j < iter + n → ts.slotAt j ≠ some q) →
        ts2.deref q = ts.deref q := by
  intro n
  induction n with
  | zero =>
    intro iter prev ts ts2 h q _
    simp only [fixTransitionTimesLoop, Option.some.injEq] at h
    subst h
    rfl
  | succ n ih =>
    intro iter prev ts ts2 h q hq
    unfold fixTransitionTimesLoop at h
    simp only [Option.bind_eq_some] at h
    obtain ⟨curr, hcurr, currT, _, prevT, _, ts1, h1, h2⟩ := h
    have hne : q ≠ curr := by
      intro e
      subst e
      exact hq iter (le_refl _) (by omega) hcurr
    rw [ih _ _ _ _ h2 q (by
      intro j j1 j2
      rw [TransitionStorage.slotAt_store h1]
      exact hq j (by omega) (by omega)), TransitionStorage.deref_store h1, if_neg hne]

/-- The transitions outside the range of `fixTransitionTimes` are as
before. -/
theorem fixTransitionTimes_outside {ts ts2 : TransitionStorage} {b e : Nat}
    (h : fixTransitionTimes ts b e = some ts2) (hd : ts.distinctSlots) (i : Nat)
    (hi : i < b ∨ e ≤ i) : ts2.getTransition i = ts.getTransition i := by
  have hs : ∀ i, ts2.slotAt i = ts.slotAt i :=
    TransitionStorage.slotAt_congr (fixTransitionTimes_frame h).2.1
  unfold fixTransitionTimes at h
  obtain ⟨prev, _, hl⟩ := Option.bind_eq_some.mp h
  unfold TransitionStorage.getTransition
  rw [hs]
  cases hq : ts.slotAt i with
  | none => rfl
  | some q =>
    simp only [Option.bind]
    apply fixTransitionTimesLoop_outside _ _ _ _ _ hl q
    intro j j1 j2 hj
    have := hd _ _ _ hj hq
    omega

theorem compareTransitionToMatch_congr {a b : Transition} (m : ZoneMatch)
    (h : a.clearActive = b.clearActive) :
    compareTransitionToMatch a m = compareTransitionToMatch b m
      ∧ a.transitionTime = b.transitionTime := by
  have h1 : a.transitionTime = b.transitionTime := by
    show a.clearActive.transitionTime = b.clearActive.transitionTime
    rw [h]
  have h2 : a.transitionTimeS = b.transitionTimeS := by
    show a.clearActive.transitionTimeS = b.clearActive.transitionTimeS
    rw [h]
  have h3 : a.transitionTimeU = b.transitionTimeU := by
    show a.clearActive.transitionTimeU = b.clearActive.transitionTimeU
    rw [h]
  refine ⟨?_, h1⟩
  unfold compareTransitionToMatch
  simp only [h1, h2, h3]

theorem clearActive_setActive (t : Transition) (b : Bool) :
    Transition.clearActive { t with active := b } = t.clearActive := rfl

theorem TransitionStorage.distinctSlots_of_slotAt {ts ts0 : TransitionStorage}
    (h : ∀ i, ts.slotAt i = ts0.slotAt i) (hd : ts0.distinctSlots) : ts.distinctSlots := by
  intro i j p hi hj
  rw [h] at hi hj
  exact hd i j p hi hj

/-- Setting the flag of the entry `iter` to the value its status asks for
keeps the invariant of `selectActiveTransitions`. -/
theorem selectInv.mark {m : ZoneMatch} {c iter tr : Nat} {ts0 ts ts1 : TransitionStorage}
    {prior : Option Nat} {b : Bool} {tT : Transition}
    (hinv : selectInv m c ts0 ts iter prior) (hd : ts0.distinctSlots) (hc : c ≤ iter)
    (hs : ts.slotAt iter = some tr) (hT : ts.deref tr = some tT)
    (h : ts.modify tr (fun x => { x with active := b }) = some ts1)
    (hb : (compareTransitionToMatch tT m = 2 ∧ b = false)
      ∨ (compareTransitionToMatch tT m = 1 ∧ b = true)) :
    selectInv m c ts0 ts1 (iter + 1) prior := by
  obtain ⟨i1, i2, i3, i4, i5⟩ := hinv
  have hd1 : ts.distinctSlots := TransitionStorage.distinctSlots_of_slotAt i1 hd
  have g := TransitionStorage.modify_getTransition h hd1 hs
  have gs := TransitionStorage.slotAt_modify h
  have hiter : ts.getTransition iter = some tT := getTransition_eq_some.mpr ⟨tr, hs, hT⟩
  refine ⟨fun i => (gs i).trans (i1 i), ?_, ?_, ?_,
    fun i hi => by rw [g, if_neg (by omega)]; exact i5 i hi⟩
  · intro i
    rw [g]
    by_cases hi : i = iter
    · subst hi
      rw [if_pos rfl, ← i2, hiter]
      rfl
    · rw [if_neg hi]; exact i2 i
  · intro i c1 c2 a ha
    rw [Membership.mem, Option.instMembership] at ha
    rw [g] at ha
    rw [gs]
    by_cases hi : i = iter
    · subst hi
      rw [if_pos rfl, hiter] at ha
      have ea : a = { tT with active := b } := (Option.some.inj ha).symm
      have es : compareTransitionToMatch a m = compareTransitionToMatch tT m := by
        rw [ea]
        exact (compareTransitionToMatch_congr m (clearActive_setActive tT b)).1
      rw [es]
      have eact : a.active = b := by rw [ea]
      rcases hb with ⟨hb1, hb2⟩ | ⟨hb1, hb2⟩
      · rw [hb1, eact, hb2]
        exact ⟨fun _ => rfl, fun h => absurd h (by decide), fun _ h => absurd rfl h⟩
      · rw [hb1, eact, hb2]
        exact ⟨fun h => absurd h (by decide), fun _ => rfl, fun h => absurd rfl h⟩
    · rw [if_neg hi] at ha
      exact i3 i c1 (by omega) a ha
  · intro p hp
    obtain ⟨i, c1, c2, c3, c4⟩ := i4 p hp
    refine ⟨i, c1, by omega, by rw [gs]; exact c3, ?_⟩
    intro a ha
    rw [Membership.mem, Option.instMembership] at ha
    rw [g, if_neg (by omega)] at ha
    exact c4 a ha

/-- Making the entry `iter` the rolling prior keeps the invariant of
`selectActiveTransitions`: `ts1` is the pool after the former prior, if any,
was marked inactive. -/
theorem selectInv.replace {m : ZoneMatch} {c iter tr : Nat} {ts0 ts ts1 ts2 : TransitionStorage}
    {prior : Option Nat} {tT : Transition}
    (hinv : selectInv m c ts0 ts iter prior) (hd : ts0.distinctSlots) (hc : c ≤ iter)
    (hs : ts.slotAt iter = some tr) (hT : ts.deref tr = some tT)
    (hst : compareTransitionToMatch tT m ≠ 1 ∧ compareTransitionToMatch tT m ≠ 2)
    (h1 : (∃ p, prior = some p
        ∧ ts.modify p (fun x => { x with active := false }) = some ts1)
      ∨ (prior = none ∧ ts1 = ts))
    (h2 : ts1.modify tr (fun x => { x with active := true }) = some ts2) :
    selectInv m c ts0 ts2 (iter + 1) (some tr) := by
  obtain ⟨i1, i2, i3, i4, i5⟩ := hinv
  have hd0 : ts.distinctSlots := TransitionStorage.distinctSlots_of_slotAt i1 hd
  have hiter : ts.getTransition iter = some tT := getTransition_eq_some.mpr ⟨tr, hs, hT⟩
  -- the pool after the first step
  have key : (∀ i, ts1.slotAt i = ts.slotAt i)
      ∧ (∀ i, (ts1.getTransition i).map Transition.clearActive
          = (ts.getTransition i).map Transition.clearActive)
      ∧ (∀ i, ts.slotAt i ≠ prior → ts1.getTransition i = ts.getTransition i)
      ∧ (∀ i, ts.slotAt i = prior → ∀ a ∈ ts1.getTransition i, a.active = false)
      ∧ (∀ i, i < c → ts1.getTransition i = ts.getTransition i) := by
    rcases h1 with ⟨p, hp, h1⟩ | ⟨hp, h1⟩
    · obtain ⟨ip, c1, _, c3, _⟩ := i4 p hp
      have g := TransitionStorage.modify_getTransition h1 hd0 c3
      refine ⟨TransitionStorage.slotAt_modify h1, ?_, ?_, ?_, ?_⟩
      · intro i
        rw [g]
        by_cases hi : i = ip
        · subst hi
          rw [if_pos rfl]
          cases ts.getTransition i <;> rfl
        · rw [if_neg hi]
      · intro i hi
        rw [g, if_neg]
        intro e
        subst e
        rw [hp] at hi
        exact hi c3
      · intro i hi a ha
        rw [hp] at hi
        have e : i = ip := hd0 _ _ _ hi c3
        subst e
        rw [Membership.mem, Option.instMembership] at ha
        rw [g, if_pos rfl] at ha
        obtain ⟨x, _, hx⟩ := Option.map_eq_some'.mp ha
        rw [← hx]
      · intro i hi
        rw [g, if_neg (by omega)]
    · subst h1
      refine ⟨fun _ => rfl, fun _ => rfl, fun _ _ => rfl, ?_, fun _ _ => rfl⟩
      intro i hi a ha
      rw [Membership.mem, Option.instMembership] at ha
      obtain ⟨q, hq, _⟩ := getTransition_eq_some.mp ha
      rw [hq, hp] at hi
      exact absurd hi (by simp)
  obtain ⟨k1, k2, k3, k4, k5⟩ := key
  have hd1 : ts1.distinctSlots := TransitionStorage.distinctSlots_of_slotAt k1 hd0
  have hs1 : ts1.slotAt iter = some tr := by rw [k1]; exact hs
  have g2 := TransitionStorage.modify_getTransition h2 hd1 hs1
  have gs2 := TransitionStorage.slotAt_modify h2
  have hpi : ts.slotAt iter ≠ prior := by
    intro e
    rw [hs] at e
    obtain ⟨ip, _, c2, c3, _⟩ := i4 tr e.symm
    have := hd0 _ _ _ hs c3
    omega
  have hiter1 : ts1.getTransition iter = some tT := by rw [k3 iter hpi]; exact hiter
  refine ⟨fun i => ((gs2 i).trans (k1 i)).trans (i1 i), ?_, ?_, ?_, ?_⟩
  rotate_left 3
  · intro i hi
    rw [g2, if_neg (by omega), k5 i hi, i5 i hi]
  · intro i
    rw [g2]
    by_cases hi : i = iter
    · subst hi
      rw [if_pos rfl, ← i2, ← k2, hiter1]
      rfl
    · rw [if_neg hi, k2]; exact i2 i
  · intro i c1 c2 a ha
    rw [Membership.mem, Option.instMembership] at ha
    rw [g2] at ha
    rw [gs2, k1]
    by_cases hi : i = iter
    · subst hi
      rw [if_pos rfl, hiter1] at ha
      have ea : a = { tT with active := true } := (Option.some.inj ha).symm
      have es : compareTransitionToMatch a m = compareTransitionToMatch tT m := by
        rw [ea]
        exact (compareTransitionToMatch_congr m (clearActive_setActive tT true)).1
      rw [es]
      have eact : a.active = true := by rw [ea]
      refine ⟨fun h => absurd h hst.2, fun _ => eact, fun _ _ => ?_⟩
      rw [eact, hs]
      simp
    · rw [if_neg hi] at ha
      have hne : ts.slotAt i ≠ some tr := by
        intro e
        exact hi (hd0 _ _ _ e hs)
      by_cases hp : ts.slotAt i = prior
      · have hact := k4 i hp a ha
        have hcl : (ts1.getTransition i).map Transition.clearActive
            = (ts.getTransition i).map Transition.clearActive := k2 i
        rw [ha] at hcl
        obtain ⟨a0, ha0, hcl0⟩ := Option.map_eq_some'.mp hcl.symm
        have es := (compareTransitionToMatch_congr m hcl0).1
        obtain ⟨q, hq⟩ : ∃ q, prior = some q := by
          obtain ⟨q, hq, _⟩ := getTransition_eq_some.mp ha0
          exact ⟨q, by rw [← hp, hq]⟩
        obtain ⟨ip, _, _, d3, d4⟩ := i4 q hq
        have e : i = ip := hd0 _ _ _ (hp.trans hq) d3
        subst e
        have hst0 := d4 a0 ha0
        rw [es] at hst0
        refine ⟨fun _ => hact, fun h => absurd h hst0.1, fun _ _ => ?_⟩
        rw [hact]
        simp [hne]
      · rw [k3 i hp] at ha
        obtain ⟨o1, o2, o3⟩ := i3 i c1 (by omega) a ha
        refine ⟨o1, o2, fun n1 n2 => ?_⟩
        have := o3 n1 n2
        constructor
        · intro hact
          exact absurd (this.mp hact) hp
        · intro e
          exact absurd e hne
  · intro p hp
    have e : p = tr := (Option.some.inj hp).symm
    subst e
    refine ⟨iter, hc, by omega, by rw [gs2]; exact hs1, ?_⟩
    intro a ha
    rw [Membership.mem, Option.instMembership] at ha
    rw [g2, if_pos rfl, hiter1] at ha
    have ea : a = { tT with active := true } := (Option.some.inj ha).symm
    have es : compareTransitionToMatch a m = compareTransitionToMatch tT m := by
      rw [ea]
      exact (compareTransitionToMatch_congr m (clearActive_setActive tT true)).1
    rw [es]
    exact hst

theorem processActiveTransition_frame {ts : TransitionStorage} {m : ZoneMatch} {tr : Nat}
    {prior : Option Nat} {r : TransitionStorage × Option Nat}
    (h : processActiveTransition ts m tr prior = some r) :
    r.1.indexes = ts.indexes ∧ r.1.mHighWater = ts.mHighWater := by
  unfold processActiveTransition at h
  obtain ⟨tT, _, h⟩ := Option.bind_eq_some.mp h
  simp only at h
  have one : ∀ {q : Nat} {b : Bool} {ts1 ts2 : TransitionStorage},
      ts1.modify q (fun x => { x with active := b }) = some ts2 →
      ts2.indexes = ts1.indexes ∧ ts2.mHighWater = ts1.mHighWater :=
    fun hm => ⟨(TransitionStorage.modify_frame hm).1, (TransitionStorage.modify_frame hm).2.2.1⟩
  split_ifs at h with s2 s1 s0
  · obtain ⟨ts1, h1, e⟩ := Option.map_eq_some'.mp h
    rw [← e]; exact one h1
  · obtain ⟨ts1, h1, e⟩ := Option.map_eq_some'.mp h
    rw [← e]; exact one h1
  · cases prior with
    | none =>
      obtain ⟨ts1, h1, e⟩ := Option.map_eq_some'.mp h
      rw [← e]; exact one h1
    | some p =>
      obtain ⟨ts1, h1, h⟩ := Option.bind_eq_some.mp h
      obtain ⟨ts2, h2, e⟩ := Option.map_eq_some'.mp h
      rw [← e]
      exact ⟨(one h2).1.trans (one h1).1, (one h2).2.trans (one h1).2⟩
  · cases prior with
    | none =>
      obtain ⟨ts1, h1, e⟩ := Option.map_eq_some'.mp h
      rw [← e]; exact one h1
    | some p =>
      obtain ⟨pT, _, h⟩ := Option.bind_eq_some.mp h
      split_ifs at h
      · obtain ⟨ts1, h1, h⟩ := Option.bind_eq_some.mp h
        obtain ⟨ts2, h2, e⟩ := Option.map_eq_some'.mp h
        rw [← e]
        exact ⟨(one h2).1.trans (one h1).1, (one h2).2.trans (one h1).2⟩
      · simp only [Option.some.injEq] at h
        rw [← h]
        exact ⟨rfl, rfl⟩

theorem selectActiveLoop_frame (m : ZoneMatch) :
    ∀ (k iter : Nat) (ts : TransitionStorage) (prior : Option Nat)
      (r : TransitionStorage × Option Nat),
      selectActiveLoop m k iter ts prior = some r →
      r.1.indexes = ts.indexes ∧ r.1.mHighWater = ts.mHighWater := by
  intro k
  induction k with
  | zero =>
    intro iter ts prior r h
    simp only [selectActiveLoop, Option.some.injEq] at h
    rw [← h]; exact ⟨rfl, rfl⟩
  | succ k ih =>
    intro iter ts prior r h
    unfold selectActiveLoop at h
    simp only [Option.bind_eq_some] at h
    obtain ⟨tr, _, r1, h1, h2⟩ := h
    have e1 := processActiveTransition_frame h1
    have e2 := ih _ _ _ _ h2
    exact ⟨e2.1.trans e1.1, e2.2.trans e1.2⟩

/-- One step of `selectActiveTransitions` on candidates in strict order. -/
theorem processActiveTransition_inv {m : ZoneMatch} {c iter tr : Nat}
    {ts0 ts : TransitionStorage} {prior : Option Nat} {r : TransitionStorage × Option Nat}
    (hinv : selectInv m c ts0 ts iter prior) (hd : ts0.distinctSlots) (hc : c ≤ iter)
    (hs : ts.slotAt iter = some tr)
    (hsorted : ∀ i, c ≤ i → i < iter →
      ∀ a ∈ ts0.getTransition i, ∀ b ∈ ts0.getTransition iter,
        a.transitionTime.lt b.transitionTime = true)
    (h : processActiveTransition ts m tr prior = some r) :
    selectInv m c ts0 r.1 (iter + 1) r.2 := by
  unfold processActiveTransition at h
  obtain ⟨tT, hT, h⟩ := Option.bind_eq_some.mp h
  simp only at h
  split_ifs at h with s2 s1 s0
  · obtain ⟨ts1, h1, e⟩ := Option.map_eq_some'.mp h
    rw [← e]
    exact hinv.mark hd hc hs hT h1 (Or.inl ⟨s2, rfl⟩)
  · obtain ⟨ts1, h1, e⟩ := Option.map_eq_some'.mp h
    rw [← e]
    exact hinv.mark hd hc hs hT h1 (Or.inr ⟨s1, rfl⟩)
  · cases hp : prior with
    | none =>
      rw [hp] at h
      obtain ⟨ts1, h1, e⟩ := Option.map_eq_some'.mp h
      rw [← e]
      exact hinv.replace hd hc hs hT ⟨s1, s2⟩ (Or.inr ⟨hp, rfl⟩) h1
    | some p =>
      rw [hp] at h
      obtain ⟨ts1, h1, h⟩ := Option.bind_eq_some.mp h
      obtain ⟨ts2, h2, e⟩ := Option.map_eq_some'.mp h
      rw [← e]
      exact hinv.replace hd hc hs hT ⟨s1, s2⟩ (Or.inl ⟨p, hp, h1⟩) h2
  · cases hp : prior with
    | none =>
      rw [hp] at h
      obtain ⟨ts1, h1, e⟩ := Option.map_eq_some'.mp h
      rw [← e]
      exact hinv.replace hd hc hs hT ⟨s1, s2⟩ (Or.inr ⟨hp, rfl⟩) h1
    | some p =>
      rw [hp] at h
      obtain ⟨pT, hpT, h⟩ := Option.bind_eq_some.mp h
      split_ifs at h with hlt
      · obtain ⟨ts1, h1, h⟩ := Option.bind_eq_some.mp h
        obtain ⟨ts2, h2, e⟩ := Option.map_eq_some'.mp h
        rw [← e]
        exact hinv.replace hd hc hs hT ⟨s1, s2⟩ (Or.inl ⟨p, hp, h1⟩) h2
      · exfalso
        obtain ⟨i1, i2, i3, i4, i5⟩ := hinv
        obtain ⟨ip, c1, c2, c3, _⟩ := i4 p hp
        have hpi : ts.getTransition ip = some pT := getTransition_eq_some.mpr ⟨p, c3, hpT⟩
        have hti : ts.getTransition iter = some tT := getTransition_eq_some.mpr ⟨tr, hs, hT⟩
        have e1 := i2 ip
        have e2 := i2 iter
        rw [hpi] at e1
        rw [hti] at e2
        obtain ⟨a0, ha0, hca⟩ := Option.map_eq_some'.mp e1.symm
        obtain ⟨b0, hb0, hcb⟩ := Option.map_eq_some'.mp e2.symm
        have := hsorted ip c1 c2 a0 ha0 b0 hb0
        rw [(compareTransitionToMatch_congr m hca).2, (compareTransitionToMatch_congr m hcb).2]
          at this
        exact hlt this

/-- The loop of `selectActiveTransitions` on candidates in strict order. -/
theorem selectActiveLoop_inv (m : ZoneMatch) (c K : Nat) (ts0 : TransitionStorage)
    (hd : ts0.distinctSlots)
    (hsorted : ∀ i j, c ≤ i → i < j → j < K →
      ∀ a ∈ ts0.getTransition i, ∀ b ∈ ts0.getTransition j,
        a.transitionTime.lt b.transitionTime = true) :
    ∀ (k iter : Nat) (ts : TransitionStorage) (prior : Option Nat)
      (r : TransitionStorage × Option Nat),
      selectActiveLoop m k iter ts prior = some r → c ≤ iter → iter + k ≤ K →
      selectInv m c ts0 ts iter prior → selectInv m c ts0 r.1 (iter + k) r.2 := by
  intro k
  induction k with
  | zero =>
    intro iter ts prior r h _ _ hinv
    simp only [selectActiveLoop, Option.some.injEq] at h
    rw [← h]; exact hinv
  | succ k ih =>
    intro iter ts prior r h hc hK hinv
    unfold selectActiveLoop at h
    simp only [Option.bind_eq_some] at h
    obtain ⟨tr, hs, r1, h1, h2⟩ := h
    have hinv1 := processActiveTransition_inv hinv hd hc hs
      (fun i c1 c2 => hsorted i iter c1 c2 (by omega)) h1
    have := ih _ _ _ _ h2 (by omega) (by omega) hinv1
    rw [show iter + (k + 1) = iter + 1 + k by omega]
    exact this

/-- The status of a transition against a match whose bounds are wall-mode
tuples. -/
theorem compareTransitionToMatch_wall (a : Transition) (m : ZoneMatch)
    (h1 : m.startDateTime.modifier = 'w') (h2 : m.untilDateTime.modifier = 'w') :
    (compareTransitionToMatch a m = 1 →
      a.transitionTime.lt m.startDateTime = false ∧ a.transitionTime ≠ m.startDateTime
        ∧ a.transitionTime.lt m.untilDateTime = true)
    ∧ (compareTransitionToMatch a m ≠ 1 → compareTransitionToMatch a m ≠ 2 →
        a.transitionTime.lt m.startDateTime = true ∨ a.transitionTime = m.startDateTime) := by
  unfold compareTransitionToMatch
  have hs : m.startDateTime.modifier ≠ 's' := by rw [h1]; decide
  have hu : m.startDateTime.modifier ≠ 'u' := by rw [h1]; decide
  have hs2 : m.untilDateTime.modifier ≠ 's' := by rw [h2]; decide
  have hu2 : m.untilDateTime.modifier ≠ 'u' := by rw [h2]; decide
  simp only [hs, hu, hs2, hu2, if_false]
  split_ifs with c1 c2 c3
  · exact ⟨fun h => absurd h (by decide), fun _ _ => Or.inl c1⟩
  · exact ⟨fun h => absurd h (by decide), fun _ _ => Or.inr ((DateTuple.eq_iff _ _).mp c2)⟩
  · refine ⟨fun _ => ⟨by simpa using c1, fun e => c2 ((DateTuple.eq_iff _ _).mpr e), c3⟩,
      fun h => absurd rfl h⟩
  · exact ⟨fun h => absurd h (by decide), fun _ h => absurd rfl h⟩

theorem DateTuple.eq_of_same {a b : DateTuple} (h : a.same b) (hm : a.modifier = b.modifier) :
    a = b := by
  cases a; cases b
  obtain ⟨h1, h2, h3, h4⟩ := h
  simp only at h1 h2 h3 h4 hm
  simp [h1, h2, h3, h4, hm]

theorem DateTuple.le_refl (a : DateTuple) : a.le a = true := by
  rw [DateTuple.le_iff]; omega

/-- The candidates that `selectActiveTransitions` leaves active, for
candidates in strict order and a match with wall-mode bounds: each is either
the prior, with its time set to the start of the match, or a candidate within
the match with its time unchanged. -/
theorem selectActiveTransitions_active {ts ts2 : TransitionStorage} {m : ZoneMatch}
    (h : selectActiveTransitions ts m = some ts2)
    (hd : ts.distinctSlots) (hcf : ts.mIndexCandidates ≤ ts.mIndexFree)
    (hsorted : ∀ i j, ts.mIndexCandidates ≤ i → i < j → j < ts.mIndexFree →
      ∀ a ∈ ts.getTransition i, ∀ b ∈ ts.getTransition j,
        a.transitionTime.lt b.transitionTime = true)
    (hm1 : m.startDateTime.modifier = 'w') (hm2 : m.untilDateTime.modifier = 'w') :
    ts2.indexes = ts.indexes ∧ ts2.mHighWater = ts.mHighWater ∧ ts2.distinctSlots
    ∧ (∀ i, i < ts.mIndexCandidates → ts2.getTransition i = ts.getTransition i)
    ∧ ∃ isPrior : Nat → Prop, (∀ i j, isPrior i → isPrior j → i = j)
      ∧ ∀ i, ts.mIndexCandidates ≤ i → i < ts.mIndexFree →
        ∀ a ∈ ts2.getTransition i, a.active = true →
        ∃ a0, ts.getTransition i = some a0
          ∧ ((isPrior i ∧ a.transitionTime = m.startDateTime
              ∧ (a0.transitionTime.lt m.startDateTime = true
                ∨ a0.transitionTime = m.startDateTime))
            ∨ (¬ isPrior i ∧ a.transitionTime = a0.transitionTime
              ∧ a0.transitionTime.lt m.startDateTime = false
              ∧ a0.transitionTime ≠ m.startDateTime
              ∧ a0.transitionTime.lt m.untilDateTime = true)) := by
  unfold selectActiveTransitions at h
  simp only [TransitionStorage.getCandidatePoolBegin, TransitionStorage.getCandidatePoolEnd] at h
  obtain ⟨r, hl, h⟩ := Option.bind_eq_some.mp h
  have hinv0 : selectInv m ts.mIndexCandidates ts ts ts.mIndexCandidates none :=
    ⟨fun _ => rfl, fun _ => rfl, fun i c1 c2 => by omega, fun p hp => by simp at hp,
      fun _ _ => rfl⟩
  have hinv := selectActiveLoop_inv m ts.mIndexCandidates ts.mIndexFree ts hd hsorted
    _ _ _ _ _ hl (le_refl _) (by omega) hinv0
  rw [show ts.mIndexCandidates + (ts.mIndexFree - ts.mIndexCandidates) = ts.mIndexFree by omega]
    at hinv
  obtain ⟨i1, i2, i3, i4, i5⟩ := hinv
  obtain ⟨f1, f2⟩ := selectActiveLoop_frame m _ _ _ _ _ hl
  have hd1 : r.1.distinctSlots := TransitionStorage.distinctSlots_of_slotAt i1 hd
  -- the last step
  have key : ts2.indexes = r.1.indexes ∧ ts2.mHighWater = r.1.mHighWater
      ∧ (∀ i, ts2.slotAt i = r.1.slotAt i)
      ∧ (∀ i, r.1.slotAt i ≠ r.2 → ts2.getTransition i = r.1.getTransition i)
      ∧ (∀ i, r.1.slotAt i = r.2 → ∀ a ∈ ts2.getTransition i,
          ∃ a1, r.1.getTransition i = some a1 ∧ a.active = a1.active
            ∧ a.transitionTime = m.startDateTime) := by
    cases hp : r.2 with
    | none =>
      rw [hp] at h
      simp only [Option.some.injEq] at h
      subst h
      refine ⟨rfl, rfl, fun _ => rfl, fun _ _ => rfl, ?_⟩
      intro i hi a ha
      rw [Membership.mem, Option.instMembership] at ha
      obtain ⟨q, hq, _⟩ := getTransition_eq_some.mp ha
      rw [hq] at hi
      exact absurd hi (by simp)
    | some p =>
      rw [hp] at h
      simp only at h
      obtain ⟨ip, _, _, c3, _⟩ := i4 p hp
      have g := TransitionStorage.modify_getTransition h hd1 c3
      have e := TransitionStorage.modify_frame h
      refine ⟨e.1, e.2.2.1, TransitionStorage.slotAt_modify h, ?_, ?_⟩
      · intro i hi
        rw [g, if_neg]
        intro e2
        subst e2
        exact hi c3
      · intro i hi a ha
        have e2 : i = ip := hd1 _ _ _ hi c3
        subst e2
        rw [Membership.mem, Option.instMembership] at ha
        rw [g, if_pos rfl] at ha
        obtain ⟨a1, ha1, hx⟩ := Option.map_eq_some'.mp ha
        exact ⟨a1, ha1, by rw [← hx], by rw [← hx]⟩
  obtain ⟨k1, k2, k3, k4, k5⟩ := key
  refine ⟨k1.trans f1, k2.trans f2,
    TransitionStorage.distinctSlots_of_slotAt k3 hd1, ?_, fun i => r.1.slotAt i = r.2 ∧
      (r.1.slotAt i).isSome, ?_, ?_⟩
  · intro i hi
    have hne : r.1.slotAt i ≠ r.2 ∨ r.1.slotAt i = none := by
      by_cases hn : r.1.slotAt i = none
      · exact Or.inr hn
      · left
        intro e
        obtain ⟨q, hq⟩ := Option.ne_none_iff_exists'.mp hn
        obtain ⟨ip, c1, _, c3, _⟩ := i4 q (by rw [← e, hq])
        have := hd1 _ _ _ hq c3
        omega
    rcases hne with hne | hne
    · rw [k4 i hne]; exact i5 i hi
    · have a1 : ts2.getTransition i = none := by
        unfold TransitionStorage.getTransition
        rw [k3, hne]; rfl
      have a2 : r.1.getTransition i = none := by
        unfold TransitionStorage.getTransition
        rw [hne]; rfl
      rw [a1, ← i5 i hi, a2]
  · rintro i j ⟨hi, hi2⟩ ⟨hj, _⟩
    obtain ⟨q, hq⟩ := Option.isSome_iff_exists.mp hi2
    exact hd1 _ _ _ hq ((hj.trans hi.symm).trans hq)
  · intro i c1 c2 a ha hact
    by_cases hp : r.1.slotAt i = r.2
    · obtain ⟨a1, ha1, e1, e2⟩ := k5 i hp a ha
      have hcl := i2 i
      rw [ha1] at hcl
      obtain ⟨a0, ha0, hc0⟩ := Option.map_eq_some'.mp hcl.symm
      obtain ⟨q, hq, _⟩ := getTransition_eq_some.mp ha1
      refine ⟨a0, ha0, Or.inl ⟨⟨hp, by rw [hq]; rfl⟩, e2, ?_⟩⟩
      obtain ⟨ip, _, _, d3, d4⟩ := i4 q (by rw [← hp, hq])
      have e3 : i = ip := hd1 _ _ _ hq d3
      subst e3
      have hst := d4 a1 ha1
      have hcg := compareTransitionToMatch_congr m hc0
      rw [← hcg.1] at hst
      exact (compareTransitionToMatch_wall a0 m hm1 hm2).2 hst.1 hst.2
    · rw [Membership.mem, Option.instMembership] at ha
      rw [k4 i hp] at ha
      have hcl := i2 i
      rw [ha] at hcl
      obtain ⟨a0, ha0, hc0⟩ := Option.map_eq_some'.mp hcl.symm
      have hcg := compareTransitionToMatch_congr m hc0
      obtain ⟨o1, o2, o3⟩ := i3 i c1 c2 a ha
      have hs1 : compareTransitionToMatch a m = 1 := by
        by_contra hn1
        by_cases hn2 : compareTransitionToMatch a m = 2
        · rw [o1 hn2] at hact
          exact absurd hact (by simp)
        · exact hp ((o3 hn1 hn2).mp hact)
      rw [← hcg.1] at hs1
      obtain ⟨w1, w2, w3⟩ := (compareTransitionToMatch_wall a0 m hm1 hm2).1 hs1
      exact ⟨a0, ha0, Or.inr ⟨fun hh => hp hh.1, hcg.2.symm, w1, w2, w3⟩⟩

/-- The candidates `selectActiveTransitions` leaves active are wall-mode
times within the match, in strict order. -/
theorem selectActiveTransitions_spec {ts ts2 : TransitionStorage} {m : ZoneMatch}
    (h : selectActiveTransitions ts m = some ts2)
    (hd : ts.distinctSlots) (hcf : ts.mIndexCandidates ≤ ts.mIndexFree)
    (hsorted : ∀ i j, ts.mIndexCandidates ≤ i → i < j → j < ts.mIndexFree →
      ∀ a ∈ ts.getTransition i, ∀ b ∈ ts.getTransition j,
        a.transitionTime.lt b.transitionTime = true)
    (hwall : ∀ i, ts.mIndexCandidates ≤ i → i < ts.mIndexFree → ∀ c ∈ ts.getTransition i,
      c.transitionTime.isWall)
    (hm1 : m.startDateTime.isWall) (hm2 : m.untilDateTime.modifier = 'w')
    (hm3 : m.startDateTime.lt m.untilDateTime = true) :
    ts2.indexes = ts.indexes ∧ ts2.mHighWater = ts.mHighWater ∧ ts2.distinctSlots
    ∧ (∀ i, i < ts.mIndexCandidates → ts2.getTransition i = ts.getTransition i)
    ∧ (∀ i, ts.mIndexCandidates ≤ i → i < ts.mIndexFree →
        ∀ a ∈ ts2.getTransition i, a.active = true →
          a.transitionTime.isWall ∧ m.startDateTime.le a.transitionTime = true
            ∧ a.transitionTime.lt m.untilDateTime = true)
    ∧ (∀ i j, ts.mIndexCandidates ≤ i → i < j → j < ts.mIndexFree →
        ∀ a ∈ ts2.getTransition i, ∀ b ∈ ts2.getTransition j,
          a.active = true → b.active = true →
          a.transitionTime.lt b.transitionTime = true) := by
  obtain ⟨e1, e2, e3, e4, isPrior, hp, key⟩ :=
    selectActiveTransitions_active h hd hcf hsorted hm1.1 hm2
  refine ⟨e1, e2, e3, e4, ?_, ?_⟩
  · intro i c1 c2 a ha hact
    obtain ⟨a0, ha0, ⟨_, k2, _⟩ | ⟨_, k2, k3, _, k5⟩⟩ := key i c1 c2 a ha hact
    · rw [k2]
      exact ⟨hm1, DateTuple.le_refl _, hm3⟩
    · rw [k2]
      exact ⟨hwall i c1 c2 a0 ha0, (DateTuple.lt_eq_false_iff _ _).mp k3, k5⟩
  · intro i j c1 c2 c3 a ha b hb hacta hactb
    obtain ⟨a0, ha0, ka⟩ := key i c1 (by omega) a ha hacta
    obtain ⟨b0, hb0, kb⟩ := key j (by omega) c3 b hb hactb
    have hs := hsorted i j c1 c2 c3 a0 ha0 b0 hb0
    rcases ka with ⟨p1, k2, k3⟩ | ⟨p1, k2, k3, k4, k5⟩
    · rcases kb with ⟨q1, l2, l3⟩ | ⟨q1, l2, l3, l4, l5⟩
      · have := hp i j p1 q1
        omega
      · rw [k2, l2]
        rcases DateTuple.lt_or_same_or_gt b0.transitionTime m.startDateTime with g | g | g
        · rw [l3] at g; exact absurd g (by simp)
        · exact absurd (DateTuple.eq_of_same g
            ((hwall j (by omega) c3 b0 hb0).1.trans hm1.1.symm)) l4
        · exact g
    · rcases kb with ⟨q1, l2, l3⟩ | ⟨q1, l2, l3, l4, l5⟩
      · exfalso
        have h1 : a0.transitionTime.lt m.startDateTime = true := by
          rcases l3 with l3 | l3
          · exact DateTuple.lt_trans hs l3
          · rw [← l3]; exact hs
        rw [k3] at h1
        exact absurd h1 (by simp)
      · rw [k2, l2]; exact hs

/-- The loop of `addActiveCandidatesToActivePool` moves the active
candidates, in their order, behind the Active pool: a property `Q` of the
active candidates and a relation `R` between earlier and later active
candidates hold in the new Active entries `[n, iActive)`. -/
theorem addActiveCandidatesLoop_inv (ts0 : TransitionStorage) (n c f : Nat)
    (Q : Transition → Prop) (R : Transition → Transition → Prop)
    (hQ : ∀ j, c ≤ j → j < f → ∀ a ∈ ts0.getTransition j, a.active = true → Q a)
    (hR : ∀ j j2, c ≤ j → j < j2 → j2 < f → ∀ a ∈ ts0.getTransition j,
      ∀ b ∈ ts0.getTransition j2, a.active = true → b.active = true → R a b) :
    ∀ (rem x k : Nat) (ts : TransitionStorage) (r : Nat × TransitionStorage),
      TransitionStorage.addActiveCandidatesLoop rem x k ts = some r →
      n ≤ x → x ≤ k → c ≤ k → k + rem = f →
      ts.distinctSlots →
      (∀ i, i < n → ts.getTransition i = ts0.getTransition i) →
      (∀ j, k ≤ j → ts.getTransition j = ts0.getTransition j) →
      (∀ i, n ≤ i → i < x → ∀ a ∈ ts.getTransition i,
        Q a ∧ ∀ j, k ≤ j → j < f → ∀ b ∈ ts0.getTransition j, b.active = true → R a b) →
      (∀ i i2, n ≤ i → i < i2 → i2 < x → ∀ a ∈ ts.getTransition i,
        ∀ b ∈ ts.getTransition i2, R a b) →
      (n ≤ r.1 ∧ r.1 ≤ f) ∧ r.2.indexes = ts.indexes ∧ r.2.mHighWater = ts.mHighWater
      ∧ r.2.distinctSlots
      ∧ (∀ i, i < n → r.2.getTransition i = ts0.getTransition i)
      ∧ (∀ i, n ≤ i → i < r.1 → ∀ a ∈ r.2.getTransition i, Q a)
      ∧ (∀ i i2, n ≤ i → i < i2 → i2 < r.1 → ∀ a ∈ r.2.getTransition i,
          ∀ b ∈ r.2.getTransition i2, R a b) := by
  intro rem
  induction rem with
  | zero =>
    intro x k ts r h h1 h2 h3 h4 hd ha hb hq hr
    simp only [TransitionStorage.addActiveCandidatesLoop, Option.some.injEq] at h
    subst h
    exact ⟨⟨h1, by omega⟩, rfl, rfl, hd, ha, fun i c1 c2 a ha2 => (hq i c1 c2 a ha2).1, hr⟩
  | succ rem ih =>
    intro x k ts r h h1 h2 h3 h4 hd ha hb hq hr
    unfold TransitionStorage.addActiveCandidatesLoop at h
    obtain ⟨cT, hc, h⟩ := Option.bind_eq_some.mp h
    have hc0 : ts0.getTransition k = some cT := by rw [← hb k (le_refl _)]; exact hc
    by_cases hact : cT.active = true
    · rw [if_pos hact] at h
      -- the pool after the exchange
      have key : ∃ ts1, TransitionStorage.addActiveCandidatesLoop rem (x + 1) (k + 1) ts1 = some r
          ∧ ts1.indexes = ts.indexes ∧ ts1.mHighWater = ts.mHighWater ∧ ts1.distinctSlots
          ∧ ts1.getTransition x = some cT
          ∧ ∀ j, j ≠ x → j ≠ k → ts1.getTransition j = ts.getTransition j := by
        by_cases hxk : x = k
        · rw [if_neg (by simp [hxk])] at h
          exact ⟨ts, h, rfl, rfl, hd, by rw [hxk]; exact hc, fun _ _ _ => rfl⟩
        · rw [if_pos hxk] at h
          obtain ⟨ts1, hs, h⟩ := Option.bind_eq_some.mp h
          obtain ⟨_, _, _, _, _, e2, e3, _⟩ := TransitionStorage.swap_spec hs
          have g := TransitionStorage.swap_getTransition hs
          refine ⟨ts1, h, e2, e3, TransitionStorage.swap_distinctSlots hs hd, ?_, ?_⟩
          · rw [g, if_neg hxk, if_pos rfl]; exact hc
          · intro j j1 j2
            rw [g, if_neg j2, if_neg j1]
      obtain ⟨ts1, hl, e1, e2, e3, e4, e5⟩ := key
      obtain ⟨r1, r2, r3, r4, r5, r6, r7⟩ := ih (x + 1) (k + 1) ts1 r hl (by omega) (by omega)
        (by omega) (by omega) e3
        (fun i hi => by rw [e5 i (by omega) (by omega)]; exact ha i hi)
        (fun j hj => by rw [e5 j (by omega) (by omega)]; exact hb j (by omega))
        (by
          intro i c1 c2 a ha2
          rw [Membership.mem, Option.instMembership] at ha2
          by_cases hi : i = x
          · subst hi
            rw [e4] at ha2
            have ea : a = cT := (Option.some.inj ha2).symm
            subst ea
            exact ⟨hQ k h3 (by omega) a hc0 hact,
              fun j j1 j2 b hb2 hb3 => hR k j h3 (by omega) j2 a hc0 b hb2 hact hb3⟩
          · rw [e5 i hi (by omega)] at ha2
            obtain ⟨q1, q2⟩ := hq i c1 (by omega) a ha2
            exact ⟨q1, fun j j1 j2 => q2 j (by omega) j2⟩)
        (by
          intro i i2 c1 c2 c3 a ha2 b hb2
          rw [Membership.mem, Option.instMembership] at ha2 hb2
          rw [e5 i (by omega) (by omega)] at ha2
          by_cases hi : i2 = x
          · subst hi
            rw [e4] at hb2
            have eb : b = cT := (Option.some.inj hb2).symm
            subst eb
            exact (hq i c1 c2 a ha2).2 k (le_refl _) (by omega) b hc0 hact
          · rw [e5 i2 hi (by omega)] at hb2
            exact hr i i2 c1 c2 (by omega) a ha2 b hb2)
      exact ⟨⟨by omega, r1.2⟩, r2.trans e1, r3.trans e2, r4, r5, r6, r7⟩
    · rw [if_neg hact] at h
      exact ih x (k + 1) ts r h h1 (by omega) (by omega) (by omega) hd ha
        (fun j hj => hb j (by omega))
        (fun i c1 c2 a ha2 => ⟨(hq i c1 c2 a ha2).1,
          fun j j1 j2 => (hq i c1 c2 a ha2).2 j (by omega) j2⟩) hr

/-- The Active pool after `addActiveCandidatesToActivePool`: the former
Active transitions followed by the active candidates, `Q` holding of the
latter and `R` between an earlier and a later one of them. -/
theorem addActiveCandidatesToActivePool_spec {ts ts2 : TransitionStorage}
    (Q : Transition → Prop) (R : Transition → Transition → Prop)
    (h : ts.addActiveCandidatesToActivePool = some ts2)
    (hd : ts.distinctSlots)
    (hidx : ts.mIndexPrior ≤ ts.mIndexCandidates ∧ ts.mIndexCandidates ≤ ts.mIndexFree)
    (hQ : ∀ j, ts.mIndexCandidates ≤ j → j < ts.mIndexFree → ∀ a ∈ ts.getTransition j,
      a.active = true → Q a)
    (hR : ∀ j j2, ts.mIndexCandidates ≤ j → j < j2 → j2 < ts.mIndexFree →
      ∀ a ∈ ts.getTransition j, ∀ b ∈ ts.getTransition j2,
        a.active = true → b.active = true → R a b) :
    (ts2.mIndexPrior = ts2.mIndexFree ∧ ts2.mIndexCandidates = ts2.mIndexFree
      ∧ ts.mIndexPrior ≤ ts2.mIndexFree)
    ∧ ts2.mHighWater = ts.mHighWater ∧ ts2.distinctSlots
    ∧ (∀ i, i < ts.mIndexPrior → ts2.getTransition i = ts.getTransition i)
    ∧ (∀ i, ts.mIndexPrior ≤ i → i < ts2.mIndexFree → ∀ a ∈ ts2.getTransition i, Q a)
    ∧ (∀ i i2, ts.mIndexPrior ≤ i → i < i2 → i2 < ts2.mIndexFree →
        ∀ a ∈ ts2.getTransition i, ∀ b ∈ ts2.getTransition i2, R a b) := by
  unfold TransitionStorage.addActiveCandidatesToActivePool at h
  obtain ⟨r, hl, h⟩ := Option.map_eq_some'.mp h
  obtain ⟨r1, _, r3, r4, r5, r6, r7⟩ :=
    addActiveCandidatesLoop_inv ts ts.mIndexPrior ts.mIndexCandidates ts.mIndexFree Q R hQ hR
      _ _ _ _ _ hl (le_refl _) hidx.1 (le_refl _) (by omega) hd (fun _ _ => rfl)
      (fun _ _ => rfl) (fun i c1 c2 => by omega) (fun i i2 c1 c2 c3 => by omega)
  have hg : ∀ j, ts2.getTransition j = r.2.getTransition j := by
    intro j; rw [← h]; rfl
  have hf : ts2.mIndexFree = r.1 := by rw [← h]
  refine ⟨⟨by rw [← h], by rw [← h], by rw [hf]; exact r1.1⟩, by rw [← h]; exact r3, ?_, ?_, ?_, ?_⟩
  · intro i j p hi hj
    have hs : ∀ j, ts2.slotAt j = r.2.slotAt j := by
      intro j; rw [← h]; rfl
    rw [hs] at hi hj
    exact r4 i j p hi hj
  · intro i hi; rw [hg]; exact r5 i hi
  · intro i c1 c2 a ha
    rw [Membership.mem, Option.instMembership] at ha
    rw [hg] at ha
    rw [hf] at c2
    exact r6 i c1 c2 a ha
  · intro i i2 c1 c2 c3 a ha b hb
    rw [Membership.mem, Option.instMembership] at ha hb
    rw [hg] at ha hb
    rw [hf] at c3
    exact r7 i i2 c1 c2 c3 a ha b hb

theorem selectActiveTransitions_highWater {ts ts2 : TransitionStorage} {m : ZoneMatch}
    (h : selectActiveTransitions ts m = some ts2) : ts2.mHighWater = ts.mHighWater := by
  unfold selectActiveTransitions at h
  obtain ⟨r, hl, h⟩ := Option.bind_eq_some.mp h
  have e := (selectActiveLoop_frame m _ _ _ _ _ hl).2
  cases hp : r.2 with
  | none =>
    rw [hp] at h
    simp only [Option.some.injEq] at h
    rw [← h]; exact e
  | some p =>
    rw [hp] at h
    simp only at h
    rw [(TransitionStorage.modify_frame h).2.2.1]; exact e

theorem addActiveCandidatesLoop_highWater :
    ∀ (rem x k : Nat) (ts : TransitionStorage) (r : Nat × TransitionStorage),
      TransitionStorage.addActiveCandidatesLoop rem x k ts = some r →
      r.2.mHighWater = ts.mHighWater := by
  intro rem
  induction rem with
  | zero =>
    intro x k ts r h
    simp only [TransitionStorage.addActiveCandidatesLoop, Option.some.injEq] at h
    rw [← h]
  | succ rem ih =>
    intro x k ts r h
    unfold TransitionStorage.addActiveCandidatesLoop at h
    obtain ⟨cT, _, h⟩ := Option.bind_eq_some.mp h
    split_ifs at h
    · obtain ⟨ts1, hs, h⟩ := Option.bind_eq_some.mp h
      rw [ih _ _ _ _ h, TransitionStorage.swap_highWater hs]
    · exact ih _ _ _ _ h
    · exact ih _ _ _ _ h

theorem addActiveCandidatesToActivePool_highWater {ts ts2 : TransitionStorage}
    (h : ts.addActiveCandidatesToActivePool = some ts2) : ts2.mHighWater = ts.mHighWater := by
  unfold TransitionStorage.addActiveCandidatesToActivePool at h
  obtain ⟨r, hl, h⟩ := Option.map_eq_some'.mp h
  rw [← h]
  exact addActiveCandidatesLoop_highWater _ _ _ _ _ hl

theorem findTransitionsFromNamedMatch_highWater {ts ts2 : TransitionStorage} {mp : Nat}
    {m : ZoneMatch} (h : findTransitionsFromNamedMatch ts mp m = some ts2) :
    ts.mHighWater ≤ ts2.mHighWater := by
  unfold findTransitionsFromNamedMatch at h
  simp only [Option.bind_eq_some] at h
  obtain ⟨ts1, h1, ts3, h3, ts4, h4, h5⟩ := h
  have e1 := findCandidateTransitions_highWater h1
  have e2 := (fixTransitionTimes_frame h3).2.2.1
  have e3 := selectActiveTransitions_highWater h4
  have e4 := addActiveCandidatesToActivePool_highWater h5
  have e0 : ts.resetCandidatePool.mHighWater = ts.mHighWater := rfl
  omega

theorem findTransitionsFromSimpleMatch_highWater {ts ts2 : TransitionStorage} {mp : Nat}
    {m : ZoneMatch} (h : findTransitionsFromSimpleMatch ts mp m = some ts2) :
    ts.mHighWater ≤ ts2.mHighWater ∧ ts.mIndexFree ≤ ts2.mHighWater := by
  unfold findTransitionsFromSimpleMatch at h
  obtain ⟨r, hr, h⟩ := Option.bind_eq_some.mp h
  obtain ⟨ts1, h1, h⟩ := Option.map_eq_some'.mp h
  obtain ⟨_, _, _, e1, e2, _⟩ := TransitionStorage.getFreeAgent_spec hr
  have e3 := (TransitionStorage.modify_frame h1).2.2.1
  have e4 : (ts1.addFreeAgentToActivePool kMaxTransitions).mHighWater = ts1.mHighWater := by
    unfold TransitionStorage.addFreeAgentToActivePool
    split_ifs <;> rfl
  rw [← h, e4, e3]
  exact ⟨e1, e2⟩

/-- The Active transitions created for a match with a wall-mode policy,
without overflow of the pool: wall-mode times within the match, in strict
order, behind the Active transitions there were. -/
theorem findTransitionsFromNamedMatch_spec {ts ts2 : TransitionStorage} {mp n : Nat}
    {m : ZoneMatch} {pol : ZonePolicy} (years : List Int)
    (h : findTransitionsFromNamedMatch ts mp m = some ts2)
    (hhw : ts2.mHighWater < kMaxTransitions)
    (hpol : m.era.zonePolicy = some pol)
    (hrules : ∀ r ∈ pol.rules, r.isWall years)
    (hpw : pol.rules.Pairwise (ZoneRule.apart years))
    (hyears : ∀ y, m.startDateTime.yearTiny ≤ y → y ≤ m.untilDateTime.yearTiny → y ∈ years)
    (hstart : -127 ≤ m.startDateTime.yearTiny) (hs2 : m.startDateTime.yearTiny ≤ 127)
    (hend : m.untilDateTime.yearTiny ≤ 126)
    (hm1 : m.startDateTime.isWall) (hm2 : m.untilDateTime.modifier = 'w')
    (hm3 : m.startDateTime.lt m.untilDateTime = true)
    (hn : ts.mIndexPrior = n ∧ ts.mIndexCandidates = n ∧ ts.mIndexFree = n)
    (hd : ts.distinctSlots) :
    (ts2.mIndexPrior = ts2.mIndexFree ∧ ts2.mIndexCandidates = ts2.mIndexFree
      ∧ n ≤ ts2.mIndexFree)
    ∧ ts2.distinctSlots
    ∧ (∀ i, i < n → ts2.getTransition i = ts.getTransition i)
    ∧ (∀ i, n ≤ i → i < ts2.mIndexFree → ∀ a ∈ ts2.getTransition i,
        a.transitionTime.isWall ∧ m.startDateTime.le a.transitionTime = true
          ∧ a.transitionTime.lt m.untilDateTime = true)
    ∧ (∀ i i2, n ≤ i → i < i2 → i2 < ts2.mIndexFree →
        ∀ a ∈ ts2.getTransition i, ∀ b ∈ ts2.getTransition i2,
          a.transitionTime.lt b.transitionTime = true) := by
  unfold findTransitionsFromNamedMatch at h
  simp only [Option.bind_eq_some] at h
  obtain ⟨ts1, h1, ts3, h3, ts4, h4, h5⟩ := h
  have w3 := (fixTransitionTimes_frame h3).2.2.1
  have w4 := selectActiveTransitions_highWater h4
  have w5 := addActiveCandidatesToActivePool_highWater h5
  have hd0 : ts.resetCandidatePool.distinctSlots := TransitionStorage.distinctSlots_congr rfl hd
  have hn0 : ts.resetCandidatePool.mIndexPrior = n ∧ ts.resetCandidatePool.mIndexCandidates = n
      ∧ ts.resetCandidatePool.mIndexFree = n := by
    simp only [TransitionStorage.resetCandidatePool]
    exact ⟨hn.1, hn.1, hn.1⟩
  have g0 : ∀ j, ts.resetCandidatePool.getTransition j = ts.getTransition j :=
    TransitionStorage.getTransition_congr rfl rfl
  -- the candidates
  obtain ⟨a1, a2, a3, a4, a5, a6, a7⟩ := findCandidateTransitions_spec years DateTuple.isWall
    h1 (by omega) hpol
    (fun r hr => ⟨fun y _ _ _ => getTransitionTime_isWall y r (hrules r hr).1
        (hrules r hr).2.1 (hrules r hr).2.2.1, fun y hy _ _ => (hrules r hr).2.2.2 y hy,
      fun _ => getTransitionTime_isWall _ r (hrules r hr).1 (hrules r hr).2.1
        (hrules r hr).2.2.1⟩)
    hpw hyears hstart hs2 hend hn0 hd0
  -- their times expanded
  obtain ⟨b1, _, _, b4, b5⟩ := fixTransitionTimes_keeps h3
  simp only [TransitionStorage.getCandidatePoolBegin, TransitionStorage.getCandidatePoolEnd] at h3
  obtain ⟨j1, j2, j3⟩ := (TransitionStorage.indexes_eq_iff _ _).mp b1
  have hcn : n ≤ ts1.mIndexCandidates := by omega
  have c6 : ∀ i j, ts3.mIndexCandidates ≤ i → i < j → j < ts3.mIndexFree →
      ∀ a ∈ ts3.getTransition i, ∀ b ∈ ts3.getTransition j,
        a.transitionTime.lt b.transitionTime = true := by
    intro i j c1 c2 c3 a ha b hb
    rw [j2] at c1
    rw [j3] at c3
    obtain ⟨a0, ha0, _, ha1⟩ := b5 i a ha
    obtain ⟨b0, hb0, _, hb1⟩ := b5 j b hb
    rw [ha1 (a7 i c1 (by omega) a0 ha0), hb1 (a7 j (by omega) c3 b0 hb0)]
    exact a6 i j c1 c2 c3 a0 ha0 b0 hb0
  have c7 : ∀ i, ts3.mIndexCandidates ≤ i → i < ts3.mIndexFree → ∀ c ∈ ts3.getTransition i,
      c.transitionTime.isWall := by
    intro i c1 c2 c hc
    rw [j2] at c1
    rw [j3] at c2
    obtain ⟨c0, hc0, _, hc1⟩ := b5 i c hc
    rw [hc1 (a7 i c1 c2 c0 hc0)]
    exact a7 i c1 c2 c0 hc0
  have c5 : ∀ i, i < n → ts3.getTransition i = ts.getTransition i := by
    intro i hi
    rw [fixTransitionTimes_outside h3 a4 i (Or.inl (by omega)), a5 i hi, g0]
  -- the active ones marked
  obtain ⟨d1, _, d3, d4, d5, d6⟩ := selectActiveTransitions_spec h4 (b4 a4) (by omega) c6 c7
    hm1 hm2 hm3
  obtain ⟨k1, k2, k3⟩ := (TransitionStorage.indexes_eq_iff _ _).mp d1
  -- and moved to the Active pool
  obtain ⟨⟨e1, e2, e3⟩, _, e5, e6, e7, e8⟩ := addActiveCandidatesToActivePool_spec
    (fun a => a.transitionTime.isWall ∧ m.startDateTime.le a.transitionTime = true
      ∧ a.transitionTime.lt m.untilDateTime = true)
    (fun a b => a.transitionTime.lt b.transitionTime = true) h5 d3 (by omega)
    (by rw [k2, k3]; exact d5) (by rw [k2, k3]; exact d6)
  have hp4 : ts4.mIndexPrior = n := by omega
  rw [hp4] at e3 e6 e7 e8
  refine ⟨⟨e1, e2, e3⟩, e5, ?_, e7, e8⟩
  intro i hi
  rw [e6 i hi, d4 i (by omega), c5 i hi]

/-- The Active transition created for a match without a policy, without
overflow of the pool: one more transition, at the start of the match. -/
theorem findTransitionsFromSimpleMatch_spec {ts ts2 : TransitionStorage} {mp n : Nat}
    {m : ZoneMatch}
    (h : findTransitionsFromSimpleMatch ts mp m = some ts2)
    (hhw : ts2.mHighWater < kMaxTransitions)
    (hn : ts.mIndexPrior = n ∧ ts.mIndexCandidates = n ∧ ts.mIndexFree = n)
    (hd : ts.distinctSlots) :
    (ts2.mIndexPrior = ts2.mIndexFree ∧ ts2.mIndexCandidates = ts2.mIndexFree
      ∧ ts2.mIndexFree = n + 1)
    ∧ ts2.distinctSlots
    ∧ (∀ i, i < n → ts2.getTransition i = ts.getTransition i)
    ∧ ∀ a ∈ ts2.getTransition n, a.transitionTime = m.startDateTime := by
  have hw := (findTransitionsFromSimpleMatch_highWater h).2
  unfold findTransitionsFromSimpleMatch at h
  obtain ⟨r, hr, h⟩ := Option.bind_eq_some.mp h
  obtain ⟨ts1, h1, h⟩ := Option.map_eq_some'.mp h
  have hf : ts.mIndexFree < kMaxTransitions := by omega
  obtain ⟨e1, e2, _, e4, t0, _, e5⟩ := freeAgent_modify hd hf hr h1
  obtain ⟨i1, i2, i3⟩ := (TransitionStorage.indexes_eq_iff _ _).mp e1
  have hg : ∀ j, ts2.getTransition j = ts1.getTransition j := by
    intro j
    rw [← h]
    unfold TransitionStorage.addFreeAgentToActivePool
    split_ifs <;> rfl
  have hs : ∀ j, ts2.slotAt j = ts1.slotAt j := by
    intro j
    rw [← h]
    unfold TransitionStorage.addFreeAgentToActivePool
    split_ifs <;> rfl
  have hfree : ¬ ts1.mIndexFree ≥ kMaxTransitions := by omega
  refine ⟨?_, ?_, ?_, ?_⟩
  · rw [← h]
    unfold TransitionStorage.addFreeAgentToActivePool
    rw [if_neg hfree]
    simp only [true_and]
    omega
  · intro i j p hi hj
    rw [hs] at hi hj
    exact e2 i j p hi hj
  · intro i hi
    rw [hg, e4 i (by omega)]
  · intro a ha
    rw [Membership.mem, Option.instMembership] at ha
    rw [hg, ← hn.2.2, e5] at ha
    rw [← Option.some.inj ha]
    exact createTransitionForYear_simple _ _ _ _

theorem findTransitionsForMatch_highWater {ts ts2 : TransitionStorage} {ms : List ZoneMatch}
    {mp : Nat} (h : findTransitionsForMatch ts ms mp = some ts2) :
    ts.mHighWater ≤ ts2.mHighWater := by
  unfold findTransitionsForMatch at h
  obtain ⟨m, _, h⟩ := Option.bind_eq_some.mp h
  cases hp : m.era.zonePolicy with
  | none =>
    simp only [hp] at h
    exact (findTransitionsFromSimpleMatch_highWater h).1
  | some pol =>
    simp only [hp] at h
    exact findTransitionsFromNamedMatch_highWater h

theorem findTransitionsLoop_highWater (ms : List ZoneMatch) :
    ∀ (rem i : Nat) (ts ts2 : TransitionStorage),
      findTransitionsLoop ms rem i ts = some ts2 → ts.mHighWater ≤ ts2.mHighWater := by
  intro rem
  induction rem with
  | zero =>
    intro i ts ts2 h
    simp only [findTransitionsLoop, Option.some.injEq] at h
    rw [← h]
  | succ rem ih =>
    intro i ts ts2 h
    simp only [findTransitionsLoop, Option.bind_eq_some] at h
    obtain ⟨ts1, h1, h2⟩ := h
    have := findTransitionsForMatch_highWater h1
    have := ih _ _ _ h2
    omega

/-- The Active transitions created for one wall-mode match, without overflow
of the pool: wall-mode times within the match, in strict order, behind the
Active transitions there were. -/
theorem findTransitionsForMatch_spec {ts ts2 : TransitionStorage} {ms : List ZoneMatch}
    {mp n : Nat} {m : ZoneMatch} (years : List Int)
    (h : findTransitionsForMatch ts ms mp = some ts2)
    (hhw : ts2.mHighWater < kMaxTransitions)
    (hm : ms[mp]? = some m) (hok : m.isWall years)
    (hn : ts.mIndexPrior = n ∧ ts.mIndexCandidates = n ∧ ts.mIndexFree = n)
    (hd : ts.distinctSlots) :
    (ts2.mIndexPrior = ts2.mIndexFree ∧ ts2.mIndexCandidates = ts2.mIndexFree
      ∧ n ≤ ts2.mIndexFree)
    ∧ ts2.distinctSlots
    ∧ (∀ i, i < n → ts2.getTransition i = ts.getTransition i)
    ∧ (∀ i, n ≤ i → i < ts2.mIndexFree → ∀ a ∈ ts2.getTransition i,
        a.transitionTime.isWall ∧ m.startDateTime.le a.transitionTime = true
          ∧ a.transitionTime.lt m.untilDateTime = true)
    ∧ (∀ i i2, n ≤ i → i < i2 → i2 < ts2.mIndexFree →
        ∀ a ∈ ts2.getTransition i, ∀ b ∈ ts2.getTransition i2,
          a.transitionTime.lt b.transitionTime = true) := by
  unfold findTransitionsForMatch at h
  rw [hm] at h
  simp only [Option.bind] at h
  obtain ⟨m1, m2, m3, m4, m5, m6, m7, m8⟩ := hok
  cases hp : m.era.zonePolicy with
  | none =>
    simp only [hp] at h
    obtain ⟨⟨e1, e2, e3⟩, e4, e5, e6⟩ := findTransitionsFromSimpleMatch_spec h hhw hn hd
    refine ⟨⟨e1, e2, by omega⟩, e4, e5, ?_, ?_⟩
    · intro i c1 c2 a ha
      have : i = n := by omega
      subst this
      rw [e6 a ha]
      exact ⟨m1, DateTuple.le_refl _, m3⟩
    · intro i i2 c1 c2 c3
      omega
  | some pol =>
    simp only [hp] at h
    obtain ⟨p1, p2⟩ := m8 pol hp
    exact findTransitionsFromNamedMatch_spec years h hhw hp p1 p2 m7 m4 m5 m6 m1 m2.1 m3 hn hd

/-- The loop of `findTransitions` over wall-mode matches that follow each
other, without overflow of the pool, keeps the Active pool in strict
order. -/
theorem findTransitionsLoop_sorted (ms : List ZoneMatch) (years : List Int) (num : Nat)
    (hms : ∀ k, k < num → ∀ m ∈ ms[k]?, m.isWall years)
    (hcons : ∀ k k2, k < k2 → k2 < num → ∀ m ∈ ms[k]?, ∀ m2 ∈ ms[k2]?,
      m.untilDateTime.le m2.startDateTime = true) :
    ∀ (rem i : Nat) (ts ts2 : TransitionStorage),
      findTransitionsLoop ms rem i ts = some ts2 → i + rem = num →
      ts2.mHighWater < kMaxTransitions →
      activeSorted ts →
      (∀ j, j < ts.mIndexFree → ∀ a ∈ ts.getTransition j,
        ∀ k, i ≤ k → k < num → ∀ m ∈ ms[k]?,
          a.transitionTime.lt m.startDateTime = true) →
      activeSorted ts2 := by
  intro rem
  induction rem with
  | zero =>
    intro i ts ts2 h _ _ hact _
    simp only [findTransitionsLoop, Option.some.injEq] at h
    rw [← h]; exact hact
  | succ rem ih =>
    intro i ts ts2 h hnum hhw hact hbound
    simp only [findTransitionsLoop, Option.bind_eq_some] at h
    obtain ⟨ts1, h1, h2⟩ := h
    have w := findTransitionsLoop_highWater ms _ _ _ _ h2
    obtain ⟨a1, a2, a3, a4, a5⟩ := hact
    have h1' := h1
    unfold findTransitionsForMatch at h1'
    obtain ⟨m, hm, _⟩ := Option.bind_eq_some.mp h1'
    have hok := hms i (by omega) m hm
    obtain ⟨⟨e1, e2, e3⟩, e4, e5, e6, e7⟩ := findTransitionsForMatch_spec years h1 (by omega)
      hm hok ⟨a1, a2, rfl⟩ a3
    refine ih (i + 1) ts1 ts2 h2 (by omega) hhw ⟨e1, e2, e4, ?_, ?_⟩ ?_
    · intro j hj a ha
      by_cases hjn : j < ts.mIndexFree
      · rw [Membership.mem, Option.instMembership] at ha
        rw [e5 j hjn] at ha
        exact a4 j hjn a ha
      · exact (e6 j (by omega) hj a ha).1
    · intro j j2 c1 c2 a ha b hb
      by_cases hj2 : j2 < ts.mIndexFree
      · rw [Membership.mem, Option.instMembership] at ha hb
        rw [e5 j (by omega)] at ha
        rw [e5 j2 hj2] at hb
        exact a5 j j2 c1 hj2 a ha b hb
      · by_cases hj : j < ts.mIndexFree
        · rw [Membership.mem, Option.instMembership] at ha
          rw [e5 j hj] at ha
          have b1 := hbound j hj a ha i (le_refl _) (by omega) m hm
          exact DateTuple.lt_of_lt_of_le b1 (e6 j2 (by omega) c2 b hb).2.1
        · exact e7 j j2 (by omega) c1 c2 a ha b hb
    · intro j hj a ha k k1 k2 m2 hm2
      by_cases hjn : j < ts.mIndexFree
      · rw [Membership.mem, Option.instMembership] at ha
        rw [e5 j hjn] at ha
        exact hbound j hjn a ha k (by omega) k2 m2 hm2
      · exact DateTuple.lt_of_lt_of_le (e6 j (by omega) hj a ha).2.2
          (hcons i k (by omega) k2 m hm m2 hm2)

theorem ZoneEra.isWall_untilTuple {era : ZoneEra} {years : List Int} (h : era.isWall years) :
    era.untilTuple.isWall ∧ era.untilTuple.timeCode = era.untilTimeCode := by
  obtain ⟨h1, h2, h3, _⟩ := h
  have hw : wrap8 era.untilTimeCode = era.untilTimeCode := wrap8_of_fits (by omega) (by omega)
  have e : era.untilTuple.timeCode = era.untilTimeCode := hw
  refine ⟨⟨h1, ?_, ?_⟩, e⟩
  · rw [e]; exact h2
  · rw [e]; exact h3

/-- The match of an era that overlaps the window of a year, in a wall-mode
zone: a wall-mode match that is not empty, that starts at or after the end of
the previous era and ends at or before the end of its own. -/
theorem createMatch_isWall (prev era : ZoneEra) (startYm untilYm : YearMonthTuple)
    (years : List Int)
    (hov : eraOverlapsInterval prev era startYm untilYm = true)
    (hprev : prev.untilTuple.isWall) (hera : era.isWall years)
    (hlt : prev.untilTuple.lt era.untilTuple = true)
    (hwin : startYm.yearTiny < untilYm.yearTiny)
    (hlo : -127 ≤ startYm.yearTiny) (hhi : untilYm.yearTiny ≤ 126)
    (hyears : ∀ y, startYm.yearTiny ≤ y → y ≤ untilYm.yearTiny → y ∈ years) :
    (createMatch prev era startYm untilYm).isWall years
    ∧ prev.untilTuple.le (createMatch prev era startYm untilYm).startDateTime = true
    ∧ (createMatch prev era startYm untilYm).untilDateTime.le era.untilTuple = true := by
  obtain ⟨w1, w2⟩ := ZoneEra.isWall_untilTuple hera
  obtain ⟨_, _, _, hday, hpol⟩ := hera
  unfold eraOverlapsInterval at hov
  simp only [Bool.and_eq_true, decide_eq_true_eq] at hov
  obtain ⟨o1, o2⟩ := hov
  -- the four tuples
  have hPU : prev.untilTuple.lt untilYm.firstDay = true := by
    rw [DateTuple.lt_iff]
    unfold compareEraToYearMonth at o1
    simp only [ZoneEra.untilTuple, YearMonthTuple.firstDay]
    split_ifs at o1 <;> omega
  have hLE : startYm.firstDay.lt era.untilTuple = true := by
    rw [DateTuple.lt_iff]
    unfold compareEraToYearMonth at o2
    have := w2
    simp only [ZoneEra.untilTuple, YearMonthTuple.firstDay] at this ⊢
    split_ifs at o2 <;> omega
  have hLU : startYm.firstDay.lt untilYm.firstDay = true := by
    rw [DateTuple.lt_iff]
    simp only [YearMonthTuple.firstDay]
    omega
  have hLw : startYm.firstDay.isWall := ⟨rfl, by simp [YearMonthTuple.firstDay],
    by simp [YearMonthTuple.firstDay]⟩
  have hUw : untilYm.firstDay.isWall := ⟨rfl, by simp [YearMonthTuple.firstDay],
    by simp [YearMonthTuple.firstDay]⟩
  have hs : (createMatch prev era startYm untilYm).startDateTime
      = if prev.untilTuple.lt startYm.firstDay then startYm.firstDay else prev.untilTuple := rfl
  have hu : (createMatch prev era startYm untilYm).untilDateTime
      = if untilYm.firstDay.lt era.untilTuple then untilYm.firstDay else era.untilTuple := rfl
  have he : (createMatch prev era startYm untilYm).era = era := rfl
  generalize createMatch prev era startYm untilYm = m at hs hu he ⊢
  have hLy : startYm.firstDay.yearTiny = startYm.yearTiny := rfl
  have hUy : untilYm.firstDay.yearTiny = untilYm.yearTiny := rfl
  generalize startYm.firstDay = L at *
  generalize untilYm.firstDay = U at *
  generalize prev.untilTuple = P at *
  generalize era.untilTuple = E at *
  -- start and until, by cases
  have key : m.startDateTime.isWall ∧ m.untilDateTime.isWall
      ∧ m.startDateTime.lt m.untilDateTime = true
      ∧ L.le m.startDateTime = true ∧ m.untilDateTime.le U = true
      ∧ P.le m.startDateTime = true ∧ m.untilDateTime.le E = true := by
    rw [hs, hu]
    by_cases c1 : P.lt L = true
    · by_cases c2 : U.lt E = true
      · simp only [c1, c2, if_true]
        exact ⟨hLw, hUw, hLU, DateTuple.le_refl _, DateTuple.le_refl _, DateTuple.le_of_lt c1,
          DateTuple.le_of_lt c2⟩
      · simp only [c1, c2, if_true, if_false]
        have c2' : E.le U = true := (DateTuple.lt_eq_false_iff _ _).mp (by simpa using c2)
        exact ⟨hLw, w1, hLE, DateTuple.le_refl _, c2', DateTuple.le_of_lt c1,
          DateTuple.le_refl _⟩
    · have c1' : L.le P = true := (DateTuple.lt_eq_false_iff _ _).mp (by simpa using c1)
      by_cases c2 : U.lt E = true
      · simp only [c1, c2, if_true, if_false]
        exact ⟨hprev, hUw, hPU, c1', DateTuple.le_refl _, DateTuple.le_refl _,
          DateTuple.le_of_lt c2⟩
      · simp only [c1, c2, if_false]
        have c2' : E.le U = true := (DateTuple.lt_eq_false_iff _ _).mp (by simpa using c2)
        exact ⟨hprev, w1, hlt, c1', c2', DateTuple.le_refl _, DateTuple.le_refl _⟩
  obtain ⟨k1, k2, k3, k4, k5, k6, k7⟩ := key
  have y1 : L.yearTiny ≤ m.startDateTime.yearTiny := by
    rw [DateTuple.le_iff] at k4; omega
  have y2 : m.untilDateTime.yearTiny ≤ U.yearTiny := by
    rw [DateTuple.le_iff] at k5; omega
  have y3 : m.startDateTime.yearTiny ≤ m.untilDateTime.yearTiny := by
    rw [DateTuple.lt_iff] at k3; omega
  refine ⟨⟨k1, k2, k3, by omega, by omega, by omega, ?_, ?_⟩, k6, k7⟩
  · intro y c1 c2
    exact hyears y (by omega) (by omega)
  · rw [he]; exact hpol

theorem setMatch_getElem {ms ms1 : List ZoneMatch} {i : Nat} {m : ZoneMatch}
    (h : setMatch ms i m = some ms1) (k : Nat) :
    ms1[k]? = if k = i then some m else ms[k]? := by
  unfold setMatch at h
  split_ifs at h with hi
  simp only [Option.some.injEq] at h
  subst h
  by_cases hk : k = i
  · subst hk; simp [hi]
  · rw [if_neg hk, List.getElem?_set_ne (Ne.symm hk)]

/-- The loop of `findMatches` over the eras of a wall-mode zone: the matches
are wall-mode matches, each starting at or after the end of the ones before
it. -/
theorem findMatchesLoop_spec (startYm untilYm : YearMonthTuple) (maxMatches : Nat)
    (years : List Int)
    (hwin : startYm.yearTiny < untilYm.yearTiny)
    (hlo : -127 ≤ startYm.yearTiny) (hhi : untilYm.yearTiny ≤ 126)
    (hyears : ∀ y, startYm.yearTiny ≤ y → y ≤ untilYm.yearTiny → y ∈ years) :
    ∀ (eras : List ZoneEra) (prev : ZoneEra) (ms : List ZoneMatch) (i : Nat)
      (r : Nat × List ZoneMatch),
      findMatchesLoop startYm untilYm maxMatches eras prev ms i = some r →
      erasIncreasing prev eras = true → (∀ era ∈ eras, era.isWall years) →
      prev.untilTuple.isWall →
      (∀ k, k < i → ∀ m ∈ ms[k]?, m.isWall years
        ∧ m.untilDateTime.le prev.untilTuple = true) →
      (∀ k k2, k < k2 → k2 < i → ∀ m ∈ ms[k]?, ∀ m2 ∈ ms[k2]?,
        m.untilDateTime.le m2.startDateTime = true) →
      (∀ k, k < r.1 → ∀ m ∈ r.2[k]?, m.isWall years)
      ∧ ∀ k k2, k < k2 → k2 < r.1 → ∀ m ∈ r.2[k]?, ∀ m2 ∈ r.2[k2]?,
          m.untilDateTime.le m2.startDateTime = true := by
  intro eras
  induction eras with
  | nil =>
    intro prev ms i r h _ _ _ h1 h2
    simp only [findMatchesLoop, Option.some.injEq] at h
    rw [← h]
    exact ⟨fun k hk m hm => (h1 k hk m hm).1, h2⟩
  | cons era rest ih =>
    intro prev ms i r h hinc heras hprev h1 h2
    simp only [erasIncreasing, Bool.and_eq_true] at hinc
    obtain ⟨hlt, hinc2⟩ := hinc
    have hera := heras era (List.mem_cons_self _ _)
    have heras2 : ∀ e ∈ rest, e.isWall years := fun e he => heras e (List.mem_cons_of_mem _ he)
    have hew := (ZoneEra.isWall_untilTuple hera).1
    have hskip : ∀ k, k < i → ∀ m ∈ ms[k]?, m.isWall years
        ∧ m.untilDateTime.le era.untilTuple = true :=
      fun k hk m hm => ⟨(h1 k hk m hm).1,
        DateTuple.le_trans (h1 k hk m hm).2 (DateTuple.le_of_lt hlt)⟩
    unfold findMatchesLoop at h
    by_cases hov : eraOverlapsInterval prev era startYm untilYm = true
    · rw [if_pos hov] at h
      by_cases hi : i < maxMatches
      · rw [if_pos hi] at h
        obtain ⟨ms1, hset, h⟩ := Option.bind_eq_some.mp h
        obtain ⟨c1, c2, c3⟩ := createMatch_isWall prev era startYm untilYm years hov hprev hera
          hlt hwin hlo hhi hyears
        have hg := setMatch_getElem hset
        refine ih era ms1 (i + 1) r h hinc2 heras2 hew ?_ ?_
        · intro k hk m hm
          rw [Membership.mem, Option.instMembership] at hm
          rw [hg] at hm
          by_cases hki : k = i
          · rw [if_pos hki] at hm
            rw [← Option.some.inj hm]
            exact ⟨c1, c3⟩
          · rw [if_neg hki] at hm
            exact hskip k (by omega) m hm
        · intro k k2 g1 g2 m hm m2 hm2
          rw [Membership.mem, Option.instMembership] at hm hm2
          rw [hg, if_neg (by omega)] at hm
          rw [hg] at hm2
          by_cases hki : k2 = i
          · rw [if_pos hki] at hm2
            rw [← Option.some.inj hm2]
            exact DateTuple.le_trans (h1 k (by omega) m hm).2 c2
          · rw [if_neg hki] at hm2
            exact h2 k k2 g1 (by omega) m hm m2 hm2
      · rw [if_neg hi] at h
        exact ih era ms i r h hinc2 heras2 hew hskip h2
    · rw [if_neg hov] at h
      exact ih era ms i r h hinc2 heras2 hew hskip h2

/-- The matches that `findMatches` finds in a wall-mode zone. -/
theorem findMatches_spec (zi : ZoneInfo) (startYm untilYm : YearMonthTuple) (maxMatches : Nat)
    (years : List Int) (ms : List ZoneMatch) (r : Nat × List ZoneMatch)
    (h : findMatches zi startYm untilYm ms maxMatches = some r)
    (hzi : zi.isWall years)
    (hwin : startYm.yearTiny < untilYm.yearTiny)
    (hlo : -127 ≤ startYm.yearTiny) (hhi : untilYm.yearTiny ≤ 126)
    (hyears : ∀ y, startYm.yearTiny ≤ y → y ≤ untilYm.yearTiny → y ∈ years) :
    (∀ k, k < r.1 → ∀ m ∈ r.2[k]?, m.isWall years)
    ∧ ∀ k k2, k < k2 → k2 < r.1 → ∀ m ∈ r.2[k]?, ∀ m2 ∈ r.2[k2]?,
        m.untilDateTime.le m2.startDateTime = true := by
  unfold findMatches at h
  exact findMatchesLoop_spec startYm untilYm maxMatches years hwin hlo hhi hyears
    zi.eras kAnchorEra ms 0 r h hzi.1 hzi.2 (by decide) (fun k hk => by omega)
    (fun k k2 _ hk => by omega)

theorem TransitionStorage.init_distinctSlots (SIZE : Nat) (ts : TransitionStorage) :
    (ts.init SIZE).distinctSlots := by
  intro i j p hi hj
  unfold TransitionStorage.slotAt TransitionStorage.init at hi hj
  simp only at hi hj
  rw [List.getElem?_eq_some_iff] at hi hj
  obtain ⟨_, hi⟩ := hi
  obtain ⟨_, hj⟩ := hj
  rw [List.getElem_range] at hi hj
  omega

/-- Transitions are read by index after a pass that keeps the pointer
vector and the `transitionTime` of every pool slot. -/
theorem getTransition_of_keeps {ts ts2 : TransitionStorage}
    (hs : ∀ i, ts2.slotAt i = ts.slotAt i) (hl : ts2.mPool.length = ts.mPool.length)
    (hk : ∀ q t0, ts.deref q = some t0 →
      ∃ t2, ts2.deref q = some t2 ∧ t2.transitionTime = t0.transitionTime) :
    (∀ i, (ts2.getTransition i).isSome = (ts.getTransition i).isSome)
    ∧ ∀ i b, ts2.getTransition i = some b →
        ∃ a, ts.getTransition i = some a ∧ b.transitionTime = a.transitionTime := by
  have back : ∀ i b, ts2.getTransition i = some b →
      ∃ a, ts.getTransition i = some a ∧ b.transitionTime = a.transitionTime := by
    intro i b hb
    obtain ⟨p, hp, hp2⟩ := getTransition_eq_some.mp hb
    rw [hs] at hp
    have hsome : (ts.deref p).isSome := by
      rw [deref_isSome_iff, ← hl, ← deref_isSome_iff, hp2]
      rfl
    obtain ⟨a, ha⟩ := Option.isSome_iff_exists.mp hsome
    obtain ⟨t2, g1, g2⟩ := hk p a ha
    rw [hp2] at g1
    rw [Option.some.inj g1]
    exact ⟨a, getTransition_eq_some.mpr ⟨p, hp, ha⟩, g2⟩
  refine ⟨?_, back⟩
  intro i
  cases h2 : ts2.getTransition i with
  | some b =>
    obtain ⟨a, ha, _⟩ := back i b h2
    rw [ha]
    rfl
  | none =>
    cases h1 : ts.getTransition i with
    | none => rfl
    | some a =>
      obtain ⟨p, hp, hp2⟩ := getTransition_eq_some.mp h1
      obtain ⟨t2, g1, _⟩ := hk p a hp2
      have : ts2.getTransition i = some t2 :=
        getTransition_eq_some.mpr ⟨p, by rw [hs]; exact hp, g1⟩
      rw [h2] at this
      exact absurd this (by simp)

theorem generateStartUntilTimes_keeps {ts ts2 : TransitionStorage} {ms : List ZoneMatch}
    {b e : Nat} (h : generateStartUntilTimes ts ms b e = some ts2) :
    (∀ i, (ts2.getTransition i).isSome = (ts.getTransition i).isSome)
    ∧ ∀ i t2, ts2.getTransition i = some t2 →
        ∃ t0, ts.getTransition i = some t0 ∧ t2.transitionTime = t0.transitionTime := by
  obtain ⟨_, e2, _, e4⟩ := generateStartUntilTimes_frame h
  apply getTransition_of_keeps (TransitionStorage.slotAt_congr e2) e4
  intro q t0 h0
  unfold generateStartUntilTimes at h
  simp only [Option.bind_eq_some] at h
  obtain ⟨prev0, _, r, hl, prevT, _, mi, _, m, _, h⟩ := h
  obtain ⟨_, k⟩ := generateStartUntilLoop_keeps _ _ _ _ _ _ hl
  obtain ⟨t1, g1, g2, _⟩ := k q t0 h0
  obtain ⟨x, hx, hd⟩ := TransitionStorage.deref_modify h
  rw [hd]
  by_cases hq : q = r.2
  · rw [if_pos hq]
    subst hq
    rw [g1] at hx
    rw [← Option.some.inj hx]
    exact ⟨_, rfl, g2.1⟩
  · rw [if_neg hq]
    exact ⟨t1, g1, g2.1⟩

theorem calcAbbreviationsLoop_keeps (ms : List ZoneMatch) :
    ∀ (n iter : Nat) (ts ts2 : TransitionStorage),
      calcAbbreviationsLoop ms n iter ts = some ts2 →
      ∀ q t0, ts.deref q = some t0 →
        ∃ t2, ts2.deref q = some t2 ∧ t2.transitionTime = t0.transitionTime := by
  intro n
  induction n with
  | zero =>
    intro iter ts ts2 h q t0 h0
    simp only [calcAbbreviationsLoop, Option.some.injEq] at h
    subst h
    exact ⟨t0, h0, rfl⟩
  | succ n ih =>
    intro iter ts ts2 h q t0 h0
    simp only [calcAbbreviationsLoop, Option.bind_eq_some] at h
    obtain ⟨t, _, tT, hT, fmt, _, letter, _, buf, _, ts1, hs, h⟩ := h
    have hd := TransitionStorage.deref_store hs q
    by_cases hq : q = t
    · subst hq
      rw [if_pos rfl] at hd
      rw [hT] at h0
      obtain ⟨t2, g1, g2⟩ := ih _ _ _ h q _ hd
      exact ⟨t2, g1, by rw [g2, ← Option.some.inj h0]⟩
    · rw [if_neg hq, h0] at hd
      exact ih _ _ _ h q t0 hd

theorem calcAbbreviations_keeps {ts ts2 : TransitionStorage} {ms : List ZoneMatch}
    {b e : Nat} (h : calcAbbreviations ts ms b e = some ts2) :
    (∀ i, (ts2.getTransition i).isSome = (ts.getTransition i).isSome)
    ∧ ∀ i t2, ts2.getTransition i = some t2 →
        ∃ t0, ts.getTransition i = some t0 ∧ t2.transitionTime = t0.transitionTime := by
  unfold calcAbbreviations at h
  obtain ⟨_, e2, _, e4⟩ := calcAbbreviationsLoop_frame _ _ _ _ _ h
  exact getTransition_of_keeps (TransitionStorage.slotAt_congr e2) e4
    (calcAbbreviationsLoop_keeps ms _ _ _ _ h)

/-- The Active pool that a recomputing `init` leaves for a wall-mode zone,
without overflow of the pool: readable transitions whose `transitionTime`s
are in strict order. -/
theorem init_recompute_ordered (zp zp2 : ExtendedZoneProcessor) (ld : LocalDate)
    (hinit : zp.init ld = some (true, zp2))
    (hnew : zp.isFilled ld.year = false)
    (hyear : -126 ≤ ld.yearTiny ∧ ld.yearTiny ≤ 125)
    (hzone : zp.mZoneInfo.isWall [ld.yearTiny - 1, ld.yearTiny, ld.yearTiny + 1])
    (hhw : zp2.mTransitionStorage.mHighWater < kMaxTransitions) :
    (∀ i, i < zp2.mTransitionStorage.mIndexFree →
      (zp2.mTransitionStorage.getTransition i).isSome = true)
    ∧ ∀ i j, i < j → j < zp2.mTransitionStorage.mIndexFree →
        ∀ a ∈ zp2.mTransitionStorage.getTransition i,
        ∀ b ∈ zp2.mTransitionStorage.getTransition j,
          a.transitionTime.lt b.transitionTime = true := by
  unfold ExtendedZoneProcessor.init at hinit
  simp only [hnew, Bool.false_eq_true, if_false] at hinit
  split_ifs at hinit with hr
  · simp at hinit
  simp only [Option.bind_eq_some] at hinit
  obtain ⟨fm, hfm, ts1, h1, ts2, h2, ts3, h3, ts4, h4, h⟩ := hinit
  simp only [Option.some.injEq, Prod.mk.injEq, true_and] at h
  have hy : ld.year - LocalDate.kEpochYear = ld.yearTiny := by
    unfold LocalDate.year; omega
  have hy1 : wrap8 (ld.year - LocalDate.kEpochYear - 1) = ld.yearTiny - 1 := by
    rw [hy]; exact wrap8_of_fits (by omega) (by omega)
  have hy2 : wrap8 (ld.year - LocalDate.kEpochYear + 1) = ld.yearTiny + 1 := by
    rw [hy]; exact wrap8_of_fits (by omega) (by omega)
  rw [hy1, hy2] at hfm
  simp only [TransitionStorage.getActivePoolBegin, TransitionStorage.getActivePoolEnd] at h2 h3 h4
  -- the matches
  obtain ⟨m1, m2⟩ := findMatches_spec _ _ _ _ [ld.yearTiny - 1, ld.yearTiny, ld.yearTiny + 1]
    _ _ hfm hzone (by simp only; omega) (by simp only; omega) (by simp only; omega)
    (by
      intro y c1 c2
      simp only at c1 c2
      simp only [List.mem_cons, List.mem_singleton, List.not_mem_nil, or_false]
      omega)
  -- the high water marks
  have w2 := (fixTransitionTimes_frame h2).2.2.1
  have w3 := (generateStartUntilTimes_frame h3).2.2.1
  have w4 := (calcAbbreviationsLoop_frame _ _ _ _ _ h4).2.2.1
  have hw1 : ts1.mHighWater < kMaxTransitions := by
    rw [← h] at hhw
    simp only at hhw
    omega
  -- the Active pool after findTransitions
  unfold findTransitions at h1
  obtain ⟨s1, s2, s3, s4, s5⟩ := findTransitionsLoop_sorted fm.2
    [ld.yearTiny - 1, ld.yearTiny, ld.yearTiny + 1] fm.1 m1 m2 _ _ _ _ h1 (by omega) hw1
    ⟨rfl, rfl, TransitionStorage.init_distinctSlots _ _, fun i hi => by
      simp [TransitionStorage.init] at hi, fun i j _ hj => by
      simp [TransitionStorage.init] at hj⟩
    (fun j hj => by simp [TransitionStorage.init] at hj)
  -- the last three passes
  obtain ⟨f1, _, _, _, f5⟩ := fixTransitionTimes_keeps h2
  obtain ⟨g1, g2⟩ := generateStartUntilTimes_keeps h3
  obtain ⟨k1, k2⟩ := calcAbbreviations_keeps h4
  have i2 := ((TransitionStorage.indexes_eq_iff _ _).mp f1).2.2
  have i3 := ((TransitionStorage.indexes_eq_iff _ _).mp (generateStartUntilTimes_frame h3).1).2.2
  have i4 := ((TransitionStorage.indexes_eq_iff _ _).mp
    (calcAbbreviationsLoop_frame _ _ _ _ _ h4).1).2.2
  have hfree : zp2.mTransitionStorage.mIndexFree = ts1.mIndexFree := by
    rw [← h]; simp only; omega
  have hts : zp2.mTransitionStorage = ts4 := by rw [← h]
  rw [hfree, hts]
  have back : ∀ i, i < ts1.mIndexFree → ∀ a, ts4.getTransition i = some a →
      ∃ a0, ts1.getTransition i = some a0 ∧ a.transitionTime = a0.transitionTime := by
    intro i hi a ha
    obtain ⟨a3, ha3, e3⟩ := k2 i a ha
    obtain ⟨a2, ha2, e2⟩ := g2 i a3 ha3
    obtain ⟨a1, ha1, _, e1⟩ := f5 i a2 ha2
    exact ⟨a1, ha1, by rw [e3, e2, e1 (s4 i hi a1 ha1)]⟩
  refine ⟨?_, ?_⟩
  · intro i hi
    rw [k1, g1]
    unfold generateStartUntilTimes at h3
    simp only [Option.bind_eq_some] at h3
    obtain ⟨prev0, _, r, hl, _⟩ := h3
    exact generateStartUntilLoop_reads _ _ _ _ _ _ hl i (by omega) (by omega)
  · intro i j c1 c2 a ha b hb
    obtain ⟨a0, ha0, ea⟩ := back i (by omega) a ha
    obtain ⟨b0, hb0, eb⟩ := back j c2 b hb
    rw [ea, eb]
    exact s5 i j c1 c2 a0 ha0 b0 hb0

/-- Counterexample of C6 as stated. The first era of the zone ends on
2018-11-04 at 01:30 standard time, after the change back to standard time at
02:00 daylight saving time. `init` for 2018 succeeds with four Active
transitions; the third one (the change back, at 09:00 UTC) has the
`transitionTime` 02:00, read in the daylight saving time before it, and the
fourth one (the new era, at 09:30 UTC) the `transitionTime` 01:30 of the same
day, read in the standard time before it: the later transition has the
smaller `transitionTime`. -/
theorem C6_counterexample :
    ((newProcessor kZoneEraAfterFallBack).init { yearTiny := 18, month := 3, day := 11 }).map
        Prod.fst = some true
    ∧ eraAfterFallBack2018.mTransitionStorage.mIndexFree = 4
    ∧ (eraAfterFallBack2018.mTransitionStorage.getTransition 2).map
        (fun t => (t.transitionTime, t.startEpochSeconds))
        = some ({ yearTiny := 18, month := 11, day := 4, timeCode := 8, modifier := 'w' },
            594637200)
    ∧ (eraAfterFallBack2018.mTransitionStorage.getTransition 3).map
        (fun t => (t.transitionTime, t.startEpochSeconds))
        = some ({ yearTiny := 18, month := 11, day := 4, timeCode := 6, modifier := 'w' },
            594639000)
    ∧ DateTuple.lt { yearTiny := 18, month := 11, day := 4, timeCode := 8, modifier := 'w' }
        { yearTiny := 18, month := 11, day := 4, timeCode := 6, modifier := 'w' } = false := by
  decide

/-! ## C12, C13, C14: normalizeDateTuple and the order of tuples -/

theorem LocalDate.isValid_mk (y m d : Int) (h1 : 1 ≤ m) (h2 : m ≤ 12) (h3 : 1 ≤ d)
    (h4 : d ≤ LocalDate.daysInMonth (y + 2000) m) :
    LocalDate.isValid { yearTiny := y, month := m, day := d } :=
  ⟨h1, h2, h3, h4⟩

/-- The next civil day is a civil date. -/
theorem incrementOneDay_isValid (ld : LocalDate) (hv : ld.isValid) :
    (incrementOneDay ld).isValid := by
  obtain ⟨hm1, hm2, hd1, hd2⟩ := hv
  unfold incrementOneDay
  simp only
  split_ifs with h1 h2
  · have := daysInMonth_pos (wrap8 (ld.yearTiny + 1) + 2000) 1
    exact LocalDate.isValid_mk _ _ _ (by omega) (by omega) (by omega) (by omega)
  · have := daysInMonth_pos (ld.yearTiny + 2000) (ld.month + 1)
    exact LocalDate.isValid_mk _ _ _ (by omega) (by omega) (by omega) (by omega)
  · exact LocalDate.isValid_mk _ _ _ hm1 hm2 (by omega) (by
      have e : ld.year = ld.yearTiny + 2000 := rfl
      rw [← e]; omega)

/-- The previous civil day is a civil date. -/
theorem decrementOneDay_isValid (ld : LocalDate) (hv : ld.isValid) :
    (decrementOneDay ld).isValid := by
  obtain ⟨hm1, hm2, hd1, hd2⟩ := hv
  unfold decrementOneDay
  simp only
  have e : ld.year = ld.yearTiny + 2000 := rfl
  split_ifs with h1 h2
  · have := LocalDate.daysInMonth_cases (wrap8 (ld.yearTiny - 1) + 2000) 12
    exact LocalDate.isValid_mk _ _ _ (by omega) (by omega) (by omega) (by omega)
  · have := daysInMonth_pos ld.year (ld.month - 1)
    exact LocalDate.isValid_mk _ _ _ (by omega) (by omega) (by omega) (by rw [← e])
  · exact LocalDate.isValid_mk _ _ _ hm1 hm2 (by omega) (by rw [← e]; omega)

theorem wrap8_range (x : Int) : -128 ≤ wrap8 x ∧ wrap8 x ≤ 127 := by
  unfold wrap8; omega

theorem incrementOneDay_yearTiny (ld : LocalDate) (h0 : -128 ≤ ld.yearTiny)
    (h1 : ld.yearTiny ≤ 127) :
    -128 ≤ (incrementOneDay ld).yearTiny ∧ (incrementOneDay ld).yearTiny ≤ 127 := by
  unfold incrementOneDay
  simp only
  split_ifs
  · exact wrap8_range _
  · exact ⟨h0, h1⟩
  · exact ⟨h0, h1⟩

theorem decrementOneDay_yearTiny (ld : LocalDate) (h0 : -128 ≤ ld.yearTiny)
    (h1 : ld.yearTiny ≤ 127) :
    -128 ≤ (decrementOneDay ld).yearTiny ∧ (decrementOneDay ld).yearTiny ≤ 127 := by
  unfold decrementOneDay
  simp only
  split_ifs
  · exact wrap8_range _
  · exact ⟨h0, h1⟩
  · exact ⟨h0, h1⟩

/-- `normalizeDateTuple` keeps a valid date valid. -/
theorem normalizeDateTuple_validDate (dt : DateTuple) (hv : dt.validDate) :
    (normalizeDateTuple dt).validDate := by
  obtain ⟨hval, hy0, hy1⟩ := hv
  unfold normalizeDateTuple
  simp only
  split_ifs
  · exact ⟨decrementOneDay_isValid _ hval, decrementOneDay_yearTiny _ hy0 hy1⟩
  · exact ⟨incrementOneDay_isValid _ hval, incrementOneDay_yearTiny _ hy0 hy1⟩
  · exact ⟨hval, hy0, hy1⟩

/-- The time code after `normalizeDateTuple`. -/
theorem normalizeDateTuple_timeCode (dt : DateTuple)
    (h1 : -128 ≤ dt.timeCode) (h2 : dt.timeCode ≤ 127) :
    (normalizeDateTuple dt).timeCode =
      (if dt.timeCode ≤ -96 then dt.timeCode + 96
       else if 96 ≤ dt.timeCode then dt.timeCode - 96 else dt.timeCode) := by
  unfold normalizeDateTuple
  simp only
  by_cases hA : dt.timeCode ≤ -(4 * 24)
  · have hA2 : dt.timeCode ≤ -96 := by omega
    have hw : wrap8 (dt.timeCode + 4 * 24) = dt.timeCode + 96 := by unfold wrap8; omega
    simp only [hA, hA2, if_true, hw]
  · have hA2 : ¬ dt.timeCode ≤ -96 := by omega
    simp only [hA, hA2, if_false]
    by_cases hB : (4 : Int) * 24 ≤ dt.timeCode
    · have hB2 : (96 : Int) ≤ dt.timeCode := by omega
      have hw : wrap8 (dt.timeCode - 4 * 24) = dt.timeCode - 96 := by unfold wrap8; omega
      simp only [hB, hB2, if_true, hw]
    · have hB2 : ¬ (96 : Int) ≤ dt.timeCode := by omega
      simp only [hB, hB2, if_false]

/-- C12: for every DateTuple with a signed-byte timeCode (whatever its date),
normalizeDateTuple yields a tuple with -96 < timeCode < 96, and
normalizeDateTuple is idempotent: normalizing the result again changes
nothing. -/
theorem C12_normalizeDateTuple_range_idempotent (dt : DateTuple)
    (h1 : -128 ≤ dt.timeCode) (h2 : dt.timeCode ≤ 127) :
    -96 < (normalizeDateTuple dt).timeCode ∧ (normalizeDateTuple dt).timeCode < 96
      ∧ normalizeDateTuple (normalizeDateTuple dt) = normalizeDateTuple dt := by
  have ht := normalizeDateTuple_timeCode dt h1 h2
  have hr : -96 < (normalizeDateTuple dt).timeCode ∧ (normalizeDateTuple dt).timeCode < 96 := by
    rw [ht]; split_ifs <;> omega
  exact ⟨hr.1, hr.2, normalizeDateTuple_of_small _ hr.1 hr.2⟩

/-- The theorem of C12 at 2018-12-31 with the time code 127 (31:45): the
result is 2019-01-01 07:45. -/
theorem C12_normalizeDateTuple_range_idempotent_witness :
    normalizeDateTuple
        { yearTiny := 18, month := 12, day := 31, timeCode := 127, modifier := 's' }
      = { yearTiny := 19, month := 1, day := 1, timeCode := 31, modifier := 's' }
    ∧ (-96 < (normalizeDateTuple
        { yearTiny := 18, month := 12, day := 31, timeCode := 127, modifier := 's' }).timeCode
      ∧ (normalizeDateTuple
        { yearTiny := 18, month := 12, day := 31, timeCode := 127, modifier := 's' }).timeCode < 96
      ∧ normalizeDateTuple (normalizeDateTuple
          { yearTiny := 18, month := 12, day := 31, timeCode := 127, modifier := 's' })
        = normalizeDateTuple
          { yearTiny := 18, month := 12, day := 31, timeCode := 127, modifier := 's' }) :=
  ⟨by decide, C12_normalizeDateTuple_range_idempotent
    { yearTiny := 18, month := 12, day := 31, timeCode := 127, modifier := 's' }
    (by decide) (by decide)⟩

/-- C13: normalizeDateTuple performs one carry step and keeps the instant.
For a tuple with a civil date, a signed-byte timeCode and a neighbouring day
whose year is still a tiny year: if timeCode <= -96 the date becomes the
previous civil day (a civil date with the day number one less) and timeCode
increases by 96; if timeCode >= 96 the date becomes the next civil day and
timeCode decreases by 96; otherwise the tuple is unchanged; in every case the
modifier is unchanged and dayNumber(date)*96 + timeCode is the same before and
after. -/
theorem C13_normalizeDateTuple_carry (dt : DateTuple) (hv : dt.validDate)
    (h1 : -128 ≤ dt.timeCode) (h2 : dt.timeCode ≤ 127)
    (hhi : 96 ≤ dt.timeCode → ¬ (dt.yearTiny = 127 ∧ dt.month = 12 ∧ dt.day = 31))
    (hlo : dt.timeCode ≤ -96 → ¬ (dt.yearTiny = -128 ∧ dt.month = 1 ∧ dt.day = 1)) :
    (dt.timeCode ≤ -96 →
        (normalizeDateTuple dt).validDate
        ∧ (normalizeDateTuple dt).epochDays = dt.epochDays - 1
        ∧ (normalizeDateTuple dt).timeCode = dt.timeCode + 96)
    ∧ (96 ≤ dt.timeCode →
        (normalizeDateTuple dt).validDate
        ∧ (normalizeDateTuple dt).epochDays = dt.epochDays + 1
        ∧ (normalizeDateTuple dt).timeCode = dt.timeCode - 96)
    ∧ (-96 < dt.timeCode ∧ dt.timeCode < 96 → normalizeDateTuple dt = dt)
    ∧ (normalizeDateTuple dt).modifier = dt.modifier
    ∧ (normalizeDateTuple dt).epochDays * 96 + (normalizeDateTuple dt).timeCode
        = dt.epochDays * 96 + dt.timeCode := by
  have hi := normalizeDateTuple_instant dt hv h1 h2 hhi hlo
  have ht := normalizeDateTuple_timeCode dt h1 h2
  have hval := normalizeDateTuple_validDate dt hv
  refine ⟨fun h => ?_, fun h => ?_, fun h => normalizeDateTuple_of_small dt h.1 h.2,
    normalizeDateTuple_modifier dt, hi⟩
  · rw [if_pos h] at ht
    refine ⟨hval, ?_, ht⟩
    rw [ht] at hi; omega
  · rw [if_neg (by omega), if_pos h] at ht
    refine ⟨hval, ?_, ht⟩
    rw [ht] at hi; omega

/-- The theorem of C13 at 2020-03-01 with the time code -100 (25 hours before
midnight): the result is 2020-02-29 with the time code -4. -/
theorem C13_normalizeDateTuple_carry_witness :
    normalizeDateTuple
        { yearTiny := 20, month := 3, day := 1, timeCode := -100, modifier := 'u' }
      = { yearTiny := 20, month := 2, day := 29, timeCode := -4, modifier := 'u' }
    ∧ (normalizeDateTuple
        { yearTiny := 20, month := 3, day := 1, timeCode := -100, modifier := 'u' }).epochDays
      = (DateTuple.epochDays
        { yearTiny := 20, month := 3, day := 1, timeCode := -100, modifier := 'u' }) - 1 :=
  ⟨by decide, ((C13_normalizeDateTuple_carry
    { yearTiny := 20, month := 3, day := 1, timeCode := -100, modifier := 'u' }
    (by decide) (by decide) (by decide) (by decide) (by decide)).1 (by decide)).2.1⟩

/-- C14: the DateTuple order `operator<` is the lexicographic strict order
over (yearTiny, month, day, timeCode) and ignores the modifier: it is
irreflexive and transitive, and for any two tuples exactly one of a<b, b<a or
equality of the four fields holds; `<=`, `>` and `>=` are derived from it;
`operator==` is equality of all five fields, so two tuples that differ only
in the modifier satisfy neither a<b nor b<a nor a==b. -/
theorem C14_dateTuple_order :
    (∀ a b : DateTuple, a.lt b = true ↔
      (a.yearTiny < b.yearTiny ∨ (a.yearTiny = b.yearTiny ∧
        (a.month < b.month ∨ (a.month = b.month ∧
          (a.day < b.day ∨ (a.day = b.day ∧ a.timeCode < b.timeCode)))))))
    ∧ (∀ a b : DateTuple, a.lt b = true ↔ ({ a with modifier := 'w' } : DateTuple).lt b = true)
    ∧ (∀ a : DateTuple, a.lt a = false)
    ∧ (∀ a b c : DateTuple, a.lt b = true → b.lt c = true → a.lt c = true)
    ∧ (∀ a b : DateTuple,
        (a.lt b = true ∧ b.lt a = false ∧ ¬ a.same b)
        ∨ (a.lt b = false ∧ b.lt a = true ∧ ¬ a.same b)
        ∨ (a.lt b = false ∧ b.lt a = false ∧ a.same b))
    ∧ (∀ a b : DateTuple, a.le b = true ↔ (a.lt b = true ∨ a.same b))
    ∧ (∀ a b : DateTuple, a.gt b = true ↔ b.lt a = true)
    ∧ (∀ a b : DateTuple, a.ge b = true ↔ (b.lt a = true ∨ a.same b))
    ∧ (∀ a b : DateTuple, a.eq b = true ↔ (a.same b ∧ a.modifier = b.modifier))
    ∧ (∀ a b : DateTuple, a.same b → a.modifier ≠ b.modifier →
        a.lt b = false ∧ b.lt a = false ∧ a.eq b = false) := by
  have hlt := DateTuple.lt_iff
  have hnlt : ∀ a b : DateTuple, a.lt b = false ↔ ¬ (a.lt b = true) := by
    intro a b; simp
  have heq : ∀ a b : DateTuple, a.eq b = true ↔ (a.same b ∧ a.modifier = b.modifier) := by
    intro a b
    rw [DateTuple.eq_iff]
    constructor
    · intro h; subst h; exact ⟨⟨rfl, rfl, rfl, rfl⟩, rfl⟩
    · intro h; exact DateTuple.eq_of_same h.1 h.2
  refine ⟨hlt, ?_, DateTuple.lt_irrefl, fun a b c => DateTuple.lt_trans, ?_, ?_, ?_, ?_, heq,
    ?_⟩
  · intro a b; rw [hlt, hlt]
  · intro a b
    rw [hnlt a b, hnlt b a, hlt a b, hlt b a]
    unfold DateTuple.same
    omega
  · intro a b
    rw [DateTuple.le_iff, hlt]
    unfold DateTuple.same
    omega
  · intro a b; rfl
  · intro a b
    rw [DateTuple.ge_iff_le, DateTuple.le_iff, hlt]
    unfold DateTuple.same
    omega
  · intro a b hs hm
    refine ⟨?_, ?_, ?_⟩
    · rw [hnlt, hlt]; unfold DateTuple.same at hs; omega
    · rw [hnlt, hlt]; unfold DateTuple.same at hs; omega
    · have := heq a b
      cases h : a.eq b
      · rfl
      · exact absurd (this.mp h).2 hm

/-! ## C11: expandDateTuple -/

/-- The instant of a normalized tuple that was built from the date of `tt` and
a time code `x` that fits in a signed byte. -/
theorem normalizeDateTuple_quarters (tt : DateTuple) (x : Int) (c : Char) (hv : tt.validDate)
    (hx : fitsInt8 x)
    (hhi : ¬ (tt.yearTiny = 127 ∧ tt.month = 12 ∧ tt.day = 31))
    (hlo : ¬ (tt.yearTiny = -128 ∧ tt.month = 1 ∧ tt.day = 1)) :
    (normalizeDateTuple
      { yearTiny := tt.yearTiny, month := tt.month, day := tt.day,
        timeCode := wrap8 x, modifier := c }).quarters = tt.epochDays * 96 + x := by
  rw [wrap8_of_fits hx.1 hx.2]
  exact normalizeDateTuple_instant
    { yearTiny := tt.yearTiny, month := tt.month, day := tt.day, timeCode := x, modifier := c }
    hv hx.1 hx.2 (fun _ => hhi) (fun _ => hlo)

/-- C11 (counterexample): a universal-time tuple 2018-06-01 23:45 expanded
with the offset +14:00 (offsetCode 56, deltaCode 0): the standard time code
95 + 56 = 151 does not fit in the signed byte it is cast to and becomes -105,
so the standard tuple is 2018-05-31 with the time code -9 instead of
2018-06-02 13:45, and S - U is -200 quarter hours, not 56. -/
theorem C11_counterexample :
    (expandDateTuple
        { yearTiny := 18, month := 6, day := 1, timeCode := 95, modifier := 'u' } 56 0).2.1
      = { yearTiny := 18, month := 5, day := 31, timeCode := -9, modifier := 's' }
    ∧ (expandDateTuple
        { yearTiny := 18, month := 6, day := 1, timeCode := 95, modifier := 'u' } 56 0).2.2
      = { yearTiny := 18, month := 6, day := 1, timeCode := 95, modifier := 'u' }
    ∧ (expandDateTuple
        { yearTiny := 18, month := 6, day := 1, timeCode := 95, modifier := 'u' } 56 0).2.1.quarters
      - (expandDateTuple
        { yearTiny := 18, month := 6, day := 1, timeCode := 95, modifier := 'u' } 56 0).2.2.quarters
      = -200 := by
  decide

/-- C11 (amended): for every DateTuple tt with a civil date (not the last day
of the tiny year 127 nor the first day of the tiny year -128), with
|tt.timeCode| < 96 in any mode, and every offsetCode o and deltaCode d for
which the two time codes that expandDateTuple computes fit in the signed byte
they are stored in, expandDateTuple(tt, o, d) produces wall, standard and
universal tuples W, S, U that denote the same absolute instant: measured in
15-minute units from a common day, W - S == d and S - U == o; the three carry
the modifiers w, s and u, and the one in the mode of tt has the date and time
code of tt. -/
theorem C11_expandDateTuple_instant (tt : DateTuple) (o d : Int)
    (hv : tt.validDate) (ht1 : -96 < tt.timeCode) (ht2 : tt.timeCode < 96)
    (hhi : ¬ (tt.yearTiny = 127 ∧ tt.month = 12 ∧ tt.day = 31))
    (hlo : ¬ (tt.yearTiny = -128 ∧ tt.month = 1 ∧ tt.day = 1))
    (hf : expandFits tt o d) :
    (expandDateTuple tt o d).1.quarters - (expandDateTuple tt o d).2.1.quarters = d
    ∧ (expandDateTuple tt o d).2.1.quarters - (expandDateTuple tt o d).2.2.quarters = o
    ∧ (expandDateTuple tt o d).1.modifier = 'w'
    ∧ (expandDateTuple tt o d).2.1.modifier = 's'
    ∧ (expandDateTuple tt o d).2.2.modifier = 'u'
    ∧ (if tt.modifier = 's' then (expandDateTuple tt o d).2.1 = tt
       else if tt.modifier = 'u' then (expandDateTuple tt o d).2.2 = tt
       else (expandDateTuple tt o d).1 = { tt with modifier := 'w' }) := by
  have hself : normalizeDateTuple tt = tt := normalizeDateTuple_of_small tt ht1 ht2
  have hq : tt.quarters = tt.epochDays * 96 + tt.timeCode := rfl
  unfold expandFits at hf
  unfold expandDateTuple
  by_cases hs : tt.modifier = 's'
  · rw [if_pos hs] at hf
    simp only [if_pos hs]
    have hU := normalizeDateTuple_quarters tt (tt.timeCode - o) 'u' hv hf.1 hhi hlo
    have hW := normalizeDateTuple_quarters tt (tt.timeCode + d) 'w' hv hf.2 hhi hlo
    rw [hU, hW, hself, hq]
    refine ⟨by ring, by ring, ?_, hs, ?_, rfl⟩
    · rw [normalizeDateTuple_modifier]
    · rw [normalizeDateTuple_modifier]
  · by_cases hu : tt.modifier = 'u'
    · rw [if_neg hs, if_pos hu] at hf
      simp only [if_neg hs, if_pos hu]
      have hS := normalizeDateTuple_quarters tt (tt.timeCode + o) 's' hv hf.1 hhi hlo
      have hW := normalizeDateTuple_quarters tt (tt.timeCode + o + d) 'w' hv hf.2 hhi hlo
      rw [hS, hW, hself, hq]
      refine ⟨by ring, by ring, ?_, ?_, hu, rfl⟩
      · rw [normalizeDateTuple_modifier]
      · rw [normalizeDateTuple_modifier]
    · rw [if_neg hs, if_neg hu] at hf
      simp only [if_neg hs, if_neg hu]
      have hS := normalizeDateTuple_quarters tt (tt.timeCode - d) 's' hv hf.1 hhi hlo
      have hU := normalizeDateTuple_quarters tt (tt.timeCode - d - o) 'u' hv hf.2 hhi hlo
      have hW : normalizeDateTuple { tt with modifier := 'w' } = { tt with modifier := 'w' } :=
        normalizeDateTuple_of_small _ ht1 ht2
      rw [hS, hU, hW]
      refine ⟨?_, by ring, rfl, ?_, ?_, rfl⟩
      · show tt.epochDays * 96 + tt.timeCode - (tt.epochDays * 96 + (tt.timeCode - d)) = d
        ring
      · rw [normalizeDateTuple_modifier]
      · rw [normalizeDateTuple_modifier]

/-- The theorem of C11 at the wall time 2018-03-11 22:30 expanded with the
offset -08:00 and no daylight saving: the universal tuple is carried to
2018-03-12 06:30. -/
theorem C11_expandDateTuple_instant_witness :
    (expandDateTuple
        { yearTiny := 18, month := 3, day := 11, timeCode := 90, modifier := 'w' } (-32) 0).2.2
      = { yearTiny := 18, month := 3, day := 12, timeCode := 26, modifier := 'u' }
    ∧ (expandDateTuple
        { yearTiny := 18, month := 3, day := 11, timeCode := 90, modifier := 'w' } (-32) 0).2.1.quarters
      - (expandDateTuple
        { yearTiny := 18, month := 3, day := 11, timeCode := 90, modifier := 'w' } (-32) 0).2.2.quarters
      = -32 :=
  ⟨by decide, (C11_expandDateTuple_instant
    { yearTiny := 18, month := 3, day := 11, timeCode := 90, modifier := 'w' } (-32) 0
    (by decide) (by decide) (by decide) (by decide) (by decide) (by decide)).2.1⟩

/-! ## C15: findMatches -/

theorem pairOverlaps_eq (startYm untilYm : YearMonthTuple) (prev era : ZoneEra) :
    pairOverlaps startYm untilYm (prev, era) = eraOverlapsInterval prev era startYm untilYm := by
  unfold pairOverlaps eraOverlapsInterval
  simp only [Bool.decide_and]

theorem createMatch_eq_matchOfPair (startYm untilYm : YearMonthTuple) (prev era : ZoneEra) :
    createMatch prev era startYm untilYm = matchOfPair startYm untilYm (prev, era) := rfl

/-- The loop of `findMatches`: it ends, and writes the matches of the
overlapping eras that are left from index `i` on, up to `K` matches in all. -/
theorem findMatchesLoop_overlap (startYm untilYm : YearMonthTuple) (K : Nat) :
    ∀ (eras : List ZoneEra) (prev : ZoneEra) (ms : List ZoneMatch) (i : Nat),
      i ≤ K → K ≤ ms.length →
      ∃ r, findMatchesLoop startYm untilYm K eras prev ms i = some r
        ∧ r.1 = min K (i + (((eraPairs prev eras).filter (pairOverlaps startYm untilYm)).map
            (matchOfPair startYm untilYm)).length)
        ∧ r.2.length = ms.length
        ∧ (∀ k, k < i → r.2[k]? = ms[k]?)
        ∧ (∀ k, i ≤ k → k < r.1 →
            r.2[k]? = (((eraPairs prev eras).filter (pairOverlaps startYm untilYm)).map
              (matchOfPair startYm untilYm))[k - i]?)
        ∧ (∀ k, r.1 ≤ k → r.2[k]? = ms[k]?) := by
  intro eras
  induction eras with
  | nil =>
    intro prev ms i hi hK
    refine ⟨(i, ms), rfl, ?_, rfl, fun _ _ => rfl, ?_, fun _ _ => rfl⟩
    · simp only [eraPairs, List.filter_nil, List.map_nil, List.length_nil]; omega
    · intro k h1 h2; simp only at h2; omega
  | cons era rest ih =>
    intro prev ms i hi hK
    unfold findMatchesLoop
    by_cases hov : eraOverlapsInterval prev era startYm untilYm = true
    · have hp : pairOverlaps startYm untilYm (prev, era) = true := by
        rw [pairOverlaps_eq]; exact hov
      have href : ((eraPairs prev (era :: rest)).filter (pairOverlaps startYm untilYm)).map
            (matchOfPair startYm untilYm)
          = matchOfPair startYm untilYm (prev, era)
            :: ((eraPairs era rest).filter (pairOverlaps startYm untilYm)).map
              (matchOfPair startYm untilYm) := by
        simp only [eraPairs, List.filter_cons, hp, if_true, List.map_cons]
      rw [href, if_pos hov]
      by_cases hik : i < K
      · rw [if_pos hik]
        have hset : setMatch ms i (createMatch prev era startYm untilYm)
            = some (ms.set i (createMatch prev era startYm untilYm)) := by
          unfold setMatch; rw [if_pos (by omega)]
        rw [hset, Option.some_bind]
        obtain ⟨r, hr, h1, h2, h3, h4, h5⟩ :=
          ih era (ms.set i (createMatch prev era startYm untilYm)) (i + 1) (by omega)
            (by rw [List.length_set]; exact hK)
        rw [List.length_set] at h2
        refine ⟨r, hr, ?_, h2, ?_, ?_, ?_⟩
        · rw [h1, List.length_cons]; omega
        · intro k hk
          rw [h3 k (by omega), List.getElem?_set_ne (by omega)]
        · intro k hk1 hk2
          by_cases hki : k = i
          · subst hki
            have hlen : k < ms.length := by omega
            rw [h3 k (by omega), Nat.sub_self, createMatch_eq_matchOfPair]
            simp [List.getElem?_set, hlen]
          · rw [h4 k (by omega) hk2]
            have e : k - i = (k - (i + 1)) + 1 := by omega
            rw [e, List.getElem?_cons_succ]
        · intro k hk
          have : i + 1 ≤ k := by rw [h1] at hk; omega
          rw [h5 k hk, List.getElem?_set_ne (by omega)]
      · rw [if_neg hik]
        obtain ⟨r, hr, h1, h2, h3, h4, h5⟩ := ih era ms i hi hK
        refine ⟨r, hr, ?_, h2, h3, ?_, h5⟩
        · rw [h1, List.length_cons]; omega
        · intro k hk1 hk2
          rw [h1] at hk2; omega
    · have hp : pairOverlaps startYm untilYm (prev, era) = false := by
        rw [pairOverlaps_eq]; simpa using hov
      have href : ((eraPairs prev (era :: rest)).filter (pairOverlaps startYm untilYm)).map
            (matchOfPair startYm untilYm)
          = ((eraPairs era rest).filter (pairOverlaps startYm untilYm)).map
              (matchOfPair startYm untilYm) := by
        simp only [eraPairs, List.filter_cons, hp, Bool.false_eq_true, if_false]
      rw [href, if_neg hov]
      exact ih era ms i hi hK

/-- The start of the match of the first era: the lower bound of the window. -/
theorem matchOfPair_anchor_start (startYm untilYm : YearMonthTuple) (era : ZoneEra)
    (hy : -128 ≤ startYm.yearTiny) (hm : 1 ≤ startYm.month) :
    (matchOfPair startYm untilYm (kAnchorEra, era)).startDateTime = startYm.firstDay := by
  unfold matchOfPair DateTuple.later
  simp only
  by_cases h : kAnchorEra.untilTuple.lt startYm.firstDay = true
  · rw [if_pos h]
  · rw [if_neg h]
    rw [DateTuple.lt_iff] at h
    have e1 : kAnchorEra.untilTuple
        = { yearTiny := -128, month := 1, day := 1, timeCode := 0, modifier := 'w' } := by
      decide
    rw [e1] at h ⊢
    unfold YearMonthTuple.firstDay at h ⊢
    simp only at h
    have hy2 : startYm.yearTiny = -128 := by omega
    have hm2 : startYm.month = 1 := by omega
    rw [hy2, hm2]

/-- C15: for every zone (its eras preceded by the anchor era), every window
[startYm, untilYm) and every array of matches with room for K entries,
findMatches returns, and its result is min(K, number of overlapping eras)
matches in era order: entry k of the array is the match of the k-th
overlapping pair (prev, curr), where a pair overlaps iff
compareEraToYearMonth(prev, untilYm) < 0 and compareEraToYearMonth(curr,
startYm) > 0, and its match is {the later of prev.until and (startYm, day 1,
00:00 wall), the earlier of curr.until and (untilYm, day 1, 00:00 wall), curr};
the entries from the returned count on are untouched. When the first era of
the zone (whose prev is the anchor) overlaps a window with a month >= 1 and
K >= 1, its match starts at the window's lower bound. -/
theorem C15_findMatches_overlapping (zoneInfo : ZoneInfo) (startYm untilYm : YearMonthTuple)
    (matchArr : List ZoneMatch) (K : Nat) (hK : K ≤ matchArr.length) :
    ∃ r, findMatches zoneInfo startYm untilYm matchArr K = some r
      ∧ r.1 = min K (overlapMatches zoneInfo startYm untilYm).length
      ∧ r.2.length = matchArr.length
      ∧ (∀ k, k < r.1 → r.2[k]? = (overlapMatches zoneInfo startYm untilYm)[k]?)
      ∧ (∀ k, r.1 ≤ k → r.2[k]? = matchArr[k]?)
      ∧ (∀ era rest, zoneInfo.eras = era :: rest →
          eraOverlapsInterval kAnchorEra era startYm untilYm = true →
          -128 ≤ startYm.yearTiny → 1 ≤ startYm.month → 1 ≤ K →
          ∃ m, r.2[0]? = some m ∧ m.startDateTime = startYm.firstDay
            ∧ m.untilDateTime = DateTuple.earlier era.untilTuple untilYm.firstDay
            ∧ m.era = era) := by
  obtain ⟨r, hr, h1, h2, h3, h4, h5⟩ :=
    findMatchesLoop_overlap startYm untilYm K zoneInfo.eras kAnchorEra matchArr 0
      (Nat.zero_le _) hK
  rw [Nat.zero_add] at h1
  refine ⟨r, hr, h1, h2, fun k hk => h4 k (Nat.zero_le _) hk, h5, ?_⟩
  intro era rest he hov hy hm hk
  have hp : pairOverlaps startYm untilYm (kAnchorEra, era) = true := by
    rw [pairOverlaps_eq]; exact hov
  have href : ((eraPairs kAnchorEra zoneInfo.eras).filter (pairOverlaps startYm untilYm)).map
        (matchOfPair startYm untilYm)
      = matchOfPair startYm untilYm (kAnchorEra, era)
        :: ((eraPairs era rest).filter (pairOverlaps startYm untilYm)).map
          (matchOfPair startYm untilYm) := by
    rw [he]
    simp only [eraPairs, List.filter_cons, hp, if_true, List.map_cons]
  have h0 := h4 0 (Nat.zero_le _) (by rw [h1, href, List.length_cons]; omega)
  rw [href, Nat.sub_self, List.getElem?_cons_zero] at h0
  refine ⟨matchOfPair startYm untilYm (kAnchorEra, era), h0,
    matchOfPair_anchor_start startYm untilYm era hy hm, rfl, rfl⟩

/-- The theorem of C15 at America/Los_Angeles and the window of the year 2018,
[2017-12, 2019-02): one match, which starts at 2017-12-01. -/
theorem C15_findMatches_overlapping_witness :
    ∃ r, findMatches kZoneAmerica_Los_Angeles { yearTiny := 17, month := 12 }
          { yearTiny := 19, month := 2 } (newProcessor kZoneAmerica_Los_Angeles).mMatches
          kMaxMatches = some r
      ∧ r.1 = 1
      ∧ ∃ m, r.2[0]? = some m
          ∧ m.startDateTime = YearMonthTuple.firstDay { yearTiny := 17, month := 12 } :=
  (C15_findMatches_overlapping kZoneAmerica_Los_Angeles { yearTiny := 17, month := 12 }
    { yearTiny := 19, month := 2 } (newProcessor kZoneAmerica_Los_Angeles).mMatches
    kMaxMatches (by decide)).imp fun _ h => ⟨h.1, h.2.1.trans (by decide),
      (h.2.2.2.2.2 _ _ rfl (by decide) (by decide) (by decide) (by decide)).imp
        fun _ hm => ⟨hm.1, hm.2.1⟩⟩

/-! ## C16: eras beyond the fourth match -/

/-- C16 (counterexample): in the five-era zone all five eras overlap the window
[2017-12, 2019-02) of the year 2018. On a fresh processor with the high-water
mark reset, init for 2018-10-01 reports success, keeps four matches (the eras
with the offsets -08:00 .. -05:00) and leaves the high-water mark at 3, below
the pool capacity 8; the fifth era, in effect from 2018-08-01, is dropped:
getUtcOffset at 2018-10-11T00:00:00 UTC answers -05:00 (offset code -20)
instead of -04:00 (offset code -16). -/
theorem C16_counterexample :
    (overlapMatches kZoneFiveEras { yearTiny := 17, month := 12 }
        { yearTiny := 19, month := 2 }).length = 5
    ∧ ((newProcessor kZoneFiveEras).resetTransitionHighWater.init
          { yearTiny := 18, month := 10, day := 1 }).map
        (fun r => (r.1, r.2.mNumMatches, r.2.getTransitionHighWater, r.2.mIsFilled))
        = some (true, 4, 3, true)
    ∧ (fiveEras2018.mMatches.map fun m => m.era.offsetCode) = [-32, -28, -24, -20]
    ∧ fiveEras2018.getTransitionHighWater < kMaxTransitions
    ∧ (getUtcOffset (newProcessor kZoneFiveEras) 592531200).map
        (fun r => r.1.mOffsetCode) = some (-20) := by
  decide

/-! ## C19 and C20: the pool operations on a full pool -/

/-- On a full pool (`mIndexFree = SIZE`) `setFreeAgentAsPrior` reads the
pointer vector at the index `SIZE`, outside the array. -/
theorem TransitionStorage.setFreeAgentAsPrior_full (ts : TransitionStorage)
    (h : ts.mTransitions.length ≤ ts.mIndexFree) : ts.setFreeAgentAsPrior = none := by
  unfold TransitionStorage.setFreeAgentAsPrior TransitionStorage.swap
  have hb : ts.slotAt ts.mIndexFree = none := by
    unfold TransitionStorage.slotAt
    exact List.getElem?_eq_none h
  rw [hb]
  cases ts.slotAt ts.mIndexPrior <;> rfl

/-- C19 (failing input): the monthly zone with seven rules, init for 2018. In
findCandidateTransitions, after the prior was reserved and six rules were
processed, the pool is full: the indexes are (0, 1, 8) and the high-water mark
is 8; getFreeAgent then returns the last slot (pointer-vector index 7). The
seventh rule's transition of 2017 lies before the match (fuzzy status -1) and
after the active prior, so it becomes the new prior, and
setFreeAgentAsPrior swaps the pointer-vector entries at mIndexPrior = 0 and
mIndexFree = 8, an index outside the array of 8 entries: the step is
undefined, and so is init. With six rules init succeeds with the high-water
mark at the capacity. On every full pool setFreeAgentAsPrior accesses the
index mIndexFree >= SIZE, and reservePrior moves mIndexFree past the
capacity. -/
theorem C19_pool_index_out_of_bounds :
    monthlyPoolFull.map (fun ts => (ts.indexes, ts.getHighWater, ts.mTransitions.length))
      = some ((0, 1, 8), 8, 8)
    ∧ monthlyPoolFull.bind (fun ts =>
        (ts.getFreeAgent kMaxTransitions).map fun r => (some r.1, r.2.indexes))
      = monthlyPoolFull.map (fun ts => (ts.slotAt 7, (0, 1, 8)))
    ∧ monthlyPoolFull.bind (fun ts =>
        (ts.getFreeAgent kMaxTransitions).bind fun r =>
        (r.2.modify r.1 fun x =>
          createTransitionForYear x 17 (some (monthlyRule 9 4 'D')) 0 monthlyMatch).bind fun ts1 =>
        (ts1.deref r.1).bind fun tT =>
        (ts1.getPrior.bind ts1.deref).map fun priorT =>
          (compareTransitionToMatchFuzzy tT monthlyMatch, priorT.active,
            priorT.transitionTime.lt tT.transitionTime, ts1.mIndexPrior, ts1.mIndexFree,
            ts1.mTransitions.length))
      = some (-1, true, true, 0, 8, 8)
    ∧ monthlyPoolFull.bind (fun ts =>
        interiorYearsLoop (monthlyRule 9 4 'D') 0 monthlyMatch [17] ts) = none
    ∧ (newProcessor (kZoneMonthly 7)).init { yearTiny := 18, month := 1, day := 1 } = none
    ∧ ((newProcessor (kZoneMonthly 6)).init { yearTiny := 18, month := 1, day := 1 }).map
        (fun r => (r.1, r.2.getTransitionHighWater)) = some (true, 8)
    ∧ (∀ ts : TransitionStorage, ts.mTransitions.length = kMaxTransitions →
        ts.mIndexFree = kMaxTransitions → ts.setFreeAgentAsPrior = none)
    ∧ (∀ ts : TransitionStorage, ts.mIndexFree = kMaxTransitions →
        ts.reservePrior.2.mIndexFree = kMaxTransitions + 1) := by
  refine ⟨by decide, by decide, by decide, by decide, by decide, by decide, ?_, ?_⟩
  · intro ts h1 h2
    exact TransitionStorage.setFreeAgentAsPrior_full ts (by omega)
  · intro ts h
    show ts.mIndexFree + 1 = kMaxTransitions + 1
    rw [h]

/-- C20: for every pool state of a pool with `SIZE >= 1` pointer-vector
entries, getFreeAgent returns the slot at index iFree when iFree < SIZE and
the last slot (index SIZE-1) when the pool is full; it leaves iPrior, iCand,
iFree, the pointer vector and the slots unchanged, so a second call returns
the same slot; it sets the high-water mark to max(previous high-water, iFree);
hence after a free-agent request on a full pool (iFree = SIZE, high-water at
most SIZE before) getHighWater() == SIZE. -/
theorem C20_getFreeAgent (SIZE : Nat) (ts : TransitionStorage) (hN : 1 ≤ SIZE)
    (hlen : ts.mTransitions.length = SIZE) :
    ∃ p ts2, ts.getFreeAgent SIZE = some (p, ts2)
      ∧ (ts.mIndexFree < SIZE → ts.slotAt ts.mIndexFree = some p)
      ∧ (SIZE ≤ ts.mIndexFree → ts.slotAt (SIZE - 1) = some p)
      ∧ ts2.mIndexPrior = ts.mIndexPrior
      ∧ ts2.mIndexCandidates = ts.mIndexCandidates
      ∧ ts2.mIndexFree = ts.mIndexFree
      ∧ ts2.mTransitions = ts.mTransitions
      ∧ ts2.mPool = ts.mPool
      ∧ ts2.getHighWater = max ts.getHighWater ts.mIndexFree
      ∧ ts2.getFreeAgent SIZE = some (p, ts2)
      ∧ (ts.mIndexFree = SIZE → ts.getHighWater ≤ SIZE → ts2.getHighWater = SIZE) := by
  -- the storage with the high-water mark updated
  have hts1 : ∀ t : TransitionStorage, t.mTransitions.length = SIZE →
      ∃ p, (if t.mIndexFree < SIZE then (t.slotAt t.mIndexFree).map fun p => (p, t)
            else if 1 ≤ SIZE then (t.slotAt (SIZE - 1)).map fun p => (p, t) else none)
          = some (p, t)
        ∧ (t.mIndexFree < SIZE → t.slotAt t.mIndexFree = some p)
        ∧ (SIZE ≤ t.mIndexFree → t.slotAt (SIZE - 1) = some p) := by
    intro t ht
    by_cases h : t.mIndexFree < SIZE
    · have hs : t.slotAt t.mIndexFree = some (t.mTransitions[t.mIndexFree]) := by
        unfold TransitionStorage.slotAt
        exact List.getElem?_eq_getElem (by omega)
      refine ⟨_, ?_, fun _ => hs, fun h2 => by omega⟩
      rw [if_pos h, hs]; rfl
    · have hs : t.slotAt (SIZE - 1) = some (t.mTransitions[SIZE - 1]) := by
        unfold TransitionStorage.slotAt
        exact List.getElem?_eq_getElem (by omega)
      refine ⟨_, ?_, fun h2 => absurd h2 h, fun _ => hs⟩
      rw [if_neg h, if_pos hN, hs]; rfl
  have hA : ∀ t : TransitionStorage, ¬ t.mIndexFree > t.mHighWater →
      t.getFreeAgent SIZE
        = (if t.mIndexFree < SIZE then (t.slotAt t.mIndexFree).map fun p => (p, t)
            else if 1 ≤ SIZE then (t.slotAt (SIZE - 1)).map fun p => (p, t) else none) := by
    intro t ht
    unfold TransitionStorage.getFreeAgent
    simp only
    rw [if_neg ht]
  by_cases hw : ts.mIndexFree > ts.mHighWater
  · obtain ⟨p, e1, e2, e3⟩ := hts1 { ts with mHighWater := ts.mIndexFree } hlen
    have hB : ts.getFreeAgent SIZE = some (p, { ts with mHighWater := ts.mIndexFree }) := by
      unfold TransitionStorage.getFreeAgent
      simp only
      rw [if_pos hw]
      exact e1
    refine ⟨p, { ts with mHighWater := ts.mIndexFree }, hB, e2, e3, rfl, rfl, rfl, rfl, rfl,
      ?_, ?_, ?_⟩
    · show ts.mIndexFree = max ts.mHighWater ts.mIndexFree
      omega
    · rw [hA _ (Nat.lt_irrefl _)]
      exact e1
    · intro h1 _
      exact h1
  · obtain ⟨p, e1, e2, e3⟩ := hts1 ts hlen
    have hB : ts.getFreeAgent SIZE = some (p, ts) := by
      rw [hA ts hw]
      exact e1
    refine ⟨p, ts, hB, e2, e3, rfl, rfl, rfl, rfl, rfl, ?_, hB, ?_⟩
    · show ts.mHighWater = max ts.mHighWater ts.mIndexFree
      omega
    · intro h1 h2
      show ts.mHighWater = SIZE
      have : ts.getHighWater = ts.mHighWater := rfl
      omega

/-- The theorem of C20 at a full pool of 8 slots: the free agent is the last
slot and the high-water mark becomes 8. -/
theorem C20_getFreeAgent_witness :
    ∃ p ts2, TransitionStorage.getFreeAgent 8
          { newStorage 8 with mIndexPrior := 8, mIndexCandidates := 8, mIndexFree := 8 }
        = some (p, ts2)
      ∧ p = 7 ∧ ts2.getHighWater = 8 := by
  obtain ⟨p, ts2, h1, _, h3, _, _, _, _, _, _, _, h11⟩ := C20_getFreeAgent 8
    { newStorage 8 with mIndexPrior := 8, mIndexCandidates := 8, mIndexFree := 8 }
    (by decide) (by decide)
  refine ⟨p, ts2, h1, ?_, h11 rfl (by decide)⟩
  have h := h3 (Nat.le_refl 8)
  have e : TransitionStorage.slotAt
      { newStorage 8 with mIndexPrior := 8, mIndexCandidates := 8, mIndexFree := 8 } (8 - 1)
      = some 7 := by decide
  rw [e] at h
  exact (Option.some.inj h).symm

/-! ## C17 and C18: createAbbreviation -/

theorem writeAt_some (buf : List Char) (i : Nat) (c : Char) (h : i < buf.length) :
    writeAt buf i c = some (buf.set i c) := by
  unfold writeAt; rw [if_pos h]

theorem getElem?_set_char (buf : List Char) (i j : Nat) (c : Char) (h : i < buf.length) :
    (buf.set i c)[j]? = if j = i then some c else buf[j]? := by
  rw [List.getElem?_set]
  by_cases hj : i = j
  · subst hj; simp [h]
  · rw [if_neg hj, if_neg (fun e => hj e.symm)]

/-- The C string of a buffer that holds `s` followed by a NUL. -/
theorem cstr_of_prefix : ∀ (s d : List Char), (∀ i, i < s.length → d[i]? = s[i]?) →
    d[s.length]? = some NUL → NUL ∉ s → cstr d = s := by
  intro s
  induction s with
  | nil =>
    intro d _ h0 _
    cases d with
    | nil => rfl
    | cons a d1 =>
      simp only [List.length_nil, List.getElem?_cons_zero, Option.some.injEq] at h0
      subst h0
      simp [cstr]
  | cons c s1 ih =>
    intro d h hN hs
    cases d with
    | nil =>
      have := h 0 (by simp)
      simp at this
    | cons a d1 =>
      have h0 := h 0 (by simp)
      simp only [List.getElem?_cons_zero, Option.some.injEq] at h0
      subst h0
      have hc : a ≠ NUL := fun e => hs (by rw [e]; exact List.mem_cons_self _ _)
      have hrest : cstr d1 = s1 := by
        apply ih d1
        · intro i hi
          have := h (i + 1) (by simp only [List.length_cons]; omega)
          simpa only [List.getElem?_cons_succ] using this
        · simpa only [List.length_cons, List.getElem?_cons_succ] using hN
        · exact fun hm => hs (List.mem_cons_of_mem _ hm)
      unfold cstr at hrest ⊢
      rw [List.takeWhile_cons]
      simp only [bne_iff_ne, ne_eq, hc, not_false_eq_true, if_true, hrest]

/-- The C string of a buffer ends at or before a NUL of the buffer. -/
theorem cstr_length_le : ∀ (d : List Char) (k : Nat), d[k]? = some NUL →
    (cstr d).length ≤ k := by
  intro d
  induction d with
  | nil => intro k h; simp at h
  | cons a d1 ih =>
    intro k h
    unfold cstr
    rw [List.takeWhile_cons]
    by_cases ha : a = NUL
    · simp [ha]
    · cases k with
      | zero =>
        simp only [List.getElem?_cons_zero, Option.some.injEq] at h
        exact absurd h ha
      | succ k1 =>
        simp only [List.getElem?_cons_succ] at h
        have := ih k1 h
        unfold cstr at this
        simp only [bne_iff_ne, ne_eq, ha, not_false_eq_true, if_true, List.length_cons]
        omega

/-- After `strncpy(dest, format, destSize)` and `dest[destSize - 1] = 0` the
buffer holds the first `destSize - 1` characters of `format`. -/
theorem strncpy_holds (dest format : List Char) (destSize : Nat) (h1 : 1 ≤ destSize)
    (h2 : destSize ≤ dest.length) :
    ∃ d, ((strncpy dest format destSize).bind fun d =>
        if destSize = 0 then none else writeAt d (destSize - 1) NUL) = some d
      ∧ bufHolds dest d destSize (format.take (destSize - 1)) := by
  unfold strncpy
  rw [if_pos h2, Option.some_bind, if_neg (by omega)]
  have hlen : (format.take destSize ++ List.replicate (destSize - format.length) NUL
      ++ dest.drop destSize).length = dest.length := by
    simp only [List.length_append, List.length_take, List.length_replicate, List.length_drop]
    omega
  rw [writeAt_some _ _ _ (by rw [hlen]; omega)]
  refine ⟨_, rfl, ?_, ?_, ?_, ?_, ?_⟩
  · rw [List.length_set, hlen]
  · rw [List.length_take]; omega
  · intro i hi
    rw [List.length_take] at hi
    rw [getElem?_set_char _ _ _ _ (by rw [hlen]; omega), if_neg (by omega)]
    rw [List.append_assoc, List.getElem?_append, if_pos (by rw [List.length_take]; omega)]
    rw [List.getElem?_take, List.getElem?_take, if_pos (by omega), if_pos (by omega)]
  · rw [getElem?_set_char _ _ _ _ (by rw [hlen]; omega)]
    rw [List.length_take]
    by_cases hf : destSize - 1 ≤ format.length
    · rw [if_pos (by omega)]
    · rw [if_neg (by omega)]
      rw [List.append_assoc, List.getElem?_append, if_neg (by rw [List.length_take]; omega)]
      rw [List.getElem?_append, if_pos (by
        rw [List.length_take, List.length_replicate]; omega)]
      rw [List.getElem?_replicate, if_pos (by rw [List.length_take]; omega)]
  · intro i hi
    rw [getElem?_set_char _ _ _ _ (by rw [hlen]; omega), if_neg (by omega)]
    rw [List.getElem?_append, if_neg (by
      rw [List.length_append, List.length_take, List.length_replicate]; omega)]
    rw [List.getElem?_drop]
    congr 1
    rw [List.length_append, List.length_take, List.length_replicate]
    omega

/-- After `memcpy(dest, src, n)` and `dest[n] = 0` with `n` characters of
`src` the buffer holds the first `n` characters of `src`. -/
theorem memcpy_holds (dest src : List Char) (destSize n : Nat) (h1 : n < destSize)
    (h2 : destSize ≤ dest.length) (h3 : n ≤ src.length) :
    ∃ d, ((memcpy dest src n).bind fun d => writeAt d n NUL) = some d
      ∧ bufHolds dest d destSize (src.take n) := by
  unfold memcpy
  rw [if_pos ⟨by omega, by omega⟩, Option.some_bind]
  have hlen : ((src ++ [NUL]).take n ++ dest.drop n).length = dest.length := by
    simp only [List.length_append, List.length_take, List.length_drop, List.length_singleton]
    omega
  rw [writeAt_some _ _ _ (by rw [hlen]; omega)]
  have hs : (src.take n).length = n := by rw [List.length_take]; omega
  refine ⟨_, rfl, ?_, ?_, ?_, ?_, ?_⟩
  · rw [List.length_set, hlen]
  · omega
  · intro i hi
    rw [hs] at hi
    rw [getElem?_set_char _ _ _ _ (by rw [hlen]; omega), if_neg (by omega)]
    rw [List.getElem?_append, if_pos (by
      rw [List.length_take, List.length_append, List.length_singleton]; omega)]
    rw [List.getElem?_take, List.getElem?_take, if_pos hi, if_pos hi]
    rw [List.getElem?_append, if_pos (by omega)]
  · rw [hs, getElem?_set_char _ _ _ _ (by rw [hlen]; omega), if_pos rfl]
  · intro i hi
    rw [getElem?_set_char _ _ _ _ (by rw [hlen]; omega), if_neg (by omega)]
    rw [List.getElem?_append, if_neg (by
      rw [List.length_take, List.length_append, List.length_singleton]; omega)]
    rw [List.getElem?_drop]
    congr 1
    rw [List.length_take, List.length_append, List.length_singleton]
    omega

/-- The inner loop of `copyAndReplace`: it copies as much of `newString` as
fits and returns the rest. -/
theorem copyAndReplaceInner_spec : ∀ (letters buf : List Char) (dst dstSize : Nat),
    dst + dstSize ≤ buf.length →
    ∃ r, copyAndReplaceInner letters buf dst dstSize = some r
      ∧ r.1 = letters.drop (min letters.length dstSize)
      ∧ r.2.2.1 = dst + min letters.length dstSize
      ∧ r.2.2.2 = dstSize - min letters.length dstSize
      ∧ r.2.1.length = buf.length
      ∧ (∀ i, i < dst → r.2.1[i]? = buf[i]?)
      ∧ (∀ i, dst ≤ i → i < dst + min letters.length dstSize →
          r.2.1[i]? = letters[i - dst]?)
      ∧ (∀ i, dst + min letters.length dstSize ≤ i → r.2.1[i]? = buf[i]?) := by
  intro letters
  induction letters with
  | nil =>
    intro buf dst dstSize _
    refine ⟨([], buf, dst, dstSize), rfl, ?_, ?_, ?_, rfl, fun _ _ => rfl, ?_, fun _ _ => rfl⟩
    · simp
    · simp
    · simp
    · intro i h1 h2; simp at h2; omega
  | cons c rest ih =>
    intro buf dst dstSize hb
    unfold copyAndReplaceInner
    by_cases hd : dstSize > 0
    · rw [if_pos hd, writeAt_some _ _ _ (by omega), Option.some_bind]
      obtain ⟨r, hr, e1, e2, e3, e4, e5, e6, e7⟩ :=
        ih (buf.set dst c) (dst + 1) (dstSize - 1) (by rw [List.length_set]; omega)
      have hm : min (c :: rest).length dstSize = min rest.length (dstSize - 1) + 1 := by
        simp only [List.length_cons]; omega
      rw [List.length_set] at e4
      refine ⟨r, hr, ?_, ?_, ?_, e4, ?_, ?_, ?_⟩
      · rw [e1, hm, List.drop_succ_cons]
      · rw [e2, hm]; omega
      · rw [e3, hm]; omega
      · intro i hi
        rw [e5 i (by omega), getElem?_set_char _ _ _ _ (by omega), if_neg (by omega)]
      · intro i h1 h2
        rw [hm] at h2
        by_cases hi : i = dst
        · subst hi
          rw [e5 i (by omega), getElem?_set_char _ _ _ _ (by omega), if_pos rfl, Nat.sub_self,
            List.getElem?_cons_zero]
        · rw [e6 i (by omega) (by omega)]
          have e : i - dst = (i - (dst + 1)) + 1 := by omega
          rw [e, List.getElem?_cons_succ]
      · intro i hi
        rw [hm] at hi
        rw [e7 i (by omega), getElem?_set_char _ _ _ _ (by omega), if_neg (by omega)]
    · rw [if_neg hd]
      have h0 : dstSize = 0 := by omega
      subst h0
      refine ⟨(c :: rest, buf, dst, 0), rfl, ?_, ?_, ?_, rfl, fun _ _ => rfl, ?_,
        fun _ _ => rfl⟩
      · simp
      · simp
      · simp
      · intro i h1 h2; simp at h2; omega

/-- The outer loop of `copyAndReplace`: it writes the first `dstSize`
characters of the replaced text from `dst` on. -/
theorem copyAndReplaceLoop_spec (oldChar : Char) :
    ∀ (src newString buf : List Char) (dst dstSize : Nat), dst + dstSize ≤ buf.length →
    ∃ r, copyAndReplaceLoop oldChar src newString buf dst dstSize = some r
      ∧ r.2.1 = dst + min (replaceText oldChar src newString).length dstSize
      ∧ r.2.2 = dstSize - min (replaceText oldChar src newString).length dstSize
      ∧ r.1.length = buf.length
      ∧ (∀ i, i < dst → r.1[i]? = buf[i]?)
      ∧ (∀ i, dst ≤ i → i < r.2.1 → r.1[i]? = (replaceText oldChar src newString)[i - dst]?)
      ∧ (∀ i, r.2.1 ≤ i → r.1[i]? = buf[i]?) := by
  intro src
  induction src with
  | nil =>
    intro ns buf dst dstSize _
    refine ⟨(buf, dst, dstSize), rfl, ?_, ?_, rfl, fun _ _ => rfl, ?_, fun _ _ => rfl⟩
    · simp [replaceText]
    · simp [replaceText]
    · intro i h1 h2; simp only at h2; omega
  | cons c src ih =>
    intro ns buf dst dstSize hb
    unfold copyAndReplaceLoop
    by_cases hd : dstSize > 0
    · rw [if_pos hd]
      by_cases hc : c = oldChar
      · rw [if_pos hc]
        obtain ⟨⟨qa, qb, qc, qd⟩, hq, q1, q2, q3, q4, q5, q6, q7⟩ :=
          copyAndReplaceInner_spec ns buf dst dstSize hb
        simp only at q1 q2 q3 q4 q5 q6 q7
        rw [hq, Option.some_bind]
        simp only
        obtain ⟨r, hr, e2, e3, e4, e5, e6, e7⟩ :=
          ih qa qb qc qd (by rw [q2, q3, q4]; omega)
        have ht : replaceText oldChar (c :: src) ns = ns ++ replaceText oldChar src [] := by
          simp only [replaceText, hc, if_true]
        rw [ht, List.length_append]
        rw [q4] at e4
        by_cases hall : ns.length ≤ dstSize
        · -- all of newString was copied
          have hk : min ns.length dstSize = ns.length := by omega
          rw [hk] at q1 q2 q3 q6 q7
          rw [List.drop_length] at q1
          subst q1 q2 q3
          refine ⟨r, hr, ?_, ?_, e4, ?_, ?_, ?_⟩
          · rw [e2]; omega
          · rw [e3]; omega
          · intro i hi
            rw [e5 i (by omega), q5 i hi]
          · intro i h1 h2
            by_cases hi : i < dst + ns.length
            · rw [e5 i hi, q6 i h1 hi, List.getElem?_append, if_pos (by omega)]
            · rw [e6 i (by omega) h2, List.getElem?_append, if_neg (by omega)]
              congr 1
              omega
          · intro i hi
            rw [e7 i hi, q7 i (by rw [e2] at hi; omega)]
        · -- the buffer is full: the loop stops
          have hk : min ns.length dstSize = dstSize := by omega
          rw [hk] at q1 q2 q3 q6 q7
          subst q2 q3
          rw [Nat.sub_self, Nat.min_zero, Nat.add_zero] at e2
          rw [Nat.sub_self] at e3
          refine ⟨r, hr, ?_, ?_, e4, ?_, ?_, ?_⟩
          · rw [e2]; omega
          · rw [e3]; omega
          · intro i hi
            rw [e5 i (by omega), q5 i hi]
          · intro i h1 h2
            rw [e2] at h2
            rw [e5 i h2, q6 i h1 h2, List.getElem?_append, if_pos (by omega)]
          · intro i hi
            rw [e7 i hi, q7 i (by rw [e2] at hi; exact hi)]
      · rw [if_neg hc, writeAt_some _ _ _ (by omega), Option.some_bind]
        obtain ⟨r, hr, e2, e3, e4, e5, e6, e7⟩ :=
          ih ns (buf.set dst c) (dst + 1) (dstSize - 1) (by rw [List.length_set]; omega)
        have ht : replaceText oldChar (c :: src) ns = c :: replaceText oldChar src ns := by
          simp only [replaceText, hc, if_false]
        rw [ht, List.length_cons]
        rw [List.length_set] at e4
        refine ⟨r, hr, ?_, ?_, e4, ?_, ?_, ?_⟩
        · rw [e2]; omega
        · rw [e3]; omega
        · intro i hi
          rw [e5 i (by omega), getElem?_set_char _ _ _ _ (by omega), if_neg (by omega)]
        · intro i h1 h2
          by_cases hi : i = dst
          · subst hi
            rw [e5 i (by omega), getElem?_set_char _ _ _ _ (by omega), if_pos rfl, Nat.sub_self,
              List.getElem?_cons_zero]
          · rw [e6 i (by omega) h2]
            have e : i - dst = (i - (dst + 1)) + 1 := by omega
            rw [e, List.getElem?_cons_succ]
        · intro i hi
          rw [e7 i hi, getElem?_set_char _ _ _ _ (by omega), if_neg (by rw [e2] at hi; omega)]
    · rw [if_neg hd]
      have h0 : dstSize = 0 := by omega
      subst h0
      refine ⟨(buf, dst, 0), rfl, ?_, ?_, rfl, fun _ _ => rfl, ?_, fun _ _ => rfl⟩
      · simp
      · simp
      · intro i h1 h2; simp only at h2; omega

/-- After `copyAndReplace` the buffer holds the first `dstSize - 1` characters
of the replaced text. -/
theorem copyAndReplace_holds (dest : List Char) (dstSize : Nat) (src : List Char)
    (oldChar : Char) (newString : List Char) (h1 : 1 ≤ dstSize) (h2 : dstSize ≤ dest.length) :
    ∃ d, copyAndReplace dest dstSize src oldChar newString = some d
      ∧ bufHolds dest d dstSize ((replaceText oldChar src newString).take (dstSize - 1)) := by
  unfold copyAndReplace
  obtain ⟨r, hr, e2, e3, e4, e5, e6, e7⟩ :=
    copyAndReplaceLoop_spec oldChar src newString dest 0 dstSize (by omega)
  rw [hr, Option.some_bind]
  rw [Nat.zero_add] at e2
  by_cases hfull : dstSize ≤ (replaceText oldChar src newString).length
  · have hk : min (replaceText oldChar src newString).length dstSize = dstSize := by omega
    rw [hk] at e2 e3
    rw [Nat.sub_self] at e3
    rw [if_pos e3, if_neg (by omega), e2, writeAt_some _ _ _ (by omega)]
    have hs : ((replaceText oldChar src newString).take (dstSize - 1)).length = dstSize - 1 := by
      rw [List.length_take]; omega
    refine ⟨_, rfl, ?_, ?_, ?_, ?_, ?_⟩
    · rw [List.length_set, e4]
    · omega
    · intro i hi
      rw [hs] at hi
      rw [getElem?_set_char _ _ _ _ (by omega), if_neg (by omega),
        e6 i (Nat.zero_le _) (by omega), Nat.sub_zero, List.getElem?_take, if_pos hi]
    · rw [hs, getElem?_set_char _ _ _ _ (by omega), if_pos rfl]
    · intro i hi
      rw [getElem?_set_char _ _ _ _ (by omega), if_neg (by omega), e7 i (by omega)]
  · have hk : min (replaceText oldChar src newString).length dstSize
        = (replaceText oldChar src newString).length := by omega
    rw [hk] at e2 e3
    rw [if_neg (by omega), e2, writeAt_some _ _ _ (by omega)]
    have ht : (replaceText oldChar src newString).take (dstSize - 1)
        = replaceText oldChar src newString := List.take_of_length_le (by omega)
    rw [ht]
    refine ⟨_, rfl, ?_, ?_, ?_, ?_, ?_⟩
    · rw [List.length_set, e4]
    · omega
    · intro i hi
      rw [getElem?_set_char _ _ _ _ (by omega), if_neg (by omega),
        e6 i (Nat.zero_le _) (by omega), Nat.sub_zero]
    · rw [getElem?_set_char _ _ _ _ (by omega), if_pos rfl]
    · intro i hi
      rw [getElem?_set_char _ _ _ _ (by omega), if_neg (by omega), e7 i (by omega)]

theorem replaceText_of_not_mem (oldChar : Char) : ∀ (src newString : List Char),
    oldChar ∉ src → replaceText oldChar src newString = src := by
  intro src
  induction src with
  | nil => intro _ _; rfl
  | cons c src ih =>
    intro ns h
    have hc : c ≠ oldChar := fun e => h (by rw [e]; exact List.mem_cons_self _ _)
    have hs : oldChar ∉ src := fun hm => h (List.mem_cons_of_mem _ hm)
    simp only [replaceText, hc, if_false, ih ns hs]

/-- The replaced text of a source with one `oldChar`. -/
theorem replaceText_of_count_one (oldChar : Char) : ∀ (src newString : List Char),
    src.count oldChar = 1 →
    replaceText oldChar src newString
      = src.takeWhile (fun c => c != oldChar) ++ newString
        ++ (src.dropWhile (fun c => c != oldChar)).drop 1 := by
  intro src
  induction src with
  | nil => intro _ h; simp at h
  | cons c src ih =>
    intro ns h
    rw [List.count_cons] at h
    by_cases hc : c = oldChar
    · subst hc
      have h0 : src.count c = 0 := by simpa using h
      have hs : c ∉ src := List.count_eq_zero.mp h0
      simp only [replaceText, if_true, replaceText_of_not_mem c src [] hs]
      simp [List.takeWhile_cons, List.dropWhile_cons]
    · have hb : (c == oldChar) = false := by simpa using hc
      rw [hb] at h
      simp only [Bool.false_eq_true, if_false, Nat.add_zero] at h
      simp only [replaceText, hc, if_false, ih ns h]
      simp [List.takeWhile_cons, List.dropWhile_cons, hc]

theorem takeWhile_eq_take (p : Char → Bool) (l : List Char) :
    l.takeWhile p = l.take (l.takeWhile p).length := by
  conv_rhs => rw [← List.takeWhile_append_dropWhile p l]
  rw [List.take_left']
  rw [List.takeWhile_append_dropWhile]

theorem dropWhile_eq_drop (p : Char → Bool) (l : List Char) :
    l.dropWhile p = l.drop (l.takeWhile p).length := by
  conv_rhs => rw [← List.takeWhile_append_dropWhile p l]
  rw [List.drop_left']
  rw [List.takeWhile_append_dropWhile]

theorem abbreviationRef_no_NUL (format : List Char) (deltaCode : Int)
    (letterString : Option (List Char)) (hf : NUL ∉ format)
    (hl : ∀ l ∈ letterString, NUL ∉ l) :
    NUL ∉ abbreviationRef format deltaCode letterString := by
  have ht : ∀ p : Char → Bool, NUL ∉ format.takeWhile p :=
    fun p hm => hf ((List.takeWhile_sublist p).subset hm)
  have hd : ∀ p : Char → Bool, NUL ∉ (format.dropWhile p).drop 1 :=
    fun p hm => hf ((List.dropWhile_sublist p).subset ((List.drop_sublist 1 _).subset hm))
  unfold abbreviationRef
  cases letterString with
  | none => exact hf
  | some letters =>
    have hl2 : NUL ∉ letters := hl letters rfl
    simp only
    split_ifs
    · intro hm
      rw [List.mem_append, List.mem_append] at hm
      rcases hm with (hm | hm) | hm
      · exact ht _ hm
      · exact hl2 hm
      · exact hd _ hm
    · exact ht _
    · exact hd _
    · exact hf

/-- The buffer after `createAbbreviation`: the call is defined, the buffer
holds a C string within its first `destSize` characters, and for a format with
at most one `%` and at most 255 characters that string is the abbreviation of
the specification cut to `destSize - 1` characters. -/
theorem createAbbreviation_holds (dest : List Char) (destSize : Nat) (format : List Char)
    (deltaCode : Int) (letterString : Option (List Char))
    (h1 : 1 ≤ destSize) (h2 : destSize ≤ 255) (h3 : destSize ≤ dest.length) :
    ∃ d s, createAbbreviation dest destSize format deltaCode letterString = some d
      ∧ bufHolds dest d destSize s
      ∧ (format.count '%' ≤ 1 → format.length ≤ 255 → -128 ≤ deltaCode → deltaCode ≤ 255 →
          s = (abbreviationRef format deltaCode letterString).take (destSize - 1)) := by
  unfold createAbbreviation
  cases letterString with
  | none =>
    obtain ⟨d, hd, hb⟩ := strncpy_holds dest format destSize h1 h3
    exact ⟨d, _, hd, hb, fun _ _ _ _ => rfl⟩
  | some letters =>
    simp only
    by_cases hp : '%' ∈ format
    · rw [if_pos hp]
      obtain ⟨d, hd, hb⟩ := copyAndReplace_holds dest destSize format '%' letters h1 h3
      refine ⟨d, _, hd, hb, ?_⟩
      intro hc _ _ _
      have hc1 : format.count '%' = 1 := by
        have := List.count_pos_iff.mpr hp
        omega
      rw [replaceText_of_count_one '%' format letters hc1]
      unfold abbreviationRef
      simp only [hc1, if_true]
    · rw [if_neg hp]
      have hc0 : format.count '%' = 0 := List.count_eq_zero.mpr hp
      have hlt : (format.takeWhile (fun c => c != '/')).length ≤ format.length :=
        (List.takeWhile_sublist _).length_le
      have hclamp : (destSize + 255) % 256 = destSize - 1 := by omega
      by_cases hs : '/' ∈ format
      · rw [if_pos hs]
        by_cases hz : deltaCode % 256 = 0
        · rw [if_pos hz]
          simp only [hclamp]
          have hn : (if (format.takeWhile (fun c => c != '/')).length % 256 ≥ destSize
              then destSize - 1
              else (format.takeWhile (fun c => c != '/')).length % 256) < destSize := by
            split_ifs <;> omega
          have hn2 : (if (format.takeWhile (fun c => c != '/')).length % 256 ≥ destSize
              then destSize - 1
              else (format.takeWhile (fun c => c != '/')).length % 256) ≤ format.length := by
            have := Nat.mod_le (format.takeWhile (fun c => c != '/')).length 256
            split_ifs <;> omega
          obtain ⟨d, hd, hb⟩ := memcpy_holds dest format destSize _ hn h3 hn2
          refine ⟨d, _, hd, hb, ?_⟩
          intro _ hlen hd1 hd2
          have hz2 : deltaCode = 0 := by omega
          have href : abbreviationRef format deltaCode (some letters)
              = format.takeWhile (fun c => c != '/') := by
            unfold abbreviationRef
            simp only [hc0, hs, hz2, if_true]
            rw [if_neg (by omega)]
          rw [href, takeWhile_eq_take (fun c => c != '/') format, List.take_take,
            ← takeWhile_eq_take, Nat.mod_eq_of_lt (by omega)]
          congr 1
          split_ifs <;> omega
        · rw [if_neg hz]
          simp only [hclamp]
          have hn : (if (format.drop ((format.takeWhile (fun c => c != '/')).length + 1)).length
                % 256 ≥ destSize
              then destSize - 1
              else (format.drop ((format.takeWhile (fun c => c != '/')).length + 1)).length
                % 256) < destSize := by
            split_ifs <;> omega
          have hn2 : (if (format.drop ((format.takeWhile (fun c => c != '/')).length + 1)).length
                % 256 ≥ destSize
              then destSize - 1
              else (format.drop ((format.takeWhile (fun c => c != '/')).length + 1)).length
                % 256)
              ≤ (format.drop ((format.takeWhile (fun c => c != '/')).length + 1)).length := by
            have := Nat.mod_le
              (format.drop ((format.takeWhile (fun c => c != '/')).length + 1)).length 256
            split_ifs <;> omega
          obtain ⟨d, hd, hb⟩ := memcpy_holds dest
            (format.drop ((format.takeWhile (fun c => c != '/')).length + 1)) destSize _ hn h3 hn2
          refine ⟨d, _, hd, hb, ?_⟩
          intro _ hlen hd1 hd2
          have hz2 : deltaCode ≠ 0 := by omega
          have href : abbreviationRef format deltaCode (some letters)
              = (format.dropWhile (fun c => c != '/')).drop 1 := by
            unfold abbreviationRef
            simp only [hc0, hs, hz2, if_true, if_false]
            rw [if_neg (by omega)]
          rw [href, dropWhile_eq_drop (fun c => c != '/') format, List.drop_drop]
          have htl : (format.drop ((format.takeWhile (fun c => c != '/')).length + 1)).length
              ≤ 255 := by
            rw [List.length_drop]; omega
          rw [Nat.mod_eq_of_lt (by omega)]
          by_cases hge : (format.drop ((format.takeWhile (fun c => c != '/')).length + 1)).length
              ≥ destSize
          · rw [if_pos hge]
          · rw [if_neg hge, List.take_of_length_le (le_refl _),
              List.take_of_length_le (by omega)]
      · rw [if_neg hs]
        obtain ⟨d, hd, hb⟩ := strncpy_holds dest format destSize h1 h3
        refine ⟨d, _, hd, hb, ?_⟩
        intro _ _ _ _
        have href : abbreviationRef format deltaCode (some letters) = format := by
          unfold abbreviationRef
          simp only [hc0, hs, if_false]
          rw [if_neg (by omega)]
        rw [href]

/-- C17 (counterexample): the format `A%B%C` with the letter string `S` and a
buffer of 7 characters. The format contains a `%`, so createAbbreviation
copies it with copyAndReplace and leaves the C string `ASBC` in the buffer. The
format does not contain exactly one `%` and contains no `/`, so the
abbreviation of the claim is the format itself, `A%B%C`. -/
theorem C17_counterexample :
    (createAbbreviation (dirtyBuffer 7) 7 ['A', '%', 'B', '%', 'C'] 0 (some ['S'])).map cstr
      = some ['A', 'S', 'B', 'C']
    ∧ (abbreviationRef ['A', '%', 'B', '%', 'C'] 0 (some ['S'])).take (7 - 1)
      = ['A', '%', 'B', '%', 'C'] := by
  decide

/-- C17 (amended): for every destSize from 1 to 255, every buffer dest of at
least destSize characters, every format of at most 255 characters that
contains at most one `%`, every deltaCode that fits in a byte and every
letterString (null or not), format and letterString being C strings (without
a NUL inside), createAbbreviation returns and leaves in dest the C string made
of the first destSize-1 characters of ref(format, deltaCode, letterString),
where ref is: format itself when letterString is null; otherwise, when format
contains one `%`, format with that `%` replaced by letterString (possibly
empty); otherwise, when format contains `/`, the part before the first `/` if
deltaCode == 0 and the part after it if deltaCode != 0; otherwise format
itself. -/
theorem C17_createAbbreviation_text (dest : List Char) (destSize : Nat) (format : List Char)
    (deltaCode : Int) (letterString : Option (List Char))
    (h1 : 1 ≤ destSize) (h2 : destSize ≤ 255) (h3 : destSize ≤ dest.length)
    (hf : NUL ∉ format) (hl : ∀ l ∈ letterString, NUL ∉ l)
    (hc : format.count '%' ≤ 1) (hlen : format.length ≤ 255)
    (hd1 : -128 ≤ deltaCode) (hd2 : deltaCode ≤ 255) :
    ∃ d, createAbbreviation dest destSize format deltaCode letterString = some d
      ∧ cstr d = (abbreviationRef format deltaCode letterString).take (destSize - 1) := by
  obtain ⟨d, s, hd, ⟨_, _, b3, b4, _⟩, hs⟩ :=
    createAbbreviation_holds dest destSize format deltaCode letterString h1 h2 h3
  have hs2 := hs hc hlen hd1 hd2
  refine ⟨d, hd, ?_⟩
  rw [← hs2]
  apply cstr_of_prefix s d b3 b4
  rw [hs2]
  exact fun hm => abbreviationRef_no_NUL format deltaCode letterString hf hl
    ((List.take_sublist _ _).subset hm)

/-- The theorem of C17 at the Los Angeles format `P%T` with the letter `D` and
the abbreviation buffer of a transition: the buffer holds `PDT`. -/
theorem C17_createAbbreviation_text_witness :
    ∃ d, createAbbreviation (dirtyBuffer 7) 7 ['P', '%', 'T'] 4 (some ['D']) = some d
      ∧ cstr d = ['P', 'D', 'T'] :=
  (C17_createAbbreviation_text (dirtyBuffer 7) 7 ['P', '%', 'T'] 4 (some ['D'])
    (by decide) (by decide) (by decide) (by decide)
    (fun l hl => by rw [Option.mem_def] at hl; cases hl; decide)
    (by decide) (by decide) (by decide) (by decide)).imp
    fun _ h => ⟨h.1, h.2.trans (by decide)⟩

/-- C18: for every destSize from 1 to 255, every buffer dest of at least
destSize characters and every format, deltaCode and letterString (of any
length, null or not), createAbbreviation returns, it changes no character of
the buffer from index destSize on (and not its length), and it leaves a NUL
among the first destSize characters: dest holds a NUL-terminated string of
length at most destSize - 1. -/
theorem C18_createAbbreviation_bounds (dest : List Char) (destSize : Nat) (format : List Char)
    (deltaCode : Int) (letterString : Option (List Char))
    (h1 : 1 ≤ destSize) (h2 : destSize ≤ 255) (h3 : destSize ≤ dest.length) :
    ∃ d, createAbbreviation dest destSize format deltaCode letterString = some d
      ∧ d.length = dest.length
      ∧ (∀ i, destSize ≤ i → d[i]? = dest[i]?)
      ∧ (∃ k, k < destSize ∧ d[k]? = some NUL)
      ∧ (cstr d).length ≤ destSize - 1 := by
  obtain ⟨d, s, hd, ⟨b1, b2, _, b4, b5⟩, _⟩ :=
    createAbbreviation_holds dest destSize format deltaCode letterString h1 h2 h3
  refine ⟨d, hd, b1, b5, ⟨s.length, b2, b4⟩, ?_⟩
  have := cstr_length_le d s.length b4
  omega

/-- The theorem of C18 at the format `LongAbbrev%T` with an empty letter
string, written into the first 7 characters of a buffer of 9: the buffer
holds `LongAb`, a NUL and its last two characters as before. -/
theorem C18_createAbbreviation_bounds_witness :
    createAbbreviation (dirtyBuffer 9) 7
        ['L', 'o', 'n', 'g', 'A', 'b', 'b', 'r', 'e', 'v', '%', 'T'] 4 (some [])
      = some ['L', 'o', 'n', 'g', 'A', 'b', NUL, '#', '#']
    ∧ ∃ d, createAbbreviation (dirtyBuffer 9) 7
          ['L', 'o', 'n', 'g', 'A', 'b', 'b', 'r', 'e', 'v', '%', 'T'] 4 (some []) = some d
        ∧ (cstr d).length ≤ 7 - 1 :=
  ⟨by decide, (C18_createAbbreviation_bounds (dirtyBuffer 9) 7
    ['L', 'o', 'n', 'g', 'A', 'b', 'b', 'r', 'e', 'v', '%', 'T'] 4 (some [])
    (by decide) (by decide) (by decide)).imp fun _ h => ⟨h.1, h.2.2.2.2⟩⟩

/-! ## C21: addFreeAgentToCandidatePool -/

namespace TransitionStorage

theorem getTransition_of_slotAt_eq {ts ts2 : TransitionStorage} (hp : ts2.mPool = ts.mPool)
    {i j : Nat} (h : ts2.slotAt i = ts.slotAt j) : ts2.getTransition i = ts.getTransition j := by
  unfold getTransition
  rw [h]
  cases ts.slotAt j with
  | none => rfl
  | some p => exact deref_congr hp p

/-- The insertion loop started at index `i` moves the entry at `i` back to an
index `k`, past the entries whose time is greater, and stops before the first
entry whose time is not greater. -/
theorem addFreeAgentToCandidatePoolLoop_rotate :
    ∀ (i : Nat) (ts : TransitionStorage), ts.mIndexCandidates ≤ i →
      (∀ j, ts.mIndexCandidates ≤ j → j ≤ i → (ts.getTransition j).isSome) →
      ∃ ts2 k, addFreeAgentToCandidatePoolLoop ts i = some ts2
        ∧ ts.mIndexCandidates ≤ k ∧ k ≤ i
        ∧ ts2.mPool = ts.mPool ∧ ts2.indexes = ts.indexes ∧ ts2.mHighWater = ts.mHighWater
        ∧ (∀ j, j < k ∨ i < j → ts2.slotAt j = ts.slotAt j)
        ∧ ts2.slotAt k = ts.slotAt i
        ∧ (∀ j, k < j → j ≤ i → ts2.slotAt j = ts.slotAt (j - 1))
        ∧ (ts.mIndexCandidates < k → ∀ a ∈ ts.getTransition (k - 1),
            ∀ x ∈ ts.getTransition i, a.transitionTime.le x.transitionTime = true)
        ∧ (∀ j, k ≤ j → j < i → ∀ b ∈ ts.getTransition j, ∀ x ∈ ts.getTransition i,
            x.transitionTime.lt b.transitionTime = true) := by
  intro i
  induction i with
  | zero =>
    intro ts hc _
    refine ⟨ts, 0, rfl, hc, le_refl _, rfl, rfl, rfl, fun _ _ => rfl, rfl, ?_, ?_, ?_⟩
    · intro j h1 h2; omega
    · intro h; omega
    · intro j _ h2; omega
  | succ i ih =>
    intro ts hc hdef
    by_cases hi : i + 1 > ts.mIndexCandidates
    · obtain ⟨currT, hcurrT⟩ := Option.isSome_iff_exists.mp (hdef (i + 1) (by omega) (le_refl _))
      obtain ⟨prevT, hprevT⟩ := Option.isSome_iff_exists.mp (hdef i (by omega) (by omega))
      obtain ⟨curr, hcurr, hcurrD⟩ := getTransition_eq_some.mp hcurrT
      obtain ⟨prev, hprev, hprevD⟩ := getTransition_eq_some.mp hprevT
      have hs := insertStep_eq_swap ts i curr prev hcurr hprev
      have hstep : addFreeAgentToCandidatePoolLoop ts (i + 1)
          = (if currT.transitionTime.ge prevT.transitionTime then some ts
             else (ts.swap (i + 1) i).bind fun ts1 => addFreeAgentToCandidatePoolLoop ts1 i) := by
        conv_lhs => unfold addFreeAgentToCandidatePoolLoop
        rw [if_pos hi, hcurr, Option.some_bind, hprev, Option.some_bind, hcurrD, Option.some_bind,
          hprevD, Option.some_bind, ← hs]
        split_ifs
        · rfl
        · cases ts.setSlot (i + 1) prev with
          | none => rfl
          | some t1 => rfl
      rw [hstep]
      by_cases hge : currT.transitionTime.ge prevT.transitionTime = true
      · rw [if_pos hge]
        refine ⟨ts, i + 1, rfl, by omega, le_refl _, rfl, rfl, rfl, fun _ _ => rfl, rfl, ?_, ?_,
          ?_⟩
        · intro j h1 h2; omega
        · intro _ a ha x hx
          rw [Membership.mem, Option.instMembership] at ha hx
          have ea : ts.getTransition (i + 1 - 1) = some prevT := hprevT
          rw [ea] at ha
          rw [hcurrT] at hx
          rw [← Option.some.inj ha, ← Option.some.inj hx]
          exact (DateTuple.ge_iff_le _ _).mp hge
        · intro j h1 h2; omega
      · rw [if_neg hge]
        have hlt : currT.transitionTime.lt prevT.transitionTime = true := by
          simpa [DateTuple.ge] using hge
        -- the exchange is defined
        have hlen1 : i + 1 < ts.mTransitions.length := by
          unfold slotAt at hcurr
          exact (List.getElem?_eq_some_iff.mp hcurr).1
        have hsw : ∃ ts1, ts.swap (i + 1) i = some ts1 := by
          rw [← hs]
          unfold setSlot
          rw [if_pos hlen1, Option.some_bind]
          simp only [List.length_set]
          rw [if_pos (by omega)]
          exact ⟨_, rfl⟩
        obtain ⟨ts1, hsw⟩ := hsw
        rw [hsw, Option.some_bind]
        obtain ⟨pa, pb, ha, hb, e1, e2, e3, e4⟩ := swap_spec hsw
        have epa : pa = curr := Option.some.inj (ha.symm.trans hcurr)
        have epb : pb = prev := Option.some.inj (hb.symm.trans hprev)
        subst epa epb
        have hcand : ts1.mIndexCandidates = ts.mIndexCandidates :=
          ((indexes_eq_iff _ _).mp e2).2.1
        have hg := swap_getTransition hsw
        have hdef1 : ∀ j, ts1.mIndexCandidates ≤ j → j ≤ i → (ts1.getTransition j).isSome := by
          intro j h1 h2
          rw [hg j]
          by_cases hj : j = i
          · rw [if_pos hj, hcurrT]; rfl
          · rw [if_neg hj, if_neg (by omega)]
            exact hdef j (by omega) (by omega)
        obtain ⟨ts2, k, hl, k1, k2, f1, f2, f3, f4, f5, f6, f7, f8⟩ :=
          ih ts1 (by omega) hdef1
        have hgi : ts1.getTransition i = ts.getTransition (i + 1) := by
          rw [hg i, if_pos rfl]
        refine ⟨ts2, k, hl, by omega, by omega, f1.trans e1, f2.trans e2, f3.trans e3, ?_, ?_,
          ?_, ?_, ?_⟩
        · intro j hj
          rw [f4 j (by omega), e4 j, if_neg (by omega), if_neg (by omega)]
        · rw [f5, e4 i, if_pos rfl, hcurr]
        · intro j h1 h2
          by_cases hj : j = i + 1
          · subst hj
            rw [f4 (i + 1) (by omega), e4 (i + 1), if_neg (by omega), if_pos rfl]
            exact hprev.symm
          · rw [f6 j h1 (by omega), e4 (j - 1), if_neg (by omega), if_neg (by omega)]
        · intro hk a ha x hx
          have ea : ts1.getTransition (k - 1) = ts.getTransition (k - 1) := by
            rw [hg (k - 1), if_neg (by omega), if_neg (by omega)]
          exact f7 (by omega) a (by rw [ea]; exact ha) x (by rw [hgi]; exact hx)
        · intro j h1 h2 b hb2 x hx
          by_cases hj : j = i
          · subst hj
            rw [Membership.mem, Option.instMembership] at hb2 hx
            rw [hprevT] at hb2
            rw [hcurrT] at hx
            rw [← Option.some.inj hb2, ← Option.some.inj hx]
            exact hlt
          · have eb : ts1.getTransition j = ts.getTransition j := by
              rw [hg j, if_neg hj, if_neg (by omega)]
            exact f8 j h1 (by omega) b (by rw [eb]; exact hb2) x (by rw [hgi]; exact hx)
    · have hstep : addFreeAgentToCandidatePoolLoop ts (i + 1) = some ts := by
        conv_lhs => unfold addFreeAgentToCandidatePoolLoop
        rw [if_neg hi]
      rw [hstep]
      refine ⟨ts, i + 1, rfl, hc, le_refl _, rfl, rfl, rfl, fun _ _ => rfl, rfl, ?_, ?_, ?_⟩
      · intro j h1 h2; omega
      · intro h; omega
      · intro j h1 h2; omega

end TransitionStorage

/-- C21: when iFree >= N, addFreeAgentToCandidatePool changes nothing. For
every pool state with iFree < N and iCand <= iFree whose entries [iCand, iFree]
point to transitions and whose Candidate region [iCand, iFree) is sorted
non-decreasingly by transitionTime (the order of `operator<`, which ignores
the modifier), addFreeAgentToCandidatePool returns; it increments iFree by one
and leaves iPrior, iCand, the slots and the high-water mark unchanged; in the
pointer vector the free agent is moved from index iFree to an index k in
[iCand, iFree], the candidates at [k, iFree) move up by one place and every
other entry stays (so [iCand, iFree+1) holds exactly the old candidates plus
the free agent, and the entries below iCand are unchanged); the candidates
that stay before the free agent have a transitionTime less than or equal to
its own (it is placed after any candidate with an equal transitionTime),
those behind it a greater one; and [iCand, iFree+1) is sorted
non-decreasingly. -/
theorem C21_addFreeAgentToCandidatePool_insert (SIZE : Nat) (ts : TransitionStorage) :
    (SIZE ≤ ts.mIndexFree → ts.addFreeAgentToCandidatePool SIZE = some ts)
    ∧ (ts.mIndexFree < SIZE → ts.mIndexCandidates ≤ ts.mIndexFree →
        (∀ j, ts.mIndexCandidates ≤ j → j ≤ ts.mIndexFree → (ts.getTransition j).isSome) →
        (∀ i j, ts.mIndexCandidates ≤ i → i < j → j < ts.mIndexFree →
          ∀ a ∈ ts.getTransition i, ∀ b ∈ ts.getTransition j,
            a.transitionTime.le b.transitionTime = true) →
        ∃ ts2 k, ts.addFreeAgentToCandidatePool SIZE = some ts2
          ∧ ts2.mIndexPrior = ts.mIndexPrior ∧ ts2.mIndexCandidates = ts.mIndexCandidates
          ∧ ts2.mIndexFree = ts.mIndexFree + 1
          ∧ ts2.mPool = ts.mPool ∧ ts2.mHighWater = ts.mHighWater
          ∧ ts.mIndexCandidates ≤ k ∧ k ≤ ts.mIndexFree
          ∧ (∀ j, j < k ∨ ts.mIndexFree < j → ts2.slotAt j = ts.slotAt j)
          ∧ ts2.slotAt k = ts.slotAt ts.mIndexFree
          ∧ (∀ j, k < j → j ≤ ts.mIndexFree → ts2.slotAt j = ts.slotAt (j - 1))
          ∧ (∀ j, ts.mIndexCandidates ≤ j → j < k → ∀ a ∈ ts.getTransition j,
              ∀ x ∈ ts.getTransition ts.mIndexFree,
                a.transitionTime.le x.transitionTime = true)
          ∧ (∀ j, k ≤ j → j < ts.mIndexFree → ∀ b ∈ ts.getTransition j,
              ∀ x ∈ ts.getTransition ts.mIndexFree,
                x.transitionTime.lt b.transitionTime = true)
          ∧ (∀ i j, ts.mIndexCandidates ≤ i → i ≤ j → j ≤ ts.mIndexFree →
              ∀ a ∈ ts2.getTransition i, ∀ b ∈ ts2.getTransition j,
                a.transitionTime.le b.transitionTime = true)) := by
  constructor
  · intro h
    unfold TransitionStorage.addFreeAgentToCandidatePool
    rw [if_pos h]
  · intro hf hc hdef hsorted
    obtain ⟨ts1, k, hl, k1, k2, f1, f2, f3, f4, f5, f6, f7, f8⟩ :=
      TransitionStorage.addFreeAgentToCandidatePoolLoop_rotate ts.mIndexFree ts hc hdef
    have i1 := (TransitionStorage.indexes_eq_iff _ _).mp f2
    have hres : ts.addFreeAgentToCandidatePool SIZE
        = some { ts1 with mIndexFree := ts1.mIndexFree + 1 } := by
      unfold TransitionStorage.addFreeAgentToCandidatePool
      rw [if_neg (by omega), hl]
      rfl
    -- reflexive version of the order of the old candidates
    have hsorted2 : ∀ i j, ts.mIndexCandidates ≤ i → i ≤ j → j < ts.mIndexFree →
        ∀ a ∈ ts.getTransition i, ∀ b ∈ ts.getTransition j,
          a.transitionTime.le b.transitionTime = true := by
      intro i j h1 h2 h3 a ha b hb
      by_cases hij : i = j
      · subst hij
        rw [Membership.mem, Option.instMembership] at ha hb
        have : a = b := Option.some.inj (ha.symm.trans hb)
        rw [this]
        exact DateTuple.le_refl _
      · exact hsorted i j h1 (by omega) h3 a ha b hb
    -- the candidates that stay before the free agent
    have hbefore : ∀ j, ts.mIndexCandidates ≤ j → j < k → ∀ a ∈ ts.getTransition j,
        ∀ x ∈ ts.getTransition ts.mIndexFree,
          a.transitionTime.le x.transitionTime = true := by
      intro j h1 h2 a ha x hx
      obtain ⟨c, hcT⟩ := Option.isSome_iff_exists.mp (hdef (k - 1) (by omega) (by omega))
      have e1 := hsorted2 j (k - 1) h1 (by omega) (by omega) a ha c hcT
      have e2 := f7 (by omega) c hcT x hx
      exact DateTuple.le_trans e1 e2
    -- the transitions of the new pointer vector
    have hp2 : ({ ts1 with mIndexFree := ts1.mIndexFree + 1 } : TransitionStorage).mPool
        = ts.mPool := f1
    have hg : ∀ j, ({ ts1 with mIndexFree := ts1.mIndexFree + 1 } : TransitionStorage).getTransition j
        = ts.getTransition (if j < k ∨ ts.mIndexFree < j then j
            else if j = k then ts.mIndexFree else j - 1) := by
      intro j
      apply TransitionStorage.getTransition_of_slotAt_eq hp2
      show ts1.slotAt j = _
      by_cases h1 : j < k ∨ ts.mIndexFree < j
      · rw [if_pos h1]; exact f4 j h1
      · rw [if_neg h1]
        by_cases h2 : j = k
        · rw [if_pos h2, h2]; exact f5
        · rw [if_neg h2]; exact f6 j (by omega) (by omega)
    refine ⟨_, k, hres, i1.1, i1.2.1, ?_, f1, f3, k1, k2, f4, f5, f6, hbefore, f8, ?_⟩
    · show ts1.mIndexFree + 1 = ts.mIndexFree + 1
      rw [i1.2.2]
    · intro i j h1 h2 h3 a ha b hb
      rw [hg i] at ha
      rw [hg j] at hb
      by_cases hik : i < k
      · rw [if_pos (Or.inl hik)] at ha
        by_cases hjk : j < k
        · rw [if_pos (Or.inl hjk)] at hb
          exact hsorted2 i j h1 h2 (by omega) a ha b hb
        · rw [if_neg (by omega)] at hb
          by_cases hjk2 : j = k
          · rw [if_pos hjk2] at hb
            exact hbefore i h1 hik a ha b hb
          · rw [if_neg hjk2] at hb
            exact hsorted2 i (j - 1) h1 (by omega) (by omega) a ha b hb
      · rw [if_neg (by omega)] at ha
        rw [if_neg (by omega)] at hb
        by_cases hik2 : i = k
        · rw [if_pos hik2] at ha
          by_cases hjk2 : j = k
          · rw [if_pos hjk2] at hb
            rw [Membership.mem, Option.instMembership] at ha hb
            have : a = b := Option.some.inj (ha.symm.trans hb)
            rw [this]
            exact DateTuple.le_refl _
          · rw [if_neg hjk2] at hb
            exact DateTuple.le_of_lt (f8 (j - 1) (by omega) (by omega) b hb a ha)
        · rw [if_neg hik2] at ha
          rw [if_neg (by omega)] at hb
          exact hsorted2 (i - 1) (j - 1) (by omega) (by omega) (by omega) a ha b hb

/-- The theorem of C21 at the example pool: the free agent of March at index 5
is placed at index 4, after the two candidates of March and before the one of
November. -/
theorem C21_addFreeAgentToCandidatePool_insert_witness :
    (examplePool.addFreeAgentToCandidatePool 8).map
        (fun ts2 => (ts2.mTransitions, ts2.indexes)) = some ([0, 1, 2, 3, 5, 4, 6, 7], (1, 2, 6))
    ∧ ∃ ts2 k, examplePool.addFreeAgentToCandidatePool 8 = some ts2
        ∧ ts2.mIndexFree = examplePool.mIndexFree + 1
        ∧ ts2.slotAt k = examplePool.slotAt examplePool.mIndexFree := by
  refine ⟨by decide, ?_⟩
  obtain ⟨ts2, k, h, _, _, h3, _, _, _, _, _, h9, _⟩ :=
    (C21_addFreeAgentToCandidatePool_insert 8 examplePool).2 (by decide) (by decide)
      (by
        intro j h1 h2
        have e1 : examplePool.mIndexCandidates = 2 := rfl
        have e2 : examplePool.mIndexFree = 5 := rfl
        rw [e1] at h1
        rw [e2] at h2
        interval_cases j <;> decide)
      (by
        intro i j h1 h2 h3
        have e1 : examplePool.mIndexCandidates = 2 := rfl
        have e2 : examplePool.mIndexFree = 5 := rfl
        rw [e1] at h1
        rw [e2] at h3
        interval_cases j <;> interval_cases i <;> decide)
  exact ⟨ts2, k, h, h3, h9⟩

/-! ## C22: addActiveCandidatesToActivePool -/

namespace TransitionStorage

theorem isActiveSlot_congr {ts ts2 : TransitionStorage} (h : ts2.mPool = ts.mPool) :
    ts2.isActiveSlot = ts.isActiveSlot := by
  funext p
  unfold isActiveSlot
  rw [deref_congr h]

theorem take_set_of_le (l : List Nat) (a : Nat) {n m : Nat} (h : m ≤ n) :
    (l.set n a).take m = l.take m :=
  List.ext_getElem? fun i => by
    rw [List.getElem?_take, List.getElem?_take]
    split
    · rw [List.getElem?_set_ne (by omega)]
    · rfl

theorem take_succ_set (l : List Nat) (a : Nat) {n : Nat} (h : n < l.length) :
    (l.set n a).take (n + 1) = l.take n ++ [a] :=
  List.ext_getElem? fun i => by
    rw [List.getElem?_take, List.getElem?_append, List.getElem?_take, List.length_take]
    by_cases h1 : i < n
    · rw [if_pos (by omega), if_pos (by omega), if_pos h1, List.getElem?_set_ne (by omega)]
    · by_cases h2 : i = n
      · subst h2
        rw [if_pos (by omega), if_neg (by omega)]
        have e : i - min i l.length = 0 := by omega
        rw [e]
        simp [h]
      · rw [if_neg (by omega), if_neg (by omega)]
        have : i - min n l.length = (i - n - 1) + 1 := by omega
        rw [this]
        rfl

/-- The pointer vector after a defined `swap`. -/
theorem swap_mTransitions {ts : TransitionStorage} {a b : Nat}
    (ha : a < ts.mTransitions.length) (hb : b < ts.mTransitions.length) :
    ∃ ts2, ts.swap a b = some ts2 ∧ ts2.mPool = ts.mPool ∧ ts2.indexes = ts.indexes
      ∧ ts2.mHighWater = ts.mHighWater
      ∧ ts2.mTransitions = (ts.mTransitions.set a ts.mTransitions[b]).set b ts.mTransitions[a] := by
  unfold swap slotAt
  rw [List.getElem?_eq_getElem ha, List.getElem?_eq_getElem hb]
  simp only [Option.some_bind]
  unfold setSlot
  rw [if_pos ha, Option.some_bind]
  simp only [List.length_set]
  rw [if_pos hb]
  exact ⟨_, rfl, rfl, rfl, rfl, rfl⟩

/-- The loop of `addActiveCandidatesToActivePool`: it ends, and moves the
active ones of the `rem` candidates from index `k` on to the indexes from `x`
on, in their order. -/
theorem addActiveCandidatesLoop_compact :
    ∀ (rem x k : Nat) (ts : TransitionStorage), x ≤ k → k + rem ≤ ts.mTransitions.length →
      (∀ p ∈ (ts.mTransitions.drop k).take rem, p < ts.mPool.length) →
      ∃ r, addActiveCandidatesLoop rem x k ts = some r
        ∧ r.2.mPool = ts.mPool ∧ r.2.indexes = ts.indexes ∧ r.2.mHighWater = ts.mHighWater
        ∧ r.2.mTransitions.length = ts.mTransitions.length
        ∧ r.1 = x + (((ts.mTransitions.drop k).take rem).filter ts.isActiveSlot).length
        ∧ r.2.mTransitions.take r.1
            = ts.mTransitions.take x ++ ((ts.mTransitions.drop k).take rem).filter ts.isActiveSlot
        ∧ r.2.mTransitions.drop (k + rem) = ts.mTransitions.drop (k + rem) := by
  intro rem
  induction rem with
  | zero =>
    intro x k ts _ _ _
    refine ⟨(x, ts), rfl, rfl, rfl, rfl, rfl, ?_, ?_, rfl⟩
    · simp
    · simp
  | succ rem ih =>
    intro x k ts hxk hlen hpool
    have hk : k < ts.mTransitions.length := by omega
    have hdrop : (ts.mTransitions.drop k).take (rem + 1)
        = ts.mTransitions[k] :: (ts.mTransitions.drop (k + 1)).take rem := by
      rw [List.drop_eq_getElem_cons hk, List.take_succ_cons]
    have hc : ts.mTransitions[k] < ts.mPool.length :=
      hpool _ (by rw [hdrop]; exact List.mem_cons_self _ _)
    have hrest : ∀ p ∈ (ts.mTransitions.drop (k + 1)).take rem, p < ts.mPool.length :=
      fun p hp => hpool p (by rw [hdrop]; exact List.mem_cons_of_mem _ hp)
    have hslot : ts.slotAt k = some ts.mTransitions[k] := by
      unfold slotAt; exact List.getElem?_eq_getElem hk
    have hderef : ts.deref ts.mTransitions[k] = some ts.mPool[ts.mTransitions[k]] := by
      unfold deref; exact List.getElem?_eq_getElem hc
    have hget : ts.getTransition k = some ts.mPool[ts.mTransitions[k]] :=
      getTransition_eq_some.mpr ⟨_, hslot, hderef⟩
    have hact : ts.isActiveSlot ts.mTransitions[k] = (ts.mPool[ts.mTransitions[k]]).active := by
      unfold isActiveSlot; rw [hderef]
    have e12 : k + (rem + 1) = k + 1 + rem := by omega
    unfold addActiveCandidatesLoop
    rw [hget, Option.some_bind, hdrop, e12]
    by_cases ha : (ts.mPool[ts.mTransitions[k]]).active = true
    · rw [if_pos ha]
      have hfil : (ts.mTransitions[k] :: (ts.mTransitions.drop (k + 1)).take rem).filter
            ts.isActiveSlot
          = ts.mTransitions[k]
            :: ((ts.mTransitions.drop (k + 1)).take rem).filter ts.isActiveSlot := by
        rw [List.filter_cons, if_pos (by rw [hact]; exact ha)]
      rw [hfil]
      by_cases hne : x ≠ k
      · rw [if_pos hne]
        have hx : x < k := by omega
        obtain ⟨ts1, hsw, s1, s2, s3, s4⟩ :=
          @swap_mTransitions ts x k (by omega) hk
        rw [hsw, Option.some_bind]
        have hlen1 : ts1.mTransitions.length = ts.mTransitions.length := by
          rw [s4]; simp only [List.length_set]
        have hdrop1 : ts1.mTransitions.drop (k + 1) = ts.mTransitions.drop (k + 1) := by
          rw [s4, List.drop_set_of_lt _ _ (by omega), List.drop_set_of_lt _ _ (by omega)]
        have htake1 : ts1.mTransitions.take (x + 1)
            = ts.mTransitions.take x ++ [ts.mTransitions[k]] := by
          rw [s4, take_set_of_le _ _ (by omega), take_succ_set _ _ (by omega)]
        obtain ⟨r, hr, r1, r2, r3, r4, r5, r6, r7⟩ :=
          ih (x + 1) (k + 1) ts1 (by omega) (by rw [hlen1]; omega)
            (by rw [hdrop1, s1]; exact hrest)
        rw [hdrop1, isActiveSlot_congr s1] at r5 r6
        refine ⟨r, hr, r1.trans s1, r2.trans s2, r3.trans s3, r4.trans hlen1, ?_, ?_, ?_⟩
        · rw [r5, List.length_cons]; omega
        · rw [r6, htake1, List.append_assoc]; rfl
        · have h1 : ts.mTransitions.drop (k + 1 + rem)
              = (ts.mTransitions.drop (k + 1)).drop rem := by
            rw [List.drop_drop]
          have h2 : ts1.mTransitions.drop (k + 1 + rem)
              = (ts1.mTransitions.drop (k + 1)).drop rem := by
            rw [List.drop_drop]
          rw [r7, h2, hdrop1, ← h1]
      · rw [if_neg hne]
        have hx : x = k := by omega
        subst hx
        obtain ⟨r, hr, r1, r2, r3, r4, r5, r6, r7⟩ :=
          ih (x + 1) (x + 1) ts (le_refl _) (by omega) hrest
        refine ⟨r, hr, r1, r2, r3, r4, ?_, ?_, r7⟩
        · rw [r5, List.length_cons]; omega
        · rw [r6, ← List.take_concat_get _ x hk, List.concat_eq_append, List.append_assoc]
          rfl
    · rw [if_neg ha]
      have hfil : (ts.mTransitions[k] :: (ts.mTransitions.drop (k + 1)).take rem).filter
            ts.isActiveSlot
          = ((ts.mTransitions.drop (k + 1)).take rem).filter ts.isActiveSlot := by
        rw [List.filter_cons, if_neg (by rw [hact]; exact ha)]
      rw [hfil]
      exact ih x (k + 1) ts (by omega) (by omega) hrest

end TransitionStorage

/-- C22: for every pool state with iPrior <= iCand <= iFree <= N whose
Candidate entries point to transitions, addActiveCandidatesToActivePool
returns and is a stable compaction: afterwards the Active region [0, iFree)
is the old Active region [0, old iPrior) (unchanged) followed by exactly those
old Candidates whose active flag is set, in their original relative order,
and iPrior == iCand == iFree == old iPrior + (number of active candidates);
the slots, the high-water mark and the entries from the old iFree on are
unchanged. -/
theorem C22_addActiveCandidatesToActivePool_compaction (ts : TransitionStorage)
    (h1 : ts.mIndexPrior ≤ ts.mIndexCandidates) (h2 : ts.mIndexCandidates ≤ ts.mIndexFree)
    (h3 : ts.mIndexFree ≤ ts.mTransitions.length)
    (hp : ∀ p ∈ ts.region ts.mIndexCandidates ts.mIndexFree, p < ts.mPool.length) :
    ∃ ts2, ts.addActiveCandidatesToActivePool = some ts2
      ∧ ts2.mPool = ts.mPool ∧ ts2.mHighWater = ts.mHighWater
      ∧ ts2.mTransitions.length = ts.mTransitions.length
      ∧ ts2.mIndexPrior = ts.mIndexPrior
          + ((ts.region ts.mIndexCandidates ts.mIndexFree).filter ts.isActiveSlot).length
      ∧ ts2.mIndexCandidates = ts2.mIndexPrior
      ∧ ts2.mIndexFree = ts2.mIndexPrior
      ∧ ts2.region 0 ts2.mIndexFree
          = ts.region 0 ts.mIndexPrior
            ++ (ts.region ts.mIndexCandidates ts.mIndexFree).filter ts.isActiveSlot
      ∧ ts2.mTransitions.drop ts.mIndexFree = ts.mTransitions.drop ts.mIndexFree := by
  have he : ts.mIndexCandidates + (ts.mIndexFree - ts.mIndexCandidates) = ts.mIndexFree := by
    omega
  obtain ⟨r, hr, r1, r2, r3, r4, r5, r6, r7⟩ :=
    TransitionStorage.addActiveCandidatesLoop_compact (ts.mIndexFree - ts.mIndexCandidates)
      ts.mIndexPrior ts.mIndexCandidates ts h1 (by omega) hp
  rw [he] at r7
  unfold TransitionStorage.addActiveCandidatesToActivePool
  rw [hr]
  refine ⟨_, rfl, r1, r3, r4, r5, rfl, rfl, ?_, r7⟩
  show ((r.2.mTransitions.drop 0).take (r.1 - 0)) = (ts.mTransitions.drop 0).take (ts.mIndexPrior - 0)
    ++ _
  rw [List.drop_zero, List.drop_zero, Nat.sub_zero, Nat.sub_zero, r6]
  rfl

/-- The theorem of C22 at the example pool: of the candidates at [2, 5) the
first and the third are active; the Active region becomes the entries 0, 2
and 4 and the three indexes become 3. -/
theorem C22_addActiveCandidatesToActivePool_compaction_witness :
    ∃ ts2, examplePool.addActiveCandidatesToActivePool = some ts2
      ∧ ts2.mIndexFree = 3
      ∧ ts2.region 0 ts2.mIndexFree = [0, 2, 4] := by
  obtain ⟨ts2, h, _, _, _, h5, _, h7, h8, _⟩ :=
    C22_addActiveCandidatesToActivePool_compaction examplePool (by decide) (by decide)
      (by decide) (by decide)
  refine ⟨ts2, h, ?_, ?_⟩
  · rw [h7, h5]; decide
  · rw [h8]; decide

/-! ## C23 and C24: addFreeAgentToActivePool and TransitionStorage::init -/

/-- C23 (counterexample): a pool of 8 slots that are all Active. The Prior and
Candidate regions are empty (iPrior == iCand == iFree == 8), but
addFreeAgentToActivePool returns at its guard `mIndexFree >= SIZE` and leaves
the pool as it is: iFree stays 8 and is not incremented. -/
theorem C23_counterexample :
    fullActivePool.mIndexPrior = fullActivePool.mIndexCandidates
    ∧ fullActivePool.mIndexCandidates = fullActivePool.mIndexFree
    ∧ fullActivePool.addFreeAgentToActivePool 8 = fullActivePool
    ∧ (fullActivePool.addFreeAgentToActivePool 8).mIndexFree = 8 := by
  decide

/-- C23 (amended): for every pool state with iFree < N,
addFreeAgentToActivePool increments iFree by one and sets iPrior = iCand =
iFree; the pointer vector, the slots and the high-water mark are unchanged, so
when the Prior and Candidate regions were empty the free agent (the entry at
the old iFree) becomes the last Active transition and the earlier Active
transitions are unchanged. For every pool state with iFree >= N it changes
nothing. -/
theorem C23_addFreeAgentToActivePool (SIZE : Nat) (ts : TransitionStorage) :
    (ts.mIndexFree < SIZE →
      (ts.addFreeAgentToActivePool SIZE).mIndexFree = ts.mIndexFree + 1
      ∧ (ts.addFreeAgentToActivePool SIZE).mIndexPrior = ts.mIndexFree + 1
      ∧ (ts.addFreeAgentToActivePool SIZE).mIndexCandidates = ts.mIndexFree + 1
      ∧ (ts.addFreeAgentToActivePool SIZE).mTransitions = ts.mTransitions
      ∧ (ts.addFreeAgentToActivePool SIZE).mPool = ts.mPool
      ∧ (ts.addFreeAgentToActivePool SIZE).mHighWater = ts.mHighWater
      ∧ (∀ i, i < ts.mIndexFree →
          (ts.addFreeAgentToActivePool SIZE).getTransition i = ts.getTransition i)
      ∧ (ts.addFreeAgentToActivePool SIZE).getTransition
            ((ts.addFreeAgentToActivePool SIZE).mIndexPrior - 1)
          = ts.getTransition ts.mIndexFree)
    ∧ (SIZE ≤ ts.mIndexFree → ts.addFreeAgentToActivePool SIZE = ts) := by
  constructor
  · intro h
    have e : ts.addFreeAgentToActivePool SIZE
        = { ts with mIndexFree := ts.mIndexFree + 1, mIndexPrior := ts.mIndexFree + 1,
                    mIndexCandidates := ts.mIndexFree + 1 } := by
      unfold TransitionStorage.addFreeAgentToActivePool
      rw [if_neg (by omega)]
    rw [e]
    exact ⟨rfl, rfl, rfl, rfl, rfl, rfl, fun _ _ => rfl, rfl⟩
  · intro h
    unfold TransitionStorage.addFreeAgentToActivePool
    rw [if_pos h]

/-- The theorem of C23 at the example pool after its candidates were
dropped: the entry at index 1 becomes the last Active transition. -/
theorem C23_addFreeAgentToActivePool_witness :
    (examplePool.resetCandidatePool.addFreeAgentToActivePool 8).mIndexFree = 2
    ∧ (examplePool.resetCandidatePool.addFreeAgentToActivePool 8).mIndexPrior = 2
    ∧ (examplePool.resetCandidatePool.addFreeAgentToActivePool 8).mIndexCandidates = 2 :=
  have h := (C23_addFreeAgentToActivePool 8 examplePool.resetCandidatePool).1 (by decide)
  ⟨h.1, h.2.1, h.2.2.1⟩

/-- C24 (counterexample): the pool of the Los Angeles processor after the year
2018 was cached has the high-water mark 5; TransitionStorage::init sets the
three indexes to 0 but leaves the high-water mark at 5. -/
theorem C24_counterexample :
    losAngeles2018.mTransitionStorage.getHighWater = 5
    ∧ (losAngeles2018.mTransitionStorage.init kMaxTransitions).indexes = (0, 0, 0)
    ∧ (losAngeles2018.mTransitionStorage.init kMaxTransitions).getHighWater = 5 := by
  decide

/-- C24 (amended): for every pool state, TransitionStorage::init sets iPrior,
iCand and iFree to 0 and points entry i of the pointer vector to slot i (all
four regions re-established with every slot free); it leaves the slots and the
high-water mark unchanged. The high-water mark is reset to 0 only by
resetHighWater, which changes nothing else. -/
theorem C24_init_keeps_highWater (SIZE : Nat) (ts : TransitionStorage) :
    (ts.init SIZE).mIndexPrior = 0 ∧ (ts.init SIZE).mIndexCandidates = 0
    ∧ (ts.init SIZE).mIndexFree = 0
    ∧ (ts.init SIZE).mTransitions.length = SIZE
    ∧ (∀ i, i < SIZE → (ts.init SIZE).slotAt i = some i)
    ∧ (ts.init SIZE).mPool = ts.mPool
    ∧ (ts.init SIZE).getHighWater = ts.getHighWater
    ∧ ts.resetHighWater.getHighWater = 0
    ∧ ts.resetHighWater = { ts with mHighWater := 0 } := by
  refine ⟨rfl, rfl, rfl, ?_, ?_, rfl, rfl, rfl, rfl⟩
  · show (List.range SIZE).length = SIZE
    exact List.length_range SIZE
  · intro i hi
    show (List.range SIZE)[i]? = some i
    rw [List.getElem?_eq_getElem (by rw [List.length_range]; exact hi), List.getElem_range]

/-- The theorem of C24 at the example pool: after init entry 3 of the pointer
vector points to slot 3 and the high-water mark is still 5. -/
theorem C24_init_keeps_highWater_witness :
    (examplePool.init 8).slotAt 3 = some 3 ∧ (examplePool.init 8).getHighWater = 5 :=
  ⟨(C24_init_keeps_highWater 8 examplePool).2.2.2.2.1 3 (by decide),
   (C24_init_keeps_highWater 8 examplePool).2.2.2.2.2.2.1.trans (by decide)⟩

/-! ## C27: the sync period of SystemClockCoroutine -/

namespace SystemClockCoroutine

/-- A loop cycle does not change the configured period. -/
theorem runCycle_syncPeriod (c : SystemClockCoroutine) (r : Bool) :
    (c.runCycle r).mSyncPeriodSeconds = c.mSyncPeriodSeconds := by
  unfold runCycle
  cases r <;> simp only [kStatusOk, kStatusTimedOut] <;> split_ifs <;> simp_all

/-- A loop cycle with a successful sync sets the current period to the
configured period. -/
theorem runCycle_ok (c : SystemClockCoroutine) :
    (c.runCycle true).mCurrentSyncPeriodSeconds = c.mSyncPeriodSeconds := by
  unfold runCycle
  simp [kStatusOk, kStatusTimedOut]

/-- A loop cycle with a timed-out request. -/
theorem runCycle_timedOut (c : SystemClockCoroutine) :
    (c.runCycle false).mCurrentSyncPeriodSeconds
      = if c.mCurrentSyncPeriodSeconds ≥ c.mSyncPeriodSeconds / 2 then c.mSyncPeriodSeconds
        else (c.mCurrentSyncPeriodSeconds * 2) % 65536 := by
  unfold runCycle
  simp only [kStatusOk, kStatusTimedOut]
  split_ifs <;> simp_all

/-- Loop cycles do not change the configured period. -/
theorem runCycles_syncPeriod (rs : List Bool) (c : SystemClockCoroutine) :
    (c.runCycles rs).mSyncPeriodSeconds = c.mSyncPeriodSeconds := by
  induction rs generalizing c with
  | nil => rfl
  | cons r rest ih =>
    show ((c.runCycle r).runCycles rest).mSyncPeriodSeconds = _
    rw [ih, runCycle_syncPeriod]

/-- After a loop cycle the current period is at most the configured one. -/
theorem runCycle_le (c : SystemClockCoroutine) (r : Bool) :
    (c.runCycle r).mCurrentSyncPeriodSeconds ≤ (c.runCycle r).mSyncPeriodSeconds := by
  rw [runCycle_syncPeriod]
  cases r
  · rw [runCycle_timedOut]
    split_ifs with h1
    · exact le_refl _
    · have := Nat.mod_le (c.mCurrentSyncPeriodSeconds * 2) 65536
      omega
  · rw [runCycle_ok]

/-- A current period that is at most the configured one stays so in every
later cycle. -/
theorem runCycles_le (rs : List Bool) (c : SystemClockCoroutine)
    (h : c.mCurrentSyncPeriodSeconds ≤ c.mSyncPeriodSeconds) :
    (c.runCycles rs).mCurrentSyncPeriodSeconds ≤ c.mSyncPeriodSeconds := by
  induction rs generalizing c with
  | nil => exact h
  | cons r rest ih =>
    show ((c.runCycle r).runCycles rest).mCurrentSyncPeriodSeconds ≤ _
    have := ih (c.runCycle r) (runCycle_le c r)
    rwa [runCycle_syncPeriod] at this

/-- A current period equal to the configured one is a fixed point of the
cycle. -/
theorem runCycle_fixed (c : SystemClockCoroutine) (r : Bool)
    (h : c.mCurrentSyncPeriodSeconds = c.mSyncPeriodSeconds) :
    (c.runCycle r).mCurrentSyncPeriodSeconds = c.mSyncPeriodSeconds := by
  cases r
  · rw [runCycle_timedOut, if_pos (by omega)]
  · rw [runCycle_ok]

/-- A current period equal to the configured one stays so in every later
cycle. -/
theorem runCycles_fixed (rs : List Bool) (c : SystemClockCoroutine)
    (h : c.mCurrentSyncPeriodSeconds = c.mSyncPeriodSeconds) :
    (c.runCycles rs).mCurrentSyncPeriodSeconds = c.mSyncPeriodSeconds := by
  induction rs generalizing c with
  | nil => exact h
  | cons r rest ih =>
    show ((c.runCycle r).runCycles rest).mCurrentSyncPeriodSeconds = _
    have := ih (c.runCycle r) (by rw [runCycle_syncPeriod]; exact runCycle_fixed c r h)
    rwa [runCycle_syncPeriod] at this

/-- After a timed-out cycle of a period that had reached half the configured
one, every further timeout leaves the configured period. -/
theorem runCycles_timedOut_of_half (c : SystemClockCoroutine)
    (h : c.mSyncPeriodSeconds / 2 ≤ c.mCurrentSyncPeriodSeconds) (m : Nat) (hm : 1 ≤ m) :
    (c.runCycles (List.replicate m false)).mCurrentSyncPeriodSeconds
      = c.mSyncPeriodSeconds := by
  obtain ⟨m, rfl⟩ : ∃ k, m = k + 1 := ⟨m - 1, by omega⟩
  show ((c.runCycle false).runCycles (List.replicate m false)).mCurrentSyncPeriodSeconds = _
  have e : (c.runCycle false).mCurrentSyncPeriodSeconds = c.mSyncPeriodSeconds := by
    rw [runCycle_timedOut, if_pos h]
  have := runCycles_fixed (List.replicate m false) (c.runCycle false)
    (by rw [runCycle_syncPeriod]; exact e)
  rwa [runCycle_syncPeriod] at this

/-- Under consecutive timeouts the current period doubles until it reaches the
configured period. -/
theorem runCycles_backoff (k : Nat) (c : SystemClockCoroutine)
    (hS : c.mSyncPeriodSeconds < 65536)
    (hk : c.mSyncPeriodSeconds / 2 ≤ c.mCurrentSyncPeriodSeconds * 2 ^ k) :
    ∃ n, 1 ≤ n ∧ n ≤ k + 1
      ∧ (∀ j, j < n → (c.runCycles (List.replicate j false)).mCurrentSyncPeriodSeconds
            = c.mCurrentSyncPeriodSeconds * 2 ^ j)
      ∧ (∀ m, n ≤ m → (c.runCycles (List.replicate m false)).mCurrentSyncPeriodSeconds
            = c.mSyncPeriodSeconds) := by
  induction k generalizing c with
  | zero =>
    refine ⟨1, le_refl _, le_refl _, ?_, ?_⟩
    · intro j hj
      obtain rfl : j = 0 := by omega
      show c.mCurrentSyncPeriodSeconds = _
      simp
    · intro m hm
      exact runCycles_timedOut_of_half c (by simpa using hk) m hm
  | succ k ih =>
    by_cases hh : c.mSyncPeriodSeconds / 2 ≤ c.mCurrentSyncPeriodSeconds
    · refine ⟨1, le_refl _, by omega, ?_, ?_⟩
      · intro j hj
        obtain rfl : j = 0 := by omega
        show c.mCurrentSyncPeriodSeconds = _
        simp
      · intro m hm
        exact runCycles_timedOut_of_half c hh m hm
    · have e : (c.runCycle false).mCurrentSyncPeriodSeconds
          = c.mCurrentSyncPeriodSeconds * 2 := by
        rw [runCycle_timedOut, if_neg (by omega)]
        exact Nat.mod_eq_of_lt (by omega)
      have es := runCycle_syncPeriod c false
      obtain ⟨n, hn1, hn2, hdbl, hfix⟩ := ih (c.runCycle false) (by rw [es]; exact hS)
        (by rw [es, e]; rw [pow_succ] at hk; calc c.mSyncPeriodSeconds / 2
              ≤ c.mCurrentSyncPeriodSeconds * (2 ^ k * 2) := hk
            _ = c.mCurrentSyncPeriodSeconds * 2 * 2 ^ k := by ring)
      refine ⟨n + 1, by omega, by omega, ?_, ?_⟩
      · intro j hj
        cases j with
        | zero =>
          show c.mCurrentSyncPeriodSeconds = _
          simp
        | succ j =>
          show ((c.runCycle false).runCycles (List.replicate j false)).mCurrentSyncPeriodSeconds
            = _
          rw [hdbl j (by omega), e, pow_succ]
          ring
      · intro m hm
        obtain ⟨m, rfl⟩ : ∃ i, m = i + 1 := ⟨m - 1, by omega⟩
        show ((c.runCycle false).runCycles (List.replicate m false)).mCurrentSyncPeriodSeconds
            = _
        rw [hfix m (by omega), es]

end SystemClockCoroutine

/-- C27: for every state of the coroutine whose configured period S fits the
16-bit member it is stored in, with the current period c: a loop cycle with a
successful sync sets c = S; a cycle with a timed-out request sets c = S if
c >= S/2 and c = 2c otherwise; the configured period is never changed. Under
consecutive timeouts from any c0 >= 1 there is a number n of cycles, between 1
and 16, such that the period is c0 * 2^j after j < n cycles and S after every
number m >= n of cycles. Once c <= S it stays <= S, and once c == S it stays
S, under every later sequence of successes and timeouts. -/
theorem C27_sync_period_backoff (c : SystemClockCoroutine)
    (hS : c.mSyncPeriodSeconds < 65536) :
    (c.runCycle true).mCurrentSyncPeriodSeconds = c.mSyncPeriodSeconds
    ∧ (c.runCycle false).mCurrentSyncPeriodSeconds
        = (if c.mCurrentSyncPeriodSeconds ≥ c.mSyncPeriodSeconds / 2 then c.mSyncPeriodSeconds
           else 2 * c.mCurrentSyncPeriodSeconds)
    ∧ (∀ rs, (c.runCycles rs).mSyncPeriodSeconds = c.mSyncPeriodSeconds)
    ∧ (1 ≤ c.mCurrentSyncPeriodSeconds →
        ∃ n, 1 ≤ n ∧ n ≤ 16
          ∧ (∀ j, j < n → (c.runCycles (List.replicate j false)).mCurrentSyncPeriodSeconds
                = c.mCurrentSyncPeriodSeconds * 2 ^ j)
          ∧ (∀ m, n ≤ m → (c.runCycles (List.replicate m false)).mCurrentSyncPeriodSeconds
                = c.mSyncPeriodSeconds))
    ∧ (c.mCurrentSyncPeriodSeconds ≤ c.mSyncPeriodSeconds →
        ∀ rs, (c.runCycles rs).mCurrentSyncPeriodSeconds ≤ c.mSyncPeriodSeconds)
    ∧ (c.mCurrentSyncPeriodSeconds = c.mSyncPeriodSeconds →
        ∀ rs, (c.runCycles rs).mCurrentSyncPeriodSeconds = c.mSyncPeriodSeconds) := by
  refine ⟨SystemClockCoroutine.runCycle_ok c, ?_,
    fun rs => SystemClockCoroutine.runCycles_syncPeriod rs c, ?_,
    fun h rs => SystemClockCoroutine.runCycles_le rs c h,
    fun h rs => SystemClockCoroutine.runCycles_fixed rs c h⟩
  · rw [SystemClockCoroutine.runCycle_timedOut]
    split_ifs with h
    · rfl
    · rw [Nat.mod_eq_of_lt (by omega)]
      ring
  · intro h1
    obtain ⟨n, hn1, hn2, hd, hf⟩ := SystemClockCoroutine.runCycles_backoff 15 c hS
      (by
        have : c.mCurrentSyncPeriodSeconds * 2 ^ 15 = c.mCurrentSyncPeriodSeconds * 32768 := by
          norm_num
        omega)
    exact ⟨n, hn1, by omega, hd, hf⟩

/-- The theorem of C27 at the configured period of one hour and the current
period of 5 seconds: a timeout doubles the period to 10 seconds and a success
sets it to 3600. -/
theorem C27_sync_period_backoff_witness :
    ({ mSyncPeriodSeconds := 3600, mCurrentSyncPeriodSeconds := 5,
       mRequestStatus := 0 } : SystemClockCoroutine).mSyncPeriodSeconds < 65536
    ∧ (SystemClockCoroutine.runCycle
        { mSyncPeriodSeconds := 3600, mCurrentSyncPeriodSeconds := 5, mRequestStatus := 0 }
        true).mCurrentSyncPeriodSeconds = 3600
    ∧ (SystemClockCoroutine.runCycle
        { mSyncPeriodSeconds := 3600, mCurrentSyncPeriodSeconds := 5, mRequestStatus := 0 }
        false).mCurrentSyncPeriodSeconds = 10 :=
  have h := C27_sync_period_backoff
    { mSyncPeriodSeconds := 3600, mCurrentSyncPeriodSeconds := 5, mRequestStatus := 0 }
    (by decide)
  ⟨by decide, h.1, h.2.1⟩

/-! ## C26: TimeOffset::forOffsetString -/

/-- A C string can be read at every index up to its NUL. -/
theorem cstrAt_of_le (s : List Char) (i : Nat) (h : i ≤ s.length) :
    ∃ c, cstrAt s i = some c := by
  unfold cstrAt
  by_cases h1 : i < s.length
  · rw [if_pos h1]
    exact ⟨s[i], List.getElem?_eq_getElem h1⟩
  · rw [if_neg h1, if_pos (by omega)]
    exact ⟨NUL, rfl⟩

/-- The hour or minute that `forOffsetStringChainable` computes from two digit
characters, and its negation, as passed to `forHourMinute`. -/
theorem digitByte_decimal (c1 c2 : Char) (h1 : isDecimalDigit c1) (h2 : isDecimalDigit c2) :
    wrap8 (((10 * digitByte c1 + digitByte c2) % 256 : Nat) : Int) = decimalValue c1 c2
    ∧ wrap8 (-(((10 * digitByte c1 + digitByte c2) % 256 : Nat) : Int))
        = -decimalValue c1 c2 := by
  unfold isDecimalDigit at h1 h2
  have e0 : '0'.toNat = 48 := by decide
  unfold digitByte decimalValue wrap8
  rw [e0]
  omega

/-- The parse of the six characters of an offset string. -/
theorem TimeOffset.forOffsetStringChainable_six (sign h1 h2 sep m1 m2 : Char)
    (hs : sign = '+' ∨ sign = '-')
    (d1 : isDecimalDigit h1) (d2 : isDecimalDigit h2)
    (d3 : isDecimalDigit m1) (d4 : isDecimalDigit m2) :
    TimeOffset.forOffsetStringChainable [sign, h1, h2, sep, m1, m2] 0
      = some (if sign = '+' then
                TimeOffset.forHourMinute (decimalValue h1 h2) (decimalValue m1 m2)
              else TimeOffset.forHourMinute (-decimalValue h1 h2) (-decimalValue m1 m2), 7) := by
  have eh := digitByte_decimal h1 h2 d1 d2
  have em := digitByte_decimal m1 m2 d3 d4
  have hsign : ¬ (sign ≠ '-' ∧ sign ≠ '+') := by
    rcases hs with h | h <;> simp [h]
  unfold TimeOffset.forOffsetStringChainable
  simp only [cstrAt, List.length_cons, List.length_nil]
  simp only [Nat.reduceAdd, Nat.reduceLT, if_true, List.getElem?_cons_zero,
    List.getElem?_cons_succ, Option.bind_some, Option.some_bind, if_neg hsign]
  rw [eh.1, eh.2, em.1, em.2]
  split_ifs <;> rfl

/-- C26 (code bug): TimeOffset::forOffsetString returns the error offset for
every string whose length is not 6 and for every string whose first character
is neither + nor -; for the six characters +hh:mm with decimal digits it
returns forHourMinute(hh, mm) and for -hh:mm it returns forHourMinute(-hh,
-mm). forOffsetStringChainable leaves the caller's string pointer unchanged on
an invalid sign, but on a valid sign it advances the pointer by 7 characters,
not 6: for a string of exactly 6 characters the pointer ends one character
beyond the terminating NUL. -/
theorem C26_forOffsetStringChainable_advances_by_seven :
    (∀ s : List Char, s.length ≠ 6 → TimeOffset.forOffsetString s = some TimeOffset.forError)
    ∧ (∀ (s : List Char) (c : Char), cstrAt s 0 = some c → c ≠ '+' → c ≠ '-' →
        TimeOffset.forOffsetString s = some TimeOffset.forError)
    ∧ (∀ h1 h2 sep m1 m2 : Char,
        isDecimalDigit h1 → isDecimalDigit h2 → isDecimalDigit m1 → isDecimalDigit m2 →
        TimeOffset.forOffsetString ['+', h1, h2, sep, m1, m2]
          = some (TimeOffset.forHourMinute (decimalValue h1 h2) (decimalValue m1 m2))
        ∧ TimeOffset.forOffsetString ['-', h1, h2, sep, m1, m2]
          = some (TimeOffset.forHourMinute (-decimalValue h1 h2) (-decimalValue m1 m2)))
    ∧ (∀ (s : List Char) (pos : Nat) (c : Char), cstrAt s pos = some c → c ≠ '+' → c ≠ '-' →
        TimeOffset.forOffsetStringChainable s pos = some (TimeOffset.forError, pos))
    ∧ (∀ (s : List Char) (pos : Nat) (c : Char), cstrAt s pos = some c → (c = '+' ∨ c = '-') →
        pos + 5 ≤ s.length →
        ∃ offset, TimeOffset.forOffsetStringChainable s pos = some (offset, pos + 7))
    ∧ TimeOffset.forOffsetStringChainable ['+', '0', '1', ':', '3', '0'] 0
        = some (TimeOffset.forHourMinute 1 30, 7) := by
  have hbad : ∀ (s : List Char) (pos : Nat) (c : Char), cstrAt s pos = some c → c ≠ '+' →
      c ≠ '-' → TimeOffset.forOffsetStringChainable s pos = some (TimeOffset.forError, pos) := by
    intro s pos c hc h1 h2
    unfold TimeOffset.forOffsetStringChainable
    simp only [hc, Option.some_bind]
    rw [if_pos ⟨h2, h1⟩]
  refine ⟨?_, ?_, ?_, hbad, ?_, ?_⟩
  · intro s hs
    unfold TimeOffset.forOffsetString
    exact if_pos hs
  · intro s c hc h1 h2
    unfold TimeOffset.forOffsetString
    split_ifs
    · rfl
    · rw [hbad s 0 c hc h1 h2]
      rfl
  · intro h1 h2 sep m1 m2 d1 d2 d3 d4
    constructor
    · unfold TimeOffset.forOffsetString
      rw [if_neg (by simp [TimeOffset.kTimeOffsetStringLength]),
        TimeOffset.forOffsetStringChainable_six '+' h1 h2 sep m1 m2 (Or.inl rfl) d1 d2 d3 d4]
      rfl
    · unfold TimeOffset.forOffsetString
      rw [if_neg (by simp [TimeOffset.kTimeOffsetStringLength]),
        TimeOffset.forOffsetStringChainable_six '-' h1 h2 sep m1 m2 (Or.inr rfl) d1 d2 d3 d4]
      rfl
  · intro s pos c hc hs hlen
    obtain ⟨c1, e1⟩ := cstrAt_of_le s (pos + 1) (by omega)
    obtain ⟨c2, e2⟩ := cstrAt_of_le s (pos + 1 + 1) (by omega)
    obtain ⟨c4, e4⟩ := cstrAt_of_le s (pos + 1 + 1 + 1 + 1) (by omega)
    obtain ⟨c5, e5⟩ := cstrAt_of_le s (pos + 1 + 1 + 1 + 1 + 1) (by omega)
    have hsign : ¬ (c ≠ '-' ∧ c ≠ '+') := by
      rcases hs with h | h <;> simp [h]
    unfold TimeOffset.forOffsetStringChainable
    simp only [hc, e1, e2, e4, e5, Option.some_bind, if_neg hsign]
    split_ifs
    · exact ⟨_, rfl⟩
    · exact ⟨_, rfl⟩
  · have h := TimeOffset.forOffsetStringChainable_six '+' '0' '1' ':' '3' '0' (Or.inl rfl)
      (by decide) (by decide) (by decide) (by decide)
    rw [h]
    rfl

/-- The theorem of C26 at the strings +01:30 and 01:30: the first is parsed
from index 0 to the index 7, the second is an error. -/
theorem C26_forOffsetStringChainable_advances_by_seven_witness :
    TimeOffset.forOffsetStringChainable ['+', '0', '1', ':', '3', '0'] 0
        = some (TimeOffset.forHourMinute 1 30, 7)
    ∧ TimeOffset.forOffsetString ['0', '1', ':', '3', '0']
        = some TimeOffset.forError :=
  ⟨C26_forOffsetStringChainable_advances_by_seven.2.2.2.2.2,
   C26_forOffsetStringChainable_advances_by_seven.1 ['0', '1', ':', '3', '0'] (by decide)⟩

/-! ## C25: Transition::letter -/

/-- A printable ASCII byte is not the NUL character. -/
theorem ofNat_ne_NUL (n : Nat) (h1 : 32 ≤ n) (h2 : n ≤ 127) : Char.ofNat n ≠ NUL := by
  interval_cases n <;> decide

/-- The fields of a transition made by `createTransitionForYear` that
`letter` reads. -/
theorem createTransitionForYear_letterBuf (t0 : Transition) (year : Int) (r : ZoneRule)
    (mp : Nat) (m : ZoneMatch) :
    (createTransitionForYear t0 year (some r) mp m).rule = some r
    ∧ (createTransitionForYear t0 year (some r) mp m).matchPtr = some mp
    ∧ (createTransitionForYear t0 year (some r) mp m).letterBuf
        = (if 32 ≤ r.letter ∧ r.letter ≠ '-'.toNat then (Char.ofNat r.letter, NUL)
           else (NUL, t0.letterBuf.2)) := by
  unfold createTransitionForYear
  simp only [ge_iff_le]
  split_ifs with h1 h2 h3 h4 <;> first | exact ⟨rfl, rfl, rfl⟩ | (exfalso; tauto)

/-- C25: for every transition populated by createTransitionForYear from a rule
and a match that its match pointer refers to: letter() returns null when the
rule is absent. With a rule whose letter byte is printable ASCII (32..127) it
returns the string held in letterBuf, which is the one-character string of
that byte, and the empty string when the byte is the minus sign. With a rule
whose letter byte is an index (< 32) into the letter strings of the policy of
the match's era, it returns the policy's string at that index when the index
is below the number of letter strings, and the empty string, for any content
of the policy's letter list, when the index is not below it. -/
theorem C25_letter (t0 : Transition) (year : Int) (rule : Option ZoneRule) (mp : Nat)
    (m : ZoneMatch) (matchArr : List ZoneMatch) (hm : matchArr[mp]? = some m) :
    (rule = none → (createTransitionForYear t0 year rule mp m).letter matchArr = some none)
    ∧ (∀ r, rule = some r → 32 ≤ r.letter → r.letter ≤ 127 →
        (createTransitionForYear t0 year rule mp m).letter matchArr
          = some (createTransitionForYear t0 year rule mp m).letterBufStr
        ∧ (createTransitionForYear t0 year rule mp m).letter matchArr
          = some (some (if r.letter = '-'.toNat then [] else [Char.ofNat r.letter])))
    ∧ (∀ r policy, rule = some r → r.letter < 32 → m.era.zonePolicy = some policy →
        (∀ h : r.letter < policy.letters.length,
          (createTransitionForYear t0 year rule mp m).letter matchArr
            = some (some (policy.letters.get ⟨r.letter, h⟩)))
        ∧ (policy.letters.length ≤ r.letter →
          (createTransitionForYear t0 year rule mp m).letter matchArr = some (some []))) := by
  refine ⟨?_, ?_, ?_⟩
  · rintro rfl
    rfl
  · rintro r rfl h1 h2
    obtain ⟨e1, e2, e3⟩ := createTransitionForYear_letterBuf t0 year r mp m
    have hs : (createTransitionForYear t0 year (some r) mp m).letterBufStr
        = some (if r.letter = '-'.toNat then [] else [Char.ofNat r.letter]) := by
      unfold Transition.letterBufStr
      by_cases hd : r.letter = '-'.toNat
      · rw [if_neg (show ¬ (32 ≤ r.letter ∧ r.letter ≠ '-'.toNat) by tauto)] at e3
        rw [e3, if_pos hd]
        simp
      · rw [if_pos (show 32 ≤ r.letter ∧ r.letter ≠ '-'.toNat from ⟨h1, hd⟩)] at e3
        rw [e3, if_neg hd]
        simp [ofNat_ne_NUL r.letter h1 h2]
    have hl : (createTransitionForYear t0 year (some r) mp m).letter matchArr
        = ((createTransitionForYear t0 year (some r) mp m).letterBufStr).map some := by
      unfold Transition.letter
      rw [e1]
      simp only [ge_iff_le, if_pos h1]
    rw [hl, hs]
    exact ⟨rfl, rfl⟩
  · rintro r policy rfl h1 hp
    obtain ⟨e1, e2, e3⟩ := createTransitionForYear_letterBuf t0 year r mp m
    have hs : (createTransitionForYear t0 year (some r) mp m).letterBufStr = some [] := by
      unfold Transition.letterBufStr
      rw [if_neg (show ¬ (32 ≤ r.letter ∧ r.letter ≠ '-'.toNat) by omega)] at e3
      rw [e3]
      simp
    have hl : (createTransitionForYear t0 year (some r) mp m).letter matchArr
        = (if r.letter ≥ policy.letters.length then
            ((createTransitionForYear t0 year (some r) mp m).letterBufStr).map some
           else (policy.letters[r.letter]?).map some) := by
      unfold Transition.letter
      rw [e1]
      simp only [ge_iff_le, if_neg (show ¬ 32 ≤ r.letter by omega), e2, Option.some_bind, hm,
        hp]
    rw [hl, hs]
    constructor
    · intro h
      rw [if_neg (by omega), List.getElem?_eq_getElem h]
      rfl
    · intro h
      rw [if_pos h]
      rfl

/-- The theorem of C25 at a rule of the monthly policy with the letter D and
the match of the monthly zone: the letter string is D. -/
theorem C25_letter_witness :
    (createTransitionForYear blankTransition 18 (some (monthlyRule 3 4 'D')) 0
        monthlyMatch).letter [monthlyMatch] = some (some ['D']) :=
  ((C25_letter blankTransition 18 (some (monthlyRule 3 4 'D')) 0 monthlyMatch [monthlyMatch]
    rfl).2.1 (monthlyRule 3 4 'D') rfl (by decide) (by decide)).2

/-! ## C30: the fuzzy and the precise comparison with a match -/

/-- The month count of a normalized tuple is within one month of that of the
tuple, and its month is a month of the calendar. -/
theorem normalizeDateTuple_months (dt : DateTuple) (hv : dt.validDate)
    (hhi : ¬ (dt.yearTiny = 127 ∧ dt.month = 12 ∧ dt.day = 31))
    (hlo : ¬ (dt.yearTiny = -128 ∧ dt.month = 1 ∧ dt.day = 1)) :
    dt.months - 1 ≤ (normalizeDateTuple dt).months
    ∧ (normalizeDateTuple dt).months ≤ dt.months + 1
    ∧ 1 ≤ (normalizeDateTuple dt).month ∧ (normalizeDateTuple dt).month ≤ 12 := by
  obtain ⟨⟨hm1, hm2, hd1, hd2⟩, hy0, hy1⟩ := hv
  simp only [LocalDate.forTinyComponents] at hm1 hm2 hd1 hd2
  have hdm := LocalDate.daysInMonth_cases
    (LocalDate.year { yearTiny := dt.yearTiny, month := dt.month, day := dt.day }) dt.month
  unfold normalizeDateTuple incrementOneDay decrementOneDay DateTuple.months
  simp only [LocalDate.forTinyComponents]
  split_ifs <;> (try simp only) <;> (try unfold wrap8) <;> omega

/-- The three tuples of `expandDateTuple` are within one month of the tuple
they are made from. -/
theorem expandDateTuple_months (tt : DateTuple) (o d : Int) (hv : tt.validDate)
    (hhi : ¬ (tt.yearTiny = 127 ∧ tt.month = 12 ∧ tt.day = 31))
    (hlo : ¬ (tt.yearTiny = -128 ∧ tt.month = 1 ∧ tt.day = 1)) :
    ∀ e, (e = (expandDateTuple tt o d).1 ∨ e = (expandDateTuple tt o d).2.1
        ∨ e = (expandDateTuple tt o d).2.2) →
      tt.months - 1 ≤ e.months ∧ e.months ≤ tt.months + 1 ∧ 1 ≤ e.month ∧ e.month ≤ 12 := by
  have key : ∀ (x : Int) (c : Char),
      tt.months - 1 ≤ (normalizeDateTuple ⟨tt.yearTiny, tt.month, tt.day, x, c⟩).months
      ∧ (normalizeDateTuple ⟨tt.yearTiny, tt.month, tt.day, x, c⟩).months ≤ tt.months + 1
      ∧ 1 ≤ (normalizeDateTuple ⟨tt.yearTiny, tt.month, tt.day, x, c⟩).month
      ∧ (normalizeDateTuple ⟨tt.yearTiny, tt.month, tt.day, x, c⟩).month ≤ 12 := fun x c =>
    normalizeDateTuple_months ⟨tt.yearTiny, tt.month, tt.day, x, c⟩ hv hhi hlo
  have kself := normalizeDateTuple_months tt hv hhi hlo
  have kw := key tt.timeCode 'w'
  intro e he
  unfold expandDateTuple at he
  split_ifs at he with hs hu
  · rcases he with rfl | rfl | rfl
    · exact key _ _
    · exact kself
    · exact key _ _
  · rcases he with rfl | rfl | rfl
    · exact key _ _
    · exact key _ _
    · exact kself
  · rcases he with rfl | rfl | rfl
    · exact kw
    · exact key _ _
    · exact key _ _

/-- A tuple that is not before another one, by the lexicographic order, does
not have a smaller month count. -/
theorem DateTuple.months_le_of_not_lt (a b : DateTuple) (h : a.lt b = false)
    (ha : 1 ≤ a.month) (hb : b.month ≤ 12) : b.months ≤ a.months := by
  rw [← Bool.not_eq_true, DateTuple.lt_iff] at h
  unfold DateTuple.months
  omega

/-- A tuple that is before another one, by the lexicographic order, does not
have a larger month count. -/
theorem DateTuple.months_le_of_lt (a b : DateTuple) (h : a.lt b = true)
    (ha : a.month ≤ 12) (hb : 1 ≤ b.month) : a.months ≤ b.months := by
  rw [DateTuple.lt_iff] at h
  unfold DateTuple.months
  omega

/-- The values of the fuzzy comparison. -/
theorem compareTransitionToMatchFuzzy_eq (t : Transition) (m : ZoneMatch) :
    compareTransitionToMatchFuzzy t m
      = (if t.transitionTime.months < m.startDateTime.months - 1 then -1
         else if m.untilDateTime.months + 2 ≤ t.transitionTime.months then 2 else 1) := rfl

/-- C30: for every candidate transition t whose transitionTime has a valid
date (not the last day of the tiny year 127 nor the first day of the tiny year
-128), every offsetCode and deltaCode, and every match with a start month of
at most 12 and an until month of at least 1: if compareTransitionToMatch
applied to t after expandDateTuple(t.transitionTime, offsetCode, deltaCode)
returns 1 (within the match), or returns 0 (equal to start) for a match whose
start is not later than its until, then compareTransitionToMatchFuzzy applied
to t before the expansion returns 1. For every transition and match,
compareTransitionToMatchFuzzy returns -1 iff ttMonths < matchStartMonths - 1,
else 2 iff matchUntilMonths + 2 <= ttMonths, else 1, with months counted as
yearTiny*12 + month, and never 0. -/
theorem C30_fuzzy_keeps_precise (t : Transition) (m : ZoneMatch) (o d : Int)
    (hv : t.transitionTime.validDate)
    (hhi : ¬ (t.transitionTime.yearTiny = 127 ∧ t.transitionTime.month = 12
      ∧ t.transitionTime.day = 31))
    (hlo : ¬ (t.transitionTime.yearTiny = -128 ∧ t.transitionTime.month = 1
      ∧ t.transitionTime.day = 1))
    (hs : m.startDateTime.month ≤ 12) (hu : 1 ≤ m.untilDateTime.month) :
    (compareTransitionToMatch (t.expanded o d) m = 1 → compareTransitionToMatchFuzzy t m = 1)
    ∧ (compareTransitionToMatch (t.expanded o d) m = 0 →
        m.startDateTime.le m.untilDateTime = true → compareTransitionToMatchFuzzy t m = 1)
    ∧ compareTransitionToMatchFuzzy t m
        = (if t.transitionTime.months < m.startDateTime.months - 1 then -1
           else if m.untilDateTime.months + 2 ≤ t.transitionTime.months then 2 else 1)
    ∧ compareTransitionToMatchFuzzy t m ≠ 0 := by
  have hexp := expandDateTuple_months t.transitionTime o d hv hhi hlo
  -- the tuple compared with the start of the match
  obtain ⟨X, hX, eX⟩ : ∃ X, (X = (expandDateTuple t.transitionTime o d).1
        ∨ X = (expandDateTuple t.transitionTime o d).2.1
        ∨ X = (expandDateTuple t.transitionTime o d).2.2)
      ∧ X = (if m.startDateTime.modifier = 's' then (t.expanded o d).transitionTimeS
          else if m.startDateTime.modifier = 'u' then (t.expanded o d).transitionTimeU
          else (t.expanded o d).transitionTime) := by
    refine ⟨_, ?_, rfl⟩
    unfold Transition.expanded
    split_ifs
    · exact Or.inr (Or.inl rfl)
    · exact Or.inr (Or.inr rfl)
    · exact Or.inl rfl
  -- the tuple compared with the end of the match
  obtain ⟨Y, hY, eY⟩ : ∃ Y, (Y = (expandDateTuple t.transitionTime o d).1
        ∨ Y = (expandDateTuple t.transitionTime o d).2.1
        ∨ Y = (expandDateTuple t.transitionTime o d).2.2)
      ∧ Y = (if m.untilDateTime.modifier = 's' then (t.expanded o d).transitionTimeS
          else if m.untilDateTime.modifier = 'u' then (t.expanded o d).transitionTimeU
          else (t.expanded o d).transitionTime) := by
    refine ⟨_, ?_, rfl⟩
    unfold Transition.expanded
    split_ifs
    · exact Or.inr (Or.inl rfl)
    · exact Or.inr (Or.inr rfl)
    · exact Or.inl rfl
  have hc : compareTransitionToMatch (t.expanded o d) m
      = (if X.lt m.startDateTime then -1
         else if X.eq m.startDateTime then 0
         else if Y.lt m.untilDateTime then 1 else 2) := by
    rw [eX, eY]
    rfl
  obtain ⟨hX1, hX2, hX3, hX4⟩ := hexp X hX
  obtain ⟨hY1, hY2, hY3, hY4⟩ := hexp Y hY
  refine ⟨?_, ?_, compareTransitionToMatchFuzzy_eq t m, ?_⟩
  · intro h
    rw [hc] at h
    rw [compareTransitionToMatchFuzzy_eq]
    by_cases hlt : X.lt m.startDateTime = true
    · rw [if_pos hlt] at h
      omega
    · rw [if_neg hlt] at h
      have hge := DateTuple.months_le_of_not_lt X m.startDateTime (by simpa using hlt) hX3 hs
      rw [if_neg (by omega)]
      by_cases heq : X.eq m.startDateTime = true
      · rw [if_pos heq] at h
        omega
      · rw [if_neg heq] at h
        by_cases hyl : Y.lt m.untilDateTime = true
        · have := DateTuple.months_le_of_lt Y m.untilDateTime hyl hY4 hu
          rw [if_neg (by omega)]
        · rw [if_neg hyl] at h
          omega
  · intro h hle
    have hsu : m.startDateTime.months ≤ m.untilDateTime.months := by
      rw [DateTuple.le_iff] at hle
      unfold DateTuple.months
      omega
    rw [hc] at h
    rw [compareTransitionToMatchFuzzy_eq]
    by_cases hlt : X.lt m.startDateTime = true
    · rw [if_pos hlt] at h
      omega
    · rw [if_neg hlt] at h
      by_cases heq : X.eq m.startDateTime = true
      · have e := (DateTuple.eq_iff X m.startDateTime).mp heq
        rw [← e] at hsu
        rw [← e, if_neg (by omega), if_neg (by omega)]
      · rw [if_neg heq] at h
        split_ifs at h <;> omega
  · rw [compareTransitionToMatchFuzzy_eq]
    split_ifs <;> omega

/-- The theorem of C30 at a transition at 2018-03-11 02:00 wall time,
expanded with the offset -08:00, and the match of the monthly zone for 2018:
the precise comparison of the expanded transition returns 1 and so does the
fuzzy comparison. -/
theorem C30_fuzzy_keeps_precise_witness :
    compareTransitionToMatch
        (Transition.expanded
          { blankTransition with
            transitionTime :=
              { yearTiny := 18, month := 3, day := 11, timeCode := 8, modifier := 'w' } }
          (-32) 0)
        monthlyMatch = 1
    ∧ compareTransitionToMatchFuzzy
        { blankTransition with
          transitionTime :=
            { yearTiny := 18, month := 3, day := 11, timeCode := 8, modifier := 'w' } }
        monthlyMatch = 1 :=
  ⟨by decide,
   (C30_fuzzy_keeps_precise
      { blankTransition with
        transitionTime :=
          { yearTiny := 18, month := 3, day := 11, timeCode := 8, modifier := 'w' } }
      monthlyMatch (-32) 0 (by decide) (by decide) (by decide) (by decide) (by decide)).1
    (by decide)⟩

/-! ## C29: the start of a transition in generateStartUntilTimes -/

/-- After `generateStartUntilTimes` over distinct transitions, the start
fields of every transition of the range are those of the loop iteration on the
transition and its predecessor (the transition itself for the first one), read
in the pool after the call. -/
theorem generateStartUntilTimes_start (ts ts2 : TransitionStorage) (ms : List ZoneMatch)
    (begin_ end_ : Nat)
    (h : generateStartUntilTimes ts ms begin_ end_ = some ts2)
    (hdist : ∀ i, i < end_ → ∀ j, j < end_ → begin_ ≤ i → i < j →
      ts.slotAt i ≠ ts.slotAt j) :
    ∀ i, begin_ ≤ i → i < end_ →
      ∃ tp ti, ts2.getTransition (if i = begin_ then i else i - 1) = some tp
        ∧ ts2.getTransition i = some ti
        ∧ ti.transitionTimeS = (startUntilStep tp ti).transitionTimeS
        ∧ ti.startEpochSeconds = (startUntilStep tp ti).startEpochSeconds := by
  unfold generateStartUntilTimes at h
  simp only [Option.bind_eq_some] at h
  obtain ⟨prev0, hprev0, r, hl, prevT, hpT, mi, hmi, m, hm, hmod⟩ := h
  obtain ⟨hs, hk⟩ := generateStartUntilLoop_keeps _ _ _ _ _ _ hl
  obtain ⟨_, lfirst, lpairs⟩ := generateStartUntilLoop_links _ _ _ _ _ _ hl
    (fun i j h1 h2 h3 => hdist i (by omega) j (by omega) h1 h2) (fun hc => absurd hc (by simp))
  obtain ⟨p0, hp0, hq⟩ := TransitionStorage.deref_modify hmod
  have hs2 : ∀ i, ts2.slotAt i = ts.slotAt i := fun i =>
    (TransitionStorage.slotAt_modify hmod i).trans (hs i)
  rw [hpT] at hp0
  have e0 : prevT = p0 := Option.some.inj hp0
  subst e0
  -- the transition at an index before the call, after the loop and after the call
  have final : ∀ j c, ts.getTransition j = some c →
      ∃ c2 cf, r.1.getTransition j = some c2 ∧ ts2.getTransition j = some cf ∧ coreEq cf c
        ∧ cf.transitionTimeS = c2.transitionTimeS
        ∧ cf.startEpochSeconds = c2.startEpochSeconds := by
    intro j c hc
    obtain ⟨q, hq1, hq2⟩ := getTransition_eq_some.mp hc
    obtain ⟨c2, hc2, hcc, _, _⟩ := hk q c hq2
    have hr : r.1.getTransition j = some c2 :=
      getTransition_eq_some.mpr ⟨q, by rw [hs]; exact hq1, hc2⟩
    by_cases hcl : q = r.2
    · have e : c2 = prevT := by
        rw [hcl, hpT] at hc2; exact (Option.some.inj hc2).symm
      refine ⟨c2, { prevT with
          transitionTimeU :=
            (expandDateTuple m.untilDateTime prevT.offsetCode prevT.deltaCode).1 }, hr,
        getTransition_eq_some.mpr ⟨q, by rw [hs2]; exact hq1, by rw [hq q]; simp [hcl]⟩,
        ?_, by rw [e], by rw [e]⟩
      rw [e] at hcc
      exact coreEq_trans ⟨rfl, rfl, rfl, rfl⟩ hcc
    · exact ⟨c2, c2, hr,
        getTransition_eq_some.mpr ⟨q, by rw [hs2]; exact hq1, by rw [hq q]; simp [hcl, hc2]⟩,
        hcc, rfl, rfl⟩
  have reads : ∀ j, begin_ ≤ j → j < end_ → ∃ c, ts.getTransition j = some c := by
    intro j h1 h2
    have := generateStartUntilLoop_reads _ _ _ _ _ _ hl j h1 (by omega)
    exact Option.isSome_iff_exists.mp this
  intro i hi1 hi2
  obtain ⟨c, hc⟩ := reads i hi1 hi2
  obtain ⟨c2, cf, hrc, hfc, hcc, hS, hE⟩ := final i c hc
  by_cases hib : i = begin_
  · subst hib
    rw [if_pos rfl]
    have hd0 : ts.deref prev0 = some c := by
      obtain ⟨q, hq1, hq2⟩ := getTransition_eq_some.mp hc
      rw [hprev0] at hq1
      rw [Option.some.inj hq1]; exact hq2
    obtain ⟨⟨t2, ht2, hS2, hE2⟩, _⟩ := lfirst (by omega) c c hd0 hc
    rw [hrc] at ht2
    have e : c2 = t2 := Option.some.inj ht2
    subst e
    have hcg := startUntilStep_congr (coreEq_symm hcc) (coreEq_symm hcc)
    exact ⟨cf, cf, hfc, hfc, by rw [hS, hS2, hcg.1], by rw [hE, hE2, hcg.2]⟩
  · rw [if_neg hib]
    obtain ⟨a, ha⟩ := reads (i - 1) (by omega) (by omega)
    obtain ⟨a2, af, hra, hfa, hca, _, _⟩ := final (i - 1) a ha
    have hi : i - 1 + 1 = i := by omega
    obtain ⟨a3, c3, _, hc3, _, hS3, hE3⟩ := lpairs (i - 1) (by omega) (by omega) a c ha
      (by rw [hi]; exact hc)
    rw [hi, hrc] at hc3
    have e : c2 = c3 := Option.some.inj hc3
    subst e
    have hcg := startUntilStep_congr (coreEq_symm hca) (coreEq_symm hcc)
    exact ⟨af, cf, hfa, hfc, by rw [hS, hS3, hcg.1], by rw [hE, hE3, hcg.2]⟩

/-- The epoch seconds computed by an iteration are those of the transition
time read in the previous transition's offset. -/
theorem startUntilStep_epochSeconds (a c : Transition) (hv : c.transitionTime.validDate)
    (h1 : -128 ≤ c.transitionTime.timeCode - a.offsetCode - a.deltaCode
      + c.offsetCode + c.deltaCode)
    (h2 : c.transitionTime.timeCode - a.offsetCode - a.deltaCode
      + c.offsetCode + c.deltaCode ≤ 127)
    (hhi : 96 ≤ c.transitionTime.timeCode - a.offsetCode - a.deltaCode
        + c.offsetCode + c.deltaCode →
      ¬ (c.transitionTime.yearTiny = 127 ∧ c.transitionTime.month = 12
        ∧ c.transitionTime.day = 31))
    (hlo : c.transitionTime.timeCode - a.offsetCode - a.deltaCode
        + c.offsetCode + c.deltaCode ≤ -96 →
      ¬ (c.transitionTime.yearTiny = -128 ∧ c.transitionTime.month = 1
        ∧ c.transitionTime.day = 1)) :
    (startUntilStep a c).startEpochSeconds
      = wrap32 ((LocalDate.forTinyComponents c.transitionTime.yearTiny c.transitionTime.month
            c.transitionTime.day).toEpochSeconds
          + 900 * (c.transitionTime.timeCode - a.offsetCode - a.deltaCode)) := by
  have hn := normalizeDateTuple_instant
    ⟨c.transitionTime.yearTiny, c.transitionTime.month, c.transitionTime.day,
      c.transitionTime.timeCode - a.offsetCode - a.deltaCode + c.offsetCode + c.deltaCode,
      c.transitionTime.modifier⟩
    hv h1 h2 hhi hlo
  simp only [startUntilStep, wrap8_of_fits h1 h2, LocalDate.toEpochSeconds]
  simp only [DateTuple.epochDays] at hn
  unfold wrap32
  omega

/-- C29: after generateStartUntilTimes over the entries [begin, end) of the
pointer vector (distinct transitions), for every transition t of the range
with its predecessor prev (prev = t itself for the first transition):
t.startDateTime is normalize of t.transitionTime with the time code
tt.timeCode - prev.offsetCode - prev.deltaCode + t.offsetCode + t.deltaCode
stored in a signed byte, and t.startEpochSeconds is, in 32-bit arithmetic,
epochSeconds(startDateTime date) + 900*(startDateTime.timeCode - t.offsetCode
- t.deltaCode). Whenever transitionTime has a valid date, that time code fits
in a signed byte and the one-day carry stays within the tiny years, this
equals, in 32-bit arithmetic, the instant of transitionTime read in prev's
offset, epochSeconds(transitionTime date) + 900*(tt.timeCode - prev.offsetCode
- prev.deltaCode), for every time code of transitionTime (also 24:00, the
code 96); it is that number itself when it fits in 32 bits. -/
theorem C29_generateStartUntilTimes_start (ts ts2 : TransitionStorage) (ms : List ZoneMatch)
    (begin_ end_ : Nat)
    (h : generateStartUntilTimes ts ms begin_ end_ = some ts2)
    (hdist : ∀ i, i < end_ → ∀ j, j < end_ → begin_ ≤ i → i < j →
      ts.slotAt i ≠ ts.slotAt j) :
    ∀ i, begin_ ≤ i → i < end_ →
      ∃ prev t, ts2.getTransition (if i = begin_ then i else i - 1) = some prev
        ∧ ts2.getTransition i = some t
        ∧ t.startDateTime = normalizeDateTuple
            { yearTiny := t.transitionTime.yearTiny, month := t.transitionTime.month,
              day := t.transitionTime.day,
              timeCode := wrap8 (t.transitionTime.timeCode - prev.offsetCode - prev.deltaCode
                + t.offsetCode + t.deltaCode),
              modifier := t.transitionTime.modifier }
        ∧ t.startEpochSeconds
            = wrap32 ((LocalDate.forTinyComponents t.startDateTime.yearTiny
                  t.startDateTime.month t.startDateTime.day).toEpochSeconds
                + wrap32 (900 * (t.startDateTime.timeCode - t.offsetCode - t.deltaCode)))
        ∧ (t.transitionTime.validDate →
            -128 ≤ t.transitionTime.timeCode - prev.offsetCode - prev.deltaCode
              + t.offsetCode + t.deltaCode →
            t.transitionTime.timeCode - prev.offsetCode - prev.deltaCode
              + t.offsetCode + t.deltaCode ≤ 127 →
            (96 ≤ t.transitionTime.timeCode - prev.offsetCode - prev.deltaCode
                + t.offsetCode + t.deltaCode →
              ¬ (t.transitionTime.yearTiny = 127 ∧ t.transitionTime.month = 12
                ∧ t.transitionTime.day = 31)) →
            (t.transitionTime.timeCode - prev.offsetCode - prev.deltaCode
                + t.offsetCode + t.deltaCode ≤ -96 →
              ¬ (t.transitionTime.yearTiny = -128 ∧ t.transitionTime.month = 1
                ∧ t.transitionTime.day = 1)) →
            t.startEpochSeconds
                = wrap32 ((LocalDate.forTinyComponents t.transitionTime.yearTiny
                      t.transitionTime.month t.transitionTime.day).toEpochSeconds
                    + 900 * (t.transitionTime.timeCode - prev.offsetCode - prev.deltaCode))
            ∧ (-2147483648 ≤ 86400 * t.transitionTime.epochDays
                  + 900 * (t.transitionTime.timeCode - prev.offsetCode - prev.deltaCode) →
                86400 * t.transitionTime.epochDays
                  + 900 * (t.transitionTime.timeCode - prev.offsetCode - prev.deltaCode)
                  ≤ 2147483647 →
                t.startEpochSeconds = 86400 * t.transitionTime.epochDays
                  + 900 * (t.transitionTime.timeCode - prev.offsetCode - prev.deltaCode))) := by
  intro i hi1 hi2
  obtain ⟨tp, ti, hp, ht, hS, hE⟩ := generateStartUntilTimes_start ts ts2 ms begin_ end_ h hdist
    i hi1 hi2
  have hE2 : (startUntilStep tp ti).startEpochSeconds
      = wrap32 ((LocalDate.forTinyComponents (startUntilStep tp ti).transitionTimeS.yearTiny
            (startUntilStep tp ti).transitionTimeS.month
            (startUntilStep tp ti).transitionTimeS.day).toEpochSeconds
          + wrap32 (900 * ((startUntilStep tp ti).transitionTimeS.timeCode - ti.offsetCode
              - ti.deltaCode))) := rfl
  rw [← hS, ← hE] at hE2
  refine ⟨tp, ti, hp, ht, hS, hE2, ?_⟩
  intro hv h1 h2 h3 h4
  have hU := startUntilStep_epochSeconds tp ti hv h1 h2 h3 h4
  rw [← hE] at hU
  refine ⟨hU, ?_⟩
  intro h5 h6
  rw [hU]
  simp only [LocalDate.toEpochSeconds, DateTuple.epochDays] at h5 h6 ⊢
  unfold wrap32
  omega

/-- The theorem of C29 at the Los Angeles pool of 2018: the third transition
(the change back to standard time, 2018-11-04 02:00 wall time at -07:00) starts
at the epoch seconds 594637200, which is 2018-11-04T09:00:00Z. -/
theorem C29_generateStartUntilTimes_start_witness :
    generateStartUntilTimes losAngeles2018.mTransitionStorage losAngeles2018.mMatches 0 3
        = some losAngelesRegenerated
    ∧ (∀ i, i < 3 → ∀ j, j < 3 → 0 ≤ i → i < j →
        losAngeles2018.mTransitionStorage.slotAt i ≠ losAngeles2018.mTransitionStorage.slotAt j)
    ∧ ∃ prev t, losAngelesRegenerated.getTransition 1 = some prev
        ∧ losAngelesRegenerated.getTransition 2 = some t
        ∧ t.startEpochSeconds = 594637200 := by
  have h : generateStartUntilTimes losAngeles2018.mTransitionStorage losAngeles2018.mMatches 0 3
      = some losAngelesRegenerated := eq_some_getD_of_isSome _ _ (by decide)
  have hd : ∀ i, i < 3 → ∀ j, j < 3 → 0 ≤ i → i < j →
      losAngeles2018.mTransitionStorage.slotAt i ≠ losAngeles2018.mTransitionStorage.slotAt j := by
    decide
  obtain ⟨prev, t, h1, h2, _, _, h5⟩ :=
    C29_generateStartUntilTimes_start _ _ _ 0 3 h hd 2 (by decide) (by decide)
  have e1 : losAngelesRegenerated.getTransition 1
      = some (losAngelesRegenerated.mPool.getD 1 default) := by decide
  have e2 : losAngelesRegenerated.getTransition 2
      = some (losAngelesRegenerated.mPool.getD 4 default) := by decide
  rw [if_neg (by decide)] at h1
  rw [e1] at h1
  rw [e2] at h2
  have f1 := Option.some.inj h1
  have f2 := Option.some.inj h2
  subst f1 f2
  exact ⟨h, hd, _, _, e1, e2,
    ((h5 (by decide) (by decide) (by decide) (by decide) (by decide)).2 (by decide)
      (by decide)).trans (by decide)⟩

/-! ## C28: selectActiveTransitions and a stale active flag -/

/-- C28 (code bug): a candidate before the match start that is not strictly
later than the rolling prior keeps the active flag it had before the call.
In the pool staleCandidates the candidates 0 and 1 are both at 2017-11-01
02:00, before the start 2017-12-01 00:00 of the match (status -1), and
candidate 1 enters with active = true. After selectActiveTransitions candidate
0 is the prior (active, transitionTime rewritten to the start of the match,
originalTransitionTime 2017-11-01 02:00) and candidate 1 is still active with
its transitionTime before the match start: two of the candidates before the
match start are active. The same happens inside init: for the zone with the
duplicate rule of November 1 a new processor's init for 2018 returns true and
leaves four Active transitions, of which the first is the shifted prior and
the second is an active transition at 2017-11-01 02:00 that compares before
the match start and starts earlier than the first. -/
theorem C28_stale_active_flag_survives :
    (staleCandidates.getTransition 0).map
        (fun t => (compareTransitionToMatch t monthlyMatch, t.active)) = some (-1, false)
    ∧ (staleCandidates.getTransition 1).map
        (fun t => (compareTransitionToMatch t monthlyMatch, t.active)) = some (-1, true)
    ∧ ((selectActiveTransitions staleCandidates monthlyMatch).bind
          fun ts => ts.getTransition 0).map
        (fun t => (t.active, t.transitionTime, t.originalTransitionTime))
        = some (true, { yearTiny := 17, month := 12, day := 1, timeCode := 0, modifier := 'w' },
            { yearTiny := 17, month := 11, day := 1, timeCode := 8, modifier := 'w' })
    ∧ ((selectActiveTransitions staleCandidates monthlyMatch).bind
          fun ts => ts.getTransition 1).map
        (fun t => (t.active, t.transitionTime, compareTransitionToMatch t monthlyMatch))
        = some (true, { yearTiny := 17, month := 11, day := 1, timeCode := 8, modifier := 'w' },
            -1)
    ∧ ((newProcessor kZoneDuplicateRule).init { yearTiny := 18, month := 6, day := 1 }).map
        Prod.fst = some true
    ∧ duplicateRule2018.mTransitionStorage.indexes = (4, 4, 4)
    ∧ (duplicateRule2018.mTransitionStorage.getTransition 0).map
        (fun t => (t.active, t.transitionTime, t.originalTransitionTime, t.startEpochSeconds))
        = some (true, { yearTiny := 17, month := 12, day := 1, timeCode := 0, modifier := 'w' },
            { yearTiny := 17, month := 11, day := 1, timeCode := 8, modifier := 'w' },
            565398000)
    ∧ (duplicateRule2018.mTransitionStorage.getTransition 1).bind
        (fun t => (duplicateRule2018.mMatches[0]?).map fun m =>
          (t.active, t.transitionTime, compareTransitionToMatch t m, t.startEpochSeconds))
        = some (true, { yearTiny := 17, month := 11, day := 1, timeCode := 8, modifier := 'w' },
            -1, 562813200) := by
  refine ⟨by decide, by decide, by decide, by decide, by decide, by decide, by decide,
    by decide⟩

/-! ## C32: getMostRecentPriorYear -/

/-- C32: for all signed-byte years fromYear and startYear, every toYear with
fromYear <= toYear and every endYear: when fromYear < startYear,
getMostRecentPriorYear returns the greatest year y with fromYear <= y <=
toYear and y <= startYear - 1, which is toYear if toYear < startYear and
startYear - 1 otherwise; when fromYear >= startYear no such year exists and it
returns the invalid-year sentinel -128. The result does not depend on
endYear. -/
theorem C32_getMostRecentPriorYear (fromYear toYear startYear endYear : Int)
    (hf : -128 ≤ fromYear) (hs : startYear ≤ 127) (hft : fromYear ≤ toYear) :
    (fromYear < startYear →
      fromYear ≤ getMostRecentPriorYear fromYear toYear startYear endYear
      ∧ getMostRecentPriorYear fromYear toYear startYear endYear ≤ toYear
      ∧ getMostRecentPriorYear fromYear toYear startYear endYear ≤ startYear - 1
      ∧ (∀ y, fromYear ≤ y → y ≤ toYear → y ≤ startYear - 1 →
          y ≤ getMostRecentPriorYear fromYear toYear startYear endYear)
      ∧ getMostRecentPriorYear fromYear toYear startYear endYear
          = (if toYear < startYear then toYear else startYear - 1))
    ∧ (startYear ≤ fromYear →
      getMostRecentPriorYear fromYear toYear startYear endYear = -128
      ∧ ¬ ∃ y, fromYear ≤ y ∧ y ≤ toYear ∧ y ≤ startYear - 1)
    ∧ (∀ endYear2, getMostRecentPriorYear fromYear toYear startYear endYear2
        = getMostRecentPriorYear fromYear toYear startYear endYear) := by
  refine ⟨?_, ?_, fun _ => rfl⟩
  · intro h
    have e : getMostRecentPriorYear fromYear toYear startYear endYear
        = (if toYear < startYear then toYear else startYear - 1) := by
      unfold getMostRecentPriorYear
      rw [if_pos h]
      split_ifs
      · rfl
      · exact wrap8_of_fits (by omega) (by omega)
    rw [e]
    split_ifs with h2
    · exact ⟨hft, le_refl _, by omega, fun y _ h4 _ => h4, rfl⟩
    · exact ⟨by omega, by omega, le_refl _, fun y _ _ h5 => h5, rfl⟩
  · intro h
    constructor
    · unfold getMostRecentPriorYear
      rw [if_neg (by omega)]
      rfl
    · rintro ⟨y, h1, h2, h3⟩
      omega

/-- The theorem of C32 at the rule range 2007..2126 of the policy US and the
start year 2017: the most recent prior year is 2016. -/
theorem C32_getMostRecentPriorYear_witness :
    getMostRecentPriorYear 7 126 17 19 = 16 :=
  ((C32_getMostRecentPriorYear 7 126 17 19 (by decide) (by decide) (by decide)).1
    (by decide)).2.2.2.2.trans (by decide)

/-! ## C38: the lexicographic order and the chronological order -/

/-- On tuples with a civil date and a time of day the lexicographic order is
the chronological order. -/
theorem DateTuple.lt_iff_quarters (a b : DateTuple) (ha : a.isTimeOfDay) (hb : b.isTimeOfDay) :
    a.lt b = true ↔ a.quarters < b.quarters := by
  constructor
  · intro h
    exact DateTuple.instant_lt_of_lt a b ha.1 hb.1 ha.2 hb.2 h
  · intro h
    by_contra hn
    have hle : b.le a = true := (DateTuple.lt_eq_false_iff a b).mp (by simpa using hn)
    have := DateTuple.instant_le_of_le b a hb.1 ha.1 hb.2 ha.2 hle
    unfold DateTuple.quarters at h
    omega

/-- The value of `compareTransitionToMatch` in terms of the tuples that it
compares. -/
theorem compareTransitionToMatch_eq (t : Transition) (m : ZoneMatch) :
    compareTransitionToMatch t m
      = (if (t.tupleInModeOf m.startDateTime).lt m.startDateTime then -1
         else if (t.tupleInModeOf m.startDateTime).eq m.startDateTime then 0
         else if (t.tupleInModeOf m.untilDateTime).lt m.untilDateTime then 1 else 2) := rfl

/-- C38 (counterexample): the tuples a = 2018-03-01 with the time code -10 and
b = 2018-02-28 with the time code 90 have valid dates and time codes in
(-96, 96); b < a holds in the lexicographic order although b is the later
instant (90 minutes before midnight against 150). Such tuples come out of
expandDateTuple: the wall time 2018-03-01 00:00 expanded with offsetCode 4 and
deltaCode 4 has the standard tuple 2018-03-01 with the time code -4, which
normalizeDateTuple leaves as it is; against a match that starts at 2018-02-28
23:30 standard time compareTransitionToMatch returns 1 (within the match)
although the transition is half an hour before the start of the match. -/
theorem C38_counterexample :
    (({ yearTiny := 18, month := 3, day := 1, timeCode := -10, modifier := 'w' } :
        DateTuple).validDate
      ∧ ({ yearTiny := 18, month := 2, day := 28, timeCode := 90, modifier := 'w' } :
        DateTuple).validDate)
    ∧ DateTuple.lt { yearTiny := 18, month := 2, day := 28, timeCode := 90, modifier := 'w' }
        { yearTiny := 18, month := 3, day := 1, timeCode := -10, modifier := 'w' } = true
    ∧ DateTuple.quarters
        { yearTiny := 18, month := 3, day := 1, timeCode := -10, modifier := 'w' }
      < DateTuple.quarters
        { yearTiny := 18, month := 2, day := 28, timeCode := 90, modifier := 'w' }
    ∧ (expandDateTuple
        { yearTiny := 18, month := 3, day := 1, timeCode := 0, modifier := 'w' } 4 4).2.1
      = { yearTiny := 18, month := 3, day := 1, timeCode := -4, modifier := 's' }
    ∧ compareTransitionToMatch
        (Transition.expanded
          { blankTransition with
            transitionTime :=
              { yearTiny := 18, month := 3, day := 1, timeCode := 0, modifier := 'w' } }
          4 4)
        { monthlyMatch with
          startDateTime :=
            { yearTiny := 18, month := 2, day := 28, timeCode := 94, modifier := 's' } } = 1
    ∧ DateTuple.quarters
        (expandDateTuple
          { yearTiny := 18, month := 3, day := 1, timeCode := 0, modifier := 'w' } 4 4).2.1
      < DateTuple.quarters
        { yearTiny := 18, month := 2, day := 28, timeCode := 94, modifier := 's' } := by
  decide

/-- C38 (amended): for every two tuples a, b with valid dates and a time of
day, 0 <= timeCode < 96, a < b holds in the lexicographic order iff
dayNumber(a)*96 + a.timeCode < dayNumber(b)*96 + b.timeCode. Hence for every
transition and match whose compared tuples and bounds are such tuples,
compareTransitionToMatch returns -1 iff the transition's tuple in the mode of
the match start is an earlier instant than the start, 0 iff it equals the
start, 1 iff it is not earlier than the start, differs from it, and the
transition's tuple in the mode of the match until is an earlier instant than
the until, and 2 in the remaining case. -/
theorem C38_order_is_chronological (a b : DateTuple) (t : Transition) (m : ZoneMatch)
    (ha : a.isTimeOfDay) (hb : b.isTimeOfDay)
    (hX : (t.tupleInModeOf m.startDateTime).isTimeOfDay) (hs : m.startDateTime.isTimeOfDay)
    (hY : (t.tupleInModeOf m.untilDateTime).isTimeOfDay) (hu : m.untilDateTime.isTimeOfDay) :
    (a.lt b = true ↔ a.quarters < b.quarters)
    ∧ (compareTransitionToMatch t m = -1 ↔
        (t.tupleInModeOf m.startDateTime).quarters < m.startDateTime.quarters)
    ∧ (compareTransitionToMatch t m = 0 ↔ t.tupleInModeOf m.startDateTime = m.startDateTime)
    ∧ (compareTransitionToMatch t m = 1 ↔
        m.startDateTime.quarters ≤ (t.tupleInModeOf m.startDateTime).quarters
        ∧ t.tupleInModeOf m.startDateTime ≠ m.startDateTime
        ∧ (t.tupleInModeOf m.untilDateTime).quarters < m.untilDateTime.quarters)
    ∧ (compareTransitionToMatch t m = 2 ↔
        m.startDateTime.quarters ≤ (t.tupleInModeOf m.startDateTime).quarters
        ∧ t.tupleInModeOf m.startDateTime ≠ m.startDateTime
        ∧ m.untilDateTime.quarters ≤ (t.tupleInModeOf m.untilDateTime).quarters) := by
  have h1 := DateTuple.lt_iff_quarters _ _ hX hs
  have h2 := DateTuple.lt_iff_quarters _ _ hY hu
  have h3 := DateTuple.eq_iff (t.tupleInModeOf m.startDateTime) m.startDateTime
  have hq : t.tupleInModeOf m.startDateTime = m.startDateTime →
      (t.tupleInModeOf m.startDateTime).quarters = m.startDateTime.quarters := fun e => by rw [e]
  have hc : compareTransitionToMatch t m
      = (if (t.tupleInModeOf m.startDateTime).quarters < m.startDateTime.quarters then -1
         else if t.tupleInModeOf m.startDateTime = m.startDateTime then 0
         else if (t.tupleInModeOf m.untilDateTime).quarters < m.untilDateTime.quarters then 1
         else 2) := by
    rw [compareTransitionToMatch_eq]
    simp only [h1, h2, h3]
  refine ⟨DateTuple.lt_iff_quarters a b ha hb, ?_, ?_, ?_, ?_⟩
  · rw [hc]
    split_ifs with c1 c2 c3
    · exact ⟨fun _ => c1, fun _ => rfl⟩
    · exact ⟨fun h => absurd h (by decide), fun h => absurd h c1⟩
    · exact ⟨fun h => absurd h (by decide), fun h => absurd h c1⟩
    · exact ⟨fun h => absurd h (by decide), fun h => absurd h c1⟩
  · rw [hc]
    split_ifs with c1 c2 c3
    · exact ⟨fun h => absurd h (by decide), fun h => by have := hq h; omega⟩
    · exact ⟨fun _ => c2, fun _ => rfl⟩
    · exact ⟨fun h => absurd h (by decide), fun h => absurd h c2⟩
    · exact ⟨fun h => absurd h (by decide), fun h => absurd h c2⟩
  · rw [hc]
    split_ifs with c1 c2 c3
    · exact ⟨fun h => absurd h (by decide), fun h => by omega⟩
    · exact ⟨fun h => absurd h (by decide), fun h => absurd c2 h.2.1⟩
    · exact ⟨fun _ => ⟨by omega, c2, c3⟩, fun _ => rfl⟩
    · exact ⟨fun h => absurd h (by decide), fun h => absurd h.2.2 c3⟩
  · rw [hc]
    split_ifs with c1 c2 c3
    · exact ⟨fun h => absurd h (by decide), fun h => by omega⟩
    · exact ⟨fun h => absurd h (by decide), fun h => absurd c2 h.2.1⟩
    · exact ⟨fun h => absurd h (by decide), fun h => by omega⟩
    · exact ⟨fun _ => ⟨by omega, c2, by omega⟩, fun _ => rfl⟩

/-- The theorem of C38 at the tuples 2018-02-28 23:30 and 2018-03-01 00:00
and at the Los Angeles transition of 2018-03-11 02:00 against the window of
the year 2018: the first tuple is the earlier one, and the transition lies
within the match. -/
theorem C38_order_is_chronological_witness :
    DateTuple.quarters { yearTiny := 18, month := 2, day := 28, timeCode := 94, modifier := 'w' }
      < DateTuple.quarters
          { yearTiny := 18, month := 3, day := 1, timeCode := 0, modifier := 'w' }
    ∧ compareTransitionToMatch (candidateAt 18 3 true) monthlyMatch = 1 :=
  have h := C38_order_is_chronological
    { yearTiny := 18, month := 2, day := 28, timeCode := 94, modifier := 'w' }
    { yearTiny := 18, month := 3, day := 1, timeCode := 0, modifier := 'w' }
    (candidateAt 18 3 true) monthlyMatch
    (by decide) (by decide) (by decide) (by decide) (by decide) (by decide)
  ⟨h.1.mp (by decide), h.2.2.2.1.mpr (by decide)⟩

/-! ## C40: copyAndReplace -/

theorem replaceAll_of_not_mem (oldChar : Char) : ∀ (src newString : List Char),
    oldChar ∉ src → replaceAll oldChar src newString = src := by
  intro src
  induction src with
  | nil => intro _ _; rfl
  | cons c src ih =>
    intro ns h
    have hc : c ≠ oldChar := fun e => h (by rw [e]; exact List.mem_cons_self _ _)
    have hs : oldChar ∉ src := fun hm => h (List.mem_cons_of_mem _ hm)
    simp only [replaceAll, hc, if_false, ih ns hs]

/-- With an empty `newString` the loop of `copyAndReplace` removes every
`oldChar`. -/
theorem replaceText_nil (oldChar : Char) : ∀ src : List Char,
    replaceText oldChar src [] = replaceAll oldChar src [] := by
  intro src
  induction src with
  | nil => rfl
  | cons c src ih =>
    by_cases hc : c = oldChar
    · simp only [replaceText, replaceAll, hc, if_true, ih]
    · simp only [replaceText, replaceAll, hc, if_false, ih]

/-- With at most one `oldChar` in `src` the loop of `copyAndReplace` replaces
every occurrence. -/
theorem replaceText_of_count_le_one (oldChar : Char) : ∀ (src newString : List Char),
    src.count oldChar ≤ 1 → replaceText oldChar src newString = replaceAll oldChar src newString := by
  intro src
  induction src with
  | nil => intro _ _; rfl
  | cons c src ih =>
    intro ns h
    rw [List.count_cons] at h
    by_cases hc : c = oldChar
    · subst hc
      have h0 : src.count c = 0 := by simpa using h
      have hs : c ∉ src := List.count_eq_zero.mp h0
      simp only [replaceText, replaceAll, if_true, replaceText_of_not_mem c src [] hs,
        replaceAll_of_not_mem c src ns hs]
    · have hb : (c == oldChar) = false := by simpa using hc
      rw [hb] at h
      simp only [Bool.false_eq_true, if_false, Nat.add_zero] at h
      simp only [replaceText, replaceAll, hc, if_false, ih ns h]

/-- C40 (code bug): copyAndReplace advances newString while it copies it, so
only the first occurrence of oldChar is replaced by newString and every later
occurrence is replaced by nothing. For the source A%B%C, oldChar % and
newString S, with a buffer of 7 characters, the buffer holds ASBC, while the
source with all occurrences replaced is ASBSC. In general, for every dstSize
>= 1 within the buffer copyAndReplace returns and leaves in the buffer the
NUL-terminated first dstSize-1 characters of the text in which the first
oldChar is replaced by newString and the later ones are removed; this is the
source with all occurrences replaced when the source has at most one oldChar
or newString is empty. -/
theorem C40_copyAndReplace_first_occurrence_only :
    (copyAndReplace (dirtyBuffer 7) 7 ['A', '%', 'B', '%', 'C'] '%' ['S']).map cstr
      = some ['A', 'S', 'B', 'C']
    ∧ (replaceAll '%' ['A', '%', 'B', '%', 'C'] ['S']).take (7 - 1) = ['A', 'S', 'B', 'S', 'C']
    ∧ (∀ (dest : List Char) (dstSize : Nat) (src : List Char) (oldChar : Char)
        (newString : List Char), 1 ≤ dstSize → dstSize ≤ dest.length →
        ∃ d, copyAndReplace dest dstSize src oldChar newString = some d
          ∧ bufHolds dest d dstSize ((replaceText oldChar src newString).take (dstSize - 1)))
    ∧ (∀ (src : List Char) (oldChar : Char) (newString : List Char),
        src.count oldChar ≤ 1 ∨ newString = [] →
        replaceText oldChar src newString = replaceAll oldChar src newString) := by
  refine ⟨by decide, by decide, ?_, ?_⟩
  · intro dest dstSize src oldChar newString h1 h2
    exact copyAndReplace_holds dest dstSize src oldChar newString h1 h2
  · intro src oldChar newString h
    rcases h with h | h
    · exact replaceText_of_count_le_one oldChar src newString h
    · rw [h]
      exact replaceText_nil oldChar src

/-- The theorem of C40 at the source P%T with the letter D and a buffer of 7
characters: the one occurrence is replaced. -/
theorem C40_copyAndReplace_first_occurrence_only_witness :
    replaceText '%' ['P', '%', 'T'] ['D'] = ['P', 'D', 'T']
    ∧ ∃ d, copyAndReplace (dirtyBuffer 7) 7 ['P', '%', 'T'] '%' ['D'] = some d
        ∧ bufHolds (dirtyBuffer 7) d 7 ((replaceText '%' ['P', '%', 'T'] ['D']).take (7 - 1)) :=
  ⟨(C40_copyAndReplace_first_occurrence_only.2.2.2 ['P', '%', 'T'] '%' ['D']
      (Or.inl (by decide))).trans (by decide),
   C40_copyAndReplace_first_occurrence_only.2.2.1 (dirtyBuffer 7) 7 ['P', '%', 'T'] '%' ['D']
      (by decide) (by decide)⟩

/-! ## C36: queries on an empty Active pool -/

/-- C36 (code bug): the zone kZoneEnded has no era that overlaps the window
of the year 2018 (its only era ended on 2010-01-01), and 2018 is within the
years of the zone. On the processor that has the year 2005 cached, init for
the epoch seconds 582000000 (2018-06-11) returns true with 0 matches and an
empty Active pool, so findTransition returns null; getDeltaOffset and
getAbbrev dereference it (no result), while getUtcOffset returns the error
offset through its null check. generateStartUntilTimes over the empty range
reads the match of the transition in slot 0, which here is a leftover of
2005; on a new processor that match pointer is null and init has no
result. -/
theorem C36_no_covering_transition :
    (ended2005.initForEpochSeconds 582000000).map Prod.fst = some true
    ∧ (ended2005.initForEpochSeconds 582000000).map (fun r => r.2.mIsFilled) = some true
    ∧ (ended2005.initForEpochSeconds 582000000).map (fun r => r.2.mNumMatches) = some 0
    ∧ (ended2005.initForEpochSeconds 582000000).map
        (fun r => r.2.mTransitionStorage.indexes) = some (0, 0, 0)
    ∧ (ended2005.initForEpochSeconds 582000000).bind
        (fun r => r.2.findTransition 582000000) = some none
    ∧ (ended2005.getDeltaOffset 582000000).map Prod.fst = none
    ∧ (ended2005.getAbbrev 582000000).map Prod.fst = none
    ∧ (ended2005.getUtcOffset 582000000).map Prod.fst = some TimeOffset.forError
    ∧ ((newProcessor kZoneEnded).initForEpochSeconds 582000000).map Prod.fst = none
    ∧ generateStartUntilTimes (newStorage kMaxTransitions)
        (newProcessor kZoneEnded).mMatches 0 0 = none := by
  refine ⟨by decide, by decide, by decide, by decide, by decide, by decide, by decide,
    by decide, by decide, by decide⟩

/-! ## C35: init and the query history -/

/-- C35 (code bug): the result of init depends on what earlier queries left
in the pool slots. For the zone kZoneHistory and the epoch seconds 569203200
(2018-01-14), a new processor and the processor that answered a query in 2005
both return true from init for the year 2018, but the first has 4 Active
transitions and the second 5: the second keeps the candidate of the second
rule of 2017-11-01, which is not strictly later than the rolling prior and
whose slot had its active flag set in 2005. getUtcOffset answers +01:00 on the
new processor and +02:00 on the other, and getAbbrev answers MST and MDT. -/
theorem C35_init_depends_on_history :
    ((newProcessor kZoneHistory).initForEpochSeconds 569203200).map Prod.fst = some true
    ∧ (history2005.initForEpochSeconds 569203200).map Prod.fst = some true
    ∧ ((newProcessor kZoneHistory).initForEpochSeconds 569203200).map
        (fun r => r.2.mTransitionStorage.indexes) = some (4, 4, 4)
    ∧ (history2005.initForEpochSeconds 569203200).map
        (fun r => r.2.mTransitionStorage.indexes) = some (5, 5, 5)
    ∧ ((history2005.initForEpochSeconds 569203200).bind
          fun r => r.2.mTransitionStorage.getTransition 1).map
        (fun t => (t.active, t.transitionTime, t.deltaCode))
      = some (true, { yearTiny := 17, month := 11, day := 1, timeCode := 8, modifier := 'w' }, 4)
    ∧ ((newProcessor kZoneHistory).getUtcOffset 569203200).map Prod.fst
        = some (TimeOffset.forOffsetCode 4)
    ∧ (history2005.getUtcOffset 569203200).map Prod.fst = some (TimeOffset.forOffsetCode 8)
    ∧ ((newProcessor kZoneHistory).getAbbrev 569203200).map Prod.fst = some ['M', 'S', 'T']
    ∧ (history2005.getAbbrev 569203200).map Prod.fst = some ['M', 'D', 'T'] := by
  refine ⟨by decide, by decide, by decide, by decide, by decide, by decide, by decide,
    by decide, by decide⟩

/-! ## C31 and C39: calcInteriorYears -/

theorem mem_yearsFrom : ∀ (n : Nat) (year y : Int),
    y ∈ yearsFrom n year ↔ year ≤ y ∧ y < year + n := by
  intro n
  induction n with
  | zero => intro year y; simp [yearsFrom]
  | succ n ih =>
    intro year y
    simp only [yearsFrom, List.mem_cons, ih]
    push_cast
    omega

theorem yearsFrom_sorted : ∀ (n : Nat) (year : Int), (yearsFrom n year).Pairwise (· < ·) := by
  intro n
  induction n with
  | zero => intro _; exact List.Pairwise.nil
  | succ n ih =>
    intro year
    simp only [yearsFrom, List.pairwise_cons]
    refine ⟨?_, ih _⟩
    intro y hy
    have := (mem_yearsFrom n (year + 1) y).mp hy
    omega

/-- Without wrap-around of the year counter the loop of `calcInteriorYears`
returns, with the first years of both ranges appended to what it had. -/
theorem calcInteriorYearsLoop_eq (mx : Nat) (fromY toY endY : Int) (hend : endY ≤ 126) :
    ∀ (n fuel : Nat) (year : Int) (acc : List Int),
      n = (endY + 1 - year).toNat → n + 1 ≤ fuel → -128 ≤ year → acc.length < mx →
      calcInteriorYearsLoop mx fromY toY endY fuel year acc
        = some (acc ++ ((yearsFrom n year).filter
            (fun y => decide (fromY ≤ y ∧ y ≤ toY))).take (mx - acc.length)) := by
  intro n
  induction n with
  | zero =>
    intro fuel year acc hn hf hy hacc
    obtain ⟨f, rfl⟩ : ∃ f, fuel = f + 1 := ⟨fuel - 1, by omega⟩
    unfold calcInteriorYearsLoop
    rw [if_neg (by omega)]
    simp [yearsFrom]
  | succ n ih =>
    intro fuel year acc hn hf hy hacc
    obtain ⟨f, rfl⟩ : ∃ f, fuel = f + 1 := ⟨fuel - 1, by omega⟩
    have hle : year ≤ endY := by omega
    have hw : wrap8 (year + 1) = year + 1 := wrap8_of_fits (by omega) (by omega)
    unfold calcInteriorYearsLoop
    rw [if_pos hle, hw]
    by_cases hin : fromY ≤ year ∧ year ≤ toY
    · rw [if_pos hin]
      have hfil : (yearsFrom (n + 1) year).filter (fun y => decide (fromY ≤ y ∧ y ≤ toY))
          = year :: (yearsFrom n (year + 1)).filter (fun y => decide (fromY ≤ y ∧ y ≤ toY)) := by
        simp only [yearsFrom]
        rw [List.filter_cons, if_pos (by simpa using hin)]
      rw [hfil]
      by_cases hfull : acc.length + 1 ≥ mx
      · rw [if_pos hfull]
        have e : mx - acc.length = 1 := by omega
        rw [e]
        simp
      · rw [if_neg hfull]
        rw [ih f (year + 1) (acc ++ [year]) (by omega) (by omega) (by omega)
          (by rw [List.length_append]; simp; omega)]
        have e : mx - acc.length = (mx - (acc ++ [year]).length) + 1 := by
          rw [List.length_append]; simp; omega
        rw [e, List.take_succ_cons]
        simp
    · rw [if_neg hin]
      have hfil : (yearsFrom (n + 1) year).filter (fun y => decide (fromY ≤ y ∧ y ≤ toY))
          = (yearsFrom n (year + 1)).filter (fun y => decide (fromY ≤ y ∧ y ≤ toY)) := by
        simp only [yearsFrom]
        rw [List.filter_cons, if_neg (by simpa using hin)]
      rw [hfil]
      exact ih f (year + 1) acc (by omega) (by omega) (by omega) hacc

/-- The interior years without wrap-around of the year counter. -/
theorem calcInteriorYears_eq (mx : Nat) (fromY toY startY endY : Int) (hmx : 1 ≤ mx)
    (hstart : -128 ≤ startY) (hend : endY ≤ 126) :
    calcInteriorYears mx fromY toY startY endY
      = some (interiorYearsRef mx fromY toY startY endY) := by
  unfold calcInteriorYears interiorYearsRef
  rw [calcInteriorYearsLoop_eq mx fromY toY endY hend _ _ startY [] rfl (by omega) hstart
    (by simpa using hmx)]
  simp

/-- With a rule range that is not empty the loop of `calcInteriorYears`
returns also when the year counter wraps around: each round of 256 years
passes `fromY`. -/
theorem calcInteriorYearsLoop_returns (mx : Nat) (fromY toY endY : Int)
    (hf1 : -128 ≤ fromY) (hf2 : fromY ≤ 127) (hft : fromY ≤ toY) :
    ∀ (fuel : Nat) (year : Int) (acc : List Int),
      -128 ≤ year → year ≤ 127 → acc.length < mx →
      256 * ((mx : Int) - acc.length - 1) + (fromY - year) % 256 + 1 ≤ fuel →
      ∃ ys, calcInteriorYearsLoop mx fromY toY endY fuel year acc = some ys
        ∧ ys.length ≤ mx := by
  intro fuel
  induction fuel with
  | zero =>
    intro year acc h1 h2 hacc hfuel
    have : 0 ≤ (fromY - year) % 256 := Int.emod_nonneg _ (by decide)
    push_cast at hfuel
    omega
  | succ f ih =>
    intro year acc h1 h2 hacc hfuel
    have hw := wrap8_range (year + 1)
    have hwe : wrap8 (year + 1) = (year + 1 + 128) % 256 - 128 := rfl
    unfold calcInteriorYearsLoop
    by_cases hle : year ≤ endY
    · rw [if_pos hle]
      by_cases hin : fromY ≤ year ∧ year ≤ toY
      · rw [if_pos hin]
        by_cases hfull : acc.length + 1 ≥ mx
        · rw [if_pos hfull]
          exact ⟨_, rfl, by rw [List.length_append]; simp; omega⟩
        · rw [if_neg hfull]
          refine ih (wrap8 (year + 1)) (acc ++ [year]) hw.1 hw.2
            (by rw [List.length_append]; simp; omega) ?_
          rw [List.length_append]
          push_cast at hfuel ⊢
          simp only [List.length_singleton, Nat.cast_one]
          omega
      · rw [if_neg hin]
        refine ih (wrap8 (year + 1)) acc hw.1 hw.2 hacc ?_
        push_cast at hfuel ⊢
        omega
    · rw [if_neg hle]
      exact ⟨acc, rfl, by omega⟩

theorem wrap8_succ (k : Int) : wrap8 (wrap8 k + 1) = wrap8 (k + 1) := by
  unfold wrap8; omega

/-- With the end year 127 and an empty rule range the loop of
`calcInteriorYears` does not return, whatever the fuel. -/
theorem calcInteriorYearsLoop_none (mx : Nat) (fromY toY : Int) (hft : toY < fromY) :
    ∀ (fuel : Nat) (k : Int) (acc : List Int),
      calcInteriorYearsLoop mx fromY toY 127 fuel (wrap8 k) acc = none := by
  intro fuel
  induction fuel with
  | zero => intro k acc; rfl
  | succ f ih =>
    intro k acc
    unfold calcInteriorYearsLoop
    rw [if_pos (wrap8_range k).2, if_neg (by omega), wrap8_succ]
    exact ih (k + 1) acc

/-- C31: for every fromYear and toYear, every signed-byte startYear, every
endYear below the reserved value 127 and every maxInteriorYears >= 1,
calcInteriorYears returns; the years it writes are, in ascending order, the
first maxInteriorYears of the years y with startYear <= y <= endYear and
fromYear <= y <= toYear (all of them when there are fewer), and the returned
count is their number, min(maxInteriorYears, number of such years); it is 0
when the two ranges do not intersect. -/
theorem C31_calcInteriorYears (maxInteriorYears : Nat)
    (fromYear toYear startYear endYear : Int)
    (hmax : 1 ≤ maxInteriorYears) (hstart : -128 ≤ startYear) (hend : endYear ≤ 126) :
    calcInteriorYears maxInteriorYears fromYear toYear startYear endYear
      = some (interiorYearsRef maxInteriorYears fromYear toYear startYear endYear)
    ∧ (∀ y, y ∈ yearsFrom (endYear + 1 - startYear).toNat startYear
        ↔ startYear ≤ y ∧ y ≤ endYear)
    ∧ (yearsFrom (endYear + 1 - startYear).toNat startYear).Pairwise (· < ·)
    ∧ (interiorYearsRef maxInteriorYears fromYear toYear startYear endYear).Pairwise (· < ·)
    ∧ (∀ y ∈ interiorYearsRef maxInteriorYears fromYear toYear startYear endYear,
        startYear ≤ y ∧ y ≤ endYear ∧ fromYear ≤ y ∧ y ≤ toYear)
    ∧ (interiorYearsRef maxInteriorYears fromYear toYear startYear endYear).length
        = min maxInteriorYears
            ((yearsFrom (endYear + 1 - startYear).toNat startYear).filter
              (fun y => decide (fromYear ≤ y ∧ y ≤ toYear))).length
    ∧ ((¬ ∃ y, startYear ≤ y ∧ y ≤ endYear ∧ fromYear ≤ y ∧ y ≤ toYear) →
        interiorYearsRef maxInteriorYears fromYear toYear startYear endYear = []) := by
  have hmem : ∀ y, y ∈ yearsFrom (endYear + 1 - startYear).toNat startYear
      ↔ startYear ≤ y ∧ y ≤ endYear := by
    intro y
    rw [mem_yearsFrom]
    omega
  have hsorted := yearsFrom_sorted (endYear + 1 - startYear).toNat startYear
  refine ⟨calcInteriorYears_eq _ _ _ _ _ hmax hstart hend, hmem, hsorted, ?_, ?_, ?_, ?_⟩
  · unfold interiorYearsRef
    exact ((hsorted.sublist (List.filter_sublist _)).sublist (List.take_sublist _ _))
  · intro y hy
    unfold interiorYearsRef at hy
    have h1 := List.mem_of_mem_take hy
    rw [List.mem_filter] at h1
    have h2 := (hmem y).mp h1.1
    have h3 : fromYear ≤ y ∧ y ≤ toYear := by simpa using h1.2
    exact ⟨h2.1, h2.2, h3.1, h3.2⟩
  · unfold interiorYearsRef
    rw [List.length_take]
  · intro hno
    unfold interiorYearsRef
    have : (yearsFrom (endYear + 1 - startYear).toNat startYear).filter
        (fun y => decide (fromYear ≤ y ∧ y ≤ toYear)) = [] := by
      rw [List.filter_eq_nil_iff]
      intro y hy hp
      have h2 := (hmem y).mp hy
      have h3 : fromYear ≤ y ∧ y ≤ toYear := by simpa using hp
      exact hno ⟨y, h2.1, h2.2, h3.1, h3.2⟩
    rw [this]
    exact List.take_nil

/-- The theorem of C31 at the rule range 2007..2126 and the years 2017..2019
of a match: the interior years are 2017, 2018 and 2019. -/
theorem C31_calcInteriorYears_witness :
    calcInteriorYears 4 7 126 17 19 = some [17, 18, 19] :=
  (C31_calcInteriorYears 4 7 126 17 19 (by decide) (by decide) (by decide)).1.trans
    (by decide)

/-- C39 (counterexample): with the end year 127 the loop condition year <=
endYear holds for every value of the signed-byte counter, and with an empty
rule range (fromYear = 1 > toYear = 0) no year is ever written, so the loop of
calcInteriorYears never ends: it has no result for any number of
iterations, from any value of the counter. -/
theorem C39_counterexample :
    calcInteriorYears 4 1 0 0 127 = none
    ∧ ∀ (fuel : Nat) (k : Int), calcInteriorYearsLoop 4 1 0 127 fuel (wrap8 k) [] = none :=
  ⟨calcInteriorYearsLoop_none 4 1 0 (by decide) _ 0 [],
   fun fuel k => calcInteriorYearsLoop_none 4 1 0 (by decide) fuel k []⟩

/-- C39 (amended): for all signed-byte years fromYear and startYear, every
toYear and endYear such that endYear is below 127 or the rule range is not
empty (fromYear <= toYear), and every maxInteriorYears >= 1, calcInteriorYears
terminates (the year counter modelled with wrap-around) and writes at most
maxInteriorYears entries. -/
theorem C39_calcInteriorYears_terminates (maxInteriorYears : Nat)
    (fromYear toYear startYear endYear : Int) (hmax : 1 ≤ maxInteriorYears)
    (hf1 : -128 ≤ fromYear) (hf2 : fromYear ≤ 127)
    (hs1 : -128 ≤ startYear) (hs2 : startYear ≤ 127)
    (h : endYear ≤ 126 ∨ fromYear ≤ toYear) :
    ∃ ys, calcInteriorYears maxInteriorYears fromYear toYear startYear endYear = some ys
      ∧ ys.length ≤ maxInteriorYears := by
  rcases h with h | h
  · refine ⟨_, calcInteriorYears_eq _ _ _ _ _ hmax hs1 h, ?_⟩
    unfold interiorYearsRef
    rw [List.length_take]
    exact Nat.min_le_left _ _
  · unfold calcInteriorYears
    refine calcInteriorYearsLoop_returns maxInteriorYears fromYear toYear endYear hf1 hf2 h
      _ startYear [] hs1 hs2 (by simpa using hmax) ?_
    have : (fromYear - startYear) % 256 < 256 := Int.emod_lt_of_pos _ (by decide)
    simp only [List.length_nil]
    push_cast
    omega

/-- The theorem of C39 at the rule range 2000..2126 and the years 2017..2127
of a match: with four places the loop ends after the years 2017..2020. -/
theorem C39_calcInteriorYears_terminates_witness :
    ∃ ys, calcInteriorYears 4 0 126 17 127 = some ys ∧ ys.length ≤ 4 :=
  C39_calcInteriorYears_terminates 4 0 126 17 127 (by decide) (by decide) (by decide)
    (by decide) (by decide) (Or.inr (by decide))

/-! ## C37: the pointer vector is a permutation of the pool slots -/

/-- Exchanging two entries of a list permutes it. -/
theorem perm_set_set (l : List Nat) (a b : Nat) (ha : a < l.length) (hb : b < l.length) :
    ((l.set a l[b]).set b l[a]).Perm l := by
  rw [List.perm_iff_count]
  intro x
  have hb2 : b < (l.set a l[b]).length := by rw [List.length_set]; exact hb
  rw [List.count_set _ _ _ _ hb2, List.count_set _ _ _ _ ha, List.getElem_set]
  have ca : l[a] = x → 0 < l.count x := fun e =>
    List.count_pos_iff.mpr (e ▸ List.getElem_mem ha)
  have cb : l[b] = x → 0 < l.count x := fun e =>
    List.count_pos_iff.mpr (e ▸ List.getElem_mem hb)
  by_cases hab : a = b
  · subst hab
    simp only [if_true, beq_iff_eq]
    split_ifs with h1
    · have := ca h1; omega
    · omega
  · simp only [hab, if_false, beq_iff_eq]
    split_ifs with h1 h2 h2
    · have := ca h1; have := cb h2; omega
    · have := ca h1; omega
    · have := cb h2; omega
    · omega

namespace TransitionStorage

/-- A swap permutes the pointer vector. -/
theorem swap_perm {ts ts2 : TransitionStorage} {a b : Nat} (h : ts.swap a b = some ts2) :
    ts2.mTransitions.Perm ts.mTransitions := by
  obtain ⟨pa, pb, ha, hb, _⟩ := swap_spec h
  have hla : a < ts.mTransitions.length := (List.getElem?_eq_some_iff.mp ha).1
  have hlb : b < ts.mTransitions.length := (List.getElem?_eq_some_iff.mp hb).1
  obtain ⟨ts3, h3, _, _, _, e⟩ := @swap_mTransitions ts a b hla hlb
  rw [h] at h3
  have e3 : ts2 = ts3 := Option.some.inj h3
  rw [e3, e]
  exact perm_set_set _ _ _ hla hlb

/-- The insertion loop permutes the pointer vector. -/
theorem addFreeAgentToCandidatePoolLoop_perm :
    ∀ (k : Nat) (ts ts2 : TransitionStorage),
      addFreeAgentToCandidatePoolLoop ts k = some ts2 →
      ts2.mTransitions.Perm ts.mTransitions := by
  intro k
  induction k with
  | zero =>
    intro ts ts2 h
    simp only [addFreeAgentToCandidatePoolLoop, Option.some.injEq] at h
    subst h
    exact List.Perm.refl _
  | succ i ih =>
    intro ts ts2 h
    rcases addFreeAgentToCandidatePoolLoop_succ ts ts2 i h with
      ⟨_, e⟩ | ⟨hc, currT, prevT, _, _, ⟨_, e⟩ | ⟨_, ts1, hs, hl⟩⟩
    · subst e; exact List.Perm.refl _
    · subst e; exact List.Perm.refl _
    · exact (ih ts1 ts2 hl).trans (swap_perm hs)

/-- The compaction loop permutes the pointer vector. -/
theorem addActiveCandidatesLoop_perm :
    ∀ (n x k : Nat) (ts : TransitionStorage) (r : Nat × TransitionStorage),
      addActiveCandidatesLoop n x k ts = some r →
      r.2.mTransitions.Perm ts.mTransitions := by
  intro n
  induction n with
  | zero =>
    intro x k ts r h
    simp only [addActiveCandidatesLoop, Option.some.injEq] at h
    subst h
    exact List.Perm.refl _
  | succ n ih =>
    intro x k ts r h
    unfold addActiveCandidatesLoop at h
    obtain ⟨c, hc, h⟩ := Option.bind_eq_some.mp h
    split_ifs at h with h1 h2
    · obtain ⟨ts1, hs, hl⟩ := Option.bind_eq_some.mp h
      exact (ih _ _ ts1 r hl).trans (swap_perm hs)
    · exact ih _ _ ts r h
    · exact ih _ _ ts r h

/-- In a permutation of the pool slots every entry of the pointer vector can
be read and points to a transition. -/
theorem isPermutation_getTransition {SIZE : Nat} {ts : TransitionStorage}
    (hp : ts.isPermutation SIZE) :
    ts.mTransitions.length = SIZE
    ∧ (∀ p ∈ ts.mTransitions, p < ts.mPool.length)
    ∧ ∀ j, j < SIZE → (ts.getTransition j).isSome := by
  have hlen : ts.mTransitions.length = SIZE := by
    rw [hp.1.length_eq, List.length_range]
  have hmem : ∀ p ∈ ts.mTransitions, p < ts.mPool.length := by
    intro p hpm
    have := hp.1.mem_iff.mp hpm
    rw [List.mem_range] at this
    rw [hp.2]; exact this
  refine ⟨hlen, hmem, ?_⟩
  intro j hj
  have hj2 : j < ts.mTransitions.length := by omega
  have hs : ts.slotAt j = some ts.mTransitions[j] := List.getElem?_eq_getElem hj2
  have hd := (deref_isSome_iff ts ts.mTransitions[j]).mpr (hmem _ (List.getElem_mem hj2))
  obtain ⟨t, ht⟩ := Option.isSome_iff_exists.mp hd
  rw [Option.isSome_iff_exists]
  exact ⟨t, getTransition_eq_some.mpr ⟨_, hs, ht⟩⟩

end TransitionStorage

/-- C37: after TransitionStorage::init the pointer vector maps index i to
slot i, for every pool state. For every pool state with N slots whose pointer
vector is a permutation of the N slots, with iPrior <= iCand <= iFree < N,
each of setFreeAgentAsPrior, addFreeAgentToCandidatePool and
addActiveCandidatesToActivePool returns, leaves the slots where they are and
leaves the pointer vector a permutation of the N slots. In such a state no
slot occurs twice in the pointer vector, every slot occurs in it, and
different indexes (hence different regions) point to different
transitions. -/
theorem C37_pointer_vector_permutation (SIZE : Nat) (ts : TransitionStorage)
    (hp : ts.isPermutation SIZE)
    (h1 : ts.mIndexPrior ≤ ts.mIndexCandidates) (h2 : ts.mIndexCandidates ≤ ts.mIndexFree)
    (h3 : ts.mIndexFree < SIZE) :
    (ts.init SIZE).mTransitions = List.range SIZE
    ∧ (ts.init SIZE).isPermutation SIZE
    ∧ (∃ ts2, ts.setFreeAgentAsPrior = some ts2 ∧ ts2.isPermutation SIZE
        ∧ ts2.mPool = ts.mPool)
    ∧ (∃ ts2, ts.addFreeAgentToCandidatePool SIZE = some ts2 ∧ ts2.isPermutation SIZE
        ∧ ts2.mPool = ts.mPool)
    ∧ (∃ ts2, ts.addActiveCandidatesToActivePool = some ts2 ∧ ts2.isPermutation SIZE
        ∧ ts2.mPool = ts.mPool)
    ∧ ts.mTransitions.Nodup
    ∧ (∀ p, p < SIZE → p ∈ ts.mTransitions)
    ∧ ts.distinctSlots := by
  obtain ⟨hlen, hmem, hget⟩ := TransitionStorage.isPermutation_getTransition hp
  have hnd : ts.mTransitions.Nodup := hp.1.nodup_iff.mpr (List.nodup_range SIZE)
  refine ⟨rfl, ⟨List.Perm.refl _, hp.2⟩, ?_, ?_, ?_, hnd, ?_, ?_⟩
  · obtain ⟨ts2, hs, e1, _, _, _⟩ := @TransitionStorage.swap_mTransitions ts ts.mIndexPrior
      ts.mIndexFree (by omega) (by omega)
    refine ⟨ts2, hs, ⟨(TransitionStorage.swap_perm hs).trans hp.1, ?_⟩, e1⟩
    rw [e1]; exact hp.2
  · obtain ⟨ts2, k, hl, _, _, e1, _⟩ :=
      TransitionStorage.addFreeAgentToCandidatePoolLoop_rotate ts.mIndexFree ts h2
        (fun j _ hj => hget j (by omega))
    have hperm := TransitionStorage.addFreeAgentToCandidatePoolLoop_perm _ _ _ hl
    refine ⟨{ ts2 with mIndexFree := ts2.mIndexFree + 1 }, ?_, ⟨hperm.trans hp.1, ?_⟩, e1⟩
    · unfold TransitionStorage.addFreeAgentToCandidatePool
      rw [if_neg (by omega), hl]
      rfl
    · show ts2.mPool.length = SIZE
      rw [e1]; exact hp.2
  · obtain ⟨r, hl, e1, _, _, _⟩ :=
      TransitionStorage.addActiveCandidatesLoop_compact (ts.mIndexFree - ts.mIndexCandidates)
        ts.mIndexPrior ts.mIndexCandidates ts h1 (by omega)
        (fun p hpm => hmem p (List.mem_of_mem_drop (List.mem_of_mem_take hpm)))
    have hperm := TransitionStorage.addActiveCandidatesLoop_perm _ _ _ _ _ hl
    refine ⟨{ r.2 with mIndexPrior := r.1, mIndexCandidates := r.1, mIndexFree := r.1 }, ?_,
      ⟨hperm.trans hp.1, ?_⟩, e1⟩
    · unfold TransitionStorage.addActiveCandidatesToActivePool
      rw [hl]
      rfl
    · show r.2.mPool.length = SIZE
      rw [e1]; exact hp.2
  · intro p hpS
    exact hp.1.mem_iff.mpr (List.mem_range.mpr hpS)
  · intro i j p hi hj
    unfold TransitionStorage.slotAt at hi hj
    obtain ⟨hi1, hi2⟩ := List.getElem?_eq_some_iff.mp hi
    obtain ⟨hj1, hj2⟩ := List.getElem?_eq_some_iff.mp hj
    exact (List.Nodup.getElem_inj_iff hnd).mp (hi2.trans hj2.symm)

/-- The theorem of C37 at the example pool of 8 slots: each of the three
operations returns a pool whose pointer vector is a permutation of the 8
slots. -/
theorem C37_pointer_vector_permutation_witness :
    (∃ ts2, examplePool.setFreeAgentAsPrior = some ts2 ∧ ts2.isPermutation 8
      ∧ ts2.mPool = examplePool.mPool)
    ∧ (∃ ts2, examplePool.addFreeAgentToCandidatePool 8 = some ts2 ∧ ts2.isPermutation 8
      ∧ ts2.mPool = examplePool.mPool)
    ∧ (∃ ts2, examplePool.addActiveCandidatesToActivePool = some ts2 ∧ ts2.isPermutation 8
      ∧ ts2.mPool = examplePool.mPool) :=
  have h := C37_pointer_vector_permutation 8 examplePool
    ⟨List.Perm.refl _, rfl⟩ (by decide) (by decide) (by decide)
  ⟨h.2.2.1, h.2.2.2.1, h.2.2.2.2.1⟩

/-! ## C33: setAsPriorTransition -/

namespace TransitionStorage

theorem modify_total {ts : TransitionStorage} {p : Nat} {t0 : Transition}
    (f : Transition → Transition) (h : ts.deref p = some t0) :
    ∃ ts2, ts.modify p f = some ts2 := by
  unfold modify
  rw [h, Option.some_bind]
  unfold store
  have hp : p < ts.mPool.length := (deref_isSome_iff ts p).mp (by rw [h]; rfl)
  rw [if_pos hp]
  exact ⟨_, rfl⟩

end TransitionStorage

/-- The effect of `setAsPriorTransition` for the free agent at `mIndexFree`:
it returns, and the prior slot holds `priorStep` of the former prior and the
free agent; when the free agent is adopted the former prior becomes the free
agent. -/
theorem setAsPriorTransition_prior (ts : TransitionStorage) (t : Nat)
    (priorT tT : Transition) (hd : ts.distinctSlots)
    (hne : ts.mIndexPrior ≠ ts.mIndexFree) (ht : ts.slotAt ts.mIndexFree = some t)
    (hprior : ts.getTransition ts.mIndexPrior = some priorT)
    (hfree : ts.getTransition ts.mIndexFree = some tT) :
    ∃ ts2, setAsPriorTransition ts t = some ts2
      ∧ ts2.indexes = ts.indexes ∧ ts2.mHighWater = ts.mHighWater ∧ ts2.distinctSlots
      ∧ ts2.getTransition ts.mIndexPrior = some (priorStep priorT tT)
      ∧ (ts2.getTransition ts.mIndexFree).isSome
      ∧ (priorT.active = true ∧ priorT.transitionTime.lt tT.transitionTime = false →
          ts2 = ts)
      ∧ (∀ j, j ≠ ts.mIndexPrior → j ≠ ts.mIndexFree →
          ts2.getTransition j = ts.getTransition j) := by
  obtain ⟨prior, hp, hpT⟩ := getTransition_eq_some.mp hprior
  obtain ⟨t', ht', htT⟩ := getTransition_eq_some.mp hfree
  rw [ht] at ht'
  have et : t = t' := Option.some.inj ht'
  subst et
  have hstep : setAsPriorTransition ts t
      = (if priorT.active = true ∧ priorT.transitionTime.lt tT.transitionTime = false
          then some ts
         else (ts.modify t fun x => { x with active := true }).bind fun ts1 =>
            ts1.setFreeAgentAsPrior) := by
    unfold setAsPriorTransition TransitionStorage.getPrior
    rw [hp, Option.some_bind, hpT, Option.some_bind, htT, Option.some_bind]
    by_cases ha : priorT.active = true
    · by_cases hl : priorT.transitionTime.lt tT.transitionTime = true
      · rw [if_pos ha, if_pos hl, if_neg (by simp [hl])]
      · rw [if_pos ha, if_neg hl, if_pos ⟨ha, by simpa using hl⟩]
    · rw [if_neg ha, if_neg (by simp [ha])]
  rw [hstep]
  by_cases hk : priorT.active = true ∧ priorT.transitionTime.lt tT.transitionTime = false
  · rw [if_pos hk]
    refine ⟨ts, rfl, rfl, rfl, hd, ?_, ?_, fun _ => rfl, fun _ _ _ => rfl⟩
    · rw [hprior]; unfold priorStep; rw [if_pos hk]
    · rw [hfree]; rfl
  · rw [if_neg hk]
    obtain ⟨ts1, h1⟩ := TransitionStorage.modify_total (fun x => { x with active := true }) htT
    rw [h1, Option.some_bind]
    have e1 := TransitionStorage.modify_frame h1
    have i1 := (TransitionStorage.indexes_eq_iff _ _).mp e1.1
    have hla : ts.mIndexPrior < ts.mTransitions.length := (List.getElem?_eq_some_iff.mp hp).1
    have hlb : ts.mIndexFree < ts.mTransitions.length := (List.getElem?_eq_some_iff.mp ht).1
    obtain ⟨ts2, h2, _, _, _, _⟩ := @TransitionStorage.swap_mTransitions ts1 ts1.mIndexPrior
      ts1.mIndexFree (by rw [i1.1, e1.2.1]; exact hla) (by rw [i1.2.2, e1.2.1]; exact hlb)
    have h2' : ts1.setFreeAgentAsPrior = some ts2 := h2
    rw [h2']
    rw [i1.1, i1.2.2] at h2
    obtain ⟨pa, pb, _, _, f1, f2, f3, _⟩ := TransitionStorage.swap_spec h2
    have g := TransitionStorage.swap_getTransition h2
    have g1 := TransitionStorage.modify_getTransition h1 hd ht
    refine ⟨ts2, rfl, f2.trans e1.1, f3.trans e1.2.2.1,
      TransitionStorage.swap_distinctSlots h2 (TransitionStorage.modify_distinctSlots h1 hd),
      ?_, ?_, fun hc => absurd hc hk, ?_⟩
    · rw [g]
      simp only [hne, if_false, if_true]
      rw [g1]
      simp only [if_true, hfree, Option.map]
      unfold priorStep
      rw [if_neg hk]
    · rw [g]
      simp only [if_true]
      rw [g1, if_neg hne, hprior]
      rfl
    · intro j j1 j2
      rw [g]
      simp only [j1, j2, if_false]
      rw [g1]
      simp [j2]

/-- A sequence of calls of `setAsPriorTransition` returns and leaves in the
prior slot the fold of `priorStep` over the offered transitions. -/
theorem offerPriors_spec : ∀ (xs : List Transition) (ts : TransitionStorage) (p : Transition),
    ts.distinctSlots → ts.mIndexPrior ≠ ts.mIndexFree →
    ts.getTransition ts.mIndexPrior = some p → (ts.getTransition ts.mIndexFree).isSome →
    ∃ ts3, offerPriors xs ts = some ts3 ∧ ts3.indexes = ts.indexes
      ∧ ts3.mHighWater = ts.mHighWater ∧ ts3.distinctSlots
      ∧ ts3.getTransition ts.mIndexPrior = some (xs.foldl priorStep p) := by
  intro xs
  induction xs with
  | nil =>
    intro ts p hd _ hp _
    exact ⟨ts, rfl, rfl, rfl, hd, hp⟩
  | cons x xs ih =>
    intro ts p hd hne hp hf
    obtain ⟨f0, hf0⟩ := Option.isSome_iff_exists.mp hf
    obtain ⟨t, ht, htT⟩ := getTransition_eq_some.mp hf0
    obtain ⟨ts1, h1⟩ := TransitionStorage.modify_total (fun _ => x) htT
    have e1 := TransitionStorage.modify_frame h1
    have i1 := (TransitionStorage.indexes_eq_iff _ _).mp e1.1
    have g1 := TransitionStorage.modify_getTransition h1 hd ht
    have hd1 := TransitionStorage.modify_distinctSlots h1 hd
    have ht1 : ts1.slotAt ts1.mIndexFree = some t := by
      rw [i1.2.2, TransitionStorage.slotAt_modify h1]; exact ht
    have hp1 : ts1.getTransition ts1.mIndexPrior = some p := by
      rw [i1.1, g1, if_neg hne]; exact hp
    have hf1 : ts1.getTransition ts1.mIndexFree = some x := by
      rw [i1.2.2, g1, if_pos rfl, hf0]; rfl
    obtain ⟨ts2, h2, j2, w2, hd2, hp2, hf2, _, _⟩ :=
      setAsPriorTransition_prior ts1 t p x hd1 (by rw [i1.1, i1.2.2]; exact hne) ht1 hp1 hf1
    have i2 := (TransitionStorage.indexes_eq_iff _ _).mp j2
    obtain ⟨ts3, h3, j3, w3, hd3, hp3⟩ := ih ts2 (priorStep p x) hd2
      (by rw [i2.1, i2.2.2, i1.1, i1.2.2]; exact hne) (by rw [i2.1]; exact hp2)
      (by rw [i2.2.2]; exact hf2)
    refine ⟨ts3, ?_, j3.trans (j2.trans e1.1), w3.trans (w2.trans e1.2.2.1), hd3, ?_⟩
    · show ((ts.slotAt ts.mIndexFree).bind fun t =>
        (ts.modify t fun _ => x).bind fun ts1 =>
        (setAsPriorTransition ts1 t).bind fun ts2 => offerPriors xs ts2) = some ts3
      rw [ht, Option.some_bind, h1, Option.some_bind, h2, Option.some_bind, h3]
    · rw [i2.1, i1.1] at hp3
      exact hp3

/-- After transitions were offered to an active prior, the prior slot holds
an active transition that is the former prior or one of those offered, and
that is not earlier than any of them. -/
theorem foldl_priorStep_active : ∀ (xs : List Transition) (p : Transition),
    p.active = true →
    (xs.foldl priorStep p).active = true
    ∧ (xs.foldl priorStep p = p ∨ ∃ x ∈ xs, xs.foldl priorStep p = { x with active := true })
    ∧ (xs.foldl priorStep p).transitionTime.lt p.transitionTime = false
    ∧ ∀ x ∈ xs, (xs.foldl priorStep p).transitionTime.lt x.transitionTime = false := by
  intro xs
  induction xs with
  | nil =>
    intro p hp
    exact ⟨hp, Or.inl rfl, DateTuple.lt_irrefl _, fun x hx => absurd hx (List.not_mem_nil x)⟩
  | cons x xs ih =>
    intro p hp
    rw [List.foldl_cons]
    by_cases hk : p.active = true ∧ p.transitionTime.lt x.transitionTime = false
    · have e : priorStep p x = p := by unfold priorStep; rw [if_pos hk]
      rw [e]
      obtain ⟨a1, a2, a3, a4⟩ := ih p hp
      refine ⟨a1, ?_, a3, ?_⟩
      · rcases a2 with a2 | ⟨y, hy, a2⟩
        · exact Or.inl a2
        · exact Or.inr ⟨y, List.mem_cons_of_mem _ hy, a2⟩
      · intro y hy
        rcases List.mem_cons.mp hy with rfl | hy
        · have k2 := hk.2
          rw [← Bool.not_eq_true, DateTuple.lt_iff] at a3 k2 ⊢
          omega
        · exact a4 y hy
    · have e : priorStep p x = { x with active := true } := by
        unfold priorStep; rw [if_neg hk]
      have hlt : p.transitionTime.lt x.transitionTime = true := by
        by_contra hc
        exact hk ⟨hp, by simpa using hc⟩
      rw [e]
      obtain ⟨a1, a2, a3, a4⟩ := ih { x with active := true } rfl
      refine ⟨a1, ?_, ?_, ?_⟩
      · rcases a2 with a2 | ⟨y, hy, a2⟩
        · exact Or.inr ⟨x, List.mem_cons_self _ _, a2⟩
        · exact Or.inr ⟨y, List.mem_cons_of_mem _ hy, a2⟩
      · have a3' : (List.foldl priorStep { x with active := true } xs).transitionTime.lt
            x.transitionTime = false := a3
        rw [← Bool.not_eq_true, DateTuple.lt_iff] at a3' ⊢
        rw [DateTuple.lt_iff] at hlt
        omega
      · intro y hy
        rcases List.mem_cons.mp hy with rfl | hy
        · exact a3
        · exact a4 y hy

/-- C33: for every pool state with distinct pointers, a reserved prior slot
(index iPrior, holding priorT) and a free agent t (index iFree != iPrior,
holding tT), setAsPriorTransition returns and leaves the indices unchanged; the
prior slot then holds an active transition: the free agent, marked active,
when the slot's active flag was false or priorT.transitionTime is strictly
earlier than tT.transitionTime, and priorT, with nothing changed, otherwise
(ties keep the existing prior). After any non-empty sequence of transitions
offered in this way to a prior slot whose active flag was false, the prior slot
holds one of the offered transitions, marked active, and none of the offered
transitions has a later transitionTime. -/
theorem C33_setAsPriorTransition (ts : TransitionStorage) (t : Nat)
    (priorT tT : Transition) (hd : ts.distinctSlots)
    (hne : ts.mIndexPrior ≠ ts.mIndexFree) (ht : ts.slotAt ts.mIndexFree = some t)
    (hprior : ts.getTransition ts.mIndexPrior = some priorT)
    (hfree : ts.getTransition ts.mIndexFree = some tT) :
    (∃ ts2 p, setAsPriorTransition ts t = some ts2 ∧ ts2.indexes = ts.indexes
      ∧ ts2.getTransition ts.mIndexPrior = some p ∧ p.active = true
      ∧ (priorT.active = false ∨ priorT.transitionTime.lt tT.transitionTime = true →
          p = { tT with active := true })
      ∧ (priorT.active = true → priorT.transitionTime.lt tT.transitionTime = false →
          p = priorT ∧ ts2 = ts))
    ∧ (∀ xs : List Transition, ∃ ts3 p, offerPriors xs ts = some ts3
        ∧ ts3.indexes = ts.indexes ∧ ts3.getTransition ts.mIndexPrior = some p
        ∧ (priorT.active = false → xs ≠ [] →
            p.active = true ∧ (∃ x ∈ xs, p = { x with active := true })
            ∧ ∀ x ∈ xs, p.transitionTime.lt x.transitionTime = false)
        ∧ (priorT.active = true →
            p.active = true ∧ (p = priorT ∨ ∃ x ∈ xs, p = { x with active := true })
            ∧ p.transitionTime.lt priorT.transitionTime = false
            ∧ ∀ x ∈ xs, p.transitionTime.lt x.transitionTime = false)) := by
  constructor
  · obtain ⟨ts2, h2, j2, _, _, hp2, _, hkeep, _⟩ :=
      setAsPriorTransition_prior ts t priorT tT hd hne ht hprior hfree
    refine ⟨ts2, priorStep priorT tT, h2, j2, hp2, ?_, ?_, ?_⟩
    · unfold priorStep
      split_ifs with hk
      · exact hk.1
      · rfl
    · intro hc
      unfold priorStep
      rw [if_neg]
      rintro ⟨k1, k2⟩
      rcases hc with hc | hc
      · rw [k1] at hc; exact absurd hc (by decide)
      · rw [k2] at hc; exact absurd hc (by decide)
    · intro k1 k2
      refine ⟨?_, hkeep ⟨k1, k2⟩⟩
      unfold priorStep
      rw [if_pos ⟨k1, k2⟩]
  · intro xs
    obtain ⟨ts3, h3, j3, _, _, hp3⟩ := offerPriors_spec xs ts priorT hd hne hprior
      (by rw [hfree]; rfl)
    refine ⟨ts3, xs.foldl priorStep priorT, h3, j3, hp3, ?_, ?_⟩
    · intro hina hxs
      obtain ⟨x, rest, rfl⟩ := List.exists_cons_of_ne_nil hxs
      rw [List.foldl_cons]
      have e : priorStep priorT x = { x with active := true } := by
        unfold priorStep
        rw [if_neg]
        rintro ⟨k1, _⟩
        rw [k1] at hina; exact absurd hina (by decide)
      rw [e]
      obtain ⟨a1, a2, a3, a4⟩ := foldl_priorStep_active rest { x with active := true } rfl
      refine ⟨a1, ?_, ?_⟩
      · rcases a2 with a2 | ⟨y, hy, a2⟩
        · exact ⟨x, List.mem_cons_self _ _, a2⟩
        · exact ⟨y, List.mem_cons_of_mem _ hy, a2⟩
      · intro y hy
        rcases List.mem_cons.mp hy with rfl | hy
        · exact a3
        · exact a4 y hy
    · intro hact
      exact foldl_priorStep_active xs priorT hact

/-- The theorem of C33 at the example pool: the prior slot holds the
transition of February, the free agent the one of March, which is later and
is adopted as prior. -/
theorem C33_setAsPriorTransition_witness :
    ∃ ts2 p, setAsPriorTransition examplePool 5 = some ts2
      ∧ ts2.indexes = examplePool.indexes
      ∧ ts2.getTransition 1 = some p ∧ p.active = true
      ∧ p = { slotOfMonth 3 true with active := true } := by
  obtain ⟨ts2, p, h1, h2, h3, h4, h5, _⟩ :=
    (C33_setAsPriorTransition examplePool 5 (slotOfMonth 2 true) (slotOfMonth 3 true)
      (TransitionStorage.distinctSlots_congr
        (rfl : examplePool.mTransitions = (examplePool.init 8).mTransitions)
        (TransitionStorage.init_distinctSlots 8 examplePool))
      (by decide) (by decide) (by decide) (by decide)).1
  exact ⟨ts2, p, h1, h2, h3, h4, h5 (Or.inr (by decide))⟩

/-! ## C34: the Candidate pool left by findCandidateTransitions is sorted -/

/-- The month of the transition time of a rule is its `inMonth` or a
neighbour of it. -/
theorem getTransitionTime_month_ge (y : Int) (r : ZoneRule) :
    r.inMonth - 1 ≤ (getTransitionTime y r).month := by
  unfold getTransitionTime calcStartDayOfMonth
  simp only
  split_ifs <;> simp only <;> omega

namespace TransitionStorage

/-- The insertion loop sorts: when all pairs of `[mIndexCandidates, K]` are
in non-decreasing order except those that end at the entry `k` being
inserted, all pairs are in non-decreasing order afterwards. -/
theorem addFreeAgentToCandidatePoolLoop_sortedLe (K : Nat) :
    ∀ (k : Nat) (ts ts2 : TransitionStorage),
      addFreeAgentToCandidatePoolLoop ts k = some ts2 → k ≤ K →
      (∀ i j, ts.mIndexCandidates ≤ i → i < j → j ≤ K → j ≠ k →
        ∀ a ∈ ts.getTransition i, ∀ b ∈ ts.getTransition j,
          a.transitionTime.le b.transitionTime = true) →
      ∀ i j, ts.mIndexCandidates ≤ i → i < j → j ≤ K →
        ∀ a ∈ ts2.getTransition i, ∀ b ∈ ts2.getTransition j,
          a.transitionTime.le b.transitionTime = true := by
  intro k
  induction k with
  | zero =>
    intro ts ts2 h _ hs i j h1 h2 h3 a ha b hb
    simp only [addFreeAgentToCandidatePoolLoop, Option.some.injEq] at h
    subst h
    exact hs i j h1 h2 h3 (by omega) a ha b hb
  | succ k ih =>
    intro ts ts2 h hK hs i j h1 h2 h3 a ha b hb
    rcases addFreeAgentToCandidatePoolLoop_succ ts ts2 k h with
      ⟨hc, e⟩ | ⟨hc, currT, prevT, hcurr, hprev, ⟨hle, e⟩ | ⟨hlt, ts1, hsw, hl⟩⟩
    · subst e
      by_cases hj : j = k + 1
      · omega
      · exact hs i j h1 h2 h3 hj a ha b hb
    · subst e
      by_cases hj : j = k + 1
      · subst hj
        have hb2 : b = currT := Option.some.inj (hb.symm.trans hcurr)
        subst hb2
        by_cases hi : i = k
        · subst hi
          have ha2 : a = prevT := Option.some.inj (ha.symm.trans hprev)
          subst ha2
          exact hle
        · exact DateTuple.le_trans
            (hs i k h1 (by omega) (by omega) (by omega) a ha prevT hprev) hle
      · exact hs i j h1 h2 h3 hj a ha b hb
    · obtain ⟨pa, pb, _, _, e1, e2, e3, _⟩ := swap_spec hsw
      have hg := swap_getTransition hsw
      have hcand : ts1.mIndexCandidates = ts.mIndexCandidates := by
        unfold indexes at e2
        simp only [Prod.mk.injEq] at e2
        exact e2.2.1
      have := ih ts1 ts2 hl (by omega)
      rw [hcand] at this
      refine this ?_ i j h1 h2 h3 a ha b hb
      intro i' j' g1 g2 g3 g4 a' ha' b' hb'
      rw [Membership.mem, Option.instMembership] at ha' hb'
      simp only [hg] at ha' hb'
      by_cases hj1 : j' = k + 1
      · subst hj1
        simp only [if_neg (show k + 1 ≠ k by omega), if_true] at hb'
        by_cases hi1 : i' = k
        · subst hi1
          simp only [if_true] at ha'
          have ea : a' = currT := Option.some.inj (ha'.symm.trans hcurr)
          have eb : b' = prevT := Option.some.inj (hb'.symm.trans hprev)
          rw [ea, eb]
          exact DateTuple.le_of_lt hlt
        · simp only [if_neg hi1, if_neg (show i' ≠ k + 1 by omega)] at ha'
          exact hs i' k g1 (by omega) (by omega) (by omega) a' ha' b' hb'
      · simp only [if_neg g4, if_neg hj1] at hb'
        by_cases hi1 : i' = k
        · subst hi1
          simp only [if_true] at ha'
          exact hs (i' + 1) j' (by omega) (by omega) g3 hj1 a' ha' b' hb'
        · by_cases hi2 : i' = k + 1
          · subst hi2
            simp only [if_neg hi1, if_true] at ha'
            exact hs k j' (by omega) (by omega) g3 hj1 a' ha' b' hb'
          · simp only [if_neg hi1, if_neg hi2] at ha'
            exact hs i' j' g1 g2 g3 hj1 a' ha' b' hb'

/-- The effect of `addFreeAgentToCandidatePool` below the capacity on a
Candidate pool in non-decreasing order: the pool with the free agent is in
non-decreasing order. -/
theorem addFreeAgentToCandidatePool_sortedLe {SIZE : Nat} {ts ts2 : TransitionStorage}
    (h : ts.addFreeAgentToCandidatePool SIZE = some ts2) (hf : ts.mIndexFree < SIZE)
    (hsort : ∀ i j, ts.mIndexCandidates ≤ i → i < j → j < ts.mIndexFree →
      ∀ a ∈ ts.getTransition i, ∀ b ∈ ts.getTransition j,
        a.transitionTime.le b.transitionTime = true) :
    ∀ i j, ts.mIndexCandidates ≤ i → i < j → j ≤ ts.mIndexFree →
      ∀ a ∈ ts2.getTransition i, ∀ b ∈ ts2.getTransition j,
        a.transitionTime.le b.transitionTime = true := by
  unfold TransitionStorage.addFreeAgentToCandidatePool at h
  simp only [ge_iff_le, show ¬ SIZE ≤ ts.mIndexFree by omega, if_false] at h
  obtain ⟨ts1, hl, h⟩ := Option.map_eq_some'.mp h
  have hg : ∀ j, ts2.getTransition j = ts1.getTransition j := by
    intro j; rw [← h]; rfl
  intro i j h1 h2 h3 a ha b hb
  rw [Membership.mem, Option.instMembership] at ha hb
  simp only [hg] at ha hb
  exact addFreeAgentToCandidatePoolLoop_sortedLe ts.mIndexFree ts.mIndexFree
    ts ts1 hl (le_refl _)
    (fun i j g1 g2 g3 g4 => hsort i j g1 g2 (by omega)) i j h1 h2 h3 a ha b hb

end TransitionStorage

/-- The invariant of `findCandidateTransitions` does not look at the entries
from `mIndexFree` on. -/
theorem candidateInvLe_of_agree {n : Nat} {m : ZoneMatch} {ts ts1 : TransitionStorage}
    (h : candidateInvLe n m ts) (hi : ts1.indexes = ts.indexes)
    (hd : ts1.distinctSlots)
    (hg : ∀ j, j < ts.mIndexFree → ts1.getTransition j = ts.getTransition j) :
    candidateInvLe n m ts1 := by
  obtain ⟨h1, h2, h3, h4, h6, h7, h8⟩ := h
  obtain ⟨i1, i2, i3⟩ := (TransitionStorage.indexes_eq_iff _ _).mp hi
  refine ⟨i1.trans h1, i2.trans h2, by omega, hd, ?_, ?_, ?_⟩
  · intro i j g1 g2 g3 a ha b hb
    rw [i3] at g3
    rw [Membership.mem, Option.instMembership] at ha hb
    simp only [hg i (by omega), hg j g3] at ha hb
    exact h6 i j g1 g2 g3 a ha b hb
  · intro i g1 g2 c hc
    rw [i3] at g2
    rw [Membership.mem, Option.instMembership] at hc
    simp only [hg i g2] at hc
    exact h7 i g1 g2 c hc
  · intro p hp
    rw [Membership.mem, Option.instMembership] at hp
    simp only [hg n (by omega)] at hp
    exact h8 p hp

/-- A free agent that is offered as prior keeps the invariant of
`findCandidateTransitions`. -/
theorem candidateInvLe_priorStep {n : Nat} {m : ZoneMatch}
    {ts ts1 ts2 : TransitionStorage} {r : Nat × TransitionStorage}
    {F : Transition → Transition}
    (hinv : candidateInvLe n m ts) (hf : ts.mIndexFree < kMaxTransitions)
    (h1 : ts.getFreeAgent kMaxTransitions = some r) (h2 : r.2.modify r.1 F = some ts1)
    (h3 : setAsPriorTransition ts1 r.1 = some ts2)
    (hnew : ∀ t0, (F t0).transitionTime.yearTiny < m.startDateTime.yearTiny
        ∨ ((F t0).transitionTime.yearTiny * 12 + (F t0).transitionTime.month
              < m.startDateTime.yearTiny * 12 + m.startDateTime.month - 1
            ∧ 0 ≤ (F t0).transitionTime.month)) :
    candidateInvLe n m ts2 := by
  obtain ⟨e1, e2, e3, e4, t0, _, e5⟩ := freeAgent_modify hinv.2.2.2.1 hf h1 h2
  have hinv1 : candidateInvLe n m ts1 :=
    candidateInvLe_of_agree hinv e1 e2 (fun j hj => e4 j (by omega))
  obtain ⟨i1, i2, i3⟩ := (TransitionStorage.indexes_eq_iff _ _).mp e1
  obtain ⟨k1, k2, k3, k4, k6, k7, k8⟩ := hinv1
  obtain ⟨f1, _, f3, priorT, tT, _, f5, f6⟩ :=
    setAsPriorTransition_spec h3 e2 (by rw [i3]; exact e3) (by omega)
  rcases f6 with ⟨f6, _⟩ | ⟨f6, f7⟩
  · rw [f6]
    exact ⟨k1, k2, k3, k4, k6, k7, k8⟩
  · obtain ⟨j1, j2, j3⟩ := (TransitionStorage.indexes_eq_iff _ _).mp f1
    have hT : tT = F t0 := by
      rw [i3, e5] at f5
      exact (Option.some.inj f5).symm
    have hg : ∀ j, j ≠ n → j < ts1.mIndexFree → ts2.getTransition j = ts1.getTransition j :=
      fun j g1 g2 => f7 j (by omega) (by omega)
    refine ⟨j1.trans k1, j2.trans k2, by omega, f3, ?_, ?_, ?_⟩
    · intro i j g1 g2 g3 a ha b hb
      rw [j3] at g3
      rw [Membership.mem, Option.instMembership] at ha hb
      simp only [hg i (by omega) (by omega), hg j (by omega) g3] at ha hb
      exact k6 i j g1 g2 g3 a ha b hb
    · intro i g1 g2 c hc
      rw [j3] at g2
      rw [Membership.mem, Option.instMembership] at hc
      simp only [hg i (by omega) g2] at hc
      exact k7 i g1 g2 c hc
    · intro p hp _
      rw [Membership.mem, Option.instMembership] at hp
      rw [k1] at f6
      rw [f6] at hp
      have ep : p = { tT with active := true } := (Option.some.inj hp).symm
      rw [ep, hT]
      exact hnew t0

/-- A free agent that joins the Candidate pool keeps the invariant of
`findCandidateTransitions`. -/
theorem candidateInvLe_candidateStep {n : Nat} {m : ZoneMatch}
    {ts ts1 ts2 : TransitionStorage}
    {r : Nat × TransitionStorage} {F : Transition → Transition}
    (hinv : candidateInvLe n m ts) (hf : ts.mIndexFree < kMaxTransitions)
    (h1 : ts.getFreeAgent kMaxTransitions = some r) (h2 : r.2.modify r.1 F = some ts1)
    (h3 : ts1.addFreeAgentToCandidatePool kMaxTransitions = some ts2)
    (hnew : ∀ t0, m.startDateTime.yearTiny ≤ (F t0).transitionTime.yearTiny
      ∧ m.startDateTime.yearTiny * 12 + m.startDateTime.month - 1
          ≤ (F t0).transitionTime.yearTiny * 12 + (F t0).transitionTime.month) :
    candidateInvLe n m ts2 := by
  obtain ⟨e1, e2, e3, e4, t0, _, e5⟩ := freeAgent_modify hinv.2.2.2.1 hf h1 h2
  have hinv1 : candidateInvLe n m ts1 :=
    candidateInvLe_of_agree hinv e1 e2 (fun j hj => e4 j (by omega))
  obtain ⟨i1, i2, i3⟩ := (TransitionStorage.indexes_eq_iff _ _).mp e1
  obtain ⟨k1, k2, k3, k4, k6, k7, k8⟩ := hinv1
  have hf1 : ts1.mIndexFree < kMaxTransitions := by rw [i3]; exact hf
  obtain ⟨⟨j1, j2, j3⟩, _, f3, f4, f5, _⟩ :=
    TransitionStorage.addFreeAgentToCandidatePool_spec h3 hf1
  have f6 := TransitionStorage.addFreeAgentToCandidatePool_sortedLe h3 hf1
  rw [k2] at f4 f5 f6
  rw [← i3] at e5
  refine ⟨j1.trans k1, j2.trans k2, by omega, f3 k4, ?_, ?_, ?_⟩
  · intro i j g1 g2 g3 a ha b hb
    exact f6 k6 i j g1 g2 (by omega) a ha b hb
  · intro i g1 g2 c hc
    obtain ⟨j2, g3, g4, g5⟩ := f5 i g1 (by omega)
    rw [Membership.mem, Option.instMembership] at hc
    rw [g5] at hc
    by_cases hj : j2 = ts1.mIndexFree
    · rw [hj, e5] at hc
      have ec : c = F t0 := (Option.some.inj hc).symm
      rw [ec]
      exact hnew t0
    · exact k7 j2 g3 (by omega) c hc
  · intro p hp
    rw [Membership.mem, Option.instMembership] at hp
    rw [f4 n (Or.inl (by omega))] at hp
    exact k8 p hp

/-- A free agent that is dropped keeps the invariant of
`findCandidateTransitions`. -/
theorem candidateInvLe_skipStep {n : Nat} {m : ZoneMatch}
    {ts ts1 : TransitionStorage} {r : Nat × TransitionStorage}
    {F : Transition → Transition}
    (hinv : candidateInvLe n m ts) (hf : ts.mIndexFree < kMaxTransitions)
    (h1 : ts.getFreeAgent kMaxTransitions = some r) (h2 : r.2.modify r.1 F = some ts1) :
    candidateInvLe n m ts1 := by
  obtain ⟨e1, e2, _, e4, _⟩ := freeAgent_modify hinv.2.2.2.1 hf h1 h2
  exact candidateInvLe_of_agree hinv e1 e2 (fun j hj => e4 j (by omega))

/-- The loop over the interior years of one rule keeps the invariant of
`findCandidateTransitions`. -/
theorem interiorYearsLoop_invLe (n : Nat) (m : ZoneMatch) (mp : Nat) (rule : ZoneRule)
    (hmonth : 1 ≤ rule.inMonth) :
    ∀ (ys : List Int) (ts ts2 : TransitionStorage),
      interiorYearsLoop rule mp m ys ts = some ts2 →
      ts2.mHighWater < kMaxTransitions →
      (∀ y ∈ ys, m.startDateTime.yearTiny ≤ y) →
      candidateInvLe n m ts → candidateInvLe n m ts2 := by
  intro ys
  induction ys with
  | nil =>
    intro ts ts2 h _ _ hinv
    simp only [interiorYearsLoop, Option.some.injEq] at h
    subst h
    exact hinv
  | cons y rest ih =>
    intro ts ts2 h hhw hys hinv
    have hf : ts.mIndexFree < kMaxTransitions := by
      have := (interiorYearsLoop_highWater _ _ _ _ _ _ h).2 (by simp)
      omega
    unfold interiorYearsLoop at h
    simp only [Option.bind_eq_some] at h
    obtain ⟨r, hr, ts1, h1, tT, hT, h⟩ := h
    obtain ⟨t0, et⟩ := freeAgent_readBack hinv.2.2.2.1 hf hr h1 hT
    have hy2 := hys y (List.mem_cons_self _ _)
    have hys2 : ∀ y' ∈ rest, m.startDateTime.yearTiny ≤ y' :=
      fun y' hy' => hys y' (List.mem_cons_of_mem _ hy')
    have htt : ∀ x, (createTransitionForYear x y (some rule) mp m).transitionTime
        = getTransitionTime y rule := fun x => (createTransitionForYear_rule x y rule mp m).1
    split_ifs at h with s1 s2
    · obtain ⟨ts3, h3, h4⟩ := Option.bind_eq_some.mp h
      refine ih ts3 ts2 h4 hhw hys2 ?_
      refine candidateInvLe_priorStep hinv hf hr h1 h3 ?_
      intro x
      rw [htt]
      refine Or.inr ⟨?_, ?_⟩
      · have := compareTransitionToMatchFuzzy_neg tT m s1
        rw [et, htt] at this
        exact this
      · have := getTransitionTime_month_ge y rule
        omega
    · obtain ⟨ts3, h3, h4⟩ := Option.bind_eq_some.mp h
      refine ih ts3 ts2 h4 hhw hys2 ?_
      refine candidateInvLe_candidateStep hinv hf hr h1 h3 ?_
      intro x
      rw [htt]
      refine ⟨?_, ?_⟩
      · rw [getTransitionTime_yearTiny]; exact hy2
      · have := compareTransitionToMatchFuzzy_one tT m s1
        rw [et, htt] at this
        exact this
    · exact ih ts1 ts2 h hhw hys2 (candidateInvLe_skipStep hinv hf hr h1)

/-- The loop over the rules of the policy keeps the invariant of
`findCandidateTransitions`. -/
theorem candidateRulesLoop_invLe (n : Nat) (m : ZoneMatch) (mp : Nat)
    (hstart : -127 ≤ m.startDateTime.yearTiny) (hs2 : m.startDateTime.yearTiny ≤ 127)
    (hend : m.untilDateTime.yearTiny ≤ 126) :
    ∀ (rules : List ZoneRule) (ts ts2 : TransitionStorage),
      candidateRulesLoop mp m m.startDateTime.yearTiny m.untilDateTime.yearTiny rules ts
        = some ts2 →
      ts2.mHighWater < kMaxTransitions →
      (∀ r ∈ rules, 1 ≤ r.inMonth) →
      candidateInvLe n m ts → candidateInvLe n m ts2 := by
  intro rules
  induction rules with
  | nil =>
    intro ts ts2 h _ _ hinv
    simp only [candidateRulesLoop, Option.some.injEq] at h
    subst h
    exact hinv
  | cons rule rest ih =>
    intro ts ts2 h hhw hrules hinv
    unfold candidateRulesLoop at h
    simp only [Option.bind_eq_some] at h
    obtain ⟨ys, hys, ts1, h1, h⟩ := h
    obtain ⟨_, y2⟩ := calcInteriorYears_spec _ _ _ _ _ _ hys (by omega) hend
    have hrule := hrules rule (List.mem_cons_self _ _)
    have hrules2 : ∀ r ∈ rest, 1 ≤ r.inMonth :=
      fun r hr => hrules r (List.mem_cons_of_mem _ hr)
    have hloop : ∀ ts1', interiorYearsLoop rule mp m ys ts = some ts1' →
        ts1'.mHighWater < kMaxTransitions → candidateInvLe n m ts1' := by
      intro ts1' g1 g2
      exact interiorYearsLoop_invLe n m mp rule hrule ys ts ts1' g1 g2
        (fun y hy => (y2 y hy).1) hinv
    split_ifs at h with hp
    · simp only [Option.bind_eq_some] at h
      obtain ⟨r, hr, ts3, h3, ts4, h4, h5⟩ := h
      obtain ⟨_, _, _, f1, f0, _⟩ := TransitionStorage.getFreeAgent_spec hr
      have f2 := (TransitionStorage.modify_frame h3).2.2.1
      have f3 := setAsPriorTransition_highWater h4
      have f4 := candidateRulesLoop_highWater _ _ _ _ _ _ _ h5
      have hinv1 := hloop ts1 h1 (by omega)
      refine ih ts4 ts2 h5 hhw hrules2 ?_
      refine candidateInvLe_priorStep hinv1 (by omega) hr h3 h4 ?_
      intro x
      rw [(createTransitionForYear_rule x _ rule mp m).1]
      refine Or.inl ?_
      rw [getTransitionTime_yearTiny]
      exact getMostRecentPriorYear_lt _ _ _ _ hstart hs2 hp
    · have f4 := candidateRulesLoop_highWater _ _ _ _ _ _ _ h
      exact ih ts1 ts2 h hhw hrules2 (hloop ts1 h1 (by omega))

/-- C34: for a named match whose policy has rules of the months 1 and later,
whose start month is at most 12 and whose years lie in [-127, 126], entered
with an empty Candidate pool behind n Active transitions and distinct
pointers, a run of findCandidateTransitions that stays below the capacity of
the pool leaves iPrior at n and the Candidate region [iCand, iFree) sorted
non-decreasingly by transitionTime (the order of the comparison operators,
which ignores the modifier). The reserved prior slot holds a transition: when
it is active (a prior was found) iCand is n, so the prior is the first
element of the sorted Candidate region; when it is not active iCand is n + 1
and the prior slot stays outside the Candidate region. -/
theorem C34_findCandidateTransitions_sorted {ts ts2 : TransitionStorage} {mp n : Nat}
    {m : ZoneMatch} {pol : ZonePolicy}
    (h : findCandidateTransitions ts mp m = some ts2)
    (hhw : ts2.mHighWater < kMaxTransitions)
    (hpol : m.era.zonePolicy = some pol)
    (hmonth : ∀ r ∈ pol.rules, 1 ≤ r.inMonth)
    (hsm : m.startDateTime.month ≤ 12)
    (hstart : -127 ≤ m.startDateTime.yearTiny) (hs2 : m.startDateTime.yearTiny ≤ 126)
    (hend : m.untilDateTime.yearTiny ≤ 126)
    (hn : ts.mIndexPrior = n ∧ ts.mIndexCandidates = n ∧ ts.mIndexFree = n)
    (hd : ts.distinctSlots) :
    ts2.mIndexPrior = n
    ∧ ts2.mIndexCandidates ≤ ts2.mIndexFree
    ∧ (∀ i j, ts2.mIndexCandidates ≤ i → i ≤ j → j < ts2.mIndexFree →
        ∀ a ∈ ts2.getTransition i, ∀ b ∈ ts2.getTransition j,
          a.transitionTime.le b.transitionTime = true)
    ∧ ∃ priorT, ts2.getTransition n = some priorT
        ∧ (priorT.active = true → ts2.mIndexCandidates = n)
        ∧ (priorT.active = false → ts2.mIndexCandidates = n + 1) := by
  unfold findCandidateTransitions at h
  simp only [Option.bind_eq_some] at h
  obtain ⟨pol2, hpol2, p0, hp0, ts1, h1, ts3, h3, p1, hp1, priorT, hpT, h⟩ := h
  rw [hpol] at hpol2
  have epol : pol = pol2 := Option.some.inj hpol2
  subst epol
  obtain ⟨n1, n2, n3⟩ := hn
  have hd0 : ts.reservePrior.2.distinctSlots := TransitionStorage.distinctSlots_congr rfl hd
  have hp0' : ts.reservePrior.2.slotAt n = some p0 := by
    have : ts.reservePrior.1 = n := n1
    rw [this] at hp0; exact hp0
  have g1 := TransitionStorage.modify_getTransition h1 hd0 hp0'
  have e1 := TransitionStorage.modify_frame h1
  obtain ⟨i1, i2, i3⟩ := (TransitionStorage.indexes_eq_iff _ _).mp e1.1
  have hinv1 : candidateInvLe n m ts1 := by
    refine ⟨?_, ?_, ?_, TransitionStorage.modify_distinctSlots h1 hd0, ?_, ?_, ?_⟩
    · rw [i1]; exact n1
    · rw [i2]; simp only [TransitionStorage.reservePrior]; omega
    · rw [i3]; simp only [TransitionStorage.reservePrior]; omega
    · intro i j c1 c2 c3
      rw [i3] at c3
      simp only [TransitionStorage.reservePrior] at c3
      omega
    · intro i c1 c2
      rw [i3] at c2
      simp only [TransitionStorage.reservePrior] at c2
      omega
    · intro p hp hact
      rw [Membership.mem, Option.instMembership] at hp
      rw [g1, if_pos rfl] at hp
      obtain ⟨x, _, hx⟩ := Option.map_eq_some'.mp hp
      rw [← hx] at hact
      simp at hact
  have hhw3 : ts3.mHighWater < kMaxTransitions := by
    split_ifs at h <;>
      (simp only [Option.some.injEq] at h; rw [← h] at hhw)
    · simpa [TransitionStorage.addPriorToCandidatePool] using hhw
    · exact hhw
  obtain ⟨k1, k2, k3, k4, k6, k7, k8⟩ :=
    candidateRulesLoop_invLe n m mp hstart (by omega) hend
      pol.rules ts1 ts3 h3 hhw3 hmonth hinv1
  have hpr : ts3.getTransition n = some priorT := by
    have : ts.reservePrior.1 = n := n1
    rw [this] at hp1
    exact getTransition_eq_some.mpr ⟨p1, hp1, hpT⟩
  have hrefl : ∀ i, ∀ a ∈ ts3.getTransition i, ∀ b ∈ ts3.getTransition i,
      a.transitionTime.le b.transitionTime = true := by
    intro i a ha b hb
    rw [Membership.mem, Option.instMembership] at ha hb
    have : a = b := Option.some.inj (ha.symm.trans hb)
    rw [this]
    exact DateTuple.le_refl _
  split_ifs at h with hact
  · simp only [Option.some.injEq] at h
    subst h
    have gg : ∀ j, ts3.addPriorToCandidatePool.getTransition j = ts3.getTransition j :=
      TransitionStorage.getTransition_congr rfl rfl
    have ic : ts3.addPriorToCandidatePool.mIndexCandidates = n := by
      simp only [TransitionStorage.addPriorToCandidatePool]; omega
    have if_ : ts3.addPriorToCandidatePool.mIndexFree = ts3.mIndexFree := rfl
    have w2 := k8 priorT hpr hact
    refine ⟨k1, by rw [ic, if_]; omega, ?_, priorT, by rw [gg]; exact hpr,
      fun _ => ic, fun hf => ?_⟩
    · intro i j c1 c2 c3 a ha b hb
      rw [ic] at c1
      rw [if_] at c3
      rw [gg] at ha hb
      by_cases hij : i = j
      · subst hij
        exact hrefl i a ha b hb
      · by_cases hi : i = n
        · subst hi
          rw [Membership.mem, Option.instMembership] at ha
          rw [hpr] at ha
          have ea : a = priorT := (Option.some.inj ha).symm
          subst ea
          obtain ⟨b2, b3⟩ := k7 j (by omega) c3 b hb
          rw [DateTuple.le_iff]
          rcases w2 with w2 | ⟨w2, w3⟩
          · left; omega
          · omega
        · exact k6 i j (by omega) (by omega) c3 a ha b hb
    · rw [hact] at hf
      exact absurd hf (by simp)
  · simp only [Option.some.injEq] at h
    subst h
    refine ⟨k1, by omega, ?_, priorT, hpr, fun ha => absurd ha hact, fun _ => k2⟩
    intro i j c1 c2 c3 a ha b hb
    by_cases hij : i = j
    · subst hij
      exact hrefl i a ha b hb
    · exact k6 i j (by omega) (by omega) c3 a ha b hb

/-- The theorem of C34 at the match of the monthly zone with three rules for
the year 2018, on an empty pool: the run returns with the high-water mark 5
and the indexes (0, 0, 5), the prior of May 2017 first. -/
theorem C34_findCandidateTransitions_sorted_witness :
    ∃ ts2, findCandidateTransitions (newStorage kMaxTransitions) 0 monthlyMatch3 = some ts2
      ∧ ts2.indexes = (0, 0, 5)
      ∧ (ts2.getTransition 0).map (fun t => (t.transitionTime.yearTiny, t.transitionTime.month))
          = some (17, 5)
      ∧ ∀ i j, ts2.mIndexCandidates ≤ i → i ≤ j → j < ts2.mIndexFree →
        ∀ a ∈ ts2.getTransition i, ∀ b ∈ ts2.getTransition j,
          a.transitionTime.le b.transitionTime = true := by
  have hs : (findCandidateTransitions (newStorage kMaxTransitions) 0 monthlyMatch3).isSome
      = true := by decide
  obtain ⟨ts2, h⟩ := Option.isSome_iff_exists.mp hs
  have hw : (findCandidateTransitions (newStorage kMaxTransitions) 0 monthlyMatch3).map
      (fun t => t.mHighWater) = some 5 := by decide
  have hi : (findCandidateTransitions (newStorage kMaxTransitions) 0 monthlyMatch3).map
      (fun t => t.indexes) = some (0, 0, 5) := by decide
  have hp : (findCandidateTransitions (newStorage kMaxTransitions) 0 monthlyMatch3).bind
      (fun t => (t.getTransition 0).map
        (fun t => (t.transitionTime.yearTiny, t.transitionTime.month))) = some (17, 5) := by
    decide
  rw [h] at hw hi hp
  have hw2 : ts2.mHighWater = 5 := Option.some.inj hw
  have hthm := @C34_findCandidateTransitions_sorted (newStorage kMaxTransitions) ts2 0 0
    monthlyMatch3 _ h (by rw [hw2]; decide) rfl (by decide) (by decide) (by decide)
    (by decide) (by decide) ⟨rfl, rfl, rfl⟩
    (TransitionStorage.distinctSlots_congr rfl
      (TransitionStorage.init_distinctSlots kMaxTransitions (newStorage kMaxTransitions)))
  exact ⟨ts2, h, Option.some.inj hi, hp, hthm.2.2.1⟩

/-! ## C16: eras beyond the fourth match (amended) -/

/-- The result of `findMatches` depends on the zone only through the first
`K` matches of its overlapping eras, when there are at least `K` of them. -/
theorem findMatches_of_take (zoneInfo zoneInfo2 : ZoneInfo) (startYm untilYm : YearMonthTuple)
    (matchArr : List ZoneMatch) (K : Nat) (hK : K ≤ matchArr.length)
    (h1 : K ≤ (overlapMatches zoneInfo startYm untilYm).length)
    (h2 : K ≤ (overlapMatches zoneInfo2 startYm untilYm).length)
    (ht : (overlapMatches zoneInfo2 startYm untilYm).take K
      = (overlapMatches zoneInfo startYm untilYm).take K) :
    findMatches zoneInfo2 startYm untilYm matchArr K
      = findMatches zoneInfo startYm untilYm matchArr K := by
  obtain ⟨r, hr, a1, a2, _, a4, a5⟩ :=
    findMatchesLoop_overlap startYm untilYm K zoneInfo.eras kAnchorEra matchArr 0
      (Nat.zero_le _) hK
  obtain ⟨r2, hr2, b1, b2, _, b4, b5⟩ :=
    findMatchesLoop_overlap startYm untilYm K zoneInfo2.eras kAnchorEra matchArr 0
      (Nat.zero_le _) hK
  unfold findMatches
  rw [hr, hr2]
  unfold overlapMatches at h1 h2 ht
  rw [Nat.zero_add] at a1 b1
  have c1 : r.1 = K := by rw [a1]; exact Nat.min_eq_left h1
  have c2 : r2.1 = K := by rw [b1]; exact Nat.min_eq_left h2
  have hl : r2.2 = r.2 := by
    apply List.ext_getElem?
    intro k
    by_cases hk : k < K
    · rw [a4 k (Nat.zero_le _) (by omega), b4 k (Nat.zero_le _) (by omega), Nat.sub_zero]
      have e1 := List.getElem?_take_of_lt (l := ((eraPairs kAnchorEra zoneInfo.eras).filter
        (pairOverlaps startYm untilYm)).map (matchOfPair startYm untilYm)) hk
      have e2 := List.getElem?_take_of_lt (l := ((eraPairs kAnchorEra zoneInfo2.eras).filter
        (pairOverlaps startYm untilYm)).map (matchOfPair startYm untilYm)) hk
      rw [← e1, ← e2, ht]
    · rw [a5 k (by omega), b5 k (by omega)]
  congr 1
  exact Prod.ext (c2.trans c1.symm) hl

/-- What `init` computes depends on the zone only through its years and the
result of `findMatches`. -/
theorem init_of_findMatches (zp : ExtendedZoneProcessor) (zoneInfo2 : ZoneInfo) (ld : LocalDate)
    (hs : zoneInfo2.startYear = zp.mZoneInfo.startYear)
    (hu : zoneInfo2.untilYear = zp.mZoneInfo.untilYear)
    (hf : findMatches zoneInfo2
        { yearTiny := wrap8 (ld.year - LocalDate.kEpochYear - 1), month := 12 }
        { yearTiny := wrap8 (ld.year - LocalDate.kEpochYear + 1), month := 2 }
        zp.mMatches kMaxMatches
      = findMatches zp.mZoneInfo
        { yearTiny := wrap8 (ld.year - LocalDate.kEpochYear - 1), month := 12 }
        { yearTiny := wrap8 (ld.year - LocalDate.kEpochYear + 1), month := 2 }
        zp.mMatches kMaxMatches) :
    (init { zp with mZoneInfo := zoneInfo2 } ld).map (fun r => (r.1, r.2.cache))
      = (init zp ld).map (fun r => (r.1, r.2.cache)) := by
  unfold init
  simp only [hs, hu, hf]
  have hfill : isFilled { zp with mZoneInfo := zoneInfo2 } ld.year = isFilled zp ld.year := rfl
  rw [hfill]
  by_cases h1 : zp.isFilled ld.year = true
  · simp only [h1, if_true, Option.map_some']
    rfl
  · simp only [h1]
    by_cases h2 : ld.year < zp.mZoneInfo.startYear - 1 ∨ zp.mZoneInfo.untilYear < ld.year
    · simp only [h2, if_true, Option.map_some']
      rfl
    · simp only [h2, if_false]
      cases findMatches zp.mZoneInfo
        { yearTiny := wrap8 (ld.year - LocalDate.kEpochYear - 1), month := 12 }
        { yearTiny := wrap8 (ld.year - LocalDate.kEpochYear + 1), month := 2 }
        zp.mMatches kMaxMatches with
      | none => rfl
      | some fm =>
        simp only [Option.some_bind]
        cases findTransitions (zp.mTransitionStorage.init kMaxTransitions) fm.2 fm.1 with
        | none => rfl
        | some ts1 =>
          simp only [Option.some_bind]
          cases fixTransitionTimes ts1 ts1.getActivePoolBegin ts1.getActivePoolEnd with
          | none => rfl
          | some ts2 =>
            simp only [Option.some_bind]
            cases generateStartUntilTimes ts2 fm.2 ts1.getActivePoolBegin
              ts1.getActivePoolEnd with
            | none => rfl
            | some ts3 =>
              simp only [Option.some_bind]
              cases calcAbbreviations ts3 fm.2 ts1.getActivePoolBegin
                ts1.getActivePoolEnd with
              | none => rfl
              | some ts4 => rfl

/-- C16 (amended): for every zone in which more than K = 4 eras overlap the
viewing window [year-1 December, year+1 February) of a year, findMatches
returns 4 and stores the matches of the first four overlapping eras, in era
order, and nothing else: the eras beyond the fourth are dropped. The drop is
not reported: for every zone with the same years whose first four overlapping
eras are the same (for instance the zone without the dropped eras),
findMatches has the same result and init(year) returns the same success flag
and caches the same year, filled flag, matches and transition pool with the
same high-water mark. -/
theorem C16_eras_beyond_fourth_dropped_silently (zp : ExtendedZoneProcessor) (ld : LocalDate)
    (hK : kMaxMatches ≤ zp.mMatches.length)
    (hmore : kMaxMatches < (overlapMatches zp.mZoneInfo
        { yearTiny := wrap8 (ld.year - LocalDate.kEpochYear - 1), month := 12 }
        { yearTiny := wrap8 (ld.year - LocalDate.kEpochYear + 1), month := 2 }).length) :
    (∃ r, findMatches zp.mZoneInfo
          { yearTiny := wrap8 (ld.year - LocalDate.kEpochYear - 1), month := 12 }
          { yearTiny := wrap8 (ld.year - LocalDate.kEpochYear + 1), month := 2 }
          zp.mMatches kMaxMatches = some r
        ∧ r.1 = kMaxMatches
        ∧ r.2.length = zp.mMatches.length
        ∧ (∀ k, k < kMaxMatches → r.2[k]? = (overlapMatches zp.mZoneInfo
            { yearTiny := wrap8 (ld.year - LocalDate.kEpochYear - 1), month := 12 }
            { yearTiny := wrap8 (ld.year - LocalDate.kEpochYear + 1), month := 2 })[k]?)
        ∧ (∀ k, kMaxMatches ≤ k → r.2[k]? = zp.mMatches[k]?))
    ∧ ∀ zoneInfo2 : ZoneInfo,
        zoneInfo2.startYear = zp.mZoneInfo.startYear →
        zoneInfo2.untilYear = zp.mZoneInfo.untilYear →
        kMaxMatches ≤ (overlapMatches zoneInfo2
          { yearTiny := wrap8 (ld.year - LocalDate.kEpochYear - 1), month := 12 }
          { yearTiny := wrap8 (ld.year - LocalDate.kEpochYear + 1), month := 2 }).length →
        (overlapMatches zoneInfo2
            { yearTiny := wrap8 (ld.year - LocalDate.kEpochYear - 1), month := 12 }
            { yearTiny := wrap8 (ld.year - LocalDate.kEpochYear + 1), month := 2 }).take
            kMaxMatches
          = (overlapMatches zp.mZoneInfo
            { yearTiny := wrap8 (ld.year - LocalDate.kEpochYear - 1), month := 12 }
            { yearTiny := wrap8 (ld.year - LocalDate.kEpochYear + 1), month := 2 }).take
            kMaxMatches →
        findMatches zoneInfo2
            { yearTiny := wrap8 (ld.year - LocalDate.kEpochYear - 1), month := 12 }
            { yearTiny := wrap8 (ld.year - LocalDate.kEpochYear + 1), month := 2 }
            zp.mMatches kMaxMatches
          = findMatches zp.mZoneInfo
            { yearTiny := wrap8 (ld.year - LocalDate.kEpochYear - 1), month := 12 }
            { yearTiny := wrap8 (ld.year - LocalDate.kEpochYear + 1), month := 2 }
            zp.mMatches kMaxMatches
        ∧ (init { zp with mZoneInfo := zoneInfo2 } ld).map (fun r => (r.1, r.2.cache))
          = (init zp ld).map (fun r => (r.1, r.2.cache)) := by
  constructor
  · obtain ⟨r, hr, a1, a2, _, a4, a5⟩ :=
      findMatchesLoop_overlap
        { yearTiny := wrap8 (ld.year - LocalDate.kEpochYear - 1), month := 12 }
        { yearTiny := wrap8 (ld.year - LocalDate.kEpochYear + 1), month := 2 }
        kMaxMatches zp.mZoneInfo.eras kAnchorEra zp.mMatches 0 (Nat.zero_le _) hK
    rw [Nat.zero_add] at a1
    have c1 : r.1 = kMaxMatches := by
      rw [a1]
      exact Nat.min_eq_left (Nat.le_of_lt hmore)
    refine ⟨r, hr, c1, a2, ?_, ?_⟩
    · intro k hk
      have := a4 k (Nat.zero_le _) (by omega)
      rw [Nat.sub_zero] at this
      exact this
    · intro k hk
      exact a5 k (by omega)
  · intro zoneInfo2 hs hu h2 ht
    have hf := findMatches_of_take zp.mZoneInfo zoneInfo2
      { yearTiny := wrap8 (ld.year - LocalDate.kEpochYear - 1), month := 12 }
      { yearTiny := wrap8 (ld.year - LocalDate.kEpochYear + 1), month := 2 }
      zp.mMatches kMaxMatches hK (Nat.le_of_lt hmore) h2 ht
    exact ⟨hf, init_of_findMatches zp zoneInfo2 ld hs hu hf⟩

/-- The theorem of C16 at the five-era zone and the year 2018: findMatches
returns 4, and init for 2018-10-01 on a new processor with the high-water mark
reset caches what it caches for the zone without the fifth era. -/
theorem C16_eras_beyond_fourth_dropped_silently_witness :
    (∃ r, findMatches kZoneFiveEras { yearTiny := 17, month := 12 }
          { yearTiny := 19, month := 2 } (newProcessor kZoneFiveEras).mMatches kMaxMatches
          = some r ∧ r.1 = 4)
    ∧ (init { (newProcessor kZoneFiveEras).resetTransitionHighWater with
            mZoneInfo := kZoneFourEras }
          { yearTiny := 18, month := 10, day := 1 }).map (fun r => (r.1, r.2.cache))
        = (init (newProcessor kZoneFiveEras).resetTransitionHighWater
          { yearTiny := 18, month := 10, day := 1 }).map (fun r => (r.1, r.2.cache)) :=
  have h := C16_eras_beyond_fourth_dropped_silently
    (newProcessor kZoneFiveEras).resetTransitionHighWater
    { yearTiny := 18, month := 10, day := 1 } (by decide) (by decide)
  ⟨h.1.imp fun _ hr => ⟨hr.1, hr.2.1⟩,
    (h.2 kZoneFourEras rfl rfl (by decide) (by decide)).2⟩

/-! ## C30, C4 and C3: counterexamples of the claims as stated -/

/-- C30 (counterexample): the match from 2018-06-01 00:00 to 2018-01-01 00:00,
whose start is later than its until, and the transition at 2018-06-01 00:00
wall time, a valid date, expanded with offsetCode 0 and deltaCode 0: the
precise comparison returns 0 (equal to the start of the match), the fuzzy
comparison of the transition before the expansion returns 2 (its month count
222 is not below the until month count 217 plus 2). createMatch makes this
match for the window of the year 2018 from an era that ends on 2018-01-01 and
follows an era that ended on 2018-06-01. -/
theorem C30_counterexample :
    ({ yearTiny := 18, month := 6, day := 1, timeCode := 0, modifier := 'w' } :
        DateTuple).validDate
    ∧ compareTransitionToMatch
        (Transition.expanded
          { blankTransition with
            transitionTime :=
              { yearTiny := 18, month := 6, day := 1, timeCode := 0, modifier := 'w' } }
          0 0)
        { startDateTime :=
            { yearTiny := 18, month := 6, day := 1, timeCode := 0, modifier := 'w' }
          untilDateTime :=
            { yearTiny := 18, month := 1, day := 1, timeCode := 0, modifier := 'w' }
          era := simpleEra 0 18 1 } = 0
    ∧ compareTransitionToMatchFuzzy
        { blankTransition with
          transitionTime :=
            { yearTiny := 18, month := 6, day := 1, timeCode := 0, modifier := 'w' } }
        { startDateTime :=
            { yearTiny := 18, month := 6, day := 1, timeCode := 0, modifier := 'w' }
          untilDateTime :=
            { yearTiny := 18, month := 1, day := 1, timeCode := 0, modifier := 'w' }
          era := simpleEra 0 18 1 } = 2
    ∧ createMatch (simpleEra 0 18 6) (simpleEra 0 18 1) { yearTiny := 17, month := 12 }
        { yearTiny := 19, month := 2 }
      = { startDateTime :=
            { yearTiny := 18, month := 6, day := 1, timeCode := 0, modifier := 'w' }
          untilDateTime :=
            { yearTiny := 18, month := 1, day := 1, timeCode := 0, modifier := 'w' }
          era := simpleEra 0 18 1 }
    ∧ eraOverlapsInterval (simpleEra 0 18 6) (simpleEra 0 18 1) { yearTiny := 17, month := 12 }
        { yearTiny := 19, month := 2 } = true := by
  decide

/-- C4 (counterexample): in the zone whose clock is set forward twice on
2018-03-11 (from -08:00 to -07:00 at 10:00 UTC and to -06:00 at 10:15 UTC),
init for 2018 succeeds with four Active transitions, sorted by start. The
local time 02:30 lies in the gap between the consecutive transitions A (total
offset code -32, until 02:00) and B (total offset code -28, start 03:00, b >
a), and no Active transition covers it. The instant 02:30 at -08:00 is 10:30
UTC, when the transition after B (-06:00, from 10:15 UTC) is in effect: the
result has the offset -06:00 (offset code -24) and the local time 04:30, not
the offset -07:00 of B and the local time 03:30. -/
theorem C4_counterexample :
    ((newProcessor kZoneDoubleJump).init { yearTiny := 18, month := 3, day := 11 }).map
        Prod.fst = some true
    ∧ doubleJump2018.mTransitionStorage.indexes = (4, 4, 4)
    ∧ (doubleJump2018.mTransitionStorage.getTransition 0).map
        (fun t => (t.untilDateTime, t.offsetCode + t.deltaCode))
        = some ({ yearTiny := 18, month := 3, day := 11, timeCode := 8, modifier := 'w' }, -32)
    ∧ (doubleJump2018.mTransitionStorage.getTransition 1).map
        (fun t => (t.startDateTime, t.offsetCode + t.deltaCode))
        = some ({ yearTiny := 18, month := 3, day := 11, timeCode := 12, modifier := 'w' }, -28)
    ∧ TransitionStorage.localDateTuple
        { yearTiny := 18, month := 3, day := 11, hour := 2, minute := 30, second := 0 }
        = { yearTiny := 18, month := 3, day := 11, timeCode := 10, modifier := 'w' }
    ∧ (∀ i, i < 4 → ∀ t ∈ doubleJump2018.mTransitionStorage.getTransition i,
        ¬ (t.startDateTime.le
              { yearTiny := 18, month := 3, day := 11, timeCode := 10, modifier := 'w' } = true
          ∧ DateTuple.lt
              { yearTiny := 18, month := 3, day := 11, timeCode := 10, modifier := 'w' }
              t.untilDateTime = true))
    ∧ (∀ i, i < 3 → ∀ s ∈ doubleJump2018.mTransitionStorage.getTransition i,
        ∀ t ∈ doubleJump2018.mTransitionStorage.getTransition (i + 1),
          s.startDateTime.lt t.startDateTime = true
          ∧ s.startEpochSeconds < t.startEpochSeconds)
    ∧ (getOffsetDateTime (newProcessor kZoneDoubleJump)
          { yearTiny := 18, month := 3, day := 11, hour := 2, minute := 30, second := 0 }).map
        (fun r => (r.1.mLocalDateTime, r.1.mTimeOffset.mOffsetCode))
        = some ({ yearTiny := 18, month := 3, day := 11, hour := 4, minute := 30, second := 0 },
            -24) := by
  decide

/-- C3 (counterexample): the round trip fails when the epoch seconds of the
result lie in another year than the local date-time. For America/Los_Angeles
(years 2000 to 2050) getOffsetDateTime(2050-12-31T23:30:00) succeeds with the
offset -08:00 (offset code -32); its epoch seconds 1609486200 are
2051-01-01T07:30:00 UTC, for which init fails, and getUtcOffset returns the
error offset. For the zone kZoneHistory, whose two rules of November 1 fire at
the same time, getOffsetDateTime(2018-01-01T00:30:00) succeeds with the offset
+01:00 (offset code 4) from the pool of 2018; its epoch seconds 568078200 are
2017-12-31T23:30:00 UTC, for which init succeeds and builds the pool of 2017,
and getUtcOffset returns +02:00 (offset code 8). -/
theorem C3_counterexample :
    (getOffsetDateTime (newProcessor kZoneAmerica_Los_Angeles)
        { yearTiny := 50, month := 12, day := 31, hour := 23, minute := 30, second := 0 }).map
      (fun r => (r.1.mLocalDateTime, r.1.mTimeOffset.mOffsetCode, r.1.mTimeOffset.isError,
        r.1.toEpochSeconds))
      = some ({ yearTiny := 50, month := 12, day := 31, hour := 23, minute := 30, second := 0 },
          -32, false, 1609486200)
    ∧ (LocalDate.forEpochSeconds 1609486200).year = 2051
    ∧ ((getOffsetDateTime (newProcessor kZoneAmerica_Los_Angeles)
        { yearTiny := 50, month := 12, day := 31, hour := 23, minute := 30, second := 0 }).bind
      fun r => (getUtcOffset r.2 r.1.toEpochSeconds).map Prod.fst) = some TimeOffset.forError
    ∧ (getOffsetDateTime (newProcessor kZoneHistory)
        { yearTiny := 18, month := 1, day := 1, hour := 0, minute := 30, second := 0 }).map
      (fun r => (r.1.mLocalDateTime, r.1.mTimeOffset.mOffsetCode, r.1.mTimeOffset.isError,
        r.1.toEpochSeconds))
      = some ({ yearTiny := 18, month := 1, day := 1, hour := 0, minute := 30, second := 0 },
          4, false, 568078200)
    ∧ (LocalDate.forEpochSeconds 568078200).year = 2017
    ∧ ((getOffsetDateTime (newProcessor kZoneHistory)
        { yearTiny := 18, month := 1, day := 1, hour := 0, minute := 30, second := 0 }).bind
      fun r => (getUtcOffset r.2 r.1.toEpochSeconds).map Prod.fst)
      = some (TimeOffset.forOffsetCode 8) := by
  refine ⟨by decide, by decide, by decide, by decide, by decide, by decide⟩

/-! ## C6: the order of the Active transitions, for dates that lie apart -/

/-- The order of two tuples with valid dates is the order of their days, or
of their time codes on the same day. -/
theorem DateTuple.days_le_of_le (a b : DateTuple) (ha : a.validDate) (hb : b.validDate)
    (h : a.le b = true) : a.epochDays ≤ b.epochDays := by
  rw [DateTuple.le_iff] at h
  obtain ⟨⟨hma1, hma2, hda1, hda2⟩, _, _⟩ := ha
  obtain ⟨⟨hmb1, hmb2, hdb1, hdb2⟩, _, _⟩ := hb
  simp only [LocalDate.forTinyComponents, LocalDate.year, LocalDate.kEpochYear] at *
  simp only [DateTuple.epochDays, LocalDate.toEpochDays_eq, LocalDate.forTinyComponents]
  by_cases hd : a.yearTiny = b.yearTiny ∧ a.month = b.month ∧ a.day = b.day
  · obtain ⟨e1, e2, e3⟩ := hd
    rw [e1, e2, e3]
  · have := epochDaysOf_lt_of_lt a.yearTiny a.month a.day b.yearTiny b.month b.day
      ⟨hma1, hma2⟩ ⟨hda1, hda2⟩ ⟨hmb1, hmb2⟩ hdb1 (by omega)
    omega

theorem DateTuple.days_le_of_lt (a b : DateTuple) (ha : a.validDate) (hb : b.validDate)
    (h : a.lt b = true) : a.epochDays ≤ b.epochDays :=
  DateTuple.days_le_of_le a b ha hb (DateTuple.le_of_lt h)

/-- A tuple on an earlier day is the lesser one. -/
theorem DateTuple.lt_of_days_lt (a b : DateTuple) (ha : a.validDate) (hb : b.validDate)
    (h : a.epochDays < b.epochDays) : a.lt b = true := by
  by_contra hn
  have hle : b.le a = true := (DateTuple.lt_eq_false_iff _ _).mp (by simpa using hn)
  have := DateTuple.days_le_of_le b a hb ha hle
  omega

/-- A tuple that is not less than another one is not on an earlier day. -/
theorem DateTuple.days_le_of_not_lt (a b : DateTuple) (ha : a.validDate) (hb : b.validDate)
    (h : a.lt b = false) : b.epochDays ≤ a.epochDays := by
  by_contra hn
  have := DateTuple.lt_of_days_lt a b ha hb (by omega)
  rw [h] at this
  exact absurd this (by simp)

/-- Tuples that are the same but for the modifier are on the same day. -/
theorem DateTuple.days_eq_of_same {a b : DateTuple} (h : a.same b) :
    a.epochDays = b.epochDays := by
  obtain ⟨h1, h2, h3, _⟩ := h
  simp only [DateTuple.epochDays, LocalDate.forTinyComponents]
  rw [h1, h2, h3]

theorem DateTuple.not_same_of_daysApart {a b : DateTuple} (h : a.daysApart b) : ¬ a.same b := by
  intro hs
  have := DateTuple.days_eq_of_same hs
  unfold DateTuple.daysApart at h
  omega

theorem DateTuple.daysApart_symm {a b : DateTuple} (h : a.daysApart b) : b.daysApart a :=
  Or.symm h

/-- `normalizeDateTuple` moves the date by at most one day and leaves a time
code of less than a day. -/
theorem normalizeDateTuple_days (dt : DateTuple) (hv : dt.validDate)
    (hy1 : -127 ≤ dt.yearTiny) (hy2 : dt.yearTiny ≤ 126)
    (h1 : -128 ≤ dt.timeCode) (h2 : dt.timeCode ≤ 127) :
    (normalizeDateTuple dt).validDate
    ∧ dt.epochDays - 1 ≤ (normalizeDateTuple dt).epochDays
    ∧ (normalizeDateTuple dt).epochDays ≤ dt.epochDays + 1
    ∧ -96 < (normalizeDateTuple dt).timeCode ∧ (normalizeDateTuple dt).timeCode < 96 := by
  have e1 := normalizeDateTuple_instant dt hv h1 h2 (fun _ hh => by omega) (fun _ hh => by omega)
  have e2 := normalizeDateTuple_timeCode dt h1 h2
  refine ⟨normalizeDateTuple_validDate dt hv, ?_, ?_, ?_, ?_⟩ <;>
    (split_ifs at e2 <;> omega)

/-- Each tuple that `expandDateTuple` makes of a tuple of the civil calendar
has a valid date at most one day from it and a time code of less than a
day. -/
theorem expandDateTuple_days (x : DateTuple) (o d : Int) (hx : x.inner) :
    ∀ e, (e = (expandDateTuple x o d).1 ∨ e = (expandDateTuple x o d).2.1
        ∨ e = (expandDateTuple x o d).2.2) →
      e.validDate ∧ x.epochDays - 1 ≤ e.epochDays ∧ e.epochDays ≤ x.epochDays + 1
        ∧ -96 < e.timeCode ∧ e.timeCode < 96 := by
  obtain ⟨hv, hy1, hy2, hc1, hc2⟩ := hx
  have key : ∀ (c : Int) (md : Char), -128 ≤ c → c ≤ 127 →
      (normalizeDateTuple ⟨x.yearTiny, x.month, x.day, c, md⟩).validDate
      ∧ x.epochDays - 1 ≤ (normalizeDateTuple ⟨x.yearTiny, x.month, x.day, c, md⟩).epochDays
      ∧ (normalizeDateTuple ⟨x.yearTiny, x.month, x.day, c, md⟩).epochDays ≤ x.epochDays + 1
      ∧ -96 < (normalizeDateTuple ⟨x.yearTiny, x.month, x.day, c, md⟩).timeCode
      ∧ (normalizeDateTuple ⟨x.yearTiny, x.month, x.day, c, md⟩).timeCode < 96 := by
    intro c md g1 g2
    exact normalizeDateTuple_days ⟨x.yearTiny, x.month, x.day, c, md⟩ hv hy1 hy2 g1 g2
  have hself : ∀ md : Char, ({ x with modifier := md } : DateTuple)
      = ⟨x.yearTiny, x.month, x.day, x.timeCode, md⟩ := fun _ => rfl
  have hx0 : x = ⟨x.yearTiny, x.month, x.day, x.timeCode, x.modifier⟩ := rfl
  intro e he
  unfold expandDateTuple at he
  split_ifs at he with c1 c2
  · simp only at he
    rcases he with he | he | he
    · rw [he]; exact key _ _ (wrap8_range _).1 (wrap8_range _).2
    · rw [he, hx0]; exact key _ _ hc1 hc2
    · rw [he]; exact key _ _ (wrap8_range _).1 (wrap8_range _).2
  · simp only at he
    rcases he with he | he | he
    · rw [he]; exact key _ _ (wrap8_range _).1 (wrap8_range _).2
    · rw [he]; exact key _ _ (wrap8_range _).1 (wrap8_range _).2
    · rw [he, hx0]; exact key _ _ hc1 hc2
  · simp only at he
    rcases he with he | he | he
    · rw [he, hself]; exact key _ _ hc1 hc2
    · rw [he]; exact key _ _ (wrap8_range _).1 (wrap8_range _).2
    · rw [he]; exact key _ _ (wrap8_range _).1 (wrap8_range _).2

/-- A wall-mode tuple with a time code of less than a day is its own wall
version. -/
theorem expandDateTuple_wallSmall (tt : DateTuple) (o d : Int) (h1 : tt.modifier = 'w')
    (h2 : -96 < tt.timeCode) (h3 : tt.timeCode < 96) :
    (expandDateTuple tt o d).1 = tt := by
  unfold expandDateTuple
  have hs : tt.modifier ≠ 's' := by rw [h1]; decide
  have hu : tt.modifier ≠ 'u' := by rw [h1]; decide
  simp only [hs, hu, if_false]
  rw [normalizeDateTuple_of_small _ (by simp; omega) (by simp; omega)]
  cases tt
  simp only at h1
  simp [h1]

/-- The wall version of a transition time that comes from `x` comes from
`x`. -/
theorem DateTuple.fromSource_expand {tt x : DateTuple} (h : tt.fromSource x) (o d : Int) :
    (expandDateTuple tt o d).1.fromSource x := by
  obtain ⟨hx, h⟩ := h
  refine ⟨hx, Or.inr ?_⟩
  rcases h with h | ⟨o2, d2, h⟩
  · exact ⟨o, d, by rw [h]⟩
  · refine ⟨o2, d2, ?_⟩
    obtain ⟨_, _, _, g1, g2⟩ := expandDateTuple_days x o2 d2 hx _ (Or.inl rfl)
    rw [h]
    exact expandDateTuple_wallSmall _ o d (expandDateTuple_modifier x o2 d2) g1 g2

/-- A transition time that comes from `x` has a valid date at most one day
from the date of `x`. -/
theorem DateTuple.fromSource_days {tt x : DateTuple} (h : tt.fromSource x) :
    tt.validDate ∧ x.epochDays - 1 ≤ tt.epochDays ∧ tt.epochDays ≤ x.epochDays + 1 := by
  obtain ⟨hx, h⟩ := h
  rcases h with h | ⟨o, d, h⟩
  · rw [h]
    exact ⟨hx.1, by omega, by omega⟩
  · obtain ⟨g1, g2, g3, _⟩ := expandDateTuple_days x o d hx _ (Or.inl rfl)
    rw [h]
    exact ⟨g1, g2, g3⟩

/-- Transition times that come from tuples at least three days apart are in
strict order. -/
theorem DateTuple.lt_of_fromSource {a b x y : DateTuple} (ha : a.fromSource x)
    (hb : b.fromSource y) (h : x.epochDays + 3 ≤ y.epochDays) : a.lt b = true := by
  obtain ⟨a1, _, a3⟩ := DateTuple.fromSource_days ha
  obtain ⟨b1, b2, _⟩ := DateTuple.fromSource_days hb
  exact DateTuple.lt_of_days_lt a b a1 b1 (by omega)

theorem ZoneRule.mem_firingTimes_of_covered (r : ZoneRule) (startY endY y : Int)
    (h1 : startY ≤ y) (h2 : y ≤ endY) (h3 : r.fromYearTiny ≤ y) (h4 : y ≤ r.toYearTiny) :
    getTransitionTime y r ∈ r.firingTimes startY endY := by
  unfold ZoneRule.firingTimes ZoneRule.firingYears
  refine List.mem_map.mpr ⟨y, List.mem_append_left _ ?_, rfl⟩
  rw [List.mem_filter]
  refine ⟨(mem_yearsFrom _ _ _).mpr ⟨h1, ?_⟩, by simp [h3, h4]⟩
  rw [Int.toNat_of_nonneg (by omega)]
  omega

theorem ZoneRule.mem_firingTimes_of_prior (r : ZoneRule) (startY endY : Int)
    (h : getMostRecentPriorYear r.fromYearTiny r.toYearTiny startY endY
      ≠ LocalDate.kInvalidYearTiny) :
    getTransitionTime (getMostRecentPriorYear r.fromYearTiny r.toYearTiny startY endY) r
      ∈ r.firingTimes startY endY := by
  unfold ZoneRule.firingTimes ZoneRule.firingYears
  refine List.mem_map.mpr ⟨_, List.mem_append_right _ ?_, rfl⟩
  rw [if_pos h]
  exact List.mem_singleton.mpr rfl

/-- The transition times of the rules of a match whose dates lie apart are
equal or at least three days apart. -/
theorem ZoneMatch.firingTimes_apart {m : ZoneMatch} {pol : ZonePolicy}
    (hsep : m.isSeparated) (hpol : m.era.zonePolicy = some pol)
    {r r2 : ZoneRule} (hr : r ∈ pol.rules) (hr2 : r2 ∈ pol.rules) {x x2 : DateTuple}
    (hx : x ∈ r.firingTimes m.startDateTime.yearTiny m.untilDateTime.yearTiny)
    (hx2 : x2 ∈ r2.firingTimes m.startDateTime.yearTiny m.untilDateTime.yearTiny)
    (hne : x ≠ x2) : x.daysApart x2 := by
  obtain ⟨_, _, _, h4⟩ := hsep
  obtain ⟨p1, p2⟩ := h4 pol hpol
  by_cases e : r = r2
  · subst e
    exact List.Pairwise.forall (fun _ _ h => DateTuple.daysApart_symm h) (p2 r hr).1 hx hx2 hne
  · have hsym : Symmetric (fun r r2 : ZoneRule =>
        ∀ x ∈ r.firingTimes m.startDateTime.yearTiny m.untilDateTime.yearTiny,
        ∀ x2 ∈ r2.firingTimes m.startDateTime.yearTiny m.untilDateTime.yearTiny,
          x.daysApart x2) :=
      fun _ _ h x hx x2 hx2 => DateTuple.daysApart_symm (h x2 hx2 x hx)
    exact List.Pairwise.forall hsym p1 hr hr2 e x hx x2 hx2

/-- The Candidate pool left by `findCandidateTransitions` for a match whose
dates lie apart, without overflow of the pool: the Active transitions are as
before, the candidates (the prior first, when there is one) are tuples of the
civil calendar at least three days from the bounds of the match, each at
least three days after the one before it. -/
theorem findCandidateTransitions_sep {ts ts2 : TransitionStorage} {mp n : Nat}
    {m : ZoneMatch} {pol : ZonePolicy}
    (h : findCandidateTransitions ts mp m = some ts2)
    (hhw : ts2.mHighWater < kMaxTransitions)
    (hpol : m.era.zonePolicy = some pol) (hsep : m.isSeparated)
    (hn : ts.mIndexPrior = n ∧ ts.mIndexCandidates = n ∧ ts.mIndexFree = n)
    (hd : ts.distinctSlots) :
    ts2.mIndexPrior = n
    ∧ (ts2.mIndexCandidates = n ∨ ts2.mIndexCandidates = n + 1)
    ∧ ts2.mIndexCandidates ≤ ts2.mIndexFree
    ∧ ts2.distinctSlots
    ∧ (∀ i, i < n → ts2.getTransition i = ts.getTransition i)
    ∧ (∀ i, ts2.mIndexCandidates ≤ i → i < ts2.mIndexFree → ∀ c ∈ ts2.getTransition i,
        c.transitionTime.inner ∧ c.transitionTime.daysApart m.startDateTime
          ∧ c.transitionTime.daysApart m.untilDateTime)
    ∧ (∀ i j, ts2.mIndexCandidates ≤ i → i < j → j < ts2.mIndexFree →
        ∀ a ∈ ts2.getTransition i, ∀ b ∈ ts2.getTransition j,
          a.transitionTime.epochDays + 3 ≤ b.transitionTime.epochDays) := by
  have hsep0 := hsep
  obtain ⟨s1, s2, s3, s4⟩ := hsep
  obtain ⟨p1, p2⟩ := s4 pol hpol
  have hyears : ∀ y, m.startDateTime.yearTiny ≤ y → y ≤ m.untilDateTime.yearTiny →
      y ∈ yearsFrom (m.untilDateTime.yearTiny + 1 - m.startDateTime.yearTiny).toNat
        m.startDateTime.yearTiny := by
    intro y c1 c2
    rw [mem_yearsFrom, Int.toNat_of_nonneg (by omega)]
    omega
  have hcov : ∀ y ∈ yearsFrom (m.untilDateTime.yearTiny + 1 - m.startDateTime.yearTiny).toNat
      m.startDateTime.yearTiny, m.startDateTime.yearTiny ≤ y ∧ y ≤ m.untilDateTime.yearTiny := by
    intro y hy
    rw [mem_yearsFrom] at hy
    by_cases hc : 0 ≤ m.untilDateTime.yearTiny + 1 - m.startDateTime.yearTiny
    · rw [Int.toNat_of_nonneg hc] at hy
      omega
    · rw [Int.toNat_of_nonpos (by omega)] at hy
      simp only [Nat.cast_zero, add_zero] at hy
      omega
  obtain ⟨a1, a2, a3, a4, a5, a6, a7⟩ := findCandidateTransitions_spec
    (yearsFrom (m.untilDateTime.yearTiny + 1 - m.startDateTime.yearTiny).toNat
      m.startDateTime.yearTiny)
    (fun dt => ∃ r ∈ pol.rules,
      dt ∈ r.firingTimes m.startDateTime.yearTiny m.untilDateTime.yearTiny)
    h hhw hpol
    (fun r hr => ⟨fun y hy c1 c2 => ⟨r, hr,
        ZoneRule.mem_firingTimes_of_covered r _ _ y (hcov y hy).1 (hcov y hy).2 c1 c2⟩,
      fun y hy c1 c2 => by
        have hm := ZoneRule.mem_firingTimes_of_covered r _ _ y (hcov y hy).1 (hcov y hy).2 c1 c2
        obtain ⟨⟨⟨g1, g2, _, _⟩, _, _⟩, _⟩ := ((p2 r hr).2 _ hm).1
        exact ⟨g1, g2⟩,
      fun hp => ⟨r, hr, ZoneRule.mem_firingTimes_of_prior r _ _ hp⟩⟩)
    (by
      refine List.Pairwise.imp ?_ p1
      intro r r2 hR y hy c1 c2 c3 c4
      exact DateTuple.not_same_of_daysApart (hR _
        (ZoneRule.mem_firingTimes_of_covered r _ _ y (hcov y hy).1 (hcov y hy).2 c1 c2) _
        (ZoneRule.mem_firingTimes_of_covered r2 _ _ y (hcov y hy).1 (hcov y hy).2 c3 c4)))
    hyears s1.2.1 (by have := s1.2.2.1; omega) s2.2.2.1 hn hd
  refine ⟨a1, a2, a3, a4, a5, ?_, ?_⟩
  · intro i c1 c2 c hc
    obtain ⟨r, hr, hx⟩ := a7 i c1 c2 c hc
    exact (p2 r hr).2 _ hx
  · intro i j c1 c2 c3 a ha b hb
    obtain ⟨r, hr, hx⟩ := a7 i c1 (by omega) a ha
    obtain ⟨r2, hr2, hx2⟩ := a7 j (by omega) c3 b hb
    have hlt := a6 i j c1 c2 c3 a ha b hb
    have hne : a.transitionTime ≠ b.transitionTime := by
      intro e
      rw [e, DateTuple.lt_irrefl] at hlt
      exact absurd hlt (by simp)
    have hap := ZoneMatch.firingTimes_apart hsep0 hpol hr hr2 hx hx2 hne
    have hle := DateTuple.days_le_of_lt _ _ ((p2 r hr).2 _ hx).1.1 ((p2 r2 hr2).2 _ hx2).1.1 hlt
    unfold DateTuple.daysApart at hap
    omega

/-- The loop of `fixTransitionTimes` over distinct entries expands the
transition of each entry of its range once. -/
theorem fixTransitionTimesLoop_expands :
    ∀ (n iter prev : Nat) (ts ts2 : TransitionStorage),
      fixTransitionTimesLoop n iter prev ts = some ts2 → ts.distinctSlots →
      ∀ j q t0, iter ≤ j → j < iter + n → ts.slotAt j = some q → ts.deref q = some t0 →
        ∃ o d, ts2.deref q = some (t0.expanded o d) := by
  intro n
  induction n with
  | zero =>
    intro iter prev ts ts2 _ _ j q t0 h1 h2
    omega
  | succ n ih =>
    intro iter prev ts ts2 h hd j q t0 h1 h2 hq h0
    unfold fixTransitionTimesLoop at h
    simp only [Option.bind_eq_some] at h
    obtain ⟨curr, hcurr, currT, hc, prevT, _, ts1, hs, hl⟩ := h
    have hd1 : ts1.distinctSlots :=
      TransitionStorage.distinctSlots_congr (TransitionStorage.store_frame hs).2.1 hd
    have hdr := TransitionStorage.deref_store hs q
    by_cases hj : j = iter
    · subst hj
      rw [hcurr] at hq
      have e1 : curr = q := Option.some.inj hq
      subst e1
      rw [hc] at h0
      have e2 : currT = t0 := Option.some.inj h0
      subst e2
      rw [if_pos rfl] at hdr
      refine ⟨prevT.offsetCode, prevT.deltaCode, ?_⟩
      rw [fixTransitionTimesLoop_outside _ _ _ _ _ hl curr (by
        intro j2 g1 g2 g3
        rw [TransitionStorage.slotAt_store hs] at g3
        have := hd _ _ _ g3 hcurr
        omega), hdr]
      rfl
    · have hne : q ≠ curr := by
        intro e
        subst e
        exact hj (hd _ _ _ hq hcurr)
      rw [if_neg hne, h0] at hdr
      exact ih (iter + 1) curr ts1 ts2 hl hd1 j q t0 (by omega) (by omega)
        (by rw [TransitionStorage.slotAt_store hs]; exact hq) hdr

/-- The transitions of the range of `fixTransitionTimes`, read by index
afterwards: each is the expansion of the transition that was there. -/
theorem fixTransitionTimes_expands {ts ts2 : TransitionStorage} {b e : Nat}
    (h : fixTransitionTimes ts b e = some ts2) (hd : ts.distinctSlots) :
    ∀ i t2, b ≤ i → i < e → ts2.getTransition i = some t2 →
      ∃ t0 o d, ts.getTransition i = some t0 ∧ t2 = t0.expanded o d := by
  intro i t2 h1 h2 hg
  obtain ⟨_, e2, _, e4⟩ := fixTransitionTimes_frame h
  have hs : ∀ i, ts2.slotAt i = ts.slotAt i := TransitionStorage.slotAt_congr e2
  obtain ⟨p, hp, hp2⟩ := getTransition_eq_some.mp hg
  rw [hs] at hp
  have hsome : (ts.deref p).isSome := by
    rw [deref_isSome_iff, ← e4, ← deref_isSome_iff, hp2]
    rfl
  obtain ⟨t0, h0⟩ := Option.isSome_iff_exists.mp hsome
  unfold fixTransitionTimes at h
  obtain ⟨prev, _, hl⟩ := Option.bind_eq_some.mp h
  obtain ⟨o, d, hx⟩ := fixTransitionTimesLoop_expands _ _ _ _ _ hl hd i p t0 h1 (by omega) hp h0
  rw [hp2] at hx
  exact ⟨t0, o, d, getTransition_eq_some.mpr ⟨p, hp, h0⟩, Option.some.inj hx⟩

/-- The candidates that `selectActiveTransitions` leaves active, for
candidates in strict order: each is either the prior, with its time set to the
start of the match, or a candidate whose status against the match was 1, with
its time unchanged. -/
theorem selectActiveTransitions_status {ts ts2 : TransitionStorage} {m : ZoneMatch}
    (h : selectActiveTransitions ts m = some ts2)
    (hd : ts.distinctSlots) (hcf : ts.mIndexCandidates ≤ ts.mIndexFree)
    (hsorted : ∀ i j, ts.mIndexCandidates ≤ i → i < j → j < ts.mIndexFree →
      ∀ a ∈ ts.getTransition i, ∀ b ∈ ts.getTransition j,
        a.transitionTime.lt b.transitionTime = true) :
    ts2.indexes = ts.indexes ∧ ts2.mHighWater = ts.mHighWater ∧ ts2.distinctSlots
    ∧ (∀ i, i < ts.mIndexCandidates → ts2.getTransition i = ts.getTransition i)
    ∧ ∃ isPrior : Nat → Prop, (∀ i j, isPrior i → isPrior j → i = j)
      ∧ ∀ i, ts.mIndexCandidates ≤ i → i < ts.mIndexFree →
        ∀ a ∈ ts2.getTransition i, a.active = true →
        ∃ a0, ts.getTransition i = some a0
          ∧ ((isPrior i ∧ a.transitionTime = m.startDateTime
              ∧ compareTransitionToMatch a0 m ≠ 1 ∧ compareTransitionToMatch a0 m ≠ 2)
            ∨ (¬ isPrior i ∧ a.transitionTime = a0.transitionTime
              ∧ compareTransitionToMatch a0 m = 1)) := by
  unfold selectActiveTransitions at h
  simp only [TransitionStorage.getCandidatePoolBegin, TransitionStorage.getCandidatePoolEnd] at h
  obtain ⟨r, hl, h⟩ := Option.bind_eq_some.mp h
  have hinv0 : selectInv m ts.mIndexCandidates ts ts ts.mIndexCandidates none :=
    ⟨fun _ => rfl, fun _ => rfl, fun i c1 c2 => by omega, fun p hp => by simp at hp,
      fun _ _ => rfl⟩
  have hinv := selectActiveLoop_inv m ts.mIndexCandidates ts.mIndexFree ts hd hsorted
    _ _ _ _ _ hl (le_refl _) (by omega) hinv0
  rw [show ts.mIndexCandidates + (ts.mIndexFree - ts.mIndexCandidates) = ts.mIndexFree by omega]
    at hinv
  obtain ⟨i1, i2, i3, i4, i5⟩ := hinv
  obtain ⟨f1, f2⟩ := selectActiveLoop_frame m _ _ _ _ _ hl
  have hd1 : r.1.distinctSlots := TransitionStorage.distinctSlots_of_slotAt i1 hd
  -- the last step
  have key : ts2.indexes = r.1.indexes ∧ ts2.mHighWater = r.1.mHighWater
      ∧ (∀ i, ts2.slotAt i = r.1.slotAt i)
      ∧ (∀ i, r.1.slotAt i ≠ r.2 → ts2.getTransition i = r.1.getTransition i)
      ∧ (∀ i, r.1.slotAt i = r.2 → ∀ a ∈ ts2.getTransition i,
          ∃ a1, r.1.getTransition i = some a1 ∧ a.active = a1.active
            ∧ a.transitionTime = m.startDateTime) := by
    cases hp : r.2 with
    | none =>
      rw [hp] at h
      simp only [Option.some.injEq] at h
      subst h
      refine ⟨rfl, rfl, fun _ => rfl, fun _ _ => rfl, ?_⟩
      intro i hi a ha
      rw [Membership.mem, Option.instMembership] at ha
      obtain ⟨q, hq, _⟩ := getTransition_eq_some.mp ha
      rw [hq] at hi
      exact absurd hi (by simp)
    | some p =>
      rw [hp] at h
      simp only at h
      obtain ⟨ip, _, _, c3, _⟩ := i4 p hp
      have g := TransitionStorage.modify_getTransition h hd1 c3
      have e := TransitionStorage.modify_frame h
      refine ⟨e.1, e.2.2.1, TransitionStorage.slotAt_modify h, ?_, ?_⟩
      · intro i hi
        rw [g, if_neg]
        intro e2
        subst e2
        exact hi c3
      · intro i hi a ha
        have e2 : i = ip := hd1 _ _ _ hi c3
        subst e2
        rw [Membership.mem, Option.instMembership] at ha
        rw [g, if_pos rfl] at ha
        obtain ⟨a1, ha1, hx⟩ := Option.map_eq_some'.mp ha
        exact ⟨a1, ha1, by rw [← hx], by rw [← hx]⟩
  obtain ⟨k1, k2, k3, k4, k5⟩ := key
  refine ⟨k1.trans f1, k2.trans f2,
    TransitionStorage.distinctSlots_of_slotAt k3 hd1, ?_, fun i => r.1.slotAt i = r.2 ∧
      (r.1.slotAt i).isSome, ?_, ?_⟩
  · intro i hi
    have hne : r.1.slotAt i ≠ r.2 ∨ r.1.slotAt i = none := by
      by_cases hn : r.1.slotAt i = none
      · exact Or.inr hn
      · left
        intro e
        obtain ⟨q, hq⟩ := Option.ne_none_iff_exists'.mp hn
        obtain ⟨ip, c1, _, c3, _⟩ := i4 q (by rw [← e, hq])
        have := hd1 _ _ _ hq c3
        omega
    rcases hne with hne | hne
    · rw [k4 i hne]; exact i5 i hi
    · have a1 : ts2.getTransition i = none := by
        unfold TransitionStorage.getTransition
        rw [k3, hne]; rfl
      have a2 : r.1.getTransition i = none := by
        unfold TransitionStorage.getTransition
        rw [hne]; rfl
      rw [a1, ← i5 i hi, a2]
  · rintro i j ⟨hi, hi2⟩ ⟨hj, _⟩
    obtain ⟨q, hq⟩ := Option.isSome_iff_exists.mp hi2
    exact hd1 _ _ _ hq ((hj.trans hi.symm).trans hq)
  · intro i c1 c2 a ha hact
    by_cases hp : r.1.slotAt i = r.2
    · obtain ⟨a1, ha1, e1, e2⟩ := k5 i hp a ha
      have hcl := i2 i
      rw [ha1] at hcl
      obtain ⟨a0, ha0, hc0⟩ := Option.map_eq_some'.mp hcl.symm
      obtain ⟨q, hq, _⟩ := getTransition_eq_some.mp ha1
      obtain ⟨ip, _, _, d3, d4⟩ := i4 q (by rw [← hp, hq])
      have e3 : i = ip := hd1 _ _ _ hq d3
      subst e3
      have hst := d4 a1 ha1
      have hcg := compareTransitionToMatch_congr m hc0
      rw [← hcg.1] at hst
      exact ⟨a0, ha0, Or.inl ⟨⟨hp, by rw [hq]; rfl⟩, e2, hst.1, hst.2⟩⟩
    · rw [Membership.mem, Option.instMembership] at ha
      rw [k4 i hp] at ha
      have hcl := i2 i
      rw [ha] at hcl
      obtain ⟨a0, ha0, hc0⟩ := Option.map_eq_some'.mp hcl.symm
      have hcg := compareTransitionToMatch_congr m hc0
      obtain ⟨o1, o2, o3⟩ := i3 i c1 c2 a ha
      have hs1 : compareTransitionToMatch a m = 1 := by
        by_contra hn1
        by_cases hn2 : compareTransitionToMatch a m = 2
        · rw [o1 hn2] at hact
          exact absurd hact (by simp)
        · exact hp ((o3 hn1 hn2).mp hact)
      rw [← hcg.1] at hs1
      exact ⟨a0, ha0, Or.inr ⟨fun hh => hp hh.1, hcg.2.symm, hs1⟩⟩

/-- The days of an expanded transition whose status against a match is 1
(within the match), when its date is at least three days from the bounds of the
match: at least three days after the start and before the until. -/
theorem compareTransitionToMatch_one_days (c0 : Transition) (o d : Int) (m : ZoneMatch)
    (hx : c0.transitionTime.inner) (hs : m.startDateTime.validDate)
    (hu : m.untilDateTime.validDate)
    (h1 : c0.transitionTime.daysApart m.startDateTime)
    (h2 : c0.transitionTime.daysApart m.untilDateTime)
    (h : compareTransitionToMatch (c0.expanded o d) m = 1) :
    m.startDateTime.epochDays + 3 ≤ c0.transitionTime.epochDays
    ∧ c0.transitionTime.epochDays + 3 ≤ m.untilDateTime.epochDays := by
  have hexp := expandDateTuple_days c0.transitionTime o d hx
  obtain ⟨X, hX, eX⟩ : ∃ X, (X = (expandDateTuple c0.transitionTime o d).1
        ∨ X = (expandDateTuple c0.transitionTime o d).2.1
        ∨ X = (expandDateTuple c0.transitionTime o d).2.2)
      ∧ X = (if m.startDateTime.modifier = 's' then (c0.expanded o d).transitionTimeS
          else if m.startDateTime.modifier = 'u' then (c0.expanded o d).transitionTimeU
          else (c0.expanded o d).transitionTime) := by
    refine ⟨_, ?_, rfl⟩
    unfold Transition.expanded
    split_ifs
    · exact Or.inr (Or.inl rfl)
    · exact Or.inr (Or.inr rfl)
    · exact Or.inl rfl
  obtain ⟨Y, hY, eY⟩ : ∃ Y, (Y = (expandDateTuple c0.transitionTime o d).1
        ∨ Y = (expandDateTuple c0.transitionTime o d).2.1
        ∨ Y = (expandDateTuple c0.transitionTime o d).2.2)
      ∧ Y = (if m.untilDateTime.modifier = 's' then (c0.expanded o d).transitionTimeS
          else if m.untilDateTime.modifier = 'u' then (c0.expanded o d).transitionTimeU
          else (c0.expanded o d).transitionTime) := by
    refine ⟨_, ?_, rfl⟩
    unfold Transition.expanded
    split_ifs
    · exact Or.inr (Or.inl rfl)
    · exact Or.inr (Or.inr rfl)
    · exact Or.inl rfl
  obtain ⟨x1, x2, x3, _⟩ := hexp X hX
  obtain ⟨y1, y2, y3, _⟩ := hexp Y hY
  unfold compareTransitionToMatch at h
  simp only at h
  rw [← eX, ← eY] at h
  split_ifs at h with c1 c2 c3
  all_goals try (exact absurd h (by decide))
  have g1 := DateTuple.days_le_of_not_lt X m.startDateTime x1 hs (by simpa using c1)
  have g2 := DateTuple.days_le_of_lt Y m.untilDateTime y1 hu c3
  unfold DateTuple.daysApart at h1 h2
  omega

/-- The days of an expanded transition whose status against a match is
neither 1 nor 2, when its date is at least three days from the start of the
match: at least three days before the start. -/
theorem compareTransitionToMatch_before_days (c0 : Transition) (o d : Int) (m : ZoneMatch)
    (hx : c0.transitionTime.inner) (hs : m.startDateTime.validDate)
    (h1 : c0.transitionTime.daysApart m.startDateTime)
    (hn1 : compareTransitionToMatch (c0.expanded o d) m ≠ 1)
    (hn2 : compareTransitionToMatch (c0.expanded o d) m ≠ 2) :
    c0.transitionTime.epochDays + 3 ≤ m.startDateTime.epochDays := by
  have hexp := expandDateTuple_days c0.transitionTime o d hx
  obtain ⟨X, hX, eX⟩ : ∃ X, (X = (expandDateTuple c0.transitionTime o d).1
        ∨ X = (expandDateTuple c0.transitionTime o d).2.1
        ∨ X = (expandDateTuple c0.transitionTime o d).2.2)
      ∧ X = (if m.startDateTime.modifier = 's' then (c0.expanded o d).transitionTimeS
          else if m.startDateTime.modifier = 'u' then (c0.expanded o d).transitionTimeU
          else (c0.expanded o d).transitionTime) := by
    refine ⟨_, ?_, rfl⟩
    unfold Transition.expanded
    split_ifs
    · exact Or.inr (Or.inl rfl)
    · exact Or.inr (Or.inr rfl)
    · exact Or.inl rfl
  obtain ⟨x1, x2, x3, _⟩ := hexp X hX
  unfold compareTransitionToMatch at hn1 hn2
  simp only at hn1 hn2
  rw [← eX] at hn1 hn2
  have hle : X.epochDays ≤ m.startDateTime.epochDays := by
    by_cases c1 : X.lt m.startDateTime = true
    · exact DateTuple.days_le_of_lt X _ x1 hs c1
    · by_cases c2 : X.eq m.startDateTime = true
      · rw [(DateTuple.eq_iff _ _).mp c2]
      · exfalso
        rw [if_neg c1, if_neg c2] at hn1 hn2
        generalize DateTuple.lt _ m.untilDateTime = b at hn1 hn2
        cases b
        · exact hn2 (by simp)
        · exact hn1 (by simp)
  unfold DateTuple.daysApart at h1
  omega

/-- The Active transitions created for a match with a policy whose dates lie
apart, without overflow of the pool: their times come from tuples within the
match that lie at least three days apart, in the order of the pool, behind
the Active transitions there were. -/
theorem findTransitionsFromNamedMatch_sep {ts ts2 : TransitionStorage} {mp n : Nat}
    {m : ZoneMatch} {pol : ZonePolicy}
    (h : findTransitionsFromNamedMatch ts mp m = some ts2)
    (hhw : ts2.mHighWater < kMaxTransitions)
    (hpol : m.era.zonePolicy = some pol) (hsep : m.isSeparated)
    (hn : ts.mIndexPrior = n ∧ ts.mIndexCandidates = n ∧ ts.mIndexFree = n)
    (hd : ts.distinctSlots) :
    (ts2.mIndexPrior = ts2.mIndexFree ∧ ts2.mIndexCandidates = ts2.mIndexFree
      ∧ n ≤ ts2.mIndexFree)
    ∧ ts2.distinctSlots
    ∧ (∀ i, i < n → ts2.getTransition i = ts.getTransition i)
    ∧ (∀ i, n ≤ i → i < ts2.mIndexFree → ∀ a ∈ ts2.getTransition i,
        a.transitionTime.fromSourceIn m)
    ∧ (∀ i i2, n ≤ i → i < i2 → i2 < ts2.mIndexFree →
        ∀ a ∈ ts2.getTransition i, ∀ b ∈ ts2.getTransition i2,
          a.transitionTime.fromSourcesApart b.transitionTime) := by
  unfold findTransitionsFromNamedMatch at h
  simp only [Option.bind_eq_some] at h
  obtain ⟨ts1, h1, ts3, h3, ts4, h4, h5⟩ := h
  have w3 := (fixTransitionTimes_frame h3).2.2.1
  have w4 := selectActiveTransitions_highWater h4
  have w5 := addActiveCandidatesToActivePool_highWater h5
  have hd0 : ts.resetCandidatePool.distinctSlots := TransitionStorage.distinctSlots_congr rfl hd
  have hn0 : ts.resetCandidatePool.mIndexPrior = n ∧ ts.resetCandidatePool.mIndexCandidates = n
      ∧ ts.resetCandidatePool.mIndexFree = n := by
    simp only [TransitionStorage.resetCandidatePool]
    exact ⟨hn.1, hn.1, hn.1⟩
  have g0 : ∀ j, ts.resetCandidatePool.getTransition j = ts.getTransition j :=
    TransitionStorage.getTransition_congr rfl rfl
  obtain ⟨s1, s2, s3, _⟩ := hsep
  -- the candidates
  obtain ⟨a1, a2, a3, a4, a5, a6, a7⟩ := findCandidateTransitions_sep h1 (by omega) hpol
    ⟨s1, s2, s3, by assumption⟩ hn0 hd0
  -- their times expanded
  obtain ⟨b1, _, _, b4, _⟩ := fixTransitionTimes_keeps h3
  simp only [TransitionStorage.getCandidatePoolBegin, TransitionStorage.getCandidatePoolEnd] at h3
  have b5 := fixTransitionTimes_expands h3 a4
  obtain ⟨j1, j2, j3⟩ := (TransitionStorage.indexes_eq_iff _ _).mp b1
  have hcn : n ≤ ts1.mIndexCandidates := by omega
  have src : ∀ i, ts3.mIndexCandidates ≤ i → i < ts3.mIndexFree → ∀ a ∈ ts3.getTransition i,
      ∃ c0 o d, ts1.getTransition i = some c0 ∧ a = c0.expanded o d
        ∧ a.transitionTime.fromSource c0.transitionTime := by
    intro i c1 c2 a ha
    rw [j2] at c1
    rw [j3] at c2
    rw [Membership.mem, Option.instMembership] at ha
    obtain ⟨c0, o, d, hc0, e⟩ := b5 i a c1 c2 ha
    refine ⟨c0, o, d, hc0, e, (a6 i c1 c2 c0 hc0).1, Or.inr ⟨o, d, ?_⟩⟩
    rw [e]
    rfl
  have c6 : ∀ i j, ts3.mIndexCandidates ≤ i → i < j → j < ts3.mIndexFree →
      ∀ a ∈ ts3.getTransition i, ∀ b ∈ ts3.getTransition j,
        a.transitionTime.lt b.transitionTime = true := by
    intro i j c1 c2 c3 a ha b hb
    obtain ⟨a0, _, _, ha0, _, fa⟩ := src i c1 (by omega) a ha
    obtain ⟨b0, _, _, hb0, _, fb⟩ := src j (by omega) c3 b hb
    rw [j2] at c1
    rw [j3] at c3
    exact DateTuple.lt_of_fromSource fa fb (a7 i j c1 c2 c3 a0 ha0 b0 hb0)
  have c5 : ∀ i, i < n → ts3.getTransition i = ts.getTransition i := by
    intro i hi
    rw [fixTransitionTimes_outside h3 a4 i (Or.inl (by omega)), a5 i hi, g0]
  -- the active ones marked
  obtain ⟨d1, _, d3, d4, isPrior, d5, d6⟩ := selectActiveTransitions_status h4 (b4 a4)
    (by omega) c6
  obtain ⟨k1, k2, k3⟩ := (TransitionStorage.indexes_eq_iff _ _).mp d1
  -- the source of an active candidate
  have act : ∀ i, ts3.mIndexCandidates ≤ i → i < ts3.mIndexFree →
      ∀ a ∈ ts4.getTransition i, a.active = true →
      ∃ c0, ts1.getTransition i = some c0
        ∧ ((isPrior i ∧ a.transitionTime = m.startDateTime
              ∧ c0.transitionTime.epochDays + 3 ≤ m.startDateTime.epochDays)
          ∨ (¬ isPrior i ∧ a.transitionTime.fromSource c0.transitionTime
              ∧ m.startDateTime.epochDays + 3 ≤ c0.transitionTime.epochDays
              ∧ c0.transitionTime.epochDays + 3 ≤ m.untilDateTime.epochDays)) := by
    intro i c1 c2 a ha hact
    obtain ⟨a0, ha0, hcase⟩ := d6 i c1 c2 a ha hact
    obtain ⟨c0, o, d, hc0, e, fa⟩ := src i c1 c2 a0 ha0
    have hq := a6 i (by omega) (by omega) c0 hc0
    refine ⟨c0, hc0, ?_⟩
    rcases hcase with ⟨p1, p2, p3, p4⟩ | ⟨p1, p2, p3⟩
    · rw [e] at p3 p4
      exact Or.inl ⟨p1, p2, compareTransitionToMatch_before_days c0 o d m hq.1 s1.1 hq.2.1 p3 p4⟩
    · rw [e] at p3
      obtain ⟨g1, g2⟩ := compareTransitionToMatch_one_days c0 o d m hq.1 s1.1 s2.1 hq.2.1
        hq.2.2 p3
      exact Or.inr ⟨p1, by rw [p2]; exact fa, g1, g2⟩
  have hstart : m.startDateTime.fromSource m.startDateTime := ⟨s1, Or.inl rfl⟩
  -- and moved to the Active pool
  obtain ⟨⟨e1, e2, e3⟩, _, e5, e6, e7, e8⟩ := addActiveCandidatesToActivePool_spec
    (fun a => a.transitionTime.fromSourceIn m)
    (fun a b => a.transitionTime.fromSourcesApart b.transitionTime) h5 d3 (by omega)
    (by
      rw [k2, k3]
      intro j c1 c2 a ha hact
      obtain ⟨c0, _, hcase⟩ := act j c1 c2 a ha hact
      rcases hcase with ⟨_, p2, _⟩ | ⟨_, p2, p3, p4⟩
      · exact ⟨m.startDateTime, by rw [p2]; exact hstart, le_refl _, s3⟩
      · exact ⟨c0.transitionTime, p2, by omega, p4⟩)
    (by
      rw [k2, k3]
      intro j j2 c1 c2 c3 a ha b hb hacta hactb
      obtain ⟨a0, ha0, hca⟩ := act j c1 (by omega) a ha hacta
      obtain ⟨b0, hb0, hcb⟩ := act j2 (by omega) c3 b hb hactb
      have gap := a7 j j2 (by omega) c2 (by omega) a0 ha0 b0 hb0
      rcases hca with ⟨p1, p2, p3⟩ | ⟨p1, p2, p3, p4⟩
      · rcases hcb with ⟨q1, _, _⟩ | ⟨_, q2, q3, _⟩
        · have := d5 j j2 p1 q1
          omega
        · exact ⟨m.startDateTime, b0.transitionTime, by rw [p2]; exact hstart, q2, q3⟩
      · rcases hcb with ⟨_, _, q3⟩ | ⟨_, q2, _, _⟩
        · omega
        · exact ⟨a0.transitionTime, b0.transitionTime, p2, q2, gap⟩)
  have hp4 : ts4.mIndexPrior = n := by omega
  rw [hp4] at e3 e6 e7 e8
  refine ⟨⟨e1, e2, e3⟩, e5, ?_, e7, e8⟩
  intro i hi
  rw [e6 i hi, d4 i (by omega), c5 i hi]

/-- The Active transitions created for one match whose dates lie apart,
without overflow of the pool: their times come from tuples within the match
that lie at least three days apart, in the order of the pool, behind the
Active transitions there were. -/
theorem findTransitionsForMatch_sep {ts ts2 : TransitionStorage} {ms : List ZoneMatch}
    {mp n : Nat} {m : ZoneMatch}
    (h : findTransitionsForMatch ts ms mp = some ts2)
    (hhw : ts2.mHighWater < kMaxTransitions)
    (hm : ms[mp]? = some m) (hsep : m.isSeparated)
    (hn : ts.mIndexPrior = n ∧ ts.mIndexCandidates = n ∧ ts.mIndexFree = n)
    (hd : ts.distinctSlots) :
    (ts2.mIndexPrior = ts2.mIndexFree ∧ ts2.mIndexCandidates = ts2.mIndexFree
      ∧ n ≤ ts2.mIndexFree)
    ∧ ts2.distinctSlots
    ∧ (∀ i, i < n → ts2.getTransition i = ts.getTransition i)
    ∧ (∀ i, n ≤ i → i < ts2.mIndexFree → ∀ a ∈ ts2.getTransition i,
        a.transitionTime.fromSourceIn m)
    ∧ (∀ i i2, n ≤ i → i < i2 → i2 < ts2.mIndexFree →
        ∀ a ∈ ts2.getTransition i, ∀ b ∈ ts2.getTransition i2,
          a.transitionTime.fromSourcesApart b.transitionTime) := by
  unfold findTransitionsForMatch at h
  rw [hm] at h
  simp only [Option.bind] at h
  cases hp : m.era.zonePolicy with
  | none =>
    simp only [hp] at h
    obtain ⟨⟨e1, e2, e3⟩, e4, e5, e6⟩ := findTransitionsFromSimpleMatch_spec h hhw hn hd
    refine ⟨⟨e1, e2, by omega⟩, e4, e5, ?_, ?_⟩
    · intro i c1 c2 a ha
      have : i = n := by omega
      subst this
      rw [e6 a ha]
      exact ⟨m.startDateTime, ⟨hsep.1, Or.inl rfl⟩, le_refl _, hsep.2.2.1⟩
    · intro i i2 c1 c2 c3
      omega
  | some pol =>
    simp only [hp] at h
    exact findTransitionsFromNamedMatch_sep h hhw hp hsep hn hd

/-- The loop of `findTransitions` over matches whose dates lie apart and that
follow each other, without overflow of the pool, keeps the times of the
Active pool at least three days apart, in the order of the pool. -/
theorem findTransitionsLoop_apart (ms : List ZoneMatch) (num : Nat)
    (hms : ∀ k, k < num → ∀ m ∈ ms[k]?, m.isSeparated)
    (hcons : ∀ k k2, k < k2 → k2 < num → ∀ m ∈ ms[k]?, ∀ m2 ∈ ms[k2]?,
      m.untilDateTime.epochDays ≤ m2.startDateTime.epochDays) :
    ∀ (rem i : Nat) (ts ts2 : TransitionStorage),
      findTransitionsLoop ms rem i ts = some ts2 → i + rem = num →
      ts2.mHighWater < kMaxTransitions →
      activeApart ts →
      (∀ j, j < ts.mIndexFree → ∀ a ∈ ts.getTransition j,
        ∀ k, i ≤ k → k < num → ∀ m ∈ ms[k]?,
          ∃ x, a.transitionTime.fromSource x ∧ x.epochDays + 3 ≤ m.startDateTime.epochDays) →
      activeApart ts2 := by
  intro rem
  induction rem with
  | zero =>
    intro i ts ts2 h _ _ hact _
    simp only [findTransitionsLoop, Option.some.injEq] at h
    rw [← h]; exact hact
  | succ rem ih =>
    intro i ts ts2 h hnum hhw hact hbound
    simp only [findTransitionsLoop, Option.bind_eq_some] at h
    obtain ⟨ts1, h1, h2⟩ := h
    have w := findTransitionsLoop_highWater ms _ _ _ _ h2
    obtain ⟨a1, a2, a3, a5⟩ := hact
    have h1c := h1
    unfold findTransitionsForMatch at h1c
    obtain ⟨m, hm, _⟩ := Option.bind_eq_some.mp h1c
    have hok := hms i (by omega) m hm
    obtain ⟨⟨e1, e2, e3⟩, e4, e5, e6, e7⟩ := findTransitionsForMatch_sep h1 (by omega)
      hm hok ⟨a1, a2, rfl⟩ a3
    refine ih (i + 1) ts1 ts2 h2 (by omega) hhw ⟨e1, e2, e4, ?_⟩ ?_
    · intro j j2 c1 c2 a ha b hb
      by_cases hj2 : j2 < ts.mIndexFree
      · rw [Membership.mem, Option.instMembership] at ha hb
        rw [e5 j (by omega)] at ha
        rw [e5 j2 hj2] at hb
        exact a5 j j2 c1 hj2 a ha b hb
      · by_cases hj : j < ts.mIndexFree
        · rw [Membership.mem, Option.instMembership] at ha
          rw [e5 j hj] at ha
          obtain ⟨x, fx, gx⟩ := hbound j hj a ha i (le_refl _) (by omega) m hm
          obtain ⟨y, fy, gy, _⟩ := e6 j2 (by omega) c2 b hb
          exact ⟨x, y, fx, fy, by omega⟩
        · exact e7 j j2 (by omega) c1 c2 a ha b hb
    · intro j hj a ha k k1 k2 m2 hm2
      by_cases hjn : j < ts.mIndexFree
      · rw [Membership.mem, Option.instMembership] at ha
        rw [e5 j hjn] at ha
        exact hbound j hjn a ha k (by omega) k2 m2 hm2
      · obtain ⟨x, fx, _, gx⟩ := e6 j (by omega) hj a ha
        have := hcons i k (by omega) k2 m hm m2 hm2
        exact ⟨x, fx, by omega⟩

/-- The matches that the loop of `findMatches` has written when it returns:
the entries from index `i` up to the returned count are the matches of the
overlapping eras that were left, in era order. -/
theorem findMatchesLoop_reads (startYm untilYm : YearMonthTuple) (K : Nat) :
    ∀ (eras : List ZoneEra) (prev : ZoneEra) (ms : List ZoneMatch) (i : Nat)
      (r : Nat × List ZoneMatch),
      findMatchesLoop startYm untilYm K eras prev ms i = some r →
      i ≤ r.1 ∧ (K ≤ i → r.1 = i)
      ∧ (∀ k, k < i → r.2[k]? = ms[k]?)
      ∧ ∀ k, i ≤ k → k < r.1 →
          r.2[k]? = (((eraPairs prev eras).filter (pairOverlaps startYm untilYm)).map
            (matchOfPair startYm untilYm))[k - i]? := by
  intro eras
  induction eras with
  | nil =>
    intro prev ms i r h
    simp only [findMatchesLoop, Option.some.injEq] at h
    subst h
    exact ⟨le_refl _, fun _ => rfl, fun _ _ => rfl, fun k h1 h2 => by simp only at h2; omega⟩
  | cons era rest ih =>
    intro prev ms i r h
    unfold findMatchesLoop at h
    by_cases hov : eraOverlapsInterval prev era startYm untilYm = true
    · have hp : pairOverlaps startYm untilYm (prev, era) = true := by
        rw [pairOverlaps_eq]; exact hov
      have href : ((eraPairs prev (era :: rest)).filter (pairOverlaps startYm untilYm)).map
            (matchOfPair startYm untilYm)
          = matchOfPair startYm untilYm (prev, era)
            :: ((eraPairs era rest).filter (pairOverlaps startYm untilYm)).map
              (matchOfPair startYm untilYm) := by
        simp only [eraPairs, List.filter_cons, hp, if_true, List.map_cons]
      rw [href]
      rw [if_pos hov] at h
      by_cases hik : i < K
      · rw [if_pos hik] at h
        obtain ⟨ms1, hset, h⟩ := Option.bind_eq_some.mp h
        obtain ⟨h1, _, h3, h4⟩ := ih era ms1 (i + 1) r h
        have hg := setMatch_getElem hset
        refine ⟨by omega, fun c => by omega, ?_, ?_⟩
        · intro k hk
          rw [h3 k (by omega), hg, if_neg (by omega)]
        · intro k hk1 hk2
          by_cases hki : k = i
          · subst hki
            rw [h3 k (by omega), hg, if_pos rfl, Nat.sub_self, createMatch_eq_matchOfPair,
              List.getElem?_cons_zero]
          · rw [h4 k (by omega) hk2]
            have e : k - i = (k - (i + 1)) + 1 := by omega
            rw [e, List.getElem?_cons_succ]
      · rw [if_neg hik] at h
        obtain ⟨h1, h2, h3, h4⟩ := ih era ms i r h
        refine ⟨h1, h2, h3, ?_⟩
        intro k hk1 hk2
        have := h2 (by omega)
        omega
    · have hp : pairOverlaps startYm untilYm (prev, era) = false := by
        rw [pairOverlaps_eq]; simpa using hov
      have href : ((eraPairs prev (era :: rest)).filter (pairOverlaps startYm untilYm)).map
            (matchOfPair startYm untilYm)
          = ((eraPairs era rest).filter (pairOverlaps startYm untilYm)).map
              (matchOfPair startYm untilYm) := by
        simp only [eraPairs, List.filter_cons, hp, Bool.false_eq_true, if_false]
      rw [href]
      rw [if_neg hov] at h
      exact ih era ms i r h

/-- The matches that `findMatches` has written when it returns are the
matches of the overlapping eras, in era order. -/
theorem findMatches_reads (zi : ZoneInfo) (startYm untilYm : YearMonthTuple) (K : Nat)
    (ms : List ZoneMatch) (r : Nat × List ZoneMatch)
    (h : findMatches zi startYm untilYm ms K = some r) :
    ∀ k, k < r.1 → r.2[k]? = (overlapMatches zi startYm untilYm)[k]? := by
  intro k hk
  unfold findMatches at h
  exact (findMatchesLoop_reads startYm untilYm K zi.eras kAnchorEra ms 0 r h).2.2.2 k
    (Nat.zero_le _) hk

/-- The matches that `findMatches` has written for a zone whose dates lie
apart: each has its dates apart, and each ends no later than the day the
matches after it start. -/
theorem findMatches_sep (zi : ZoneInfo) (startYm untilYm : YearMonthTuple) (K : Nat)
    (ms : List ZoneMatch) (r : Nat × List ZoneMatch)
    (h : findMatches zi startYm untilYm ms K = some r)
    (hzi : zi.isSeparated startYm untilYm) :
    (∀ k, k < r.1 → ∀ m ∈ r.2[k]?, m.isSeparated)
    ∧ ∀ k k2, k < k2 → k2 < r.1 → ∀ m ∈ r.2[k]?, ∀ m2 ∈ r.2[k2]?,
        m.untilDateTime.epochDays ≤ m2.startDateTime.epochDays := by
  have hr := findMatches_reads zi startYm untilYm K ms r h
  obtain ⟨z1, z2⟩ := hzi
  refine ⟨?_, ?_⟩
  · intro k hk m hm
    rw [Membership.mem, Option.instMembership] at hm
    have e : (overlapMatches zi startYm untilYm)[k]? = some m := by
      rw [← hr k hk]; exact hm
    obtain ⟨l1, g1⟩ := List.getElem?_eq_some_iff.mp e
    exact z1 m (by rw [← g1]; exact List.getElem_mem l1)
  · intro k k2 c1 c2 m hm m2 hm2
    rw [Membership.mem, Option.instMembership] at hm hm2
    have e : (overlapMatches zi startYm untilYm)[k]? = some m := by
      rw [← hr k (by omega)]; exact hm
    have e2 : (overlapMatches zi startYm untilYm)[k2]? = some m2 := by
      rw [← hr k2 c2]; exact hm2
    obtain ⟨l1, g1⟩ := List.getElem?_eq_some_iff.mp e
    obtain ⟨l2, g2⟩ := List.getElem?_eq_some_iff.mp e2
    rw [← g1, ← g2]
    exact List.pairwise_iff_getElem.mp z2 k k2 l1 l2 c1

/-- The Active pool that a recomputing `init` leaves for a zone whose dates
lie apart, without overflow of the pool: readable transitions whose
`transitionTime`s are in strict order. -/
theorem init_recompute_apart (zp zp2 : ExtendedZoneProcessor) (ld : LocalDate)
    (hinit : zp.init ld = some (true, zp2))
    (hnew : zp.isFilled ld.year = false)
    (hyear : -126 ≤ ld.yearTiny ∧ ld.yearTiny ≤ 125)
    (hzone : zp.mZoneInfo.isSeparated { yearTiny := ld.yearTiny - 1, month := 12 }
      { yearTiny := ld.yearTiny + 1, month := 2 })
    (hhw : zp2.mTransitionStorage.mHighWater < kMaxTransitions) :
    (∀ i, i < zp2.mTransitionStorage.mIndexFree →
      (zp2.mTransitionStorage.getTransition i).isSome = true)
    ∧ ∀ i j, i < j → j < zp2.mTransitionStorage.mIndexFree →
        ∀ a ∈ zp2.mTransitionStorage.getTransition i,
        ∀ b ∈ zp2.mTransitionStorage.getTransition j,
          a.transitionTime.lt b.transitionTime = true := by
  unfold ExtendedZoneProcessor.init at hinit
  simp only [hnew, Bool.false_eq_true, if_false] at hinit
  split_ifs at hinit with hr
  · simp at hinit
  simp only [Option.bind_eq_some] at hinit
  obtain ⟨fm, hfm, ts1, h1, ts2, h2, ts3, h3, ts4, h4, h⟩ := hinit
  simp only [Option.some.injEq, Prod.mk.injEq, true_and] at h
  have hy : ld.year - LocalDate.kEpochYear = ld.yearTiny := by
    unfold LocalDate.year; omega
  have hy1 : wrap8 (ld.year - LocalDate.kEpochYear - 1) = ld.yearTiny - 1 := by
    rw [hy]; exact wrap8_of_fits (by omega) (by omega)
  have hy2 : wrap8 (ld.year - LocalDate.kEpochYear + 1) = ld.yearTiny + 1 := by
    rw [hy]; exact wrap8_of_fits (by omega) (by omega)
  rw [hy1, hy2] at hfm
  simp only [TransitionStorage.getActivePoolBegin, TransitionStorage.getActivePoolEnd] at h2 h3 h4
  -- the matches
  obtain ⟨m1, m2⟩ := findMatches_sep _ _ _ _ _ _ hfm hzone
  -- the high water marks
  have w2 := (fixTransitionTimes_frame h2).2.2.1
  have w3 := (generateStartUntilTimes_frame h3).2.2.1
  have w4 := (calcAbbreviationsLoop_frame _ _ _ _ _ h4).2.2.1
  have hw1 : ts1.mHighWater < kMaxTransitions := by
    rw [← h] at hhw
    simp only at hhw
    omega
  -- the Active pool after findTransitions
  unfold findTransitions at h1
  obtain ⟨s1, s2, s3, s5⟩ := findTransitionsLoop_apart fm.2 fm.1 m1 m2 _ _ _ _ h1 (by omega) hw1
    ⟨rfl, rfl, TransitionStorage.init_distinctSlots _ _, fun i j _ hj => by
      simp [TransitionStorage.init] at hj⟩
    (fun j hj => by simp [TransitionStorage.init] at hj)
  -- the last three passes
  obtain ⟨f1, _, _, _, _⟩ := fixTransitionTimes_keeps h2
  have f5 := fixTransitionTimes_expands h2 s3
  obtain ⟨g1, g2⟩ := generateStartUntilTimes_keeps h3
  obtain ⟨k1, k2⟩ := calcAbbreviations_keeps h4
  have i2 := ((TransitionStorage.indexes_eq_iff _ _).mp f1).2.2
  have i3 := ((TransitionStorage.indexes_eq_iff _ _).mp (generateStartUntilTimes_frame h3).1).2.2
  have i4 := ((TransitionStorage.indexes_eq_iff _ _).mp
    (calcAbbreviationsLoop_frame _ _ _ _ _ h4).1).2.2
  have hfree : zp2.mTransitionStorage.mIndexFree = ts1.mIndexFree := by
    rw [← h]; simp only; omega
  have hts : zp2.mTransitionStorage = ts4 := by rw [← h]
  rw [hfree, hts]
  have back : ∀ i, i < ts1.mIndexFree → ∀ a, ts4.getTransition i = some a →
      ∃ a0 o d, ts1.getTransition i = some a0
        ∧ a.transitionTime = (expandDateTuple a0.transitionTime o d).1 := by
    intro i hi a ha
    obtain ⟨a3, ha3, e3⟩ := k2 i a ha
    obtain ⟨a2, ha2, e2⟩ := g2 i a3 ha3
    obtain ⟨a1, o, d, ha1, e1⟩ := f5 i a2 (Nat.zero_le _) hi ha2
    exact ⟨a1, o, d, ha1, by rw [e3, e2, e1]; rfl⟩
  refine ⟨?_, ?_⟩
  · intro i hi
    rw [k1, g1]
    unfold generateStartUntilTimes at h3
    simp only [Option.bind_eq_some] at h3
    obtain ⟨prev0, _, r, hl, _⟩ := h3
    exact generateStartUntilLoop_reads _ _ _ _ _ _ hl i (by omega) (by omega)
  · intro i j c1 c2 a ha b hb
    obtain ⟨a0, oa, da, ha0, ea⟩ := back i (by omega) a ha
    obtain ⟨b0, ob, db, hb0, eb⟩ := back j c2 b hb
    obtain ⟨x, y, fx, fy, hxy⟩ := s5 i j c1 c2 a0 ha0 b0 hb0
    rw [ea, eb]
    exact DateTuple.lt_of_fromSource (DateTuple.fromSource_expand fx oa da)
      (DateTuple.fromSource_expand fy ob db) hxy

/-- C6 (amended). For every successful `init(year)` that does not exhaust
the pool (high-water mark below the capacity), of a zone that is a wall-mode
zone (every rule and every era of the zone is given in wall time with a time
of day in `[00:00, 24:00)`, each era ends after the one before it, and no two
rules of a policy fire at the same date and time in the years
`year - 1 .. year + 1`) or a zone whose dates lie apart in the window of the
year (in every match of the window the start, the until and the transition
times of the rules in their firing years are valid dates at least three days
apart from each other, with any time modifier, and each match ends no later
than the day the next one starts), the Active transitions `[0, mIndexFree)`
are readable and strictly ordered by `transitionTime` under the mode-agnostic
comparison: every earlier one is before every later one, in particular
`t_i.transitionTime < t_(i+1).transitionTime` for consecutive ones. On a cache
hit `init` returns the cached pool, which is ordered when it was ordered
before. -/
theorem C6_init_transitionTime_ordered (zp zp2 : ExtendedZoneProcessor) (ld : LocalDate)
    (hinit : zp.init ld = some (true, zp2))
    (hzp : zp.isFilled ld.year = true →
      (∀ i, i < zp.mTransitionStorage.mIndexFree →
        (zp.mTransitionStorage.getTransition i).isSome = true)
      ∧ ∀ i j, i < j → j < zp.mTransitionStorage.mIndexFree →
          ∀ a ∈ zp.mTransitionStorage.getTransition i,
          ∀ b ∈ zp.mTransitionStorage.getTransition j,
            a.transitionTime.lt b.transitionTime = true)
    (hyear : -126 ≤ ld.yearTiny ∧ ld.yearTiny ≤ 125)
    (hzone : zp.mZoneInfo.isWall [ld.yearTiny - 1, ld.yearTiny, ld.yearTiny + 1]
      ∨ zp.mZoneInfo.isSeparated { yearTiny := ld.yearTiny - 1, month := 12 }
          { yearTiny := ld.yearTiny + 1, month := 2 })
    (hhw : zp2.mTransitionStorage.mHighWater < kMaxTransitions) :
    (∀ i, i < zp2.mTransitionStorage.mIndexFree →
      (zp2.mTransitionStorage.getTransition i).isSome = true)
    ∧ (∀ i j, i < j → j < zp2.mTransitionStorage.mIndexFree →
        ∀ a ∈ zp2.mTransitionStorage.getTransition i,
        ∀ b ∈ zp2.mTransitionStorage.getTransition j,
          a.transitionTime.lt b.transitionTime = true)
    ∧ ∀ i, i + 1 < zp2.mTransitionStorage.mIndexFree →
        ∃ a b, zp2.mTransitionStorage.getTransition i = some a
          ∧ zp2.mTransitionStorage.getTransition (i + 1) = some b
          ∧ a.transitionTime.lt b.transitionTime = true := by
  have key : (∀ i, i < zp2.mTransitionStorage.mIndexFree →
      (zp2.mTransitionStorage.getTransition i).isSome = true)
      ∧ ∀ i j, i < j → j < zp2.mTransitionStorage.mIndexFree →
        ∀ a ∈ zp2.mTransitionStorage.getTransition i,
        ∀ b ∈ zp2.mTransitionStorage.getTransition j,
          a.transitionTime.lt b.transitionTime = true := by
    cases hf : zp.isFilled ld.year with
    | false =>
      rcases hzone with hzone | hzone
      · exact init_recompute_ordered zp zp2 ld hinit hf hyear hzone hhw
      · exact init_recompute_apart zp zp2 ld hinit hf hyear hzone hhw
    | true =>
      have h2 := init_of_isFilled zp ld hf
      rw [h2] at hinit
      simp only [Option.some.injEq, Prod.mk.injEq, true_and] at hinit
      rw [← hinit]
      exact hzp hf
  refine ⟨key.1, key.2, ?_⟩
  intro i hi
  obtain ⟨a, ha⟩ := Option.isSome_iff_exists.mp (key.1 i (by omega))
  obtain ⟨b, hb⟩ := Option.isSome_iff_exists.mp (key.1 (i + 1) hi)
  exact ⟨a, b, ha, hb, key.2 i (i + 1) (by omega) hi a ha b hb⟩

/-- Witness of C6 (amended). `init` of the constructed Los Angeles processor
for 2018, a wall-mode zone, leaves three Active transitions, at 2017-12-01
00:00, 2018-03-11 02:00 and 2018-11-04 02:00, each before the next. `init` for
2018 of the zone `kZoneUtcRules`, whose rules fire at 01:00 UTC and whose first
era ends at 00:00 standard time (not a wall-mode zone, but its dates lie
apart), leaves four Active transitions, each before the next. -/
theorem C6_init_transitionTime_ordered_witness :
    ((newProcessor kZoneAmerica_Los_Angeles).init { yearTiny := 18, month := 3, day := 11 }
        = some (true, losAngeles2018)
      ∧ kZoneAmerica_Los_Angeles.isWall [17, 18, 19]
      ∧ losAngeles2018.mTransitionStorage.mHighWater = 5
      ∧ losAngeles2018.mTransitionStorage.mIndexFree = 3
      ∧ (∃ a b, losAngeles2018.mTransitionStorage.getTransition 0 = some a
          ∧ losAngeles2018.mTransitionStorage.getTransition 1 = some b
          ∧ a.transitionTime.lt b.transitionTime = true)
      ∧ ∃ a b, losAngeles2018.mTransitionStorage.getTransition 1 = some a
          ∧ losAngeles2018.mTransitionStorage.getTransition 2 = some b
          ∧ a.transitionTime.lt b.transitionTime = true)
    ∧ (newProcessor kZoneUtcRules).init { yearTiny := 18, month := 3, day := 11 }
        = some (true, utcRules2018)
    ∧ ¬ kZoneUtcRules.isWall [17, 18, 19]
    ∧ kZoneUtcRules.isSeparated { yearTiny := 17, month := 12 } { yearTiny := 19, month := 2 }
    ∧ utcRules2018.mTransitionStorage.mHighWater = 5
    ∧ utcRules2018.mTransitionStorage.mIndexFree = 4
    ∧ (∃ a b, utcRules2018.mTransitionStorage.getTransition 0 = some a
        ∧ utcRules2018.mTransitionStorage.getTransition 1 = some b
        ∧ a.transitionTime.lt b.transitionTime = true)
    ∧ (∃ a b, utcRules2018.mTransitionStorage.getTransition 1 = some a
        ∧ utcRules2018.mTransitionStorage.getTransition 2 = some b
        ∧ a.transitionTime.lt b.transitionTime = true)
    ∧ ∃ a b, utcRules2018.mTransitionStorage.getTransition 2 = some a
        ∧ utcRules2018.mTransitionStorage.getTransition 3 = some b
        ∧ a.transitionTime.lt b.transitionTime = true := by
  have hi : (newProcessor kZoneAmerica_Los_Angeles).init { yearTiny := 18, month := 3, day := 11 }
      = some (true, losAngeles2018) := init_eq_afterInit _ _ true (by decide)
  have h := (C6_init_transitionTime_ordered (newProcessor kZoneAmerica_Los_Angeles)
    losAngeles2018 { yearTiny := 18, month := 3, day := 11 } hi
    (fun hf => absurd hf (by decide)) (by decide) (Or.inl (by decide)) (by decide)).2.2
  have hi2 : (newProcessor kZoneUtcRules).init { yearTiny := 18, month := 3, day := 11 }
      = some (true, utcRules2018) := init_eq_afterInit _ _ true (by decide)
  have hsep : kZoneUtcRules.isSeparated { yearTiny := 17, month := 12 }
      { yearTiny := 19, month := 2 } := by decide
  have h2 := (C6_init_transitionTime_ordered (newProcessor kZoneUtcRules)
    utcRules2018 { yearTiny := 18, month := 3, day := 11 } hi2
    (fun hf => absurd hf (by decide)) (by decide) (Or.inr hsep) (by decide)).2.2
  exact ⟨⟨hi, by decide, by decide, by decide, h 0 (by decide), h 1 (by decide)⟩,
    hi2, by decide, hsep, by decide, by decide, h2 0 (by decide), h2 1 (by decide),
    h2 2 (by decide)⟩

end AceTime
